import Mathlib

/-!
# miniKV: arena, value codec, skip list and Bloom filter

A shallow embedding of `utils/entry.go`, `utils/bloom.go`, `utils/arena.go` and
`utils/skiplist.go`.

Conventions.
* A byte is a `Nat` below 256, a `[]byte` is a `List Nat`.
* `uint32`/`uint64`/`int` arithmetic is arithmetic on `Nat`/`Int` with the reduction
  modulo `2^32`/`2^64` written out wherever the Go operation can wrap.
* A Go function that can stop with a run-time panic (index out of range, slice bounds,
  integer division by zero, nil dereference, `log.Fatalf` in `AssertTrue`) returns an
  `Option`; `none` is the panic.  Loops whose termination depends on the data carry a
  fuel argument; running out of fuel is `none` as well.
-/

namespace MiniKV

/-! ## Value codec (`utils/entry.go`) -/

/-- `ValueStruct`: the value bytes and the expiry (a `uint64`). -/
structure ValueStruct where
  Value : List Nat
  ExpiresAt : Nat
deriving DecidableEq, Repr

/-- `Entry`: the caller-facing record.  The bookkeeping fields `Version`, `Offset`,
`Hlen`, `ValThreshold` are never read or written by the code embedded here. -/
structure Entry where
  Key : List Nat
  Value : List Nat
  ExpiresAt : Nat
deriving DecidableEq, Repr

/-- Loop of `sizeVarint`: `n++; x >>= 7; if x == 0 break`. -/
def sizeVarintLoop : Nat → Nat → Nat → Nat
  | 0, _, n => n
  | fuel + 1, x, n =>
    if x >>> 7 = 0 then n + 1 else sizeVarintLoop fuel (x >>> 7) (n + 1)

/-- `sizeVarint(x uint64)`.  A `uint64` is exhausted after ten shifts by 7, the fuel of
64 is never used up. -/
def sizeVarint (x : Nat) : Nat := sizeVarintLoop 64 x 0

/-- `(*ValueStruct).EncodedSize`: `uint32(len(e.Value) + sizeVarint(e.ExpiresAt))`. -/
def ValueStruct.EncodedSize (e : ValueStruct) : Nat :=
  (e.Value.length + sizeVarint e.ExpiresAt) % 2 ^ 32

/-- Loop of Go's `binary.PutUvarint`: `for x >= 0x80 { buf[i] = byte(x) | 0x80; x >>= 7; i++ }`
followed by `buf[i] = byte(x)`; the result lists the bytes stored. -/
def putUvarintLoop : Nat → Nat → List Nat
  | 0, x => [x % 256]
  | fuel + 1, x =>
    if 0x80 ≤ x then ((x % 256) ||| 0x80) :: putUvarintLoop fuel (x >>> 7) else [x % 256]

/-- The bytes `binary.PutUvarint` stores for `x`. -/
def putUvarint (x : Nat) : List Nat := putUvarintLoop 64 x

/-- Loop of Go's `binary.Uvarint` over the bytes of the buffer: `i` is the index, `x` the
accumulated value and `s` the shift.  The second component is the count Go returns: the
number of bytes read, `0` for a buffer that ends too early, `-(i+1)` for an overflow. -/
def uvarintLoop : List Nat → Nat → Nat → Nat → Nat × Int
  | [], _, _, _ => (0, 0)
  | b :: bs, i, x, s =>
    if i = 10 then (0, -((i : Int) + 1))
    else if b < 0x80 then
      if i = 9 ∧ 1 < b then (0, -((i : Int) + 1))
      else ((x ||| ((b <<< s) % 2 ^ 64)), (i : Int) + 1)
    else uvarintLoop bs (i + 1) (x ||| (((b &&& 0x7f) <<< s) % 2 ^ 64)) (s + 7)

/-- Go's `binary.Uvarint`. -/
def Uvarint (buf : List Nat) : Nat × Int := uvarintLoop buf 0 0 0

/-- The bytes `EncodeValue` leaves at the front of a destination that has `room` bytes:
the uvarint of the expiry, then as much of the value as `copy` finds room for.
`none` when `PutUvarint` indexes past the end of the destination. -/
def encodeBytes (e : ValueStruct) (room : Nat) : Option (List Nat) :=
  let hdr := putUvarint e.ExpiresAt
  if hdr.length ≤ room then some (hdr ++ e.Value.take (room - hdr.length)) else none

/-- `(*ValueStruct).EncodeValue(buf)`: the buffer after the call and the returned count
`uint32(sz + n)`. -/
def ValueStruct.EncodeValue (e : ValueStruct) (buf : List Nat) : Option (List Nat × Nat) :=
  (encodeBytes e buf.length).map fun w => (w ++ buf.drop w.length, w.length % 2 ^ 32)

/-- `(*ValueStruct).DecodeValue(buf)`: `e.ExpiresAt, sz = binary.Uvarint(buf)` and
`e.Value = buf[sz:]`, which panics for a negative `sz`. -/
def DecodeValue (buf : List Nat) : Option ValueStruct :=
  let r := Uvarint buf
  if r.2 < 0 then none else some { Value := buf.drop r.2.toNat, ExpiresAt := r.1 }

/-! ## Bloom filter (`utils/bloom.go`) -/

/-- Two's-complement wrap of a 64-bit Go `int`. -/
def wrapInt64 (x : Int) : Int := (x + 2 ^ 63) % 2 ^ 64 - 2 ^ 63

/-- The number of low bits a `float64` cannot keep of `x`: the least `sh` with
`x >> sh < 2^53` (the fuel `x` is never used up). -/
def dropBits : Nat → Nat → Nat
  | 0, _ => 0
  | fuel + 1, x => if x < 2 ^ 53 then 0 else dropBits fuel (x / 2) + 1

/-- Round a natural number to 53 significant bits, ties to even: the value of the
`float64` nearest to it.  Numbers below `2^53` are kept. -/
def roundSig53 (x : Nat) : Nat :=
  let sh := dropBits x x
  let q := x >>> sh
  let r := x % 2 ^ sh
  let half := 2 ^ sh / 2
  if half < r ∨ (r = half ∧ 0 < sh ∧ q % 2 = 1) then (q + 1) <<< sh else q <<< sh

/-- The `float64` constant `0.69` is `0.69 = mant069 / 2^53`. -/
def mant069 : Nat := 6214967485771284

/-- The integer part of `float64(b) * 0.69` for `b ≥ 0`: convert, multiply exactly,
round the product to a `float64`, truncate. -/
def truncMul069 (b : Nat) : Nat := roundSig53 (roundSig53 b * mant069) / 2 ^ 53

/-- Conversion `uint32(f)` of a non-negative `float64` with integer part `t`.  Go leaves
the result implementation-dependent when `t` does not fit; `plat` is what the platform
yields then. -/
def float64ToUint32 (plat : Nat → Nat) (t : Nat) : Nat :=
  if t < 2 ^ 32 then t else plat t % 2 ^ 32

/-- The probe count of `appendFilter`: `k := uint32(float64(bitsPerKey) * 0.69)` after
`bitsPerKey` was raised to 0, then clamped to `[1, 30]`. -/
def probeCount (plat : Nat → Nat) (bitsPerKey : Int) : Nat :=
  let bitsPerKey := if bitsPerKey < 0 then 0 else bitsPerKey
  let k := float64ToUint32 plat (truncMul069 bitsPerKey.toNat)
  let k := if k < 1 then 1 else k
  if 30 < k then 30 else k

/-- The byte count `nBytes` of `appendFilter` (an `int`): `nBits := len(keys) * bitsPerKey`,
raised to 64, `nBytes := (nBits + 7) / 8`. -/
def filterBytes (nKeys : Nat) (bitsPerKey : Int) : Int :=
  let bitsPerKey := if bitsPerKey < 0 then 0 else bitsPerKey
  let nBits := wrapInt64 ((nKeys : Int) * bitsPerKey)
  let nBits := if nBits < 64 then 64 else nBits
  Int.tdiv (wrapInt64 (nBits + 7)) 8

/-- The divisor `uint32(nBits)` of the probes, for `nBits = nBytes * 8`. -/
def filterBits32 (nKeys : Nat) (bitsPerKey : Int) : Nat :=
  (wrapInt64 (filterBytes nKeys bitsPerKey * 8) % 2 ^ 32).toNat

/-- One pass of the inner loop of `appendFilter` for a hash: `j` counts the probes left.
`nBits` is `uint32(nBits)`; a zero `nBits` is a division by zero. -/
def setProbes (nBits delta : Nat) : Nat → Nat → List Nat → Option (List Nat)
  | 0, _, filter => some filter
  | j + 1, h, filter =>
    if nBits = 0 then none
    else
      let bitPos := h % nBits
      match filter.get? (bitPos / 8) with
      | none => none
      | some b =>
        setProbes nBits delta j ((h + delta) % 2 ^ 32)
          (filter.set (bitPos / 8) (b ||| ((1 <<< (bitPos % 8)) % 256)))

/-- The stride `delta := h>>17 | h<<15` of a `uint32` hash. -/
def probeDelta (h : Nat) : Nat := (h >>> 17) ||| ((h <<< 15) % 2 ^ 32)

/-- The loop `for _, h := range keys` of `appendFilter`. -/
def setAll (nBits k : Nat) : List Nat → List Nat → Option (List Nat)
  | [], filter => some filter
  | h :: hs, filter =>
    match setProbes nBits (probeDelta h) k h filter with
    | none => none
    | some filter => setAll nBits k hs filter

/-- `appendFilter(keys, bitsPerKey)`.  `make` panics for a negative length. -/
def appendFilter (plat : Nat → Nat) (keys : List Nat) (bitsPerKey : Int) : Option (List Nat) :=
  let k := probeCount plat bitsPerKey
  let nBytes := filterBytes keys.length bitsPerKey
  if nBytes + 1 < 0 then none
  else
    let filter := List.replicate (nBytes + 1).toNat 0
    match setAll (filterBits32 keys.length bitsPerKey) k keys filter with
    | none => none
    | some filter =>
      if nBytes.toNat < filter.length then some (filter.set nBytes.toNat (k % 256)) else none

/-- `NewFilter(keys, bitsPerKey)`. -/
def NewFilter (plat : Nat → Nat) (keys : List Nat) (bitsPerKey : Int) : Option (List Nat) :=
  appendFilter plat keys bitsPerKey

/-- The probe loop of `MayContain`; `j` counts the probes left. -/
def checkProbes (f : List Nat) (nBits delta : Nat) : Nat → Nat → Option Bool
  | 0, _ => some true
  | j + 1, h =>
    if nBits = 0 then none
    else
      let bitPos := h % nBits
      match f.get? (bitPos / 8) with
      | none => none
      | some b =>
        if b &&& ((1 <<< (bitPos % 8)) % 256) = 0 then some false
        else checkProbes f nBits delta j ((h + delta) % 2 ^ 32)

/-- `Filter.MayContain(h)`. -/
def MayContain (f : List Nat) (h : Nat) : Option Bool :=
  if f.length < 2 then some false
  else
    match f.get? (f.length - 1) with
    | none => none
    | some k =>
      if 30 < k then some true
      else
        let nBits := (8 * (f.length - 1)) % 2 ^ 32
        checkProbes f nBits (probeDelta h) k h

/-! ## Arena (`utils/arena.go`) -/

/-- `defaultMaxLevel`. -/
def defaultMaxLevel : Nat := 20

/-- `MaxNodeSize = unsafe.Sizeof(node{})`: 8 (score) + 8 (value) + 4 (keyOffset) +
2 (keySize) + 2 (height) + 20 * 4 (levels). -/
def MaxNodeSize : Nat := 104

/-- `offsetSize = unsafe.Sizeof(uint32(0))`. -/
def offsetSize : Nat := 4

/-- `nodeAlign = unsafe.Sizeof(uint64(0)) - 1`. -/
def nodeAlign : Nat := 7

/-- Offsets of the fields of `node` inside the struct. -/
def scoreField : Nat := 0
/-- Offset of `node.value`. -/
def valueField : Nat := 8
/-- Offset of `node.keyOffset`. -/
def keyOffsetField : Nat := 16
/-- Offset of `node.keySize`. -/
def keySizeField : Nat := 20
/-- Offset of `node.height`. -/
def heightField : Nat := 22
/-- Offset of `node.levels[i]`. -/
def levelField (i : Nat) : Nat := 24 + offsetSize * i

/-- The arena.  `n` is the cursor (a `uint32`), `len` is `len(s.buf)` and `cur` names the
backing array `s.buf` currently is.  `heap g` holds the contents of the backing array
`g`: every array `make` ever returned stays readable and writable through the node
pointers that were taken into it, as in Go.  A cell holds a byte of a key or of an
encoded value, or one whole field of a node at the address of the field's first byte.
The cells agree with the bytes of the buffer as long as no byte write falls on a part of
a node field; such a write needs the 32-bit cursor to have wrapped. -/
structure Arena where
  n : Nat
  len : Nat
  cur : Nat
  heap : Nat → Nat → Nat

/-- The current buffer `s.buf`. -/
def Arena.buf (s : Arena) : Nat → Nat := s.heap s.cur

/-- A non-nil `*node`: the backing array it points into and the offset in it. -/
structure NodePtr where
  arr : Nat
  off : Nat
deriving DecidableEq, Repr

/-- Read the field at `fld` of the node `p` points at. -/
def Arena.load (s : Arena) (p : NodePtr) (fld : Nat) : Nat := s.heap p.arr (p.off + fld)

/-- Write the field at `fld` of the node `p` points at. -/
def Arena.store (s : Arena) (p : NodePtr) (fld v : Nat) : Arena :=
  { s with heap := fun g a => if g = p.arr ∧ a = p.off + fld then v else s.heap g a }

/-- Copy `bs` into the current buffer at `off`. -/
def Arena.storeBytes (s : Arena) (off : Nat) (bs : List Nat) : Arena :=
  { s with heap := fun g a =>
      if g = s.cur ∧ off ≤ a ∧ a < off + bs.length then bs.getD (a - off) 0 else s.heap g a }

/-- The bytes `s.buf[off : off+cnt]`. -/
def Arena.readBytes (s : Arena) (off cnt : Nat) : List Nat :=
  (List.range cnt).map fun j => s.buf (off + j)

/-- `newArena(n)` for `n ≥ 0` (`make` panics for a negative length). -/
def newArena (n : Nat) : Arena := { n := 1, len := n, cur := 0, heap := fun _ _ => 0 }

/-- `(*Arena).allocate(sz)`: the arena after the call and the returned offset.  The test
`len(s.buf)-int(offset) < MaxNodeSize` is `len < offset + MaxNodeSize`.  Growth makes a
new backing array, zero-filled, and copies the old one to its front. -/
def allocate (s : Arena) (sz : Nat) : Arena × Nat :=
  let offset := (s.n + sz) % 2 ^ 32
  let s1 : Arena :=
    if s.len < offset + MaxNodeSize then
      let growBy := s.len % 2 ^ 32
      let growBy := if growBy < 2 ^ 30 then 2 ^ 30 else growBy
      let growBy := if growBy < sz then sz else growBy
      { n := offset, len := s.len + growBy, cur := s.cur + 1,
        heap := fun g a =>
          if g = s.cur + 1 then (if a < s.len then s.heap s.cur a else 0) else s.heap g a }
    else { s with n := offset }
  (s1, (offset + 2 ^ 32 - sz) % 2 ^ 32)

/-- `(*Arena).putNode(height)`. -/
def putNode (s : Arena) (height : Int) : Arena × Nat :=
  let unusedsize : Int := ((defaultMaxLevel : Int) - height) * offsetSize
  let l : Nat := (((MaxNodeSize : Int) - unusedsize + nodeAlign) % 2 ^ 32).toNat
  let r := allocate s l
  (r.1, ((r.2 + nodeAlign) % 2 ^ 32) &&& (2 ^ 32 - 1 - nodeAlign))

/-- `(*Arena).putKey(key)`.  The slice expression `s.buf[offset : offset+uint32(l)]`
panics unless `offset ≤ offset+uint32(l) ≤ len(s.buf)`, and `AssertTrue` stops the
program unless `copy` moved all `l` bytes. -/
def putKey (s : Arena) (key : List Nat) : Option (Arena × Nat) :=
  let l := key.length
  let r := allocate s (l % 2 ^ 32)
  let hi := (r.2 + l % 2 ^ 32) % 2 ^ 32
  if r.2 ≤ hi ∧ hi ≤ r.1.len then
    if l = min (hi - r.2) l then some (r.1.storeBytes r.2 (key.take (hi - r.2)), r.2) else none
  else none

/-- `(*Arena).putValue(v)`: `s.buf[offset:]` panics unless `offset ≤ len(s.buf)`, then
`EncodeValue` writes into what is left of the buffer. -/
def putValue (s : Arena) (v : ValueStruct) : Option (Arena × Nat) :=
  let r := allocate s v.EncodedSize
  if r.2 ≤ r.1.len then
    match encodeBytes v (r.1.len - r.2) with
    | none => none
    | some w => some (r.1.storeBytes r.2 w, r.2)
  else none

/-- `(*Arena).getNode(offset)`: nil (`some none`) for offset 0; `&s.buf[offset]` panics
for an offset outside the buffer. -/
def getNode (s : Arena) (offset : Nat) : Option (Option NodePtr) :=
  if offset = 0 then some none
  else if offset < s.len then some (some { arr := s.cur, off := offset }) else none

/-- `(*Arena).getKey(offset, size)`. -/
def getKey (s : Arena) (offset size : Nat) : Option (List Nat) :=
  let hi := (offset + size) % 2 ^ 32
  if offset ≤ hi ∧ hi ≤ s.len then some (s.readBytes offset (hi - offset)) else none

/-- `(*Arena).getValue(offset, size)`. -/
def getValue (s : Arena) (offset size : Nat) : Option ValueStruct :=
  let hi := (offset + size) % 2 ^ 32
  if offset ≤ hi ∧ hi ≤ s.len then DecodeValue (s.readBytes offset (hi - offset)) else none

/-- `(*Arena).getNodeOffset(nd)`: the distance of the node from `&s.buf[0]`.  For a
pointer into another backing array the difference of the two addresses means nothing;
the code never asks for it and the model gives `none`. -/
def getNodeOffset (s : Arena) (nd : Option NodePtr) : Option Nat :=
  match nd with
  | none => some 0
  | some p => if p.arr = s.cur ∧ 0 < s.len then some p.off else none

/-- `(*Arena).Size()`. -/
def Arena.Size (s : Arena) : Nat := s.n

/-! ## Skip list (`utils/skiplist.go`) -/

/-- `encodeValue(valOffset, valSize)`. -/
def encodeValue (valOffset valSize : Nat) : Nat := (valSize <<< 32) ||| valOffset

/-- `decodeValue(value)`: `(uint32(value), uint32(value >> 32))`. -/
def decodeValue (value : Nat) : Nat × Nat := (value % 2 ^ 32, (value >>> 32) % 2 ^ 32)

/-- Go's `bytes.Compare`. -/
def bytesCompare : List Nat → List Nat → Int
  | [], [] => 0
  | [], _ :: _ => -1
  | _ :: _, [] => 1
  | a :: as, b :: bs => if a < b then -1 else if b < a then 1 else bytesCompare as bs

/-- The loop of `calcScore`: `hash |= uint64(key[i]) << (64 - 8 - 8*i)` for
`i < min(len(key), 8)`. -/
def scoreLoop : List Nat → Nat → Nat → Nat
  | [], _, hash => hash
  | b :: bs, i, hash =>
    if i < 8 then scoreLoop bs (i + 1) (hash ||| ((b <<< (64 - 8 - 8 * i)) % 2 ^ 64)) else hash

/-- `calcScore(key)`: the value of `float64(hash)`, which is a natural number. -/
def calcScore (key : List Nat) : Nat := roundSig53 (scoreLoop key 0 0)

/-- `SkipList` (the lock left out). -/
structure SkipList where
  maxLevel : Int
  currHeight : Int
  headOffset : Nat
  arena : Arena

/-- `(*node).getNextOffset(h)`: `e.levels[h]`, an index into a `[20]uint32`. -/
def getNextOffset (s : Arena) (e : NodePtr) (h : Int) : Option Nat :=
  if 0 ≤ h ∧ h < defaultMaxLevel then some (s.load e (levelField h.toNat)) else none

/-- `(*SkipList).getNext(e, height)`; a nil `e` is a nil dereference. -/
def getNext (s : Arena) (e : Option NodePtr) (height : Int) : Option (Option NodePtr) :=
  match e with
  | none => none
  | some p =>
    match getNextOffset s p height with
    | none => none
    | some o => getNode s o

/-- `(*node).key(arena)`. -/
def nodeKey (s : Arena) (e : NodePtr) : Option (List Nat) :=
  getKey s (s.load e keyOffsetField) (s.load e keySizeField)

/-- `(*SkipList).compare(score, key, next)`. -/
def compare (s : Arena) (score : Nat) (key : List Nat) (next : NodePtr) : Option Int :=
  if score = s.load next scoreField then (nodeKey s next).map (bytesCompare key)
  else if score < s.load next scoreField then some (-1) else some 1

/-- `newNode(arena, key, v, height)`. -/
def newNode (s : Arena) (key : List Nat) (v : ValueStruct) (height : Int) :
    Option (Arena × NodePtr) :=
  let r := putNode s height
  match putKey r.1 key with
  | none => none
  | some (s, keyOffset) =>
    match putValue s v with
    | none => none
    | some (s, valOffset) =>
      let val := encodeValue valOffset v.EncodedSize
      match getNode s r.2 with
      | some (some elem) =>
        let s := s.store elem scoreField (calcScore key)
        let s := s.store elem keyOffsetField keyOffset
        let s := s.store elem keySizeField (key.length % 2 ^ 16)
        let s := s.store elem heightField ((height % 2 ^ 16).toNat)
        let s := s.store elem valueField val
        some (s, elem)
      | _ => none

/-- `NewSkipList(arenaSize)` for `arenaSize ≥ 0`.  `maxLevel` is not set by the
constructor and keeps the zero value. -/
def NewSkipList (arenaSize : Nat) : Option SkipList :=
  (newNode (newArena arenaSize) [] { Value := [], ExpiresAt := 0 } defaultMaxLevel).bind fun r =>
    (getNodeOffset r.1 (some r.2)).map fun ho =>
      { maxLevel := 0, currHeight := 1, headOffset := ho, arena := r.1 }

/-- The loop of `randLevel`; `draws j` is what the `j`-th call of `RandN(1000)` returns. -/
def randLoop (maxLevel : Int) (draws : Nat → Nat) : Nat → Int → Nat → Int
  | 0, i, _ => i
  | fuel + 1, i, j =>
    if i < maxLevel then
      if draws j % 2 = 0 then i else randLoop maxLevel draws fuel (i + 1) (j + 1)
    else i

/-- `(*SkipList).randLevel()`. -/
def randLevel (maxLevel : Int) (draws : Nat → Nat) : Int :=
  if maxLevel ≤ 1 then 1 else randLoop maxLevel draws maxLevel.toNat 1 0

/-- What the search loops of `Add` and `Search` leave a level with. -/
inductive Scan where
  | found (next : NodePtr)
  | stop (prevElem : NodePtr) (hdrs : Nat → Option NodePtr)

/-- The scan of one level, `for next := getNext(prevElem, i); next != nil; ...`.
`hdrs` is `prevElemHeaders`, which `Add` updates on every advance (`Search` has none and
passes a dummy). -/
def scanLevel (s : Arena) (score : Nat) (key : List Nat) (i : Int) :
    Nat → NodePtr → (Nat → Option NodePtr) → Option Scan
  | 0, _, _ => none
  | fuel + 1, prevElem, hdrs =>
    match getNext s (some prevElem) i with
    | none => none
    | some none => some (Scan.stop prevElem hdrs)
    | some (some next) =>
      match compare s score key next with
      | none => none
      | some comp =>
        if comp ≤ 0 then
          if comp = 0 then some (Scan.found next) else some (Scan.stop prevElem hdrs)
        else
          scanLevel s score key i fuel next
            (fun j => if j = i.toNat then some next else hdrs j)

/-- The loop `for i--; i >= 0 && prevElem.levels[i] == topLevel; i--` with the body of
`Add` (`prevElemHeaders[i] = prevElem`): the value of `i` it ends with and the headers. -/
def skipLevels (s : Arena) (prevElem : NodePtr) (topLevel : Nat) :
    Nat → Int → (Nat → Option NodePtr) → Int × (Nat → Option NodePtr)
  | 0, i, hdrs => (i, hdrs)
  | fuel + 1, i, hdrs =>
    if 0 ≤ i ∧ s.load prevElem (levelField i.toNat) = topLevel then
      skipLevels s prevElem topLevel fuel (i - 1)
        (fun j => if j = i.toNat then some prevElem else hdrs j)
    else (i, hdrs)

/-- What the search of `Add` ends with: the node that holds the key, or the
predecessors. -/
inductive Located where
  | found (next : NodePtr)
  | absent (hdrs : Nat → Option NodePtr)

/-- The outer loop of `Add`, `for i := max - 1; i >= 0; i--`. -/
def addLevels (s : Arena) (score : Nat) (key : List Nat) :
    Nat → Int → NodePtr → (Nat → Option NodePtr) → Option Located
  | 0, i, _, hdrs => if i < 0 then some (Located.absent hdrs) else none
  | fuel + 1, i, prevElem, hdrs =>
    if i < 0 then some (Located.absent hdrs)
    else if defaultMaxLevel ≤ i then none
    else
      match scanLevel s score key i s.n prevElem
          (fun j => if j = i.toNat then some prevElem else hdrs j) with
      | none => none
      | some (Scan.found next) => some (Located.found next)
      | some (Scan.stop prevElem hdrs) =>
        let topLevel := s.load prevElem (levelField i.toNat)
        let r := skipLevels s prevElem topLevel i.toNat (i - 1) hdrs
        addLevels s score key fuel (r.1 - 1) prevElem r.2

/-- The linking loop of `Add`, `for i := 0; i < level; i++`; `cnt` counts the rounds
left. -/
def linkLevels (elem : NodePtr) (off : Nat) (hdrs : Nat → Option NodePtr) :
    Nat → Nat → Arena → Option Arena
  | 0, _, s => some s
  | cnt + 1, i, s =>
    if defaultMaxLevel ≤ i then none
    else
      match hdrs i with
      | none => none
      | some p =>
        let s := s.store elem (levelField i) (s.load p (levelField i))
        let s := s.store p (levelField i) off
        linkLevels elem off hdrs cnt (i + 1) s

/-- `(*SkipList).Add(data)`.  `draws` is the outcome of the calls of `RandN` made by
`randLevel`. -/
def Add (list : SkipList) (draws : Nat → Nat) (data : Entry) : Option SkipList :=
  let score := calcScore data.Key
  let value : ValueStruct := { Value := data.Value, ExpiresAt := 0 }
  let max := list.currHeight
  match getNode list.arena list.headOffset with
  | some (some prevElem) =>
    match addLevels list.arena score data.Key max.toNat (max - 1) prevElem (fun _ => none) with
    | none => none
    | some (Located.found next) =>
      match putValue list.arena value with
      | none => none
      | some (arena, vo) =>
        let encV := encodeValue vo value.EncodedSize
        some { list with arena := arena.store next valueField encV }
    | some (Located.absent hdrs) =>
      let level := randLevel list.maxLevel draws
      match newNode list.arena data.Key { Value := data.Value, ExpiresAt := 0 } level with
      | none => none
      | some (arena, elem) =>
        match getNodeOffset arena (some elem) with
        | none => none
        | some off =>
          (linkLevels elem off hdrs level.toNat 0 arena).map fun arena =>
            { list with arena := arena }
  | _ => none

/-- The loop `for i--; i >= 0 && prevElem.levels[i] == topLevel; i-- {}` of `Search`. -/
def skipLevelsSearch (s : Arena) (prevElem : NodePtr) (topLevel : Nat) : Nat → Int → Int
  | 0, i => i
  | fuel + 1, i =>
    if 0 ≤ i ∧ s.load prevElem (levelField i.toNat) = topLevel then
      skipLevelsSearch s prevElem topLevel fuel (i - 1)
    else i

/-- The loop `for i >= 0` of `Search`: `some none` is the nil result. -/
def searchLevels (s : Arena) (score : Nat) (key : List Nat) :
    Nat → Int → NodePtr → Option (Option Entry)
  | 0, i, _ => if i < 0 then some none else none
  | fuel + 1, i, prevElem =>
    if i < 0 then some none
    else
      match scanLevel s score key i s.n prevElem (fun _ => none) with
      | none => none
      | some (Scan.found next) =>
        let v := decodeValue (s.load next valueField)
        (getValue s v.1 v.2).map fun vs => some { Key := key, Value := vs.Value, ExpiresAt := 0 }
      | some (Scan.stop prevElem _) =>
        if defaultMaxLevel ≤ i then none
        else
          let topLevel := s.load prevElem (levelField i.toNat)
          searchLevels s score key fuel
            (skipLevelsSearch s prevElem topLevel i.toNat (i - 1)) prevElem

/-- `(*SkipList).Search(key)`: `none` is a panic or a loop that does not end,
`some none` the nil result. -/
def Search (list : SkipList) (key : List Nat) : Option (Option Entry) :=
  if list.arena.Size = 0 then some none
  else
    match getNode list.arena list.headOffset with
    | some (some prevElem) =>
      searchLevels list.arena (calcScore key) key (list.currHeight.toNat + 1)
        list.currHeight prevElem
    | _ => none

/-- `SkipListIter`: the list (as it is while the iterator is used) and the node `nd`. -/
structure SkipListIter where
  list : SkipList
  nd : Option NodePtr

/-- `(*SkipList).NewSkipListIterator()`. -/
def NewSkipListIterator (list : SkipList) : SkipListIter := { list := list, nd := none }

/-- `(*SkipListIter).Valid()`. -/
def SkipListIter.Valid (iter : SkipListIter) : Bool := iter.nd.isSome

/-- `(*SkipListIter).Next()`: `AssertTrue(iter.Valid())`, then one step on level 0. -/
def SkipListIter.Next (iter : SkipListIter) : Option SkipListIter :=
  if iter.Valid then (getNext iter.list.arena iter.nd 0).map fun nd => { iter with nd := nd }
  else none

/-- `(*SkipListIter).Rewind()`. -/
def SkipListIter.Rewind (iter : SkipListIter) : Option SkipListIter :=
  match getNode iter.list.arena iter.list.headOffset with
  | none => none
  | some head => (getNext iter.list.arena head 0).map fun nd => { iter with nd := nd }

/-- `(*SkipListIter).Item()`. -/
def SkipListIter.Item (iter : SkipListIter) : Option Entry :=
  match iter.nd with
  | none => none
  | some nd =>
    let s := iter.list.arena
    let v := decodeValue (s.load nd valueField)
    match getKey s (s.load nd keyOffsetField) (s.load nd keySizeField), getValue s v.1 v.2 with
    | some key, some vs => some { Key := key, Value := vs.Value, ExpiresAt := vs.ExpiresAt }
    | _, _ => none

/-- The caller's loop `for ; it.Valid(); it.Next() { ... it.Item() ... }`: the items
seen. -/
def collect : Nat → SkipListIter → Option (List Entry)
  | 0, _ => none
  | fuel + 1, iter =>
    if iter.Valid then
      match iter.Item, iter.Next with
      | some e, some iter => (collect fuel iter).map fun es => e :: es
      | _, _ => none
    else some []

/-- A full pass of the iterator: `Rewind()`, then `Item()`/`Next()` while `Valid()`. -/
def iterate (list : SkipList) : Option (List Entry) :=
  match (NewSkipListIterator list).Rewind with
  | none => none
  | some iter => collect list.arena.n iter

/-- A sequence of `Add` calls on a list, each with the outcome of its random draws. -/
def addAll (list : SkipList) : List ((Nat → Nat) × Entry) → Option SkipList
  | [] => some list
  | c :: cs =>
    match Add list c.1 c.2 with
    | none => none
    | some list => addAll list cs

/-- `NewSkipList(arenaSize)` followed by a sequence of `Add` calls. -/
def build (arenaSize : Nat) (calls : List ((Nat → Nat) × Entry)) : Option SkipList :=
  (NewSkipList arenaSize).bind fun list => addAll list calls

/-- Bit `p` of the bit array is set. -/
def bitSet (f : List Nat) (p : Nat) : Prop :=
  ∃ b, f.get? (p / 8) = some b ∧ b &&& ((1 <<< (p % 8)) % 256) ≠ 0

/-- Every element is a byte. -/
def IsBytes (l : List Nat) : Prop := ∀ b ∈ l, b < 256

/-- The number `calcScore` packs: byte `i` of the key at bit `56 - 8 i`, for `i < 8`. -/
def packed : List Nat → Nat → Nat
  | [], _ => 0
  | b :: bs, i => if i < 8 then b * 2 ^ (56 - 8 * i) + packed bs (i + 1) else 0

/-- The outcome of `compare` on a node whose score and key are those of `k`. -/
def cmpKey (key k : List Nat) : Int :=
  if calcScore key = calcScore k then bytesCompare key k
  else if calcScore key < calcScore k then -1 else 1

/-- The arena after `allocate`. -/
def bump (s : Arena) (sz : Nat) : Arena := (allocate s sz).1

/-- Ghost record of a node that is linked into level 0: its offset, the key and value it
stands for, and where the key bytes and the encoded value lie. -/
structure Rec where
  off : Nat
  key : List Nat
  val : List Nat
  ko : Nat
  vo : Nat

/-- The buffer `B` holds node `r` as `newNode` and the value update of `Add` leave it;
`n` is the cursor. -/
def RecOK (B : Nat → Nat) (n : Nat) (r : Rec) : Prop :=
  IsBytes r.key ∧ r.key.length ≤ 65535 ∧
  113 ≤ r.off ∧ r.off + 28 ≤ n ∧ 112 ≤ r.ko ∧ r.ko + r.key.length ≤ n ∧
  112 ≤ r.vo ∧ r.vo + (r.val.length + 1) ≤ n ∧
  B (r.off + scoreField) = calcScore r.key ∧
  B (r.off + valueField) = encodeValue r.vo (r.val.length + 1) ∧
  B (r.off + keyOffsetField) = r.ko ∧
  B (r.off + keySizeField) = r.key.length ∧
  (∀ j, j < r.key.length → B (r.ko + j) = r.key.getD j 0) ∧
  (∀ j, j < r.val.length + 1 → B (r.vo + j) = (0 :: r.val).getD j 0) ∧
  B (r.off + heightField) = 1

/-- The level-0 pointers starting at the node at `p` run through `rs` and end in 0. -/
def Linked (B : Nat → Nat) : Nat → List Rec → Prop
  | p, [] => B (p + 24) = 0
  | p, r :: rs => B (p + 24) = r.off ∧ Linked B r.off rs

/-- Where the search of a key stops on level 0: the offset of the last node before the
key, and the node that holds the key, if there is one. -/
def locate (key : List Nat) : Nat → List Rec → Nat × Option Rec
  | p, [] => (p, none)
  | p, r :: rs =>
    if bytesCompare key r.key ≤ 0 then (p, if key = r.key then some r else none)
    else locate key r.off rs

/-- The pointer to the first node of `rs`. -/
def headPtr (g : Nat) : List Rec → Option NodePtr
  | [] => none
  | r :: _ => some ⟨g, r.off⟩

/-- The entry the iterator shows for a node. -/
def toEntry (r : Rec) : Entry := { Key := r.key, Value := r.val, ExpiresAt := 0 }

/-- The node cells of a linked node overlap neither another linked node nor the key and
value bytes of any linked node. -/
def Sep (rs : List Rec) : Prop :=
  ∀ r ∈ rs, ∀ r' ∈ rs,
    (r.off = r'.off ∨ r.off + 28 ≤ r'.off ∨ r'.off + 28 ≤ r.off) ∧
    (r'.ko + r'.key.length ≤ r.off ∨ r.off + 28 ≤ r'.ko) ∧
    (r'.vo + (r'.val.length + 1) ≤ r.off ∨ r.off + 28 ≤ r'.vo)

/-- The keys of the linked nodes increase strictly. -/
def SortedRecs (rs : List Rec) : Prop :=
  rs.Pairwise fun r r' => bytesCompare r.key r'.key < 0

/-- The representation invariant without the order of the keys: the list `l` holds
exactly the nodes `rs` on level 0, behind a head node at offset 8, and no level above 0 is
in use. -/
structure Inv0 (l : SkipList) (rs : List Rec) : Prop where
  maxLevel : l.maxLevel = 0
  currHeight : l.currHeight = 1
  headOffset : l.headOffset = 8
  n_lo : rs.length + 113 ≤ l.arena.n
  n_hi : l.arena.n < 2 ^ 32
  room : l.arena.n + 104 ≤ l.arena.len
  top : l.arena.buf 36 = 0
  headHeight : l.arena.buf (8 + heightField) = defaultMaxLevel
  linked : Linked l.arena.buf 8 rs
  recs : ∀ r ∈ rs, RecOK l.arena.buf l.arena.n r
  sep : Sep rs

/-- The representation invariant: `Inv0`, and the keys of the nodes increase strictly. -/
structure Inv (l : SkipList) (rs : List Rec) extends Inv0 l rs : Prop where
  sorted : SortedRecs rs

/-- The cells `RecOK` reads for a node: five fields, the key bytes, the value bytes. -/
def Foot (r : Rec) (a : Nat) : Prop :=
  a = r.off + scoreField ∨ a = r.off + valueField ∨ a = r.off + keyOffsetField ∨
  a = r.off + keySizeField ∨ (r.ko ≤ a ∧ a < r.ko + r.key.length) ∨
  (r.vo ≤ a ∧ a < r.vo + (r.val.length + 1)) ∨ a = r.off + heightField

/-- Linking a new node `new` in front of the first node whose key is not smaller than the
key `K` that was searched. -/
def insertAt (K : List Nat) (new : Rec) : List Rec → List Rec
  | [] => [new]
  | r :: rs => if bytesCompare K r.key ≤ 0 then new :: r :: rs else r :: insertAt K new rs

/-- Giving the node that holds `key` the value `val`, stored at `vo`. -/
def replaceRec (key val : List Nat) (vo : Nat) : List Rec → List Rec
  | [] => []
  | r :: rs =>
    if bytesCompare key r.key ≤ 0 then
      (if key = r.key then { r with val := val, vo := vo } :: rs else r :: rs)
    else r :: replaceRec key val vo rs

/-- The sorted association list the skip list stands for: `modelAdd m k v` puts `(k, v)`
at the place of `k` in the key order and drops an older pair with the same key. -/
def modelAdd : List (List Nat × List Nat) → List Nat → List Nat → List (List Nat × List Nat)
  | [], k, v => [(k, v)]
  | (k', v') :: m, k, v =>
    if bytesCompare k k' ≤ 0 then (if k = k' then (k, v) :: m else (k, v) :: (k', v') :: m)
    else (k', v') :: modelAdd m k v

/-- The key and value a linked node stands for. -/
def kv (r : Rec) : List Nat × List Nat := (r.key, r.val)

/-- What `Add` does to the association list when the node it writes reads back with the
key `sk` (the first `len(K) mod 2^16` bytes of `K`) while the search ran with `K`. -/
def modelPut : List (List Nat × List Nat) → List Nat → List Nat → List Nat →
    List (List Nat × List Nat)
  | [], _, sk, v => [(sk, v)]
  | (k', v') :: m, k, sk, v =>
    if bytesCompare k k' ≤ 0 then (if k = k' then (k, v) :: m else (sk, v) :: (k', v') :: m)
    else (k', v') :: modelPut m k sk v

/-- The keys of an association list increase strictly in the order of `bytes.Compare`. -/
def SortedKeys (m : List (List Nat × List Nat)) : Prop :=
  m.Pairwise fun a b => bytesCompare a.1 b.1 < 0

/-- The value of the last call of `Add` with key `k`, if there is one. -/
def lastValue : List ((Nat → Nat) × Entry) → List Nat → Option (List Nat)
  | [], _ => none
  | c :: cs, k =>
    match lastValue cs k with
    | some v => some v
    | none => if c.2.Key = k then some c.2.Value else none

/-- The sorted association-list model of a sequence of `Add` calls: every call puts its
pair at the place of its key, in place of an older pair with the same key. -/
def assocModel (calls : List ((Nat → Nat) × Entry)) : List (List Nat × List Nat) :=
  calls.foldl (fun m c => modelAdd m c.2.Key c.2.Value) []

/-- The bytes of arena one `Add` can take: a node of height 1 with its alignment, the key
and the encoded value. -/
def demand : List ((Nat → Nat) × Entry) → Nat
  | [] => 0
  | c :: cs => 35 + c.2.Key.length + (c.2.Value.length + 1) + demand cs

/-- The keys are byte strings that fit the 16-bit key size of a node. -/
def WellKeyed (calls : List ((Nat → Nat) × Entry)) : Prop :=
  ∀ c ∈ calls, IsBytes c.2.Key ∧ c.2.Key.length ≤ 65535

/-- The hash a probe loop holds after `j` rounds of `h += delta` (on `uint32`). -/
def probeHash (delta : Nat) : Nat → Nat → Nat
  | 0, h => h
  | j + 1, h => probeHash delta j ((h + delta) % 2 ^ 32)

/-- The test that goes with an access to `levels[i]` of the node `p`: the slot is one of
the slots `putNode` reserved for the node, `i` is below the height stored in the node. -/
def levelInRange (s : Arena) (p : NodePtr) (i : Nat) : Bool :=
  decide (i < s.load p heightField)

/-- `(*node).getNextOffset(h)` with the access to `levels[h]` tested: `none` also when the
slot is outside the node. -/
def getNextOffsetChecked (s : Arena) (e : NodePtr) (h : Int) : Option Nat :=
  if levelInRange s e h.toNat then getNextOffset s e h else none

/-- `(*SkipList).getNext(e, height)` over `getNextOffsetChecked`. -/
def getNextChecked (s : Arena) (e : Option NodePtr) (height : Int) :
    Option (Option NodePtr) :=
  match e with
  | none => none
  | some p =>
    match getNextOffsetChecked s p height with
    | none => none
    | some o => getNode s o

/-- The scan of one level, as `scanLevel`, over `getNextChecked`. -/
def scanLevelChecked (s : Arena) (score : Nat) (key : List Nat) (i : Int) :
    Nat → NodePtr → (Nat → Option NodePtr) → Option Scan
  | 0, _, _ => none
  | fuel + 1, prevElem, hdrs =>
    match getNextChecked s (some prevElem) i with
    | none => none
    | some none => some (Scan.stop prevElem hdrs)
    | some (some next) =>
      match compare s score key next with
      | none => none
      | some comp =>
        if comp ≤ 0 then
          if comp = 0 then some (Scan.found next) else some (Scan.stop prevElem hdrs)
        else
          scanLevelChecked s score key i fuel next
            (fun j => if j = i.toNat then some next else hdrs j)

/-- The loop `for i--; i >= 0 && prevElem.levels[i] == topLevel; i--` of `Add`, as
`skipLevels`, with the access to `prevElem.levels[i]` tested; the access is made only
when `i >= 0`. -/
def skipLevelsChecked (s : Arena) (prevElem : NodePtr) (topLevel : Nat) :
    Nat → Int → (Nat → Option NodePtr) → Option (Int × (Nat → Option NodePtr))
  | 0, i, hdrs => some (i, hdrs)
  | fuel + 1, i, hdrs =>
    if 0 ≤ i then
      if levelInRange s prevElem i.toNat then
        if s.load prevElem (levelField i.toNat) = topLevel then
          skipLevelsChecked s prevElem topLevel fuel (i - 1)
            (fun j => if j = i.toNat then some prevElem else hdrs j)
        else some (i, hdrs)
      else none
    else some (i, hdrs)

/-- The outer loop of `Add`, as `addLevels`, with the accesses to `levels` tested. -/
def addLevelsChecked (s : Arena) (score : Nat) (key : List Nat) :
    Nat → Int → NodePtr → (Nat → Option NodePtr) → Option Located
  | 0, i, _, hdrs => if i < 0 then some (Located.absent hdrs) else none
  | fuel + 1, i, prevElem, hdrs =>
    if i < 0 then some (Located.absent hdrs)
    else if defaultMaxLevel ≤ i then none
    else
      match scanLevelChecked s score key i s.n prevElem
          (fun j => if j = i.toNat then some prevElem else hdrs j) with
      | none => none
      | some (Scan.found next) => some (Located.found next)
      | some (Scan.stop prevElem hdrs) =>
        if levelInRange s prevElem i.toNat then
          let topLevel := s.load prevElem (levelField i.toNat)
          match skipLevelsChecked s prevElem topLevel i.toNat (i - 1) hdrs with
          | none => none
          | some r => addLevelsChecked s score key fuel (r.1 - 1) prevElem r.2
        else none

/-- The linking loop of `Add`, as `linkLevels`, with the three accesses of a round
tested: the read of `prevElemHeaders[i].levels[i]`, the write of `elem.levels[i]`, and
the write of `prevElemHeaders[i].levels[i]` that follows it. -/
def linkLevelsChecked (elem : NodePtr) (off : Nat) (hdrs : Nat → Option NodePtr) :
    Nat → Nat → Arena → Option Arena
  | 0, _, s => some s
  | cnt + 1, i, s =>
    if defaultMaxLevel ≤ i then none
    else
      match hdrs i with
      | none => none
      | some p =>
        if levelInRange s p i && levelInRange s elem i then
          let s := s.store elem (levelField i) (s.load p (levelField i))
          if levelInRange s p i then
            let s := s.store p (levelField i) off
            linkLevelsChecked elem off hdrs cnt (i + 1) s
          else none
        else none

/-- `(*SkipList).Add(data)`, as `Add`, with every access to a `levels` slot tested. -/
def AddChecked (list : SkipList) (draws : Nat → Nat) (data : Entry) : Option SkipList :=
  let score := calcScore data.Key
  let value : ValueStruct := { Value := data.Value, ExpiresAt := 0 }
  let max := list.currHeight
  match getNode list.arena list.headOffset with
  | some (some prevElem) =>
    match addLevelsChecked list.arena score data.Key max.toNat (max - 1) prevElem
        (fun _ => none) with
    | none => none
    | some (Located.found next) =>
      match putValue list.arena value with
      | none => none
      | some (arena, vo) =>
        let encV := encodeValue vo value.EncodedSize
        some { list with arena := arena.store next valueField encV }
    | some (Located.absent hdrs) =>
      let level := randLevel list.maxLevel draws
      match newNode list.arena data.Key { Value := data.Value, ExpiresAt := 0 } level with
      | none => none
      | some (arena, elem) =>
        match getNodeOffset arena (some elem) with
        | none => none
        | some off =>
          (linkLevelsChecked elem off hdrs level.toNat 0 arena).map fun arena =>
            { list with arena := arena }
  | _ => none

/-- The loop `for i--; i >= 0 && prevElem.levels[i] == topLevel; i-- {}` of `Search`, as
`skipLevelsSearch`, with the access tested. -/
def skipLevelsSearchChecked (s : Arena) (prevElem : NodePtr) (topLevel : Nat) :
    Nat → Int → Option Int
  | 0, i => some i
  | fuel + 1, i =>
    if 0 ≤ i then
      if levelInRange s prevElem i.toNat then
        if s.load prevElem (levelField i.toNat) = topLevel then
          skipLevelsSearchChecked s prevElem topLevel fuel (i - 1)
        else some i
      else none
    else some i

/-- The loop `for i >= 0` of `Search`, as `searchLevels`, with the accesses to `levels`
tested. -/
def searchLevelsChecked (s : Arena) (score : Nat) (key : List Nat) :
    Nat → Int → NodePtr → Option (Option Entry)
  | 0, i, _ => if i < 0 then some none else none
  | fuel + 1, i, prevElem =>
    if i < 0 then some none
    else
      match scanLevelChecked s score key i s.n prevElem (fun _ => none) with
      | none => none
      | some (Scan.found next) =>
        let v := decodeValue (s.load next valueField)
        (getValue s v.1 v.2).map fun vs => some { Key := key, Value := vs.Value, ExpiresAt := 0 }
      | some (Scan.stop prevElem _) =>
        if defaultMaxLevel ≤ i then none
        else if levelInRange s prevElem i.toNat then
          let topLevel := s.load prevElem (levelField i.toNat)
          match skipLevelsSearchChecked s prevElem topLevel i.toNat (i - 1) with
          | none => none
          | some i => searchLevelsChecked s score key fuel i prevElem
        else none

/-- `(*SkipList).Search(key)`, as `Search`, with every access to a `levels` slot
tested. -/
def SearchChecked (list : SkipList) (key : List Nat) : Option (Option Entry) :=
  if list.arena.Size = 0 then some none
  else
    match getNode list.arena list.headOffset with
    | some (some prevElem) =>
      searchLevelsChecked list.arena (calcScore key) key (list.currHeight.toNat + 1)
        list.currHeight prevElem
    | _ => none

/-- `(*SkipListIter).Next()` over `getNextChecked`. -/
def SkipListIter.NextChecked (iter : SkipListIter) : Option SkipListIter :=
  if iter.Valid then
    (getNextChecked iter.list.arena iter.nd 0).map fun nd => { iter with nd := nd }
  else none

/-- `(*SkipListIter).Rewind()` over `getNextChecked`. -/
def SkipListIter.RewindChecked (iter : SkipListIter) : Option SkipListIter :=
  match getNode iter.list.arena iter.list.headOffset with
  | none => none
  | some head => (getNextChecked iter.list.arena head 0).map fun nd => { iter with nd := nd }

/-- The caller's loop over the iterator, as `collect`, over `NextChecked`. -/
def collectChecked : Nat → SkipListIter → Option (List Entry)
  | 0, _ => none
  | fuel + 1, iter =>
    if iter.Valid then
      match iter.Item, iter.NextChecked with
      | some e, some iter => (collectChecked fuel iter).map fun es => e :: es
      | _, _ => none
    else some []

/-- A full pass of the iterator, as `iterate`, with every access to a `levels` slot
tested. -/
def iterateChecked (list : SkipList) : Option (List Entry) :=
  match (NewSkipListIterator list).RewindChecked with
  | none => none
  | some iter => collectChecked list.arena.n iter

/-- The heights stored in the node `p` and in the nodes behind it on level 0. -/
def heightsFrom (s : Arena) : Nat → NodePtr → Option (List Nat)
  | 0, _ => none
  | fuel + 1, p =>
    match getNext s (some p) 0 with
    | none => none
    | some none => some [s.load p heightField]
    | some (some next) => (heightsFrom s fuel next).map fun hs => s.load p heightField :: hs

/-- The heights stored in the nodes of the list: the head node, then the nodes the
iterator visits. -/
def nodeHeights (list : SkipList) : Option (List Nat) :=
  match getNode list.arena list.headOffset with
  | some (some head) => heightsFrom list.arena list.arena.n head
  | _ => none

/-- The buffer `B` holds node `r` as `newNode` and the value update of `Add` leave it,
whatever the key was: `r.key` is the key as it reads back (the first `len mod 2^16` bytes
of the key passed to `Add`) and nothing is said of the score; `n` is the cursor. -/
def RecShape (B : Nat → Nat) (n : Nat) (r : Rec) : Prop :=
  r.key.length ≤ 65535 ∧
  113 ≤ r.off ∧ r.off + 28 ≤ n ∧ 112 ≤ r.ko ∧ r.ko + r.key.length ≤ n ∧
  112 ≤ r.vo ∧ r.vo + (r.val.length + 1) ≤ n ∧
  B (r.off + valueField) = encodeValue r.vo (r.val.length + 1) ∧
  B (r.off + keyOffsetField) = r.ko ∧
  B (r.off + keySizeField) = r.key.length ∧
  (∀ j, j < r.key.length → B (r.ko + j) = r.key.getD j 0) ∧
  (∀ j, j < r.val.length + 1 → B (r.vo + j) = (0 :: r.val).getD j 0) ∧
  B (r.off + heightField) = 1

/-- The representation invariant as far as it does not depend on the keys: the list `l`
holds exactly the nodes `rs` on level 0, at different offsets, behind a head node of
height 20 at offset 8, every node has the height 1, and no level above 0 is in use. -/
structure Shape (l : SkipList) (rs : List Rec) : Prop where
  maxLevel : l.maxLevel = 0
  currHeight : l.currHeight = 1
  headOffset : l.headOffset = 8
  n_lo : rs.length + 113 ≤ l.arena.n
  n_hi : l.arena.n < 2 ^ 32
  room : l.arena.n + 104 ≤ l.arena.len
  top : l.arena.buf 36 = 0
  headHeight : l.arena.buf (8 + heightField) = defaultMaxLevel
  linked : Linked l.arena.buf 8 rs
  recs : ∀ r ∈ rs, RecShape l.arena.buf l.arena.n r
  sep : Sep rs
  distinct : rs.Pairwise fun r r' => r.off ≠ r'.off

/-- The result of `compare(score, key, next)` for the node `r` held in the buffer `B`. -/
def cmpStored (B : Nat → Nat) (score : Nat) (key : List Nat) (r : Rec) : Int :=
  if score = B (r.off + scoreField) then bytesCompare key r.key
  else if score < B (r.off + scoreField) then -1 else 1

/-- Where a scan of level 0 stops when `f` gives the result of `compare` for every node:
the offset of the last node passed, and the node for which `compare` gave 0, if there is
one. -/
def locateBy (f : Rec → Int) : Nat → List Rec → Nat × Option Rec
  | p, [] => (p, none)
  | p, r :: rs =>
    if f r ≤ 0 then (p, if f r = 0 then some r else none) else locateBy f r.off rs

/-- Linking a new node `new` in front of the first node for which `compare` did not give a
positive result. -/
def insertBy (f : Rec → Int) (new : Rec) : List Rec → List Rec
  | [] => [new]
  | r :: rs => if f r ≤ 0 then new :: r :: rs else r :: insertBy f new rs

/-- Giving the node at the offset `o` the value `val`, stored at `vo`. -/
def setVal (o : Nat) (val : List Nat) (vo : Nat) (rs : List Rec) : List Rec :=
  rs.map fun r => if r.off = o then { r with val := val, vo := vo } else r

/-- The calls of the example of the specification: `(apple, red)`, `(banana, yellow)`,
`(apple, green)`. -/
def fruitCalls : List ((Nat → Nat) × Entry) :=
  [(fun _ => 0, { Key := [97, 112, 112, 108, 101], Value := [114, 101, 100], ExpiresAt := 0 }),
   (fun _ => 0,
    { Key := [98, 97, 110, 97, 110, 97], Value := [121, 101, 108, 108, 111, 119], ExpiresAt := 0 }),
   (fun _ => 0,
    { Key := [97, 112, 112, 108, 101], Value := [103, 114, 101, 101, 110], ExpiresAt := 0 })]

/-- A call on the arena. -/
inductive ArenaCall where
  | allocate (sz : Nat)
  | putNode (height : Int)
  | putKey (key : List Nat)
  | putValue (v : ValueStruct)

/-- The arena and the offset a call returns; `none` when the call panics. -/
def ArenaCall.run (s : Arena) : ArenaCall → Option (Arena × Nat)
  | ArenaCall.allocate sz => some (MiniKV.allocate s sz)
  | ArenaCall.putNode height => some (MiniKV.putNode s height)
  | ArenaCall.putKey key => MiniKV.putKey s key
  | ArenaCall.putValue v => MiniKV.putValue s v

/-- The size a call passes to `allocate`. -/
def ArenaCall.size : ArenaCall → Nat
  | ArenaCall.allocate sz => sz
  | ArenaCall.putNode height =>
    (((MaxNodeSize : Int) - ((defaultMaxLevel : Int) - height) * offsetSize + nodeAlign) %
      2 ^ 32).toNat
  | ArenaCall.putKey key => key.length % 2 ^ 32
  | ArenaCall.putValue v => v.EncodedSize

/-- A sequence of calls on an arena, up to the first call that panics: for every call the
cursor before it, the offset it returns and the cursor after it. -/
def traceCalls : Arena → List ArenaCall → List (Nat × Nat × Nat)
  | _, [] => []
  | s, c :: cs =>
    match c.run s with
    | none => []
    | some r => (s.n, r.2, r.1.n) :: traceCalls r.1 cs

/-- A sequence of `allocate` calls on an arena: for every call the offset it returns, the
size it was given and the arena after it. -/
def allocateAll : Arena → List Nat → List (Nat × Nat × Arena)
  | _, [] => []
  | s, sz :: szs => ((allocate s sz).2, sz, (allocate s sz).1) :: allocateAll (allocate s sz).1 szs

/-! ### Value codec -/

theorem putUvarintLoop_fuel (f : Nat) : ∀ x, x < 2 ^ (7 * (f + 1)) →
    putUvarintLoop (f + 1) x = putUvarintLoop f x := by
  induction f with
  | zero =>
    intro x hx
    have : ¬ (128 ≤ x) := by simp at hx; omega
    simp [putUvarintLoop, this]
  | succ f ih =>
    intro x hx
    have h2 : x >>> 7 < 2 ^ (7 * (f + 1)) := by
      rw [Nat.shiftRight_eq_div_pow]
      have : (2:Nat) ^ (7 * (f + 1 + 1)) = 2 ^ 7 * 2 ^ (7 * (f + 1)) := by
        rw [← pow_add]; congr 1; ring
      rw [this] at hx
      exact Nat.div_lt_of_lt_mul hx
    rw [putUvarintLoop, ih _ h2]
    conv_rhs => rw [putUvarintLoop]

theorem putUvarintLoop_fuel_le (f g : Nat) (hfg : f ≤ g) (x : Nat) (hx : x < 2 ^ (7 * (f + 1))) :
    putUvarintLoop g x = putUvarintLoop f x := by
  induction g with
  | zero => have : f = 0 := by omega
            subst this; rfl
  | succ g ih =>
    rcases Nat.eq_or_lt_of_le hfg with h | h
    · subst h; rfl
    · have hfg' : f ≤ g := by omega
      rw [putUvarintLoop_fuel g x, ih hfg']
      calc x < 2 ^ (7 * (f + 1)) := hx
        _ ≤ 2 ^ (7 * (g + 1)) := Nat.pow_le_pow_right (by norm_num) (by omega)

theorem sizeVarintLoop_eq (f : Nat) : ∀ x n, x < 2 ^ (7 * (f + 1)) →
    sizeVarintLoop (f + 1) x n = n + (putUvarintLoop f x).length := by
  induction f with
  | zero =>
    intro x n hx
    have : x >>> 7 = 0 := by
      rw [Nat.shiftRight_eq_div_pow]; simp at hx; omega
    simp [sizeVarintLoop, putUvarintLoop, this]
  | succ f ih =>
    intro x n hx
    have h2 : x >>> 7 < 2 ^ (7 * (f + 1)) := by
      rw [Nat.shiftRight_eq_div_pow]
      have : (2:Nat) ^ (7 * (f + 1 + 1)) = 2 ^ 7 * 2 ^ (7 * (f + 1)) := by
        rw [← pow_add]; congr 1; ring
      rw [this] at hx
      exact Nat.div_lt_of_lt_mul hx
    rw [sizeVarintLoop, putUvarintLoop]
    by_cases h : 128 ≤ x
    · have h7 : ¬ (x >>> 7 = 0) := by
        rw [Nat.shiftRight_eq_div_pow]; omega
      simp only [h7, ↓reduceIte, h, List.length_cons]
      rw [ih _ _ h2]; omega
    · have h7 : x >>> 7 = 0 := by
        rw [Nat.shiftRight_eq_div_pow]; omega
      simp [h7, h]

theorem sizeVarint_eq_length (x : Nat) (hx : x < 2 ^ 64) :
    sizeVarint x = (putUvarint x).length := by
  have h1 : x < 2 ^ (7 * (63 + 1)) :=
    lt_of_lt_of_le hx (Nat.pow_le_pow_right (by decide) (by decide))
  rw [sizeVarint, putUvarint, sizeVarintLoop_eq 63 x 0 h1, putUvarintLoop_fuel 63 x h1,
    Nat.zero_add]

theorem putUvarintLoop_length_pos (f x : Nat) : 1 ≤ (putUvarintLoop f x).length := by
  cases f <;> simp [putUvarintLoop]
  split <;> simp

theorem putUvarintLoop_length_le (f : Nat) : ∀ x k, x < 2 ^ (7 * (k + 1)) →
    (putUvarintLoop f x).length ≤ k + 1 := by
  induction f with
  | zero => intro x k _; simp [putUvarintLoop]
  | succ f ih =>
    intro x k hx
    rw [putUvarintLoop]
    by_cases h : 128 ≤ x
    · simp only [h, ↓reduceIte, List.length_cons]
      cases k with
      | zero => simp at hx; omega
      | succ k =>
        have h2 : x >>> 7 < 2 ^ (7 * (k + 1)) := by
          rw [Nat.shiftRight_eq_div_pow]
          have : (2:Nat) ^ (7 * (k + 1 + 1)) = 2 ^ 7 * 2 ^ (7 * (k + 1)) := by
            rw [← pow_add]; congr 1; ring
          rw [this] at hx
          exact Nat.div_lt_of_lt_mul hx
        have := ih _ k h2
        omega
    · simp [h]

theorem sizeVarint_bounds (x : Nat) (hx : x < 2 ^ 64) : 1 ≤ sizeVarint x ∧ sizeVarint x ≤ 10 := by
  rw [sizeVarint_eq_length x hx, putUvarint]
  refine ⟨putUvarintLoop_length_pos _ _, ?_⟩
  exact putUvarintLoop_length_le 64 x 9
    (lt_of_lt_of_le hx (Nat.pow_le_pow_right (by decide) (by decide)))

set_option maxRecDepth 100000 in
theorem byte_cont : ∀ c : Fin 256, ((c.val ||| 128) &&& 127 = c.val % 128) ∧ 128 ≤ (c.val ||| 128) := by
  decide

theorem or_eq_add_shift (acc b s : Nat) (hacc : acc < 2 ^ s) :
    acc ||| (b * 2 ^ s) = acc + b * 2 ^ s := by
  rw [Nat.or_comm, Nat.mul_comm b, ← Nat.mul_add_lt_is_or hacc, Nat.add_comm]

theorem uvarintLoop_put (f : Nat) : ∀ x i acc rest, i ≤ 9 → acc < 2 ^ (7 * i) →
    x < 2 ^ (64 - 7 * i) → x < 2 ^ (7 * (f + 1)) →
    uvarintLoop (putUvarintLoop f x ++ rest) i acc (7 * i) =
      (acc + x * 2 ^ (7 * i), ((i + (putUvarintLoop f x).length : Nat) : Int)) := by
  induction f with
  | zero =>
    intro x i acc rest hi hacc hx hf
    have hx128 : x < 128 := by simpa using hf
    have hxm : x % 256 = x := Nat.mod_eq_of_lt (by omega)
    have hi10 : i ≠ 10 := by omega
    have hov : ¬ (i = 9 ∧ 1 < x) := by
      rintro ⟨rfl, h1⟩
      simp at hx; omega
    have hlt : x * 2 ^ (7 * i) < 2 ^ 64 := by
      calc x * 2 ^ (7 * i) < 2 ^ (64 - 7 * i) * 2 ^ (7 * i) :=
            Nat.mul_lt_mul_of_pos_right hx (Nat.two_pow_pos _)
        _ = 2 ^ 64 := by rw [← pow_add]; congr 1; omega
    simp only [putUvarintLoop, hxm, List.singleton_append, uvarintLoop, hi10, ↓reduceIte, hx128, hov,
      List.length_singleton]
    rw [Nat.shiftLeft_eq, Nat.mod_eq_of_lt hlt, or_eq_add_shift _ _ _ hacc]
    simp
  | succ f ih =>
    intro x i acc rest hi hacc hx hf
    rw [putUvarintLoop]
    by_cases h : 128 ≤ x
    · have hi8 : i ≤ 8 := by
        by_contra hc
        have : i = 9 := by omega
        subst this; simp at hx; omega
      have hc := byte_cont ⟨x % 256, Nat.mod_lt _ (by decide)⟩
      simp only at hc
      have hb : ¬ ((x % 256 ||| 128) < 128) := by omega
      have hi10 : i ≠ 10 := by omega
      have hm : x % 256 % 128 = x % 128 := by omega
      have hlt : (x % 128) * 2 ^ (7 * i) < 2 ^ 64 := by
        calc (x % 128) * 2 ^ (7 * i) < 2 ^ 7 * 2 ^ (7 * i) :=
              Nat.mul_lt_mul_of_pos_right (Nat.mod_lt _ (by decide)) (Nat.two_pow_pos _)
          _ = 2 ^ (7 + 7 * i) := by rw [← pow_add]
          _ ≤ 2 ^ 64 := Nat.pow_le_pow_right (by decide) (by omega)
      have hacc' : acc + (x % 128) * 2 ^ (7 * i) < 2 ^ (7 * (i + 1)) := by
        have : (2:Nat) ^ (7 * (i + 1)) = 2 ^ (7 * i) * 128 := by
          rw [show 7 * (i + 1) = 7 * i + 7 by ring, pow_add]; norm_num
        rw [this]
        have h1 : x % 128 ≤ 127 := by omega
        nlinarith [Nat.mul_le_mul_right (2 ^ (7 * i)) h1]
      have hx' : x >>> 7 < 2 ^ (64 - 7 * (i + 1)) := by
        rw [Nat.shiftRight_eq_div_pow]
        apply Nat.div_lt_of_lt_mul
        rw [← pow_add]
        have : 7 + (64 - 7 * (i + 1)) = 64 - 7 * i := by omega
        rw [this]; exact hx
      have hf' : x >>> 7 < 2 ^ (7 * (f + 1)) := by
        rw [Nat.shiftRight_eq_div_pow]
        apply Nat.div_lt_of_lt_mul
        rw [← pow_add]
        have : 7 + 7 * (f + 1) = 7 * (f + 1 + 1) := by ring
        rw [this]; exact hf
      simp only [h, ↓reduceIte, List.cons_append, uvarintLoop, hi10, hb, hc.1, hm, List.length_cons]
      rw [Nat.shiftLeft_eq, Nat.mod_eq_of_lt hlt, or_eq_add_shift _ _ _ hacc]
      have e7 : 7 * i + 7 = 7 * (i + 1) := by ring
      rw [e7, ih (x >>> 7) (i + 1) _ rest (by omega) hacc' hx' hf']
      have hsplit : x = x % 128 + 128 * (x >>> 7) := by
        rw [Nat.shiftRight_eq_div_pow]; omega
      have hp : (2:Nat) ^ (7 * (i + 1)) = 128 * 2 ^ (7 * i) := by
        rw [show 7 * (i + 1) = 7 + 7 * i by ring, pow_add]; norm_num
      refine Prod.ext ?_ ?_
      · simp only
        rw [hp]
        conv_rhs => rw [hsplit]
        ring
      · simp only; push_cast; ring
    · have hx128 : x < 128 := by omega
      have hxm : x % 256 = x := Nat.mod_eq_of_lt (by omega)
      have hi10 : i ≠ 10 := by omega
      have hov : ¬ (i = 9 ∧ 1 < x) := by
        rintro ⟨rfl, h1⟩
        simp at hx; omega
      have hlt : x * 2 ^ (7 * i) < 2 ^ 64 := by
        calc x * 2 ^ (7 * i) < 2 ^ (64 - 7 * i) * 2 ^ (7 * i) :=
              Nat.mul_lt_mul_of_pos_right hx (Nat.two_pow_pos _)
          _ = 2 ^ 64 := by rw [← pow_add]; congr 1; omega
      simp only [h, ↓reduceIte, hxm, List.singleton_append, uvarintLoop, hi10, hx128, hov,
        List.length_singleton]
      rw [Nat.shiftLeft_eq, Nat.mod_eq_of_lt hlt, or_eq_add_shift _ _ _ hacc]
      simp

theorem Uvarint_put (x : Nat) (rest : List Nat) (hx : x < 2 ^ 64) :
    Uvarint (putUvarint x ++ rest) = (x, ((putUvarint x).length : Int)) := by
  have h := uvarintLoop_put 64 x 0 0 rest (by decide) (by decide) hx
    (lt_of_lt_of_le hx (Nat.pow_le_pow_right (by decide) (by decide)))
  simp only [Nat.mul_zero, pow_zero, Nat.mul_one, Nat.zero_add] at h
  exact h

theorem encodeBytes_fit (V : List Nat) (E room : Nat)
    (hroom : (putUvarint E).length + V.length ≤ room) :
    encodeBytes { Value := V, ExpiresAt := E } room = some (putUvarint E ++ V) := by
  have h1 : (putUvarint E).length ≤ room := by omega
  have h2 : V.length ≤ room - (putUvarint E).length := by omega
  simp only [encodeBytes, h1, ↓reduceIte, List.take_of_length_le h2]

theorem DecodeValue_put (V : List Nat) (E : Nat) (hE : E < 2 ^ 64) :
    DecodeValue (putUvarint E ++ V) = some { Value := V, ExpiresAt := E } := by
  simp only [DecodeValue, Uvarint_put E V hE]
  have : ¬ (((putUvarint E).length : Int) < 0) := by omega
  simp [this]

/-! ### Rounding to a `float64` -/

theorem dropBits_char (fuel : Nat) : ∀ x, x < 2 ^ (53 + fuel) →
    (x < 2 ^ 53 ∧ dropBits fuel x = 0) ∨
    (2 ^ (52 + dropBits fuel x) ≤ x ∧ x < 2 ^ (53 + dropBits fuel x) ∧ 1 ≤ dropBits fuel x) := by
  induction fuel with
  | zero => intro x hx; left; exact ⟨hx, rfl⟩
  | succ fuel ih =>
    intro x hx
    by_cases h : x < 2 ^ 53
    · left; exact ⟨h, by rw [dropBits, if_pos h]⟩
    · right
      have hd : dropBits (fuel + 1) x = dropBits fuel (x / 2) + 1 := by rw [dropBits, if_neg h]
      have hx2 : x / 2 < 2 ^ (53 + fuel) := by
        apply Nat.div_lt_of_lt_mul
        rw [show 53 + (fuel + 1) = (53 + fuel) + 1 by ring, pow_succ] at hx
        omega
      rw [hd]
      rcases ih (x / 2) hx2 with ⟨h1, h2⟩ | ⟨h1, h2, h3⟩
      · rw [h2]
        refine ⟨?_, ?_, by omega⟩
        · exact Nat.le_of_not_lt h
        · have : (2:Nat) ^ (53 + (0 + 1)) = 2 * 2 ^ 53 := by norm_num
          rw [this]; omega
      · refine ⟨?_, ?_, by omega⟩
        · have : (2:Nat) ^ (52 + (dropBits fuel (x / 2) + 1)) = 2 * 2 ^ (52 + dropBits fuel (x / 2)) := by
            rw [← Nat.add_assoc, pow_succ]; ring
          rw [this]; omega
        · have : (2:Nat) ^ (53 + (dropBits fuel (x / 2) + 1)) = 2 * 2 ^ (53 + dropBits fuel (x / 2)) := by
            rw [← Nat.add_assoc, pow_succ]; ring
          rw [this]; omega

theorem dropBits_self (x : Nat) :
    (x < 2 ^ 53 ∧ dropBits x x = 0) ∨
    (2 ^ (52 + dropBits x x) ≤ x ∧ x < 2 ^ (53 + dropBits x x) ∧ 1 ≤ dropBits x x) := by
  apply dropBits_char
  calc x < 2 ^ x := Nat.lt_two_pow x
    _ ≤ 2 ^ (53 + x) := Nat.pow_le_pow_right (by decide) (by omega)

theorem roundSig53_small (x : Nat) (hx : x < 2 ^ 53) : roundSig53 x = x := by
  rcases dropBits_self x with ⟨_, h0⟩ | ⟨h1, _, _⟩
  · simp [roundSig53, h0, Nat.mod_one]
  · have : 2 ^ 53 ≤ 2 ^ (52 + dropBits x x) := Nat.pow_le_pow_right (by decide) (by omega)
    omega

/-- The two candidates of the rounding: `roundSig53 x` is `q * u` or `(q + 1) * u` for
`u = 2 ^ sh`, `q = x / u`. -/
theorem roundSig53_eq (x : Nat) :
    roundSig53 x =
      (x / 2 ^ dropBits x x +
        (if 2 ^ dropBits x x / 2 < x % 2 ^ dropBits x x ∨
            (x % 2 ^ dropBits x x = 2 ^ dropBits x x / 2 ∧ 0 < dropBits x x ∧
              (x / 2 ^ dropBits x x) % 2 = 1) then 1 else 0)) * 2 ^ dropBits x x := by
  simp only [roundSig53, Nat.shiftRight_eq_div_pow, Nat.shiftLeft_eq]
  split <;> simp

theorem dropBits_mono (x y : Nat) (hxy : x ≤ y) : dropBits x x ≤ dropBits y y := by
  rcases dropBits_self x with ⟨_, h0⟩ | ⟨h1, _, h3⟩
  · omega
  · rcases dropBits_self y with ⟨g1, _⟩ | ⟨_, g2, _⟩
    · have : 2 ^ 53 ≤ 2 ^ (52 + dropBits x x) := Nat.pow_le_pow_right (by decide) (by omega)
      omega
    · by_contra hc
      have : 2 ^ (53 + dropBits y y) ≤ 2 ^ (52 + dropBits x x) :=
        Nat.pow_le_pow_right (by decide) (by omega)
      omega

theorem roundSig53_le_pow (x : Nat) : roundSig53 x ≤ 2 ^ (53 + dropBits x x) := by
  rcases dropBits_self x with ⟨h1, h0⟩ | ⟨_, h2, _⟩
  · rw [roundSig53_small x h1, h0]; exact le_of_lt h1
  · rw [roundSig53_eq]
    have hq : x / 2 ^ dropBits x x < 2 ^ 53 := by
      apply Nat.div_lt_of_lt_mul
      rw [← pow_add, Nat.add_comm]; exact h2
    have : x / 2 ^ dropBits x x + (if 2 ^ dropBits x x / 2 < x % 2 ^ dropBits x x ∨
            (x % 2 ^ dropBits x x = 2 ^ dropBits x x / 2 ∧ 0 < dropBits x x ∧
              (x / 2 ^ dropBits x x) % 2 = 1) then 1 else 0) ≤ 2 ^ 53 := by
      split <;> omega
    calc _ ≤ 2 ^ 53 * 2 ^ dropBits x x := Nat.mul_le_mul_right _ this
      _ = 2 ^ (53 + dropBits x x) := by rw [← pow_add]

theorem pow_le_roundSig53 (x : Nat) (h : 1 ≤ dropBits x x) :
    2 ^ (52 + dropBits x x) ≤ roundSig53 x := by
  rcases dropBits_self x with ⟨_, h0⟩ | ⟨h1, _, _⟩
  · omega
  · rw [roundSig53_eq]
    have hq : 2 ^ 52 ≤ x / 2 ^ dropBits x x := by
      rw [Nat.le_div_iff_mul_le (Nat.two_pow_pos _), ← pow_add]; exact h1
    calc 2 ^ (52 + dropBits x x) = 2 ^ 52 * 2 ^ dropBits x x := by rw [pow_add]
      _ ≤ _ := Nat.mul_le_mul_right _ (by omega)

theorem roundSig53_mono (x y : Nat) (hxy : x ≤ y) : roundSig53 x ≤ roundSig53 y := by
  rcases Nat.eq_or_lt_of_le (dropBits_mono x y hxy) with hs | hs
  · -- same exponent
    rw [roundSig53_eq x, roundSig53_eq y, ← hs]
    generalize dropBits x x = s
    have hu : 0 < 2 ^ s := Nat.two_pow_pos _
    generalize hud : 2 ^ s = u at *
    have hx := Nat.div_add_mod x u
    have hy := Nat.div_add_mod y u
    have hrx := Nat.mod_lt x hu
    have hry := Nat.mod_lt y hu
    have hq : x / u ≤ y / u := Nat.div_le_div_right hxy
    rcases Nat.eq_or_lt_of_le hq with he | hl
    · have hr : x % u ≤ y % u := by
        rw [he] at hx
        have : u * (y / u) + x % u ≤ u * (y / u) + y % u := by omega
        omega
      rw [← he]
      apply Nat.mul_le_mul_right
      apply Nat.add_le_add_left
      by_cases c : u / 2 < x % u ∨ (x % u = u / 2 ∧ 0 < s ∧ (x / u) % 2 = 1)
      · have c' : u / 2 < y % u ∨ (y % u = u / 2 ∧ 0 < s ∧ (x / u) % 2 = 1) := by
          rcases c with c | ⟨c1, c2, c3⟩
          · left; omega
          · by_cases e : y % u = u / 2
            · right; exact ⟨e, c2, c3⟩
            · left; omega
        simp [c']
        split <;> omega
      · simp [c]
    · calc (x / u + _) * u ≤ (x / u + 1) * u := by
            apply Nat.mul_le_mul_right; split <;> omega
        _ ≤ (y / u) * u := Nat.mul_le_mul_right _ hl
        _ ≤ (y / u + _) * u := Nat.mul_le_mul_right _ (by omega)
  · calc roundSig53 x ≤ 2 ^ (53 + dropBits x x) := roundSig53_le_pow x
      _ ≤ 2 ^ (52 + dropBits y y) := Nat.pow_le_pow_right (by decide) (by omega)
      _ ≤ roundSig53 y := pow_le_roundSig53 y (by omega)

theorem truncMul069_mono (a b : Nat) (hab : a ≤ b) : truncMul069 a ≤ truncMul069 b := by
  unfold truncMul069
  apply Nat.div_le_div_right
  apply roundSig53_mono
  exact Nat.mul_le_mul_right _ (roundSig53_mono a b hab)

/-! ### Bloom filter -/

theorem setProbes_length (nBits delta : Nat) : ∀ (j h : Nat) (f f' : List Nat),
    setProbes nBits delta j h f = some f' → f'.length = f.length := by
  intro j
  induction j with
  | zero => intro h f f' e; simp [setProbes] at e; rw [← e]
  | succ j ih =>
    intro h f f' e
    rw [setProbes] at e
    split at e
    · exact absurd e (by simp)
    · dsimp only at e
      split at e
      · exact absurd e (by simp)
      · rw [ih _ _ _ e, List.length_set]

theorem setAll_length (nBits k : Nat) : ∀ (keys f f' : List Nat),
    setAll nBits k keys f = some f' → f'.length = f.length := by
  intro keys
  induction keys with
  | nil => intro f f' e; simp [setAll] at e; rw [← e]
  | cons h hs ih =>
    intro f f' e
    rw [setAll] at e
    split at e
    · exact absurd e (by simp)
    · rename_i f1 e1
      rw [ih _ _ e, setProbes_length _ _ _ _ _ _ e1]

theorem and_or_ne_zero (b m m' : Nat) (h : b &&& m ≠ 0) : (b ||| m') &&& m ≠ 0 := by
  intro hc
  apply h
  apply Nat.eq_of_testBit_eq
  intro i
  have := congrArg (fun x => x.testBit i) hc
  simp only [Nat.testBit_and, Nat.testBit_or, Nat.zero_testBit] at this ⊢
  cases hb : b.testBit i <;> cases hm : m.testBit i <;> simp_all

theorem or_and_self_ne_zero (b m : Nat) (h : m ≠ 0) : (b ||| m) &&& m ≠ 0 := by
  intro hc
  apply h
  apply Nat.eq_of_testBit_eq
  intro i
  have := congrArg (fun x => x.testBit i) hc
  simp only [Nat.testBit_and, Nat.testBit_or, Nat.zero_testBit] at this ⊢
  cases hb : b.testBit i <;> cases hm : m.testBit i <;> simp_all

theorem mask_ne_zero (p : Nat) : (1 <<< (p % 8)) % 256 ≠ 0 := by
  have h : p % 8 < 8 := Nat.mod_lt _ (by decide)
  interval_cases (p % 8) <;> decide

theorem bitSet_set (f : List Nat) (i b m' p : Nat) (hb : f.get? i = some b) (h : bitSet f p) :
    bitSet (f.set i (b ||| m')) p := by
  obtain ⟨c, hc, hne⟩ := h
  by_cases e : p / 8 = i
  · have : c = b := by rw [e, hb] at hc; exact (Option.some.inj hc).symm
    subst this
    refine ⟨c ||| m', ?_, and_or_ne_zero _ _ _ hne⟩
    rw [e, List.get?_eq_getElem?, List.getElem?_set_self]
    simp only [List.get?_eq_getElem?] at hb
    have hlt : i < f.length := by
      by_contra hge
      rw [List.getElem?_eq_none (by omega)] at hb
      exact absurd hb (by simp)
    simp [hlt]
  · refine ⟨c, ?_, hne⟩
    rw [List.get?_eq_getElem?, List.getElem?_set_ne (Ne.symm e), ← List.get?_eq_getElem?]
    exact hc

theorem bitSet_set_self (f : List Nat) (p b : Nat) (hb : f.get? (p / 8) = some b) :
    bitSet (f.set (p / 8) (b ||| ((1 <<< (p % 8)) % 256))) p := by
  refine ⟨b ||| ((1 <<< (p % 8)) % 256), ?_, or_and_self_ne_zero _ _ (mask_ne_zero p)⟩
  simp only [List.get?_eq_getElem?] at hb ⊢
  have hlt : p / 8 < f.length := by
    by_contra hge
    rw [List.getElem?_eq_none (by omega)] at hb
    exact absurd hb (by simp)
  rw [List.getElem?_set_self]
  simp [hlt]

theorem setProbes_keeps (nBits delta : Nat) : ∀ (j h : Nat) (f f' : List Nat),
    setProbes nBits delta j h f = some f' → ∀ p, bitSet f p → bitSet f' p := by
  intro j
  induction j with
  | zero => intro h f f' e p hp; simp [setProbes] at e; rw [← e]; exact hp
  | succ j ih =>
    intro h f f' e p hp
    rw [setProbes] at e
    split at e
    · exact absurd e (by simp)
    · dsimp only at e
      split at e
      · exact absurd e (by simp)
      · rename_i b hb
        exact ih _ _ _ e p (bitSet_set f _ b _ p hb hp)

theorem setAll_keeps (nBits k : Nat) : ∀ (keys f f' : List Nat),
    setAll nBits k keys f = some f' → ∀ p, bitSet f p → bitSet f' p := by
  intro keys
  induction keys with
  | nil => intro f f' e p hp; simp [setAll] at e; rw [← e]; exact hp
  | cons h hs ih =>
    intro f f' e p hp
    rw [setAll] at e
    split at e
    · exact absurd e (by simp)
    · rename_i f1 e1
      exact ih _ _ e p (setProbes_keeps _ _ _ _ _ _ e1 p hp)

/-- Every bit `setProbes` was asked to set is found by `checkProbes` in any array that
keeps the bits of the result below `nBits`. -/
theorem checkProbes_of_setProbes (nBits delta : Nat) : ∀ (j h : Nat) (f f' g : List Nat),
    setProbes nBits delta j h f = some f' →
    (∀ p, p < nBits → bitSet f' p → bitSet g p) →
    checkProbes g nBits delta j h = some true := by
  intro j
  induction j with
  | zero => intro h f f' g _ _; rfl
  | succ j ih =>
    intro h f f' g e hg
    rw [setProbes] at e
    split at e
    · exact absurd e (by simp)
    · rename_i hn
      dsimp only at e
      split at e
      · exact absurd e (by simp)
      · rename_i b hb
        have h1 : bitSet f' (h % nBits) :=
          setProbes_keeps _ _ _ _ _ _ e _ (bitSet_set_self f _ b hb)
        obtain ⟨c, hc, hne⟩ := hg _ (Nat.mod_lt _ (Nat.pos_of_ne_zero hn)) h1
        rw [checkProbes]
        simp only [hn, ↓reduceIte, hc, hne]
        exact ih _ _ _ g e hg

theorem checkProbes_of_setAll (nBits k : Nat) : ∀ (keys f f' g : List Nat),
    setAll nBits k keys f = some f' →
    (∀ p, p < nBits → bitSet f' p → bitSet g p) →
    ∀ h ∈ keys, checkProbes g nBits (probeDelta h) k h = some true := by
  intro keys
  induction keys with
  | nil => intro f f' g _ _ h hh; simp at hh
  | cons h0 hs ih =>
    intro f f' g e hg h hh
    rw [setAll] at e
    split at e
    · exact absurd e (by simp)
    · rename_i f1 e1
      rcases List.mem_cons.mp hh with rfl | hh
      · exact checkProbes_of_setProbes _ _ _ _ _ _ g e1
          (fun p hp hb => hg p hp (setAll_keeps _ _ _ _ _ e p hb))
      · exact ih _ _ g e hg h hh

theorem setProbes_isSome (nBits delta : Nat) (hn : nBits ≠ 0) : ∀ (j h : Nat) (f : List Nat),
    nBits ≤ 8 * f.length → ∃ f', setProbes nBits delta j h f = some f' := by
  intro j
  induction j with
  | zero => intro h f _; exact ⟨f, rfl⟩
  | succ j ih =>
    intro h f hl
    have hlt : h % nBits / 8 < f.length := by
      have := Nat.mod_lt h (Nat.pos_of_ne_zero hn)
      omega
    rw [setProbes]
    simp only [hn, ↓reduceIte, List.get?_eq_getElem?, List.getElem?_eq_getElem hlt]
    exact ih _ _ (by rw [List.length_set]; exact hl)

theorem setAll_isSome (nBits k : Nat) (hn : nBits ≠ 0) : ∀ (keys f : List Nat),
    nBits ≤ 8 * f.length → ∃ f', setAll nBits k keys f = some f' := by
  intro keys
  induction keys with
  | nil => intro f _; exact ⟨f, rfl⟩
  | cons h hs ih =>
    intro f hl
    obtain ⟨f1, e1⟩ := setProbes_isSome nBits (probeDelta h) hn k h f hl
    rw [setAll]
    simp only [e1]
    exact ih f1 (by rw [setProbes_length _ _ _ _ _ _ e1]; exact hl)

theorem probeCount_range (plat : Nat → Nat) (b : Int) :
    1 ≤ probeCount plat b ∧ probeCount plat b ≤ 30 := by
  simp only [probeCount]
  generalize float64ToUint32 plat (truncMul069 (if b < 0 then 0 else b).toNat) = k
  by_cases h1 : k < 1
  · simp [h1]
  · by_cases h2 : 30 < k
    · simp [h1, h2]
    · simp only [h1, h2, ↓reduceIte]; omega

theorem wrapInt64_range (x : Int) : -2 ^ 63 ≤ wrapInt64 x ∧ wrapInt64 x < 2 ^ 63 := by
  unfold wrapInt64
  omega

theorem wrapInt64_id (x : Int) (h1 : -2 ^ 63 ≤ x) (h2 : x < 2 ^ 63) : wrapInt64 x = x := by
  unfold wrapInt64
  omega

theorem filterBytes_ge (n : Nat) (b : Int) (h : 0 ≤ filterBytes n b) :
    8 ≤ filterBytes n b ∧ filterBytes n b < 2 ^ 60 := by
  simp only [filterBytes] at h ⊢
  have hr := wrapInt64_range (↑n * if b < 0 then 0 else b)
  generalize wrapInt64 (↑n * if b < 0 then 0 else b) = w at h hr ⊢
  have hm : (64:Int) ≤ (if w < 64 then 64 else w) ∧ (if w < 64 then 64 else w) < 2 ^ 63 := by
    split <;> omega
  generalize (if w < 64 then (64:Int) else w) = m at h hm ⊢
  by_cases hov : m + 7 < 2 ^ 63
  · rw [wrapInt64_id _ (by omega) hov] at h ⊢
    rw [Int.tdiv_eq_ediv (by omega) (by decide)]
    omega
  · exfalso
    have hw : wrapInt64 (m + 7) = m + 7 - 2 ^ 64 := by unfold wrapInt64; omega
    rw [hw] at h
    have : (m + 7 - 2 ^ 64).tdiv 8 < 0 := by
      have h1 : m + 7 - 2 ^ 64 = -(2 ^ 64 - m - 7) := by ring
      rw [h1, Int.neg_tdiv, Int.tdiv_eq_ediv (by omega) (by decide)]
      omega
    omega

/-! ### Key order -/

theorem bytesCompare_range (a : List Nat) : ∀ b,
    bytesCompare a b = -1 ∨ bytesCompare a b = 0 ∨ bytesCompare a b = 1 := by
  induction a with
  | nil => intro b; cases b <;> simp [bytesCompare]
  | cons x xs ih =>
    intro b
    cases b with
    | nil => simp [bytesCompare]
    | cons y ys =>
      simp only [bytesCompare]
      split
      · simp
      · split
        · simp
        · exact ih ys

theorem bytesCompare_eq_zero (a : List Nat) : ∀ b, bytesCompare a b = 0 ↔ a = b := by
  induction a with
  | nil => intro b; cases b <;> simp [bytesCompare]
  | cons x xs ih =>
    intro b
    cases b with
    | nil => simp [bytesCompare]
    | cons y ys =>
      simp only [bytesCompare, List.cons.injEq]
      split
      · simp; omega
      · split
        · simp; omega
        · rw [ih ys]
          constructor
          · intro h; exact ⟨by omega, h⟩
          · intro h; exact h.2

theorem bytesCompare_self (a : List Nat) : bytesCompare a a = 0 :=
  (bytesCompare_eq_zero a a).mpr rfl

theorem bytesCompare_swap (a : List Nat) : ∀ b, bytesCompare b a = -bytesCompare a b := by
  induction a with
  | nil => intro b; cases b <;> simp [bytesCompare]
  | cons x xs ih =>
    intro b
    cases b with
    | nil => simp [bytesCompare]
    | cons y ys =>
      simp only [bytesCompare]
      by_cases h1 : x < y
      · have : ¬ (y < x) := by omega
        simp [h1, this]
      · by_cases h2 : y < x
        · simp [h1, h2]
        · simp [h1, h2, ih ys]

theorem bytesCompare_trans (a : List Nat) : ∀ b c,
    bytesCompare a b < 0 → bytesCompare b c < 0 → bytesCompare a c < 0 := by
  induction a with
  | nil =>
    intro b c h1 h2
    cases b with
    | nil => simp [bytesCompare] at h1
    | cons y ys =>
      cases c with
      | nil => simp [bytesCompare] at h2
      | cons z zs => simp [bytesCompare]
  | cons x xs ih =>
    intro b c h1 h2
    cases b with
    | nil => simp [bytesCompare] at h1
    | cons y ys =>
      cases c with
      | nil => simp [bytesCompare] at h2
      | cons z zs =>
        simp only [bytesCompare] at h1 h2 ⊢
        by_cases hxy : x < y
        · by_cases hyz : y < z
          · have : x < z := by omega
            simp [this]
          · by_cases hzy : z < y
            · simp [hyz, hzy] at h2
            · have : x < z := by omega
              simp [this]
        · by_cases hyx : y < x
          · simp [hxy, hyx] at h1
          · simp only [hxy, hyx, ↓reduceIte] at h1
            by_cases hyz : y < z
            · have : x < z := by omega
              simp [this]
            · by_cases hzy : z < y
              · simp [hyz, hzy] at h2
              · simp only [hyz, hzy, ↓reduceIte] at h2
                have e1 : ¬ (x < z) := by omega
                have e2 : ¬ (z < x) := by omega
                simp only [e1, e2, ↓reduceIte]
                exact ih ys zs h1 h2

/-! ### Score -/

theorem packed_lt (bs : List Nat) : ∀ i, IsBytes bs → i ≤ 8 → packed bs i < 2 ^ (64 - 8 * i) := by
  induction bs with
  | nil => intro i _ _; simp [packed]
  | cons b bs ih =>
    intro i hb hi
    simp only [packed]
    split
    · rename_i h8
      have hb' : b < 256 := hb b (List.mem_cons_self _ _)
      have hbs : IsBytes bs := fun x hx => hb x (List.mem_cons_of_mem _ hx)
      have := ih (i + 1) hbs (by omega)
      have e1 : (2:Nat) ^ (64 - 8 * i) = 256 * 2 ^ (56 - 8 * i) := by
        rw [show 64 - 8 * i = 8 + (56 - 8 * i) by omega, pow_add]; norm_num
      have e2 : 64 - 8 * (i + 1) = 56 - 8 * i := by omega
      rw [e2] at this
      rw [e1]
      have : b * 2 ^ (56 - 8 * i) ≤ 255 * 2 ^ (56 - 8 * i) := Nat.mul_le_mul_right _ (by omega)
      omega
    · exact Nat.two_pow_pos _

theorem scoreLoop_eq (bs : List Nat) : ∀ i hash, IsBytes bs → i ≤ 8 →
    2 ^ (64 - 8 * i) ∣ hash → hash + packed bs i < 2 ^ 64 →
    scoreLoop bs i hash = hash + packed bs i := by
  induction bs with
  | nil => intro i hash _ _ _ _; simp [scoreLoop, packed]
  | cons b bs ih =>
    intro i hash hb hi hd hlt
    simp only [scoreLoop, packed] at hlt ⊢
    by_cases h8 : i < 8
    · simp only [h8, ↓reduceIte] at hlt ⊢
      have hb' : b < 256 := hb b (List.mem_cons_self _ _)
      have hbs : IsBytes bs := fun x hx => hb x (List.mem_cons_of_mem _ hx)
      have hsh : 64 - 8 - 8 * i = 56 - 8 * i := by omega
      have hbl : b * 2 ^ (56 - 8 * i) < 2 ^ (64 - 8 * i) := by
        have e1 : (2:Nat) ^ (64 - 8 * i) = 256 * 2 ^ (56 - 8 * i) := by
          rw [show 64 - 8 * i = 8 + (56 - 8 * i) by omega, pow_add]; norm_num
        rw [e1]
        exact Nat.mul_lt_mul_of_pos_right hb' (Nat.two_pow_pos _)
      have hb64 : b * 2 ^ (56 - 8 * i) < 2 ^ 64 :=
        lt_of_lt_of_le hbl (Nat.pow_le_pow_right (by decide) (by omega))
      obtain ⟨c, rfl⟩ := hd
      have hor : 2 ^ (64 - 8 * i) * c ||| (b * 2 ^ (56 - 8 * i)) =
          2 ^ (64 - 8 * i) * c + b * 2 ^ (56 - 8 * i) :=
        (Nat.mul_add_lt_is_or hbl c).symm
      rw [hsh, Nat.shiftLeft_eq, Nat.mod_eq_of_lt hb64, hor]
      rw [ih (i + 1) _ hbs (by omega) ?_ (by omega)]
      · ring
      · have e2 : 64 - 8 * i = (56 - 8 * i) + 8 := by omega
        have e3 : 64 - 8 * (i + 1) = 56 - 8 * i := by omega
        rw [e3, e2, pow_add]
        exact ⟨2 ^ 8 * c + b, by ring⟩
    · simp [h8]

theorem calcScore_eq (key : List Nat) (hk : IsBytes key) :
    calcScore key = roundSig53 (packed key 0) := by
  unfold calcScore
  have h := packed_lt key 0 hk (by decide)
  rw [scoreLoop_eq key 0 0 hk (by decide) (by simp) (by simpa using h)]
  simp

theorem packed_mono (a : List Nat) : ∀ b i, IsBytes a → IsBytes b → i ≤ 8 →
    bytesCompare a b < 0 → packed a i ≤ packed b i := by
  induction a with
  | nil => intro b i _ _ _ _; simp [packed]
  | cons x xs ih =>
    intro b i ha hb hi hlt
    cases b with
    | nil => simp [bytesCompare] at hlt
    | cons y ys =>
      have hxs : IsBytes xs := fun z hz => ha z (List.mem_cons_of_mem _ hz)
      have hys : IsBytes ys := fun z hz => hb z (List.mem_cons_of_mem _ hz)
      simp only [packed]
      by_cases h8 : i < 8
      · simp only [h8, ↓reduceIte]
        simp only [bytesCompare] at hlt
        by_cases hxy : x < y
        · have h1 := packed_lt xs (i + 1) hxs (by omega)
          have e2 : 64 - 8 * (i + 1) = 56 - 8 * i := by omega
          rw [e2] at h1
          have : (x + 1) * 2 ^ (56 - 8 * i) ≤ y * 2 ^ (56 - 8 * i) :=
            Nat.mul_le_mul_right _ (by omega)
          have e3 : (x + 1) * 2 ^ (56 - 8 * i) = x * 2 ^ (56 - 8 * i) + 2 ^ (56 - 8 * i) := by ring
          omega
        · by_cases hyx : y < x
          · simp [hxy, hyx] at hlt
          · simp only [hxy, hyx, ↓reduceIte] at hlt
            have : x = y := by omega
            subst this
            have := ih ys (i + 1) hxs hys (by omega) hlt
            omega
      · simp [h8]

theorem calcScore_mono (a b : List Nat) (ha : IsBytes a) (hb : IsBytes b)
    (h : bytesCompare a b < 0) : calcScore a ≤ calcScore b := by
  rw [calcScore_eq a ha, calcScore_eq b hb]
  exact roundSig53_mono _ _ (packed_mono a b 0 ha hb (by decide) h)

theorem cmpKey_le_zero (key k : List Nat) (h1 : IsBytes key) (h2 : IsBytes k) :
    (cmpKey key k ≤ 0 ↔ bytesCompare key k ≤ 0) ∧ (cmpKey key k = 0 ↔ key = k) := by
  unfold cmpKey
  by_cases e : calcScore key = calcScore k
  · simp only [e, ↓reduceIte, bytesCompare_eq_zero, true_and]
  · simp only [e, ↓reduceIte]
    have hne : key ≠ k := fun h => e (by rw [h])
    have hr := bytesCompare_range key k
    have hz := bytesCompare_eq_zero key k
    by_cases l : calcScore key < calcScore k
    · simp only [l, ↓reduceIte]
      have : ¬ (0 < bytesCompare key k) := by
        intro hp
        have := calcScore_mono k key h2 h1 (by rw [bytesCompare_swap key k]; omega)
        omega
      constructor
      · constructor
        · intro _; omega
        · intro _; decide
      · constructor
        · intro h; exact absurd h (by decide)
        · intro h; exact absurd h hne
    · simp only [l, ↓reduceIte]
      have : ¬ (bytesCompare key k < 0) := by
        intro hp
        have := calcScore_mono key k h1 h2 hp
        omega
      constructor
      · constructor
        · intro h; exact absurd h (by decide)
        · intro h
          have : bytesCompare key k = 0 := by omega
          exact absurd (hz.mp this) hne
      · constructor
        · intro h; exact absurd h (by decide)
        · intro h; exact absurd h hne

/-! ### Arena -/

theorem allocate_snd (s : Arena) (sz : Nat) (h : s.n + sz < 2 ^ 32) : (allocate s sz).2 = s.n := by
  simp only [allocate]
  omega

theorem bump_n (s : Arena) (sz : Nat) (h : s.n + sz < 2 ^ 32) : (bump s sz).n = s.n + sz := by
  simp only [bump, allocate]
  split <;> simp only <;> omega

theorem bump_len_le (s : Arena) (sz : Nat) : s.len ≤ (bump s sz).len := by
  simp only [bump, allocate]
  split <;> simp only <;> omega

theorem bump_room (s : Arena) (sz : Nat) (h : s.n + sz < 2 ^ 32)
    (hroom : s.n + 104 ≤ s.len ∨ s.n + sz + 104 ≤ 2 ^ 30) :
    (bump s sz).n + 104 ≤ (bump s sz).len := by
  simp only [bump, allocate, MaxNodeSize]
  have hm : (s.n + sz) % 2 ^ 32 = s.n + sz := Nat.mod_eq_of_lt h
  split
  · simp only [hm]
    split <;> split <;> omega
  · simp only [hm]; omega

theorem bump_cur (s : Arena) (sz : Nat) :
    (bump s sz).cur = s.cur ∨ (bump s sz).cur = s.cur + 1 := by
  simp only [bump, allocate]
  split <;> simp

theorem bump_buf (s : Arena) (sz a : Nat) (h : a < s.len) : (bump s sz).buf a = s.buf a := by
  simp only [bump, allocate, Arena.buf]
  split <;> simp [h]

theorem bump_buf_zero (s : Arena) (sz a : Nat) (h : s.buf a = 0) : (bump s sz).buf a = 0 := by
  simp only [bump, allocate, Arena.buf] at h ⊢
  split
  · simp only [↓reduceIte]
    split <;> simp [h]
  · exact h

theorem bump_heap_old (s : Arena) (sz g a : Nat) (hg : g ≤ s.cur) :
    (bump s sz).heap g a = s.heap g a := by
  simp only [bump, allocate]
  split
  · have : g ≠ s.cur + 1 := by omega
    simp [this]
  · rfl

theorem bump_same (s : Arena) (sz a : Nat) (h : (bump s sz).cur = s.cur) :
    (bump s sz).buf a = s.buf a ∧ (bump s sz).len = s.len := by
  unfold bump allocate Arena.buf at *
  dsimp only at h ⊢
  by_cases hc : s.len < (s.n + sz) % 2 ^ 32 + MaxNodeSize
  · rw [if_pos hc] at h; simp at h
  · rw [if_neg hc]; exact ⟨rfl, rfl⟩

theorem bump_nogrow (s : Arena) (sz : Nat) (h : s.n + sz < 2 ^ 32)
    (hfit : s.n + sz + 104 ≤ s.len) : (bump s sz).cur = s.cur ∧ (bump s sz).len = s.len := by
  unfold bump allocate
  dsimp only
  have hm : (s.n + sz) % 2 ^ 32 = s.n + sz := Nat.mod_eq_of_lt h
  have hc : ¬ (s.len < (s.n + sz) % 2 ^ 32 + MaxNodeSize) := by
    rw [hm]; simp only [MaxNodeSize]; omega
  rw [if_neg hc]
  exact ⟨rfl, rfl⟩

theorem storeBytes_buf (s : Arena) (off : Nat) (bs : List Nat) (a : Nat) :
    (s.storeBytes off bs).buf a =
      if off ≤ a ∧ a < off + bs.length then bs.getD (a - off) 0 else s.buf a := by
  simp [Arena.storeBytes, Arena.buf]

theorem storeBytes_heap_old (s : Arena) (off : Nat) (bs : List Nat) (g a : Nat)
    (h : g ≠ s.cur ∨ a < off) : (s.storeBytes off bs).heap g a = s.heap g a := by
  simp only [Arena.storeBytes]
  have : ¬ (g = s.cur ∧ off ≤ a ∧ a < off + bs.length) := by
    rintro ⟨h1, h2, _⟩
    rcases h with h | h
    · exact h h1
    · omega
  simp [this]

theorem store_buf (s : Arena) (p : NodePtr) (fld v a : Nat) :
    (s.store p fld v).buf a = if s.cur = p.arr ∧ a = p.off + fld then v else s.buf a := rfl

@[simp] theorem store_cur (s : Arena) (p : NodePtr) (fld v : Nat) : (s.store p fld v).cur = s.cur := rfl

@[simp] theorem store_n (s : Arena) (p : NodePtr) (fld v : Nat) : (s.store p fld v).n = s.n := rfl

@[simp] theorem store_len (s : Arena) (p : NodePtr) (fld v : Nat) : (s.store p fld v).len = s.len := rfl

@[simp] theorem storeBytes_cur (s : Arena) (off : Nat) (bs : List Nat) :
    (s.storeBytes off bs).cur = s.cur := rfl

@[simp] theorem storeBytes_n (s : Arena) (off : Nat) (bs : List Nat) :
    (s.storeBytes off bs).n = s.n := rfl

@[simp] theorem storeBytes_len (s : Arena) (off : Nat) (bs : List Nat) :
    (s.storeBytes off bs).len = s.len := rfl

theorem store_heap (s : Arena) (p : NodePtr) (fld v g a : Nat) :
    (s.store p fld v).heap g a = if g = p.arr ∧ a = p.off + fld then v else s.heap g a := rfl

theorem land_align (x : Nat) (hx : x < 2 ^ 32) : x &&& (2 ^ 32 - 1 - 7) = x / 8 * 8 := by
  apply Nat.eq_of_testBit_eq
  intro i
  have hM : (2 ^ 32 - 1 - 7 : Nat) = 2 ^ 3 * (2 ^ 29 - 1) := by norm_num
  have hd : x / 8 * 8 = 2 ^ 3 * (x >>> 3) := by
    rw [Nat.shiftRight_eq_div_pow]; norm_num [Nat.mul_comm]
  rw [Nat.testBit_and, hM, hd, Nat.testBit_mul_pow_two, Nat.testBit_mul_pow_two,
    Nat.testBit_two_pow_sub_one, Nat.testBit_shiftRight]
  by_cases h3 : 3 ≤ i
  · have e : 3 + (i - 3) = i := by omega
    simp only [h3, decide_True, Bool.true_and, e]
    by_cases h32 : i < 32
    · have : i - 3 < 29 := by omega
      simp [this]
    · have : ¬ (i - 3 < 29) := by omega
      have hb : x.testBit i = false :=
        Nat.testBit_lt_two_pow (lt_of_lt_of_le hx (Nat.pow_le_pow_right (by decide) (by omega)))
      simp [this, hb]
  · simp [h3]

theorem putNode_eq (s : Arena) (h : Nat) (h1 : 1 ≤ h) (h20 : h ≤ 20)
    (hn : s.n + (31 + 4 * h) < 2 ^ 32) :
    putNode s (h : Int) = (bump s (31 + 4 * h), (s.n + 7) / 8 * 8) := by
  have hl : ((((MaxNodeSize : Nat) : Int) - ((defaultMaxLevel : Nat) - (h : Int)) * (offsetSize : Nat)
      + (nodeAlign : Nat)) % 2 ^ 32).toNat = 31 + 4 * h := by
    simp only [MaxNodeSize, defaultMaxLevel, offsetSize, nodeAlign]
    omega
  unfold putNode
  dsimp only
  rw [hl, allocate_snd s _ hn]
  simp only [nodeAlign, bump]
  rw [Nat.mod_eq_of_lt (by omega), land_align _ (by omega)]

theorem putKey_eq (s : Arena) (key : List Nat) (hn : s.n + key.length < 2 ^ 32)
    (hroom : s.n + 104 ≤ s.len) :
    putKey s key = some ((bump s key.length).storeBytes s.n key, s.n) := by
  have hm : key.length % 2 ^ 32 = key.length := Nat.mod_eq_of_lt (by omega)
  have hr := bump_room s key.length hn (Or.inl hroom)
  rw [bump_n s _ hn] at hr
  have hhi : (s.n + key.length) % 2 ^ 32 = s.n + key.length := Nat.mod_eq_of_lt hn
  have hc : s.n ≤ s.n + key.length ∧ s.n + key.length ≤ (allocate s key.length).1.len := by
    constructor
    · omega
    · have : (allocate s key.length).1 = bump s key.length := rfl
      rw [this]; omega
  simp only [putKey, hm, allocate_snd s _ hn, hhi, hc, and_self, ↓reduceIte, Nat.add_sub_cancel_left,
    Nat.min_self, List.take_length, bump]

theorem putValue_eq (s : Arena) (v : ValueStruct) (hE : v.ExpiresAt < 2 ^ 64)
    (hn : s.n + (v.Value.length + sizeVarint v.ExpiresAt) < 2 ^ 32)
    (hroom : s.n + 104 ≤ s.len) :
    v.EncodedSize = v.Value.length + sizeVarint v.ExpiresAt ∧
    putValue s v = some ((bump s v.EncodedSize).storeBytes s.n
      (putUvarint v.ExpiresAt ++ v.Value), s.n) := by
  have hs : v.EncodedSize = v.Value.length + sizeVarint v.ExpiresAt := by
    simp only [ValueStruct.EncodedSize]
    exact Nat.mod_eq_of_lt (by omega)
  refine ⟨hs, ?_⟩
  have hn' : s.n + v.EncodedSize < 2 ^ 32 := by rw [hs]; exact hn
  have hr := bump_room s v.EncodedSize hn' (Or.inl hroom)
  rw [bump_n s _ hn'] at hr
  have hb : (allocate s v.EncodedSize).1 = bump s v.EncodedSize := rfl
  have hc : s.n ≤ (bump s v.EncodedSize).len := by omega
  have hlen := sizeVarint_eq_length v.ExpiresAt hE
  have henc := encodeBytes_fit v.Value v.ExpiresAt ((bump s v.EncodedSize).len - s.n)
    (by omega)
  simp only [putValue, allocate_snd s _ hn', hb, hc, ↓reduceIte]
  rw [show v = { Value := v.Value, ExpiresAt := v.ExpiresAt } from rfl] at *
  simp only [henc]

theorem getNode_some (s : Arena) (m : Nat) (h0 : m ≠ 0) (hl : m < s.len) :
    getNode s m = some (some ⟨s.cur, m⟩) := by
  simp [getNode, h0, hl]

/-- What `newNode` does to an arena whose cursor does not wrap. -/
theorem newNode_spec (s : Arena) (key : List Nat) (v : ValueStruct) (h : Nat)
    (h1 : 1 ≤ h) (h20 : h ≤ 20) (hE : v.ExpiresAt < 2 ^ 64) (hn1 : 1 ≤ s.n)
    (hnw : s.n + (31 + 4 * h) + key.length + (v.Value.length + sizeVarint v.ExpiresAt) < 2 ^ 32)
    (hroom : s.n + 104 ≤ s.len ∨ s.n + (31 + 4 * h) + 104 ≤ 2 ^ 30) :
    ∃ s', newNode s key v (h : Int) = some (s', ⟨s'.cur, (s.n + 7) / 8 * 8⟩) ∧
      s'.n = s.n + (31 + 4 * h) + key.length + (v.Value.length + sizeVarint v.ExpiresAt) ∧
      s'.n + 104 ≤ s'.len ∧ s.len ≤ s'.len ∧ s.cur ≤ s'.cur ∧
      (∀ a, a < s.n → a < s.len → s'.buf a = s.buf a) ∧
      (∀ a, a < s.n → s'.heap s.cur a = s.heap s.cur a) ∧
      s'.buf ((s.n + 7) / 8 * 8 + scoreField) = calcScore key ∧
      s'.buf ((s.n + 7) / 8 * 8 + valueField) =
        encodeValue (s.n + (31 + 4 * h) + key.length)
          (v.Value.length + sizeVarint v.ExpiresAt) ∧
      s'.buf ((s.n + 7) / 8 * 8 + keyOffsetField) = s.n + (31 + 4 * h) ∧
      s'.buf ((s.n + 7) / 8 * 8 + keySizeField) = key.length % 2 ^ 16 ∧
      s'.buf ((s.n + 7) / 8 * 8 + heightField) = h ∧
      (∀ j, j < key.length → s'.buf (s.n + (31 + 4 * h) + j) = key.getD j 0) ∧
      (∀ j, j < (putUvarint v.ExpiresAt ++ v.Value).length →
        s'.buf (s.n + (31 + 4 * h) + key.length + j) =
          (putUvarint v.ExpiresAt ++ v.Value).getD j 0) ∧
      (∀ a, s.buf a = 0 → (s.n + 7) / 8 * 8 + 24 ≤ a → a < s.n + (31 + 4 * h) →
        s'.buf a = 0) ∧
      (s.n + (31 + 4 * h) + key.length + (v.Value.length + sizeVarint v.ExpiresAt) + 104 ≤ s.len →
        s'.cur = s.cur ∧ s'.len = s.len) := by
  -- the three allocations
  have hw : (putUvarint v.ExpiresAt ++ v.Value).length =
      v.Value.length + sizeVarint v.ExpiresAt := by
    rw [List.length_append, sizeVarint_eq_length _ hE]; omega
  have hpn := putNode_eq s h h1 h20 (by omega)
  have n1 : (bump s (31 + 4 * h)).n = s.n + (31 + 4 * h) := bump_n s _ (by omega)
  have r1 : (bump s (31 + 4 * h)).n + 104 ≤ (bump s (31 + 4 * h)).len :=
    bump_room s _ (by omega) (by omega)
  have l1 := bump_len_le s (31 + 4 * h)
  have c1 := bump_cur s (31 + 4 * h)
  have k1 := bump_nogrow s (31 + 4 * h) (by omega)
  generalize hs1 : bump s (31 + 4 * h) = s1 at hpn n1 r1 l1 c1 k1
  have hpk := putKey_eq s1 key (by omega) r1
  have n2 : (bump s1 key.length).n = s1.n + key.length := bump_n s1 _ (by omega)
  have r2 : (bump s1 key.length).n + 104 ≤ (bump s1 key.length).len :=
    bump_room s1 _ (by omega) (Or.inl r1)
  have l2 := bump_len_le s1 key.length
  have c2 := bump_cur s1 key.length
  have b2 : ∀ a, a < s1.len → (bump s1 key.length).buf a = s1.buf a :=
    fun a ha => bump_buf s1 _ a ha
  have g2 : ∀ g a, g ≤ s1.cur → (bump s1 key.length).heap g a = s1.heap g a :=
    fun g a hg => bump_heap_old s1 _ g a hg
  have z2 : ∀ a, s1.buf a = 0 → (bump s1 key.length).buf a = 0 :=
    fun a ha => bump_buf_zero s1 _ a ha
  have k2 := bump_nogrow s1 key.length (by omega)
  generalize hs2 : bump s1 key.length = s2 at hpk n2 r2 l2 c2 b2 g2 z2 k2
  have hpv := putValue_eq (s2.storeBytes s1.n key) v hE
    (by show s2.n + _ < _; omega) (by show s2.n + 104 ≤ s2.len; exact r2)
  obtain ⟨hvs, hpv⟩ := hpv
  have hn3w : (s2.storeBytes s1.n key).n + v.EncodedSize < 2 ^ 32 := by
    show s2.n + _ < _; rw [hvs]; omega
  have n3 : (bump (s2.storeBytes s1.n key) v.EncodedSize).n = s2.n + v.EncodedSize :=
    bump_n _ _ hn3w
  have r3 : (bump (s2.storeBytes s1.n key) v.EncodedSize).n + 104 ≤
      (bump (s2.storeBytes s1.n key) v.EncodedSize).len :=
    bump_room _ _ hn3w (Or.inl (by show s2.n + 104 ≤ s2.len; exact r2))
  have l3 : s2.len ≤ (bump (s2.storeBytes s1.n key) v.EncodedSize).len :=
    bump_len_le (s2.storeBytes s1.n key) _
  have c3 : (bump (s2.storeBytes s1.n key) v.EncodedSize).cur = s2.cur ∨
      (bump (s2.storeBytes s1.n key) v.EncodedSize).cur = s2.cur + 1 :=
    bump_cur (s2.storeBytes s1.n key) _
  have b3 : ∀ a, a < s2.len → (bump (s2.storeBytes s1.n key) v.EncodedSize).buf a =
      (s2.storeBytes s1.n key).buf a := fun a ha => bump_buf _ _ a ha
  have g3 : ∀ g a, g ≤ s2.cur → (bump (s2.storeBytes s1.n key) v.EncodedSize).heap g a =
      (s2.storeBytes s1.n key).heap g a := fun g a hg => bump_heap_old _ _ g a hg
  have z3 : ∀ a, (s2.storeBytes s1.n key).buf a = 0 →
      (bump (s2.storeBytes s1.n key) v.EncodedSize).buf a = 0 :=
    fun a ha => bump_buf_zero _ _ a ha
  have k3 : s2.n + v.EncodedSize + 104 ≤ s2.len →
      (bump (s2.storeBytes s1.n key) v.EncodedSize).cur = s2.cur ∧
      (bump (s2.storeBytes s1.n key) v.EncodedSize).len = s2.len :=
    bump_nogrow (s2.storeBytes s1.n key) v.EncodedSize hn3w
  generalize hs3 : bump (s2.storeBytes s1.n key) v.EncodedSize = s3 at hpv n3 r3 l3 c3 b3 g3 z3 k3
  have hm0 : (s.n + 7) / 8 * 8 ≠ 0 := by omega
  have hml : (s.n + 7) / 8 * 8 < (s3.storeBytes s2.n (putUvarint v.ExpiresAt ++ v.Value)).len := by
    show _ < s3.len; omega
  have hgn := getNode_some (s3.storeBytes s2.n (putUvarint v.ExpiresAt ++ v.Value)) _ hm0 hml
  have hcur : (s3.storeBytes s2.n (putUvarint v.ExpiresAt ++ v.Value)).cur = s3.cur := rfl
  have hhz : ((h : Int) % 2 ^ 16).toNat = h := by omega
  have hb1 : ∀ a, a < s.len → s1.buf a = s.buf a := by
    intro a ha; rw [← hs1]; exact bump_buf s _ a ha
  have hg1 : ∀ g a, g ≤ s.cur → s1.heap g a = s.heap g a := by
    intro g a hg; rw [← hs1]; exact bump_heap_old s _ g a hg
  have hz1 : ∀ a, s.buf a = 0 → s1.buf a = 0 := by
    intro a ha; rw [← hs1]; exact bump_buf_zero s _ a ha
  -- the final buffer
  have hbuf : ∀ a, a < s2.len →
      (s3.storeBytes s2.n (putUvarint v.ExpiresAt ++ v.Value)).buf a =
      if s2.n ≤ a ∧ a < s2.n + (putUvarint v.ExpiresAt ++ v.Value).length then
        (putUvarint v.ExpiresAt ++ v.Value).getD (a - s2.n) 0
      else if s1.n ≤ a ∧ a < s1.n + key.length then key.getD (a - s1.n) 0
      else s2.buf a := by
    intro a ha
    rw [storeBytes_buf, b3 a ha, storeBytes_buf]
  have hheap : ∀ a, a < s.n →
      (s3.storeBytes s2.n (putUvarint v.ExpiresAt ++ v.Value)).heap s.cur a = s.heap s.cur a := by
    intro a ha
    rw [storeBytes_heap_old _ _ _ _ _ (Or.inr (by omega)), g3 _ _ (by omega),
      storeBytes_heap_old _ _ _ _ _ (Or.inr (by omega)), g2 _ _ (by omega), hg1 _ _ (le_refl _)]
  have hm8 : s.n ≤ (s.n + 7) / 8 * 8 ∧ (s.n + 7) / 8 * 8 ≤ s.n + 7 := by omega
  refine ⟨((((((s3.storeBytes s2.n (putUvarint v.ExpiresAt ++ v.Value)).store
      ⟨s3.cur, (s.n + 7) / 8 * 8⟩ scoreField (calcScore key)).store
      ⟨s3.cur, (s.n + 7) / 8 * 8⟩ keyOffsetField s1.n).store
      ⟨s3.cur, (s.n + 7) / 8 * 8⟩ keySizeField (key.length % 2 ^ 16)).store
      ⟨s3.cur, (s.n + 7) / 8 * 8⟩ heightField h).store
      ⟨s3.cur, (s.n + 7) / 8 * 8⟩ valueField (encodeValue s2.n v.EncodedSize)),
    ?_, ?_, ?_, ?_, ?_, ?_, ?_, ?_, ?_, ?_, ?_, ?_, ?_, ?_, ?_, ?_⟩
  · unfold newNode
    simp only [hpn, hpk, hpv, hgn, hhz, hcur, store_cur, storeBytes_cur, storeBytes_n]
  · simp only [store_n, storeBytes_n]; omega
  · simp only [store_n, storeBytes_n, store_len, storeBytes_len]; omega
  · simp only [store_len, storeBytes_len]; omega
  · simp only [store_cur, storeBytes_cur]; omega
  · intro a ha hal
    simp only [store_buf, store_cur, storeBytes_cur, true_and, scoreField, valueField,
      keyOffsetField, keySizeField, heightField]
    rw [if_neg (by omega), if_neg (by omega), if_neg (by omega), if_neg (by omega),
      if_neg (by omega), hbuf a (by omega), if_neg (by omega), if_neg (by omega),
      b2 a (by omega), hb1 a hal]
  · intro a ha
    simp only [store_heap, scoreField, valueField, keyOffsetField, keySizeField, heightField]
    rw [if_neg (by omega), if_neg (by omega), if_neg (by omega), if_neg (by omega),
      if_neg (by omega)]
    exact hheap a ha
  · simp [store_buf, scoreField, valueField, keyOffsetField, keySizeField, heightField]
  · simp [store_buf, scoreField, valueField, keyOffsetField, keySizeField, heightField, n2, n1, hvs]
  · simp [store_buf, scoreField, valueField, keyOffsetField, keySizeField, heightField, n1]
  · simp [store_buf, scoreField, valueField, keyOffsetField, keySizeField, heightField]
  · simp [store_buf, scoreField, valueField, keyOffsetField, keySizeField, heightField]
  · intro j hj
    simp only [store_buf, store_cur, storeBytes_cur, true_and, scoreField, valueField,
      keyOffsetField, keySizeField, heightField]
    rw [if_neg (by omega), if_neg (by omega), if_neg (by omega), if_neg (by omega),
      if_neg (by omega), hbuf _ (by omega), if_neg (by omega), if_pos (by omega)]
    congr 1; omega
  · intro j hj
    simp only [store_buf, store_cur, storeBytes_cur, true_and, scoreField, valueField,
      keyOffsetField, keySizeField, heightField]
    rw [if_neg (by omega), if_neg (by omega), if_neg (by omega), if_neg (by omega),
      if_neg (by omega), storeBytes_buf, if_pos (by omega)]
    congr 1; omega
  · intro a ha hlo hhi
    simp only [store_buf, store_cur, storeBytes_cur, true_and, scoreField, valueField,
      keyOffsetField, keySizeField, heightField]
    rw [if_neg (by omega), if_neg (by omega), if_neg (by omega), if_neg (by omega),
      if_neg (by omega), hbuf a (by omega), if_neg (by omega), if_neg (by omega)]
    exact z2 a (hz1 a ha)
  · intro hfit
    simp only [store_cur, storeBytes_cur, store_len, storeBytes_len]
    obtain ⟨a1, a2⟩ := k1 (by omega)
    obtain ⟨b1, b2'⟩ := k2 (by omega)
    obtain ⟨d1, d2⟩ := k3 (by omega)
    omega

/-! ### The linked nodes of a list -/

theorem readBytes_eq (s : Arena) (off : Nat) (l : List Nat)
    (h : ∀ j, j < l.length → s.buf (off + j) = l.getD j 0) : s.readBytes off l.length = l := by
  unfold Arena.readBytes
  apply List.ext_getElem
  · simp
  · intro i h1 h2
    simp only [List.getElem_map, List.getElem_range]
    rw [h i h2, List.getD_eq_getElem?_getD, List.getElem?_eq_getElem h2]
    rfl

theorem getNext_eq (s : Arena) (p : Nat) :
    getNext s (some ⟨s.cur, p⟩) 0 = getNode s (s.buf (p + 24)) := by
  simp [getNext, getNextOffset, defaultMaxLevel, Arena.load, levelField, Arena.buf]

theorem getNext_linked (s : Arena) (p : Nat) (rs : List Rec) (hl : Linked s.buf p rs)
    (hr : ∀ r ∈ rs, RecOK s.buf s.n r) (hroom : s.n + 104 ≤ s.len) :
    getNext s (some ⟨s.cur, p⟩) 0 = some (headPtr s.cur rs) := by
  rw [getNext_eq]
  cases rs with
  | nil => simp only [Linked] at hl; simp [hl, getNode, headPtr]
  | cons r rs =>
    simp only [Linked] at hl
    obtain ⟨_, _, h3, h4, _⟩ := hr r (List.mem_cons_self _ _)
    rw [hl.1, getNode_some s r.off (by omega) (by omega)]
    rfl

theorem nodeKey_eq (s : Arena) (r : Rec) (hr : RecOK s.buf s.n r) (hroom : s.n + 104 ≤ s.len)
    (hn : s.n < 2 ^ 32) : nodeKey s ⟨s.cur, r.off⟩ = some r.key := by
  obtain ⟨_, h2, _, _, _, h6, _, _, _, _, h11, h12, h13, _⟩ := hr
  simp only [nodeKey, Arena.load, keyOffsetField, keySizeField] at h11 h12 ⊢
  have e1 : s.heap s.cur (r.off + 16) = r.ko := h11
  have e2 : s.heap s.cur (r.off + 20) = r.key.length := h12
  rw [e1, e2]
  unfold getKey
  have hm : (r.ko + r.key.length) % 2 ^ 32 = r.ko + r.key.length := Nat.mod_eq_of_lt (by omega)
  have hc : r.ko ≤ r.ko + r.key.length ∧ r.ko + r.key.length ≤ s.len := by omega
  simp only [hm, hc, and_self, ↓reduceIte, Nat.add_sub_cancel_left]
  rw [readBytes_eq s r.ko r.key h13]

theorem compare_eq (s : Arena) (key : List Nat) (r : Rec) (hr : RecOK s.buf s.n r)
    (hroom : s.n + 104 ≤ s.len) (hn : s.n < 2 ^ 32) :
    compare s (calcScore key) key ⟨s.cur, r.off⟩ = some (cmpKey key r.key) := by
  have hk := nodeKey_eq s r hr hroom hn
  obtain ⟨_, _, _, _, _, _, _, _, h9, _⟩ := hr
  have e : s.load ⟨s.cur, r.off⟩ scoreField = calcScore r.key := h9
  unfold compare cmpKey
  rw [e, hk]
  split
  · rfl
  · split <;> rfl

/-- The scan of level 0 ends where `locate` says. -/
theorem scanLevel_spec (s : Arena) (key : List Nat) (hk : IsBytes key)
    (hroom : s.n + 104 ≤ s.len) (hn : s.n < 2 ^ 32) :
    ∀ (rs : List Rec) (fuel p : Nat) (hdrs : Nat → Option NodePtr),
      rs.length < fuel → Linked s.buf p rs → (∀ r ∈ rs, RecOK s.buf s.n r) →
      match (locate key p rs).2 with
      | some r => scanLevel s (calcScore key) key 0 fuel ⟨s.cur, p⟩ hdrs =
          some (Scan.found ⟨s.cur, r.off⟩)
      | none => ∃ hdrs', scanLevel s (calcScore key) key 0 fuel ⟨s.cur, p⟩ hdrs =
          some (Scan.stop ⟨s.cur, (locate key p rs).1⟩ hdrs') ∧
          (hdrs 0 = some ⟨s.cur, p⟩ → hdrs' 0 = some ⟨s.cur, (locate key p rs).1⟩) := by
  intro rs
  induction rs with
  | nil =>
    intro fuel p hdrs hf hl _
    cases fuel with
    | zero => simp at hf
    | succ fuel =>
      simp only [locate]
      refine ⟨hdrs, ?_, fun h => h⟩
      rw [scanLevel, getNext_linked s p [] hl (by simp) hroom]
      rfl
  | cons r rs ih =>
    intro fuel p hdrs hf hl hr
    cases fuel with
    | zero => simp at hf
    | succ fuel =>
      have hr0 := hr r (List.mem_cons_self _ _)
      have hc := cmpKey_le_zero key r.key hk hr0.1
      have hcmp := compare_eq s key r hr0 hroom hn
      have hgn := getNext_linked s p (r :: rs) hl hr hroom
      simp only [headPtr] at hgn
      simp only [locate]
      by_cases hle : bytesCompare key r.key ≤ 0
      · have hle' : cmpKey key r.key ≤ 0 := hc.1.mpr hle
        simp only [hle, ↓reduceIte]
        by_cases he : key = r.key
        · have he' : cmpKey key r.key = 0 := hc.2.mpr he
          simp only [if_pos he]
          rw [scanLevel, hgn]
          simp only [hcmp, he', le_refl, ↓reduceIte]
        · have he' : ¬ cmpKey key r.key = 0 := fun h => he (hc.2.mp h)
          simp only [if_neg he]
          refine ⟨hdrs, ?_, fun h => h⟩
          rw [scanLevel, hgn]
          simp only [hcmp, hle', he', ↓reduceIte]
      · have hle' : ¬ cmpKey key r.key ≤ 0 := fun h => hle (hc.1.mp h)
        simp only [hle, ↓reduceIte]
        simp only [Linked] at hl
        have := ih fuel r.off (fun j => if j = (0 : Int).toNat then some ⟨s.cur, r.off⟩ else hdrs j)
          (by simpa using hf) hl.2 (fun x hx => hr x (List.mem_cons_of_mem _ hx))
        rw [scanLevel, hgn]
        simp only [hcmp, hle', ↓reduceIte]
        cases hloc : (locate key r.off rs).2 with
        | some x => rw [hloc] at this; exact this
        | none =>
          rw [hloc] at this
          obtain ⟨hdrs', h1, h2⟩ := this
          exact ⟨hdrs', h1, fun _ => h2 (by simp)⟩

theorem decodeValue_encodeValue (vo vsz : Nat) (h1 : vo < 2 ^ 32) (h2 : vsz < 2 ^ 32) :
    decodeValue (encodeValue vo vsz) = (vo, vsz) := by
  unfold decodeValue encodeValue
  have e : (vsz <<< 32 ||| vo) = 2 ^ 32 * vsz + vo := by
    rw [Nat.shiftLeft_eq, Nat.mul_comm]
    exact (Nat.mul_add_lt_is_or h1 vsz).symm
  rw [e, Nat.shiftRight_eq_div_pow]
  refine Prod.ext ?_ ?_ <;> simp only <;> omega

theorem getValue_rec (s : Arena) (r : Rec) (hr : RecOK s.buf s.n r) (hroom : s.n + 104 ≤ s.len)
    (hn : s.n < 2 ^ 32) :
    getValue s (decodeValue (s.load ⟨s.cur, r.off⟩ valueField)).1
      (decodeValue (s.load ⟨s.cur, r.off⟩ valueField)).2 =
      some { Value := r.val, ExpiresAt := 0 } := by
  obtain ⟨_, _, _, _, _, _, _, h8, _, h10, _, _, _, h14, _⟩ := hr
  have e : s.load ⟨s.cur, r.off⟩ valueField = encodeValue r.vo (r.val.length + 1) := h10
  rw [e, decodeValue_encodeValue _ _ (by omega) (by omega)]
  unfold getValue
  have hm : (r.vo + (r.val.length + 1)) % 2 ^ 32 = r.vo + (r.val.length + 1) :=
    Nat.mod_eq_of_lt (by omega)
  have hc : r.vo ≤ r.vo + (r.val.length + 1) ∧ r.vo + (r.val.length + 1) ≤ s.len := by omega
  simp only [hm, hc, and_self, ↓reduceIte, Nat.add_sub_cancel_left]
  have hb := readBytes_eq s r.vo (0 :: r.val) (by simpa using h14)
  simp only [List.length_cons] at hb
  rw [hb]
  have h0 : putUvarint 0 = [0] := by decide
  have := DecodeValue_put r.val 0 (by decide)
  rw [h0] at this
  exact this

theorem getKey_rec (s : Arena) (r : Rec) (hr : RecOK s.buf s.n r) (hroom : s.n + 104 ≤ s.len)
    (hn : s.n < 2 ^ 32) :
    getKey s (s.load ⟨s.cur, r.off⟩ keyOffsetField) (s.load ⟨s.cur, r.off⟩ keySizeField) =
      some r.key := nodeKey_eq s r hr hroom hn

theorem locate_mem (key : List Nat) : ∀ (rs : List Rec) (p : Nat) (x : Rec),
    (locate key p rs).2 = some x → x ∈ rs ∧ x.key = key := by
  intro rs
  induction rs with
  | nil => intro p x h; simp [locate] at h
  | cons r rs ih =>
    intro p x h
    simp only [locate] at h
    split at h
    · simp only at h
      split at h
      · rename_i he
        have : r = x := Option.some.inj h
        subst this
        exact ⟨List.mem_cons_self _ _, he.symm⟩
      · exact absurd h (by simp)
    · obtain ⟨h1, h2⟩ := ih r.off x h
      exact ⟨List.mem_cons_of_mem _ h1, h2⟩

/-- The loop over the iterator visits the linked nodes in order. -/
theorem collect_spec (l : SkipList) (hroom : l.arena.n + 104 ≤ l.arena.len)
    (hn : l.arena.n < 2 ^ 32) :
    ∀ (rs : List Rec) (fuel p : Nat), rs.length < fuel → Linked l.arena.buf p rs →
      (∀ r ∈ rs, RecOK l.arena.buf l.arena.n r) →
      collect fuel { list := l, nd := headPtr l.arena.cur rs } = some (rs.map toEntry) := by
  intro rs
  induction rs with
  | nil =>
    intro fuel p hf _ _
    cases fuel with
    | zero => simp at hf
    | succ fuel => simp [collect, headPtr, SkipListIter.Valid]
  | cons r rs ih =>
    intro fuel p hf hl hr
    cases fuel with
    | zero => simp at hf
    | succ fuel =>
      have hr0 := hr r (List.mem_cons_self _ _)
      simp only [Linked] at hl
      have hnext := getNext_linked l.arena r.off rs hl.2
        (fun x hx => hr x (List.mem_cons_of_mem _ hx)) hroom
      have hrec := ih fuel r.off (by simpa using hf) hl.2
        (fun x hx => hr x (List.mem_cons_of_mem _ hx))
      have hv := getValue_rec l.arena r hr0 hroom hn
      have hkk := getKey_rec l.arena r hr0 hroom hn
      show collect (fuel + 1) { list := l, nd := some ⟨l.arena.cur, r.off⟩ } = _
      simp only [collect, SkipListIter.Valid, Option.isSome_some, ↓reduceIte,
        SkipListIter.Item, hkk, hv, SkipListIter.Next, hnext, Option.map_some', hrec,
        List.map_cons, toEntry]

theorem iterate_spec (l : SkipList) (rs : List Rec) (h : Inv0 l rs) :
    iterate l = some (rs.map toEntry) := by
  unfold iterate NewSkipListIterator SkipListIter.Rewind
  have hg : getNode l.arena l.headOffset = some (some ⟨l.arena.cur, 8⟩) := by
    rw [h.headOffset]
    exact getNode_some _ _ (by decide) (by have := h.room; have := h.n_lo; omega)
  have hnext := getNext_linked l.arena 8 rs h.linked h.recs h.room
  simp only [hg, hnext, Option.map_some']
  exact collect_spec l h.room h.n_hi rs l.arena.n 8 (by have := h.n_lo; omega) h.linked h.recs

theorem Search_spec (l : SkipList) (rs : List Rec) (h : Inv0 l rs) (key : List Nat)
    (hk : IsBytes key) :
    Search l key = some ((locate key 8 rs).2.map fun r =>
      { Key := key, Value := r.val, ExpiresAt := 0 }) := by
  have hn0 : ¬ (l.arena.Size = 0) := by
    have := h.n_lo
    simp only [Arena.Size]; omega
  have hg : getNode l.arena l.headOffset = some (some ⟨l.arena.cur, 8⟩) := by
    rw [h.headOffset]
    exact getNode_some _ _ (by decide) (by have := h.room; have := h.n_lo; omega)
  have htop : l.arena.load ⟨l.arena.cur, 8⟩ (levelField 1) = 0 := h.top
  have hgn1 : getNext l.arena (some ⟨l.arena.cur, 8⟩) 1 = some none := by
    simp only [getNext, getNextOffset, defaultMaxLevel]
    have : (0:Int) ≤ 1 ∧ (1:Int) < ((20:Nat):Int) := by decide
    simp only [this, and_self, ↓reduceIte]
    have e1 : (1:Int).toNat = 1 := rfl
    rw [e1, htop]
    rfl
  have hfuel : ∃ f, l.arena.n = f + 1 := ⟨l.arena.n - 1, by have := h.n_lo; omega⟩
  obtain ⟨f, hf⟩ := hfuel
  have hscan1 : scanLevel l.arena (calcScore key) key 1 l.arena.n ⟨l.arena.cur, 8⟩ (fun _ => none) =
      some (Scan.stop ⟨l.arena.cur, 8⟩ (fun _ => none)) := by
    rw [hf, scanLevel, hgn1]
  have hscan0 := scanLevel_spec l.arena key hk h.room h.n_hi rs l.arena.n 8 (fun _ => none)
    (by have := h.n_lo; omega) h.linked h.recs
  unfold Search
  simp only [hn0, ↓reduceIte, hg, h.currHeight]
  have e2 : (1:Int).toNat + 1 = 2 := rfl
  have e1 : (1:Int).toNat = 1 := rfl
  rw [e2, searchLevels]
  have hlt : ¬ ((1:Int) < 0) := by decide
  have h20 : ¬ (((defaultMaxLevel : Nat) : Int) ≤ 1) := by decide
  simp only [hlt, ↓reduceIte, hscan1, h20, e1, htop]
  have hl32 : levelField ((1:Int) - 1).toNat = 24 := rfl
  cases rs with
  | nil =>
    have hh : l.arena.load ⟨l.arena.cur, 8⟩ 24 = 0 := h.linked
    have hs : skipLevelsSearch l.arena ⟨l.arena.cur, 8⟩ 0 1 (1 - 1) = -1 := by
      simp only [skipLevelsSearch, hl32, hh]
      decide
    rw [hs, searchLevels]
    simp [locate]
  | cons r rs =>
    have hlk := h.linked
    simp only [Linked] at hlk
    have hr0 := h.recs r (List.mem_cons_self _ _)
    have hh : l.arena.load ⟨l.arena.cur, 8⟩ 24 = r.off := hlk.1
    have hne : ¬ (r.off = 0) := by have := hr0.2.2.1; omega
    have hs : skipLevelsSearch l.arena ⟨l.arena.cur, 8⟩ 0 1 (1 - 1) = 0 := by
      simp only [skipLevelsSearch, hl32, hh, hne, and_false, ↓reduceIte]
      decide
    rw [hs, searchLevels]
    have hlt0 : ¬ ((0:Int) < 0) := by decide
    simp only [hlt0, ↓reduceIte]
    cases hloc : (locate key 8 (r :: rs)).2 with
    | some x =>
      rw [hloc] at hscan0
      simp only at hscan0
      have hx : x ∈ r :: rs := (locate_mem key _ _ x hloc).1
      have hv := getValue_rec l.arena x (h.recs x hx) h.room h.n_hi
      simp only [hscan0, hv, Option.map_some']
    | none =>
      rw [hloc] at hscan0
      obtain ⟨hdrs', h1, _⟩ := hscan0
      have h20' : ¬ (((defaultMaxLevel : Nat) : Int) ≤ 0) := by decide
      simp only [h1, h20', ↓reduceIte, Option.map_none']
      simp [searchLevels, skipLevelsSearch]

theorem Foot_lt (B : Nat → Nat) (n : Nat) (r : Rec) (h : RecOK B n r) (a : Nat) (ha : Foot r a) :
    a < n := by
  obtain ⟨_, _, _, h4, _, h6, _, h8, _⟩ := h
  simp only [Foot, scoreField, valueField, keyOffsetField, keySizeField, heightField] at ha
  omega

theorem RecOK_frame (B B' : Nat → Nat) (n n' : Nat) (r : Rec) (h : RecOK B n r) (hn : n ≤ n')
    (hB : ∀ a, Foot r a → B' a = B a) : RecOK B' n' r := by
  obtain ⟨h1, h2, h3, h4, h5, h6, h7, h8, h9, h10, h11, h12, h13, h14, h15⟩ := h
  refine ⟨h1, h2, h3, by omega, h5, by omega, h7, by omega, ?_, ?_, ?_, ?_, ?_, ?_, ?_⟩
  · rw [hB _ (Or.inl rfl)]; exact h9
  · rw [hB _ (Or.inr (Or.inl rfl))]; exact h10
  · rw [hB _ (Or.inr (Or.inr (Or.inl rfl)))]; exact h11
  · rw [hB _ (Or.inr (Or.inr (Or.inr (Or.inl rfl))))]; exact h12
  · intro j hj
    rw [hB _ (Or.inr (Or.inr (Or.inr (Or.inr (Or.inl ⟨by omega, by omega⟩)))))]
    exact h13 j hj
  · intro j hj
    rw [hB _ (Or.inr (Or.inr (Or.inr (Or.inr (Or.inr (Or.inl ⟨by omega, by omega⟩))))))]
    exact h14 j hj
  · rw [hB _ (Or.inr (Or.inr (Or.inr (Or.inr (Or.inr (Or.inr rfl))))))]; exact h15

theorem Linked_frame (B B' : Nat → Nat) : ∀ (rs : List Rec) (p : Nat),
    Linked B p rs → B' (p + 24) = B (p + 24) → (∀ r ∈ rs, B' (r.off + 24) = B (r.off + 24)) →
    Linked B' p rs := by
  intro rs
  induction rs with
  | nil => intro p hl hp _; simp only [Linked] at hl ⊢; rw [hp]; exact hl
  | cons r rs ih =>
    intro p hl hp hr
    simp only [Linked] at hl ⊢
    refine ⟨by rw [hp]; exact hl.1, ?_⟩
    exact ih r.off hl.2 (hr r (List.mem_cons_self _ _))
      (fun x hx => hr x (List.mem_cons_of_mem _ hx))

/-- A link cell of the head or of a linked node is outside every footprint. -/
theorem link_not_Foot (B : Nat → Nat) (n : Nat) (rs : List Rec) (hs : Sep rs)
    (hr : ∀ r ∈ rs, RecOK B n r) (q : Nat) (hq : q = 8 ∨ ∃ rq ∈ rs, rq.off = q)
    (r : Rec) (hmem : r ∈ rs) (a : Nat) (ha : Foot r a) : a ≠ q + 24 := by
  obtain ⟨_, _, h3, h4, h5, h6, h7, h8, _⟩ := hr r hmem
  simp only [Foot, scoreField, valueField, keyOffsetField, keySizeField, heightField] at ha
  rcases hq with rfl | ⟨rq, hrq, rfl⟩
  · omega
  · obtain ⟨s1, s2, s3⟩ := hs rq hrq r hmem
    omega

theorem mem_insertAt (K : List Nat) (new : Rec) : ∀ (rs : List Rec) (x : Rec),
    x ∈ insertAt K new rs ↔ x = new ∨ x ∈ rs := by
  intro rs
  induction rs with
  | nil => intro x; simp [insertAt]
  | cons r rs ih =>
    intro x
    simp only [insertAt]
    split
    · simp
    · simp only [List.mem_cons, ih]
      tauto

theorem length_insertAt (K : List Nat) (new : Rec) : ∀ (rs : List Rec),
    (insertAt K new rs).length = rs.length + 1 := by
  intro rs
  induction rs with
  | nil => simp [insertAt]
  | cons r rs ih =>
    simp only [insertAt]
    split
    · simp
    · simp [ih]

theorem locate_fst (key : List Nat) : ∀ (rs : List Rec) (p : Nat),
    (locate key p rs).1 = p ∨ ∃ r ∈ rs, r.off = (locate key p rs).1 := by
  intro rs
  induction rs with
  | nil => intro p; left; rfl
  | cons r rs ih =>
    intro p
    simp only [locate]
    split
    · left; rfl
    · right
      rcases ih r.off with h | ⟨x, hx, hxe⟩
      · exact ⟨r, List.mem_cons_self _ _, h.symm⟩
      · exact ⟨x, List.mem_cons_of_mem _ hx, hxe⟩

theorem sorted_insertAt (new : Rec) : ∀ (rs : List Rec) (p : Nat),
    SortedRecs rs → (locate new.key p rs).2 = none → SortedRecs (insertAt new.key new rs) := by
  intro rs
  induction rs with
  | nil => intro p _ _; simp [insertAt, SortedRecs]
  | cons r rs ih =>
    intro p hs hl
    simp only [locate] at hl
    simp only [insertAt]
    unfold SortedRecs at hs ⊢
    rw [List.pairwise_cons] at hs
    by_cases hle : bytesCompare new.key r.key ≤ 0
    · simp only [hle, ↓reduceIte] at hl ⊢
      have hne : new.key ≠ r.key := by
        intro he; simp [he] at hl
      have hlt : bytesCompare new.key r.key < 0 := by
        have := (bytesCompare_eq_zero new.key r.key).not.mpr hne
        omega
      rw [List.pairwise_cons]
      refine ⟨?_, List.pairwise_cons.mpr hs⟩
      intro x hx
      rcases List.mem_cons.mp hx with rfl | hx
      · exact hlt
      · exact bytesCompare_trans _ _ _ hlt (hs.1 x hx)
    · simp only [hle, ↓reduceIte] at hl ⊢
      rw [List.pairwise_cons]
      refine ⟨?_, ih r.off hs.2 hl⟩
      intro x hx
      rcases (mem_insertAt new.key new rs x).mp hx with rfl | hx
      · rw [bytesCompare_swap x.key r.key]; omega
      · exact hs.1 x hx

theorem key_of_off (B : Nat → Nat) (n : Nat) (a b : Rec) (ha : RecOK B n a) (hb : RecOK B n b)
    (h : a.off = b.off) : a.key = b.key := by
  obtain ⟨_, _, _, _, _, _, _, _, _, _, a11, a12, a13, _⟩ := ha
  obtain ⟨_, _, _, _, _, _, _, _, _, _, b11, b12, b13, _⟩ := hb
  rw [h] at a11 a12
  have hko : a.ko = b.ko := by rw [← a11, ← b11]
  have hlen : a.key.length = b.key.length := by rw [← a12, ← b12]
  apply List.ext_getElem hlen
  intro i h1 h2
  have e1 := a13 i h1
  have e2 := b13 i h2
  rw [hko, e2, List.getD_eq_getElem?_getD, List.getD_eq_getElem?_getD,
    List.getElem?_eq_getElem h1, List.getElem?_eq_getElem h2] at e1
  exact (Option.some.inj (congrArg some e1)).symm

/-- Linked nodes lie at different offsets. -/
theorem offs_distinct (B : Nat → Nat) (n : Nat) (rs : List Rec)
    (hr : ∀ r ∈ rs, RecOK B n r) (hsort : SortedRecs rs) :
    rs.Pairwise fun r r' => r.off ≠ r'.off := by
  unfold SortedRecs at hsort
  refine List.Pairwise.imp_of_mem ?_ hsort
  intro a b ha hb hlt he
  rw [key_of_off B n a b (hr a ha) (hr b hb) he, bytesCompare_self] at hlt
  exact absurd hlt (by decide)

/-- The level-0 chain after the stores that link `new` behind the node at `q`. -/
theorem Linked_insert (B B' : Nat → Nat) (K : List Nat) (new : Rec) : ∀ (rs : List Rec) (p : Nat),
    Linked B p rs → (∀ r ∈ rs, r.off ≠ p) → (rs.Pairwise fun r r' => r.off ≠ r'.off) →
    (locate K p rs).2 = none →
    B' ((locate K p rs).1 + 24) = new.off →
    B' (new.off + 24) = B ((locate K p rs).1 + 24) →
    (∀ x, (x = p ∨ ∃ r ∈ rs, r.off = x) → x ≠ (locate K p rs).1 →
      B' (x + 24) = B (x + 24)) →
    Linked B' p (insertAt K new rs) := by
  intro rs
  induction rs with
  | nil =>
    intro p hl _ _ _ h1 h2 _
    simp only [locate] at h1 h2
    simp only [Linked] at hl
    simp only [insertAt, Linked]
    exact ⟨h1, by rw [h2, hl]⟩
  | cons r rs ih =>
    intro p hl hp hnd hloc h1 h2 hfr
    simp only [Linked] at hl
    rw [List.pairwise_cons] at hnd
    simp only [locate] at hloc h1 h2 hfr
    simp only [insertAt]
    by_cases hle : bytesCompare K r.key ≤ 0
    · simp only [hle, ↓reduceIte] at hloc h1 h2 hfr ⊢
      simp only [Linked]
      refine ⟨h1, by rw [h2]; exact hl.1, ?_⟩
      apply Linked_frame B B' rs r.off hl.2
      · exact hfr r.off (Or.inr ⟨r, List.mem_cons_self _ _, rfl⟩)
          (hp r (List.mem_cons_self _ _))
      · intro x hx
        exact hfr x.off (Or.inr ⟨x, List.mem_cons_of_mem _ hx, rfl⟩)
          (hp x (List.mem_cons_of_mem _ hx))
    · simp only [hle, ↓reduceIte] at hloc h1 h2 hfr ⊢
      simp only [Linked]
      have hqne : p ≠ (locate K r.off rs).1 := by
        rcases locate_fst K rs r.off with h | ⟨x, hx, hxe⟩
        · rw [h]; exact (hp r (List.mem_cons_self _ _)).symm
        · rw [← hxe]; exact (hp x (List.mem_cons_of_mem _ hx)).symm
      refine ⟨by rw [hfr p (Or.inl rfl) hqne]; exact hl.1, ?_⟩
      apply ih r.off hl.2 (fun x hx => (hnd.1 x hx).symm) hnd.2 hloc h1 h2
      intro x hx hne
      apply hfr x _ hne
      rcases hx with rfl | ⟨y, hy, rfl⟩
      · exact Or.inr ⟨r, List.mem_cons_self _ _, rfl⟩
      · exact Or.inr ⟨y, List.mem_cons_of_mem _ hy, rfl⟩

/-- The invariant survives every change of the arena that keeps the cells below the old
cursor. -/
theorem Inv_frame (l l' : SkipList) (rs : List Rec) (h : Inv l rs)
    (h1 : l'.maxLevel = l.maxLevel) (h2 : l'.currHeight = l.currHeight)
    (h3 : l'.headOffset = l.headOffset) (hn : l.arena.n ≤ l'.arena.n)
    (hn32 : l'.arena.n < 2 ^ 32) (hroom : l'.arena.n + 104 ≤ l'.arena.len)
    (hB : ∀ a, a < l.arena.n → l'.arena.buf a = l.arena.buf a) : Inv l' rs := by
  have hlo := h.n_lo
  refine ⟨⟨by rw [h1]; exact h.maxLevel, by rw [h2]; exact h.currHeight,
    by rw [h3]; exact h.headOffset, by omega, hn32, hroom, ?_, ?_, ?_, ?_, h.sep⟩, h.sorted⟩
  · rw [hB 36 (by omega)]; exact h.top
  · exact (hB 30 (by omega)).trans h.headHeight
  · apply Linked_frame _ _ rs 8 h.linked (hB _ (by omega))
    intro r hr
    have := (h.recs r hr).2.2.2.1
    exact hB _ (by omega)
  · intro r hr
    exact RecOK_frame _ _ _ _ r (h.recs r hr) hn
      (fun a ha => hB a (Foot_lt _ _ r (h.recs r hr) a ha))

/-- The invariant after a new node was written above the old cursor and linked behind the
node at `q`. -/
theorem Inv0_insert (l l' : SkipList) (rs : List Rec) (K : List Nat) (new : Rec)
    (h : Inv l rs)
    (h1 : l'.maxLevel = l.maxLevel) (h2 : l'.currHeight = l.currHeight)
    (h3 : l'.headOffset = l.headOffset) (hn : l.arena.n + 35 ≤ l'.arena.n)
    (hn32 : l'.arena.n < 2 ^ 32) (hroom : l'.arena.n + 104 ≤ l'.arena.len)
    (hloc : (locate K 8 rs).2 = none)
    (hnew : RecOK l'.arena.buf l'.arena.n new)
    (hoff : l.arena.n ≤ new.off) (hko : new.off + 28 ≤ new.ko) (hvo : new.off + 28 ≤ new.vo)
    (hB : ∀ a, a < l.arena.n → a ≠ (locate K 8 rs).1 + 24 →
      l'.arena.buf a = l.arena.buf a)
    (hq : l'.arena.buf ((locate K 8 rs).1 + 24) = new.off)
    (hm : l'.arena.buf (new.off + 24) = l.arena.buf ((locate K 8 rs).1 + 24)) :
    Inv0 l' (insertAt K new rs) := by
  have hlo := h.n_lo
  have hqmem : (locate K 8 rs).1 = 8 ∨ ∃ rq ∈ rs, rq.off = (locate K 8 rs).1 :=
    locate_fst K rs 8
  have hqlt : (locate K 8 rs).1 = 8 ∨ 113 ≤ (locate K 8 rs).1 := by
    rcases hqmem with e | ⟨rq, hrq, e⟩
    · exact Or.inl e
    · right; rw [← e]; exact (h.recs rq hrq).2.2.1
  refine ⟨by rw [h1]; exact h.maxLevel, by rw [h2]; exact h.currHeight,
    by rw [h3]; exact h.headOffset, by rw [length_insertAt]; omega, hn32, hroom,
    ?_, ?_, ?_, ?_, ?_⟩
  · rw [hB 36 (by omega) (by omega)]; exact h.top
  · exact (hB 30 (by omega) (by omega)).trans h.headHeight
  · apply Linked_insert _ _ K new rs 8 h.linked
      (fun r hr => by have := (h.recs r hr).2.2.1; omega)
      (offs_distinct _ _ rs h.recs h.sorted) hloc hq hm
    intro x hx hne
    apply hB
    · rcases hx with rfl | ⟨r, hr, rfl⟩
      · omega
      · have := (h.recs r hr).2.2.2.1; omega
    · omega
  · intro r hr
    rcases (mem_insertAt K new rs r).mp hr with e | hr
    · rw [e]; exact hnew
    · exact RecOK_frame _ _ _ _ r (h.recs r hr) (by omega)
        (fun a ha => hB a (Foot_lt _ _ r (h.recs r hr) a ha)
          (link_not_Foot _ _ rs h.sep h.recs _ hqmem r hr a ha))
  · intro r hr r' hr'
    obtain ⟨_, _, n3, n4, n5, n6, n7, n8, _⟩ := hnew
    rcases (mem_insertAt K new rs r).mp hr with e | hr
    · rcases (mem_insertAt K new rs r').mp hr' with e' | hr'
      · rw [e, e']; exact ⟨Or.inl rfl, by omega, by omega⟩
      · obtain ⟨_, _, o3, o4, o5, o6, o7, o8, _⟩ := h.recs r' hr'
        rw [e]; exact ⟨by omega, by omega, by omega⟩
    · obtain ⟨_, _, o3, o4, o5, o6, o7, o8, _⟩ := h.recs r hr
      rcases (mem_insertAt K new rs r').mp hr' with e' | hr'
      · rw [e']; exact ⟨by omega, by omega, by omega⟩
      · exact h.sep r hr r' hr'

/-- The invariant after a new node was linked at the place of its own key. -/
theorem Inv_insert (l l' : SkipList) (rs : List Rec) (new : Rec) (h : Inv l rs)
    (h0 : Inv0 l' (insertAt new.key new rs)) (hloc : (locate new.key 8 rs).2 = none) :
    Inv l' (insertAt new.key new rs) :=
  ⟨h0, sorted_insertAt new rs 8 h.sorted hloc⟩

theorem sorted_iff_map (rs : List Rec) :
    SortedRecs rs ↔ (rs.map Rec.key).Pairwise fun a b => bytesCompare a b < 0 := by
  unfold SortedRecs
  rw [List.pairwise_map]

theorem Linked_congr (B : Nat → Nat) : ∀ (rs rs' : List Rec) (p : Nat),
    rs.map Rec.off = rs'.map Rec.off → Linked B p rs → Linked B p rs' := by
  intro rs
  induction rs with
  | nil =>
    intro rs' p he hl
    cases rs' with
    | nil => exact hl
    | cons r' rs' => simp at he
  | cons r rs ih =>
    intro rs' p he hl
    cases rs' with
    | nil => simp at he
    | cons r' rs' =>
      simp only [List.map_cons, List.cons.injEq] at he
      simp only [Linked] at hl ⊢
      rw [← he.1]
      exact ⟨hl.1, ih rs' r.off he.2 hl.2⟩

theorem replaceRec_off (key val : List Nat) (vo : Nat) : ∀ rs : List Rec,
    (replaceRec key val vo rs).map Rec.off = rs.map Rec.off := by
  intro rs
  induction rs with
  | nil => rfl
  | cons r rs ih =>
    simp only [replaceRec]
    split
    · split <;> rfl
    · simp [ih]

theorem replaceRec_key (key val : List Nat) (vo : Nat) : ∀ rs : List Rec,
    (replaceRec key val vo rs).map Rec.key = rs.map Rec.key := by
  intro rs
  induction rs with
  | nil => rfl
  | cons r rs ih =>
    simp only [replaceRec]
    split
    · split <;> rfl
    · simp [ih]

theorem replaceRec_length (key val : List Nat) (vo : Nat) (rs : List Rec) :
    (replaceRec key val vo rs).length = rs.length := by
  have := congrArg List.length (replaceRec_off key val vo rs)
  simpa using this

/-- The members of a sorted list after `replaceRec`: the nodes with another key, and the
updated node. -/
theorem mem_replaceRec (key val : List Nat) (vo : Nat) : ∀ (rs : List Rec) (x : Rec),
    SortedRecs rs → x ∈ replaceRec key val vo rs →
    (x ∈ rs ∧ x.key ≠ key) ∨ ∃ y ∈ rs, y.key = key ∧ x = { y with val := val, vo := vo } := by
  intro rs
  induction rs with
  | nil => intro x _ hx; simp [replaceRec] at hx
  | cons r rs ih =>
    intro x hs hx
    unfold SortedRecs at hs
    rw [List.pairwise_cons] at hs
    simp only [replaceRec] at hx
    by_cases hle : bytesCompare key r.key ≤ 0
    · simp only [hle, ↓reduceIte] at hx
      by_cases he : key = r.key
      · simp only [he, ↓reduceIte, List.mem_cons] at hx
        rcases hx with rfl | hx
        · right; exact ⟨r, List.mem_cons_self _ _, he.symm, rfl⟩
        · left
          refine ⟨List.mem_cons_of_mem _ hx, ?_⟩
          intro hk
          have := hs.1 x hx
          rw [hk, he, bytesCompare_self] at this
          exact absurd this (by decide)
      · simp only [he, ↓reduceIte, List.mem_cons] at hx
        have hlt : bytesCompare key r.key < 0 := by
          have := (bytesCompare_eq_zero key r.key).not.mpr he
          omega
        left
        rcases hx with rfl | hx
        · exact ⟨List.mem_cons_self _ _, fun hk => he hk.symm⟩
        · refine ⟨List.mem_cons_of_mem _ hx, ?_⟩
          intro hk
          have := bytesCompare_trans _ _ _ hlt (hs.1 x hx)
          rw [hk, bytesCompare_self] at this
          exact absurd this (by decide)
    · simp only [hle, ↓reduceIte, List.mem_cons] at hx
      rcases hx with rfl | hx
      · left
        refine ⟨List.mem_cons_self _ _, ?_⟩
        intro hk
        rw [hk, bytesCompare_self] at hle
        exact hle (by decide)
      · rcases ih x hs.2 hx with ⟨h1, h2⟩ | ⟨y, hy, h1, h2⟩
        · exact Or.inl ⟨List.mem_cons_of_mem _ h1, h2⟩
        · exact Or.inr ⟨y, List.mem_cons_of_mem _ hy, h1, h2⟩

theorem sorted_key_inj (rs : List Rec) (hs : SortedRecs rs) :
    ∀ a ∈ rs, ∀ b ∈ rs, a.key = b.key → a = b := by
  unfold SortedRecs at hs
  apply List.Pairwise.forall_of_forall (R := fun a b : Rec => a.key = b.key → a = b)
  · intro a b hab he; exact (hab he.symm).symm
  · intro a _ _; rfl
  · refine hs.imp ?_
    intro a b hlt he
    rw [he, bytesCompare_self] at hlt
    exact absurd hlt (by decide)

/-- The invariant after the value of the node `r0` was replaced by a value written above
the old cursor. -/
theorem Inv_replace (l l' : SkipList) (rs : List Rec) (r0 : Rec) (val : List Nat) (vo : Nat)
    (h : Inv l rs) (h1 : l'.maxLevel = l.maxLevel) (h2 : l'.currHeight = l.currHeight)
    (h3 : l'.headOffset = l.headOffset) (hn : l.arena.n ≤ l'.arena.n)
    (hn32 : l'.arena.n < 2 ^ 32) (hroom : l'.arena.n + 104 ≤ l'.arena.len)
    (hmem : r0 ∈ rs) (hvo : l.arena.n ≤ vo) (hvo' : vo + (val.length + 1) ≤ l'.arena.n)
    (hB : ∀ a, a < l.arena.n → a ≠ r0.off + valueField → l'.arena.buf a = l.arena.buf a)
    (hcell : l'.arena.buf (r0.off + valueField) = encodeValue vo (val.length + 1))
    (hbytes : ∀ j, j < val.length + 1 → l'.arena.buf (vo + j) = (0 :: val).getD j 0) :
    Inv l' (replaceRec r0.key val vo rs) := by
  have hlo := h.n_lo
  have hr0 := h.recs r0 hmem
  have hs0 := h.sep r0 hmem
  have hmem' : ∀ x ∈ replaceRec r0.key val vo rs,
      (x ∈ rs ∧ x.key ≠ r0.key) ∨ x = { r0 with val := val, vo := vo } := by
    intro x hx
    rcases mem_replaceRec _ _ _ rs x h.sorted hx with hh | ⟨y, hy, hyk, rfl⟩
    · exact Or.inl hh
    · right; rw [sorted_key_inj rs h.sorted y hy r0 hmem hyk]
  refine ⟨⟨by rw [h1]; exact h.maxLevel, by rw [h2]; exact h.currHeight,
    by rw [h3]; exact h.headOffset, by rw [replaceRec_length]; omega, hn32, hroom,
    ?_, ?_, ?_, ?_, ?_⟩, ?_⟩
  · have := hr0.2.2.1
    simp only [valueField] at hB
    rw [hB 36 (by omega) (by omega)]; exact h.top
  · have := hr0.2.2.1
    simp only [valueField] at hB
    exact (hB 30 (by omega) (by omega)).trans h.headHeight
  · apply Linked_congr _ rs _ 8 (replaceRec_off _ _ _ rs).symm
    have := hr0.2.2.1
    simp only [valueField] at hB
    apply Linked_frame _ _ rs 8 h.linked (hB _ (by omega) (by omega))
    intro r hr
    have hb := (h.recs r hr).2.2.2.1
    have := (hs0 r hr).1
    exact hB _ (by omega) (by omega)
  · intro x hx
    rcases hmem' x hx with ⟨hxm, hxk⟩ | rfl
    · apply RecOK_frame _ _ _ _ x (h.recs x hxm) hn
      intro a ha
      apply hB a (Foot_lt _ _ x (h.recs x hxm) a ha)
      have hne : r0.off ≠ x.off := fun he =>
        hxk (key_of_off _ _ r0 x hr0 (h.recs x hxm) he).symm
      obtain ⟨s1, s2, s3⟩ := hs0 x hxm
      simp only [Foot, scoreField, valueField, keyOffsetField, keySizeField, heightField] at ha ⊢
      omega
    · obtain ⟨o1, o2, o3, o4, o5, o6, o7, o8, o9, o10, o11, o12, o13, o14, o15⟩ := hr0
      obtain ⟨_, s2, _⟩ := hs0 r0 hmem
      unfold RecOK
      dsimp only
      simp only [scoreField, valueField, keyOffsetField, keySizeField, heightField] at hB hcell o9 o11 o12 o15 ⊢
      refine ⟨o1, o2, o3, by omega, o5, by omega, by omega, hvo', ?_, hcell, ?_, ?_, ?_, hbytes, ?_⟩
      · rw [hB _ (by omega) (by omega)]; exact o9
      · rw [hB _ (by omega) (by omega)]; exact o11
      · rw [hB _ (by omega) (by omega)]; exact o12
      · intro j hj
        rw [hB _ (by omega) (by omega)]; exact o13 j hj
      · rw [hB _ (by omega) (by omega)]; exact o15
  · intro x hx x' hx'
    have hx1 : ∃ y ∈ rs, x.off = y.off := by
      rcases hmem' x hx with ⟨hxm, _⟩ | rfl
      · exact ⟨x, hxm, rfl⟩
      · exact ⟨r0, hmem, rfl⟩
    obtain ⟨y, hy, hyo⟩ := hx1
    have hyb := (h.recs y hy).2.2.2.1
    rw [hyo]
    rcases hmem' x' hx' with ⟨hxm', _⟩ | rfl
    · exact h.sep y hy x' hxm'
    · obtain ⟨s1, s2, _⟩ := h.sep y hy r0 hmem
      exact ⟨s1, s2, by simp only; omega⟩
  · rw [sorted_iff_map, replaceRec_key, ← sorted_iff_map]; exact h.sorted

theorem modelPut_self (k v : List Nat) : ∀ m, modelPut m k k v = modelAdd m k v := by
  intro m
  induction m with
  | nil => rfl
  | cons a m ih => simp only [modelPut, modelAdd, ih]

theorem insertAt_kv (K : List Nat) (new : Rec) : ∀ (rs : List Rec) (p : Nat),
    (locate K p rs).2 = none →
    (insertAt K new rs).map kv = modelPut (rs.map kv) K new.key new.val := by
  intro rs
  induction rs with
  | nil => intro p _; rfl
  | cons r rs ih =>
    intro p hl
    simp only [locate] at hl
    simp only [insertAt, List.map_cons, modelPut, kv]
    by_cases hle : bytesCompare K r.key ≤ 0
    · simp only [hle, ↓reduceIte] at hl ⊢
      have hne : K ≠ r.key := by
        intro he; simp [he] at hl
      simp only [hne, ↓reduceIte, List.map_cons, kv]
    · simp only [hle, ↓reduceIte] at hl ⊢
      simp only [List.map_cons, kv, List.cons.injEq, true_and]
      exact ih r.off hl

theorem replaceRec_kv (key sk val : List Nat) (vo : Nat) :
    ∀ (rs : List Rec) (p : Nat) (x : Rec), (locate key p rs).2 = some x →
    (replaceRec key val vo rs).map kv = modelPut (rs.map kv) key sk val := by
  intro rs
  induction rs with
  | nil => intro p x hl; simp [locate] at hl
  | cons r rs ih =>
    intro p x hl
    simp only [locate] at hl
    simp only [replaceRec, List.map_cons, modelPut, kv]
    by_cases hle : bytesCompare key r.key ≤ 0
    · simp only [hle, ↓reduceIte] at hl ⊢
      by_cases he : key = r.key
      · simp only [he, ↓reduceIte, List.map_cons, kv]
      · simp [he] at hl
    · simp only [hle, ↓reduceIte] at hl ⊢
      simp only [List.map_cons, kv, List.cons.injEq, true_and]
      exact ih r.off x hl

theorem NewSkipList_spec (cap : Nat) :
    ∃ l, NewSkipList cap = some l ∧ Inv l [] ∧ l.arena.n = 113 ∧ cap ≤ l.arena.len ∧
      (217 ≤ cap → l.arena.cur = 0 ∧ l.arena.len = cap) := by
  have h0 : sizeVarint 0 = 1 := by decide
  have hn1 : 1 ≤ (newArena cap).n := Nat.le_refl 1
  have hnw : (newArena cap).n + (31 + 4 * defaultMaxLevel) + ([] : List Nat).length +
      ((ValueStruct.mk [] 0).Value.length + sizeVarint (ValueStruct.mk [] 0).ExpiresAt) < 2 ^ 32 := by
    show 1 + (31 + 4 * 20) + 0 + (0 + sizeVarint 0) < 2 ^ 32
    rw [h0]; norm_num
  have hrm : (newArena cap).n + 104 ≤ (newArena cap).len ∨
      (newArena cap).n + (31 + 4 * defaultMaxLevel) + 104 ≤ 2 ^ 30 :=
    Or.inr (by show 1 + (31 + 4 * 20) + 104 ≤ 2 ^ 30; norm_num)
  obtain ⟨s', hnew, hn, hroom, hlen, _, _, _, _, _, _, _, hh, _, _, hz, hng⟩ :=
    newNode_spec (newArena cap) [] { Value := [], ExpiresAt := 0 } defaultMaxLevel
      (by decide) (by decide) (by decide) hn1 hnw hrm
  have hn' : s'.n = 113 := by
    rw [hn]
    show 1 + (31 + 4 * 20) + 0 + (0 + sizeVarint 0) = 113
    rw [h0]
  have hm : ((newArena cap).n + 7) / 8 * 8 = 8 := by simp [newArena]
  rw [hm] at hnew hz hh
  have hoff : getNodeOffset s' (some ⟨s'.cur, 8⟩) = some 8 := by
    simp only [getNodeOffset, true_and]
    have : 0 < s'.len := by omega
    simp [this]
  have hzero : ∀ a, (newArena cap).buf a = 0 := fun a => rfl
  refine ⟨{ maxLevel := 0, currHeight := 1, headOffset := 8, arena := s' }, ?_, ?_, hn', hlen,
    ?_⟩
  · simp only [NewSkipList, hnew, Option.some_bind, hoff, Option.map_some']
  · refine ⟨⟨rfl, rfl, rfl, by simp only [List.length_nil]; omega, by simp only; omega,
      by simp only; omega, ?_, ?_, ?_, ?_, ?_⟩, ?_⟩
    · exact hz 36 (hzero 36) (by decide) (by show 36 < 1 + (31 + 4 * 20); decide)
    · exact hh
    · exact hz 32 (hzero 32) (by decide) (by show 32 < 1 + (31 + 4 * 20); decide)
    · intro r hr; simp at hr
    · intro r hr; simp at hr
    · exact List.Pairwise.nil
  · intro hcap
    exact hng (by
      show 1 + (31 + 4 * 20) + 0 + (0 + sizeVarint 0) + 104 ≤ cap
      rw [h0]; omega)

theorem addLevels_spec (l : SkipList) (rs : List Rec) (h : Inv l rs) (key : List Nat)
    (hk : IsBytes key) :
    match (locate key 8 rs).2 with
    | some r => addLevels l.arena (calcScore key) key 1 0 ⟨l.arena.cur, 8⟩ (fun _ => none) =
        some (Located.found ⟨l.arena.cur, r.off⟩)
    | none => ∃ hdrs, addLevels l.arena (calcScore key) key 1 0 ⟨l.arena.cur, 8⟩
        (fun _ => none) = some (Located.absent hdrs) ∧
        hdrs 0 = some ⟨l.arena.cur, (locate key 8 rs).1⟩ := by
  have hscan := scanLevel_spec l.arena key hk h.room h.n_hi rs l.arena.n 8
    (fun j => if j = (0 : Int).toNat then some ⟨l.arena.cur, 8⟩ else none)
    (by have := h.n_lo; omega) h.linked h.recs
  have hlt : ¬ ((0:Int) < 0) := by decide
  have h20 : ¬ (((defaultMaxLevel : Nat) : Int) ≤ 0) := by decide
  cases hloc : (locate key 8 rs).2 with
  | some x =>
    rw [hloc] at hscan
    simp only at hscan ⊢
    rw [addLevels]
    simp only [hlt, h20, ↓reduceIte, hscan]
  | none =>
    rw [hloc] at hscan
    obtain ⟨hdrs', h1, h2⟩ := hscan
    refine ⟨hdrs', ?_, h2 (by simp)⟩
    rw [addLevels]
    simp only [hlt, h20, ↓reduceIte, h1]
    have e0 : (0:Int).toNat = 0 := rfl
    rw [e0]
    simp only [skipLevels, addLevels]
    have : ((0:Int) - 1 - 1 < 0) := by decide
    simp only [this, ↓reduceIte]

theorem randLevel_zero (draws : Nat → Nat) : randLevel 0 draws = 1 := by
  simp [randLevel]

theorem locate_fst_lt (l : SkipList) (rs : List Rec) (h : Inv l rs) (key : List Nat) :
    (locate key 8 rs).1 + 28 ≤ l.arena.n := by
  have hlo := h.n_lo
  rcases locate_fst key rs 8 with e | ⟨r, hr, e⟩
  · rw [e]; omega
  · rw [← e]
    exact (h.recs r hr).2.2.2.1

theorem inv_pack (l : SkipList) (rs : List Rec) (M : List (List Nat × List Nat)) (P : Prop)
    (h : Inv l rs) (hkv : rs.map kv = M) :
    ∃ rs', Inv0 l rs' ∧ rs'.map kv = M ∧ (P → SortedRecs rs') :=
  ⟨rs, h.toInv0, hkv, fun _ => h.sorted⟩

theorem take_getD (K : List Nat) (n j : Nat) (hj : j < n) :
    (K.take n).getD j 0 = K.getD j 0 := by
  rw [List.getD_eq_getElem?_getD, List.getD_eq_getElem?_getD, List.getElem?_take_of_lt hj]

/-- `Add` on a list that satisfies the invariant, when the cursor does not wrap: the call
returns; if the arena kept its buffer the list holds the nodes of the model after the
call, and if the arena grew the list holds the nodes it held before.  The new node reads
back with the first `len(Key) mod 2^16` bytes of the key. -/
theorem Add_spec (l : SkipList) (rs : List Rec) (h : Inv l rs) (draws : Nat → Nat) (e : Entry)
    (hk : IsBytes e.Key)
    (hsc : calcScore (e.Key.take (e.Key.length % 2 ^ 16)) = calcScore e.Key)
    (hfit : l.arena.n + 35 + e.Key.length + (e.Value.length + 1) < 2 ^ 32) :
    ∃ l', Add l draws e = some l' ∧ l.arena.cur ≤ l'.arena.cur ∧ l.arena.n ≤ l'.arena.n ∧
      l'.arena.n ≤ l.arena.n + 35 + e.Key.length + (e.Value.length + 1) ∧
      l.arena.len ≤ l'.arena.len ∧
      (l.arena.n + 35 + e.Key.length + (e.Value.length + 1) + 104 ≤ l.arena.len →
        l'.arena.cur = l.arena.cur ∧ l'.arena.len = l.arena.len) ∧
      ((l'.arena.cur = l.arena.cur ∧
          ∃ rs', Inv0 l' rs' ∧
            rs'.map kv = modelPut (rs.map kv) e.Key (e.Key.take (e.Key.length % 2 ^ 16)) e.Value ∧
            (e.Key.length ≤ 65535 → SortedRecs rs')) ∨
        (l'.arena.cur ≠ l.arena.cur ∧ Inv l' rs)) ∧
      ((locate e.Key 8 rs).2 = none →
        l'.arena.n = l.arena.n + 35 + e.Key.length + (e.Value.length + 1)) := by
  have hlo := h.n_lo
  have hhi := h.n_hi
  have hroom := h.room
  have hg : getNode l.arena l.headOffset = some (some ⟨l.arena.cur, 8⟩) := by
    rw [h.headOffset]
    exact getNode_some _ _ (by decide) (by omega)
  have hal := addLevels_spec l rs h e.Key hk
  have h0 : sizeVarint 0 = 1 := by decide
  have hp0 : putUvarint 0 = [0] := by decide
  have e1 : (1 : Int).toNat = 1 := rfl
  have e2 : (1 : Int) - 1 = 0 := rfl
  have hq28 := locate_fst_lt l rs h e.Key
  unfold Add
  simp only [hg, h.currHeight, h.maxLevel, e1, e2, randLevel_zero]
  cases hloc : (locate e.Key 8 rs).2 with
  | some r0 =>
    rw [hloc] at hal
    simp only at hal
    obtain ⟨hmem, hkey⟩ := locate_mem e.Key rs 8 r0 hloc
    obtain ⟨hes, hpv⟩ := putValue_eq l.arena (ValueStruct.mk e.Value 0) (Nat.two_pow_pos 64)
      (by show l.arena.n + (e.Value.length + sizeVarint 0) < 2 ^ 32; rw [h0]; omega) hroom
    simp only [h0, hp0] at hes hpv
    simp only [hal, hpv, hes]
    have hn1 : (bump l.arena (e.Value.length + 1)).n = l.arena.n + (e.Value.length + 1) :=
      bump_n _ _ (by omega)
    have hr1 : (bump l.arena (e.Value.length + 1)).n + 104 ≤
        (bump l.arena (e.Value.length + 1)).len := bump_room _ _ (by omega) (Or.inl hroom)
    have hb1 : ∀ a, a < l.arena.len → (bump l.arena (e.Value.length + 1)).buf a = l.arena.buf a :=
      fun a ha => bump_buf _ _ a ha
    have hc1 := bump_cur l.arena (e.Value.length + 1)
    have hl1 := bump_len_le l.arena (e.Value.length + 1)
    have hk1 := bump_nogrow l.arena (e.Value.length + 1) (by omega)
    generalize bump l.arena (e.Value.length + 1) = s1 at hn1 hr1 hb1 hc1 hl1 hk1
    have hr0 := h.recs r0 hmem
    have hr0off : r0.off + 28 ≤ l.arena.n := hr0.2.2.2.1
    refine ⟨_, rfl, ?_, ?_, ?_, ?_, ?_, ?_, ?_⟩
    · show l.arena.cur ≤ s1.cur
      omega
    · show l.arena.n ≤ s1.n
      omega
    · show s1.n ≤ _
      omega
    · exact hl1
    · intro hf
      exact hk1 (by omega)
    · rcases hc1 with hc | hc
      · left
        refine ⟨hc, inv_pack _ (replaceRec e.Key e.Value l.arena.n rs) _ _ ?_
          (replaceRec_kv _ _ _ _ rs 8 r0 hloc)⟩
        rw [← hkey]
        refine Inv_replace l _ rs r0 e.Value l.arena.n h h.maxLevel.symm h.currHeight.symm rfl
          ?_ ?_ ?_ ?_ ?_ ?_ ?_ ?_ ?_
        · show l.arena.n ≤ s1.n
          omega
        · show s1.n < 2 ^ 32
          omega
        · exact hr1
        · exact hmem
        · exact le_refl _
        · show _ ≤ s1.n
          omega
        · intro a ha hne
          show ((s1.storeBytes l.arena.n ([0] ++ e.Value)).store _ _ _).buf a = _
          rw [store_buf, storeBytes_buf]
          have c1 : ¬ (l.arena.n ≤ a ∧ a < l.arena.n + ([0] ++ e.Value).length) := by omega
          have c2 : ¬ ((s1.storeBytes l.arena.n ([0] ++ e.Value)).cur = l.arena.cur ∧
              a = r0.off + valueField) := fun c => hne c.2
          simp only [c1, c2, ↓reduceIte]
          exact hb1 a (by omega)
        · show ((s1.storeBytes l.arena.n ([0] ++ e.Value)).store _ _ _).buf _ = _
          rw [store_buf]
          have c2 : (s1.storeBytes l.arena.n ([0] ++ e.Value)).cur = l.arena.cur ∧
              r0.off + valueField = r0.off + valueField := ⟨hc, rfl⟩
          simp only [c2, and_self, ↓reduceIte]
        · intro j hj
          show ((s1.storeBytes l.arena.n ([0] ++ e.Value)).store _ _ _).buf _ = _
          rw [store_buf, storeBytes_buf]
          have c2 : ¬ ((s1.storeBytes l.arena.n ([0] ++ e.Value)).cur = l.arena.cur ∧
              l.arena.n + j = r0.off + valueField) := by
            intro c
            have := c.2
            simp only [valueField] at this
            omega
          have c1 : l.arena.n ≤ l.arena.n + j ∧
              l.arena.n + j < l.arena.n + ([0] ++ e.Value).length := by
            simp only [List.length_append, List.length_singleton]
            omega
          simp only [c1, c2, and_self, ↓reduceIte, Nat.add_sub_cancel_left]
          rfl
      · right
        refine ⟨by show s1.cur ≠ _; omega, ?_⟩
        refine Inv_frame l _ rs h h.maxLevel.symm h.currHeight.symm rfl ?_ ?_ ?_ ?_
        · show l.arena.n ≤ s1.n
          omega
        · show s1.n < 2 ^ 32
          omega
        · exact hr1
        · intro a ha
          show ((s1.storeBytes l.arena.n ([0] ++ e.Value)).store _ _ _).buf a = _
          rw [store_buf, storeBytes_buf]
          have c1 : ¬ (l.arena.n ≤ a ∧ a < l.arena.n + ([0] ++ e.Value).length) := by omega
          have c2 : ¬ ((s1.storeBytes l.arena.n ([0] ++ e.Value)).cur = l.arena.cur ∧
              a = r0.off + valueField) := by
            intro c
            have : s1.cur = l.arena.cur := c.1
            omega
          simp only [c1, c2, ↓reduceIte]
          exact hb1 a (by omega)
    · intro hcontra
      exact absurd hcontra (by simp)
  | none =>
    rw [hloc] at hal
    obtain ⟨hdrs, hal, hh0⟩ := hal
    obtain ⟨s', hnew, hn, hroom', hlen', hcur', hbuf', hheap', f1, f2, f3, f4, f5, fk, fv, _,
        hng⟩ :=
      newNode_spec l.arena e.Key (ValueStruct.mk e.Value 0) 1 (le_refl 1) (by decide)
        (Nat.two_pow_pos 64) (by omega)
        (by show l.arena.n + (31 + 4 * 1) + e.Key.length + (e.Value.length + sizeVarint 0) < 2 ^ 32
            rw [h0]; omega)
        (Or.inl hroom)
    simp only [h0, hp0, Nat.cast_one] at hnew hn f2 fv hng
    have hoff : getNodeOffset s' (some ⟨s'.cur, (l.arena.n + 7) / 8 * 8⟩) =
        some ((l.arena.n + 7) / 8 * 8) := by
      simp only [getNodeOffset, true_and]
      have : 0 < s'.len := by omega
      simp [this]
    have hd : ¬ (defaultMaxLevel ≤ 0) := by decide
    have hlf : levelField 0 = 24 := rfl
    simp only [hal, hnew, hoff, linkLevels, hd, hh0, ↓reduceIte, Option.map_some', hlf]
    generalize hm : (l.arena.n + 7) / 8 * 8 = m at *
    generalize hqq : (locate e.Key 8 rs).1 = q at *
    have hm1 : l.arena.n ≤ m := by omega
    have hm2 : m ≤ l.arena.n + 7 := by omega
    have hskl : (e.Key.take (e.Key.length % 2 ^ 16)).length = e.Key.length % 2 ^ 16 := by
      rw [List.length_take]; omega
    refine ⟨_, rfl, ?_, ?_, ?_, ?_, ?_, ?_, ?_⟩
    · exact hcur'
    · show l.arena.n ≤ s'.n
      omega
    · show s'.n ≤ _
      omega
    · exact hlen'
    · intro hf
      exact hng (by omega)
    · by_cases hc : s'.cur = l.arena.cur
      · left
        refine ⟨hc, insertAt e.Key ⟨m, e.Key.take (e.Key.length % 2 ^ 16), e.Value,
          l.arena.n + 35, l.arena.n + 35 + e.Key.length⟩ rs, ?_, insertAt_kv _ _ rs 8 hloc, ?_⟩
        swap
        · intro hlen
          have hsk : e.Key.take (e.Key.length % 2 ^ 16) = e.Key :=
            List.take_of_length_le (by omega)
          rw [hsk]
          exact sorted_insertAt ⟨m, e.Key, e.Value, l.arena.n + 35,
            l.arena.n + 35 + e.Key.length⟩ rs 8 h.sorted hloc
        have hB : ∀ a, ((s'.store ⟨s'.cur, m⟩ 24 (s'.load ⟨l.arena.cur, q⟩ 24)).store
            ⟨l.arena.cur, q⟩ 24 m).buf a =
            if a = q + 24 then m else if a = m + 24 then l.arena.buf (q + 24) else s'.buf a := by
          intro a
          rw [store_buf, store_buf]
          have hld : s'.load ⟨l.arena.cur, q⟩ 24 = l.arena.buf (q + 24) :=
            hheap' (q + 24) (by omega)
          simp only [store_cur, hc, true_and, hld]
        refine Inv0_insert l _ rs e.Key _ h h.maxLevel.symm h.currHeight.symm rfl
          ?_ ?_ ?_ ?_ ?_ ?_ ?_ ?_ ?_ ?_ ?_
        · show l.arena.n + 35 ≤ s'.n
          omega
        · show s'.n < 2 ^ 32
          omega
        · exact hroom'
        · exact hloc
        · have hBo : ∀ a, a ≠ q + 24 → a ≠ m + 24 →
              ((s'.store ⟨s'.cur, m⟩ 24 (s'.load ⟨l.arena.cur, q⟩ 24)).store
                ⟨l.arena.cur, q⟩ 24 m).buf a = s'.buf a := by
            intro a h1 h2
            rw [hB, if_neg h1, if_neg h2]
          refine ⟨fun b hb => hk b (List.mem_of_mem_take hb),
            by show (e.Key.take (e.Key.length % 2 ^ 16)).length ≤ 65535; omega,
            by show 113 ≤ m; omega, by show m + 28 ≤ s'.n; omega,
            by show 112 ≤ l.arena.n + 35; omega,
            by show l.arena.n + 35 + (e.Key.take (e.Key.length % 2 ^ 16)).length ≤ s'.n; omega,
            by show 112 ≤ l.arena.n + 35 + e.Key.length; omega,
            by show l.arena.n + 35 + e.Key.length + (e.Value.length + 1) ≤ s'.n; omega,
            ?_, ?_, ?_, ?_, ?_, ?_, ?_⟩
          · show _ = calcScore (e.Key.take (e.Key.length % 2 ^ 16))
            rw [hBo _ (by simp only [scoreField]; omega) (by simp only [scoreField]; omega),
              hsc]
            exact f1
          · show _ = encodeValue (l.arena.n + 35 + e.Key.length) (e.Value.length + 1)
            rw [hBo _ (by simp only [valueField]; omega) (by simp only [valueField]; omega)]
            exact f2
          · show _ = l.arena.n + 35
            rw [hBo _ (by simp only [keyOffsetField]; omega)
              (by simp only [keyOffsetField]; omega)]
            exact f3
          · show _ = (e.Key.take (e.Key.length % 2 ^ 16)).length
            rw [hBo _ (by simp only [keySizeField]; omega) (by simp only [keySizeField]; omega)]
            rw [f4, hskl]
          · intro j hj
            dsimp only at hj ⊢
            rw [hBo _ (by omega) (by omega), take_getD _ _ _ (by omega)]
            exact fk j (by omega)
          · intro j hj
            dsimp only at hj ⊢
            rw [hBo _ (by omega) (by omega)]
            exact fv j (by simpa using (by omega : j < e.Value.length + 1))
          · show _ = 1
            rw [hBo _ (by simp only [heightField]; omega) (by simp only [heightField]; omega)]
            exact f5
        · exact hm1
        · show m + 28 ≤ l.arena.n + 35
          omega
        · show m + 28 ≤ l.arena.n + 35 + e.Key.length
          omega
        · intro a ha hne
          dsimp only at hne ⊢
          rw [hqq] at hne
          rw [hB, if_neg hne, if_neg (by omega)]
          exact hbuf' a ha (by omega)
        · dsimp only
          rw [hqq, hB, if_pos rfl]
        · dsimp only
          rw [hqq, hB, if_neg (by omega), if_pos rfl]
      · right
        refine ⟨hc, ?_⟩
        refine Inv_frame l _ rs h h.maxLevel.symm h.currHeight.symm rfl ?_ ?_ ?_ ?_
        · show l.arena.n ≤ s'.n
          omega
        · show s'.n < 2 ^ 32
          omega
        · exact hroom'
        · intro a ha
          show ((s'.store ⟨s'.cur, m⟩ 24 (s'.load ⟨l.arena.cur, q⟩ 24)).store
            ⟨l.arena.cur, q⟩ 24 m).buf a = _
          rw [store_buf, store_buf]
          have c1 : ¬ ((s'.store ⟨s'.cur, m⟩ 24 (s'.load ⟨l.arena.cur, q⟩ 24)).cur =
              l.arena.cur ∧ a = q + 24) := fun c => hc c.1
          have c2 : ¬ (s'.cur = s'.cur ∧ a = m + 24) := by omega
          rw [if_neg c1, if_neg c2]
          exact hbuf' a ha (by omega)
    · intro _
      show s'.n = _
      omega

theorem bytesCompare_lt_ne (a b : List Nat) (h : bytesCompare a b < 0) : a ≠ b := by
  intro e
  rw [e, bytesCompare_self] at h
  exact absurd h (by decide)

theorem modelAdd_mem (k v : List Nat) : ∀ m, SortedKeys m →
    ∀ x, x ∈ modelAdd m k v ↔ x = (k, v) ∨ (x.1 ≠ k ∧ x ∈ m) := by
  intro m
  induction m with
  | nil => intro _ x; simp [modelAdd]
  | cons a m ih =>
    intro hs x
    obtain ⟨k', v'⟩ := a
    unfold SortedKeys at hs
    rw [List.pairwise_cons] at hs
    have hm : ∀ y ∈ m, (y.1 ≠ k' ∧ bytesCompare k' y.1 < 0) := fun y hy =>
      ⟨(bytesCompare_lt_ne _ _ (hs.1 y hy)).symm, hs.1 y hy⟩
    simp only [modelAdd]
    by_cases hle : bytesCompare k k' ≤ 0
    · simp only [hle, ↓reduceIte]
      by_cases he : k = k'
      · subst he
        simp only [↓reduceIte, List.mem_cons]
        constructor
        · rintro (h | h)
          · exact Or.inl h
          · exact Or.inr ⟨(hm x h).1, Or.inr h⟩
        · rintro (h | ⟨h1, h2 | h2⟩)
          · exact Or.inl h
          · exact absurd (by rw [h2]) h1
          · exact Or.inr h2
      · simp only [he, ↓reduceIte, List.mem_cons]
        have hlt : bytesCompare k k' < 0 := by
          have := (bytesCompare_eq_zero k k').not.mpr he
          omega
        constructor
        · rintro (h | h | h)
          · exact Or.inl h
          · exact Or.inr ⟨by rw [h]; exact fun e => he e.symm, Or.inl h⟩
          · exact Or.inr ⟨(bytesCompare_lt_ne _ _
              (bytesCompare_trans _ _ _ hlt (hm x h).2)).symm, Or.inr h⟩
        · rintro (h | ⟨_, h2 | h2⟩)
          · exact Or.inl h
          · exact Or.inr (Or.inl h2)
          · exact Or.inr (Or.inr h2)
    · simp only [hle, ↓reduceIte, List.mem_cons, ih hs.2 x]
      have hne : k' ≠ k := by
        intro e
        rw [e, bytesCompare_self] at hle
        exact hle (le_refl _)
      constructor
      · rintro (h | h | ⟨h1, h2⟩)
        · exact Or.inr ⟨by rw [h]; exact hne, Or.inl h⟩
        · exact Or.inl h
        · exact Or.inr ⟨h1, Or.inr h2⟩
      · rintro (h | ⟨h1, h2 | h2⟩)
        · exact Or.inr (Or.inl h)
        · exact Or.inl h2
        · exact Or.inr (Or.inr ⟨h1, h2⟩)

theorem modelAdd_sorted (k v : List Nat) : ∀ m, SortedKeys m → SortedKeys (modelAdd m k v) := by
  intro m
  induction m with
  | nil => intro _; simp [modelAdd, SortedKeys]
  | cons a m ih =>
    intro hs
    obtain ⟨k', v'⟩ := a
    have hs' := hs
    unfold SortedKeys at hs ⊢
    rw [List.pairwise_cons] at hs
    simp only [modelAdd]
    by_cases hle : bytesCompare k k' ≤ 0
    · simp only [hle, ↓reduceIte]
      by_cases he : k = k'
      · subst he
        simp only [↓reduceIte]
        exact List.pairwise_cons.mpr ⟨hs.1, hs.2⟩
      · simp only [he, ↓reduceIte]
        have hlt : bytesCompare k k' < 0 := by
          have := (bytesCompare_eq_zero k k').not.mpr he
          omega
        refine List.pairwise_cons.mpr ⟨?_, List.pairwise_cons.mpr hs⟩
        intro y hy
        rcases List.mem_cons.mp hy with rfl | hy
        · exact hlt
        · exact bytesCompare_trans _ _ _ hlt (hs.1 y hy)
    · simp only [hle, ↓reduceIte]
      refine List.pairwise_cons.mpr ⟨?_, ih hs.2⟩
      intro y hy
      rcases (modelAdd_mem k v m hs.2 y).mp hy with rfl | ⟨_, hy⟩
      · show bytesCompare k' k < 0
        rw [bytesCompare_swap k k']
        omega
      · exact hs.1 y hy

theorem foldl_modelAdd_spec : ∀ (calls : List ((Nat → Nat) × Entry))
    (m : List (List Nat × List Nat)), SortedKeys m →
    SortedKeys (calls.foldl (fun m c => modelAdd m c.2.Key c.2.Value) m) ∧
    ∀ k v, (k, v) ∈ calls.foldl (fun m c => modelAdd m c.2.Key c.2.Value) m ↔
      (lastValue calls k = some v ∨ (lastValue calls k = none ∧ (k, v) ∈ m)) := by
  intro calls
  induction calls with
  | nil => intro m hs; simp [lastValue, hs]
  | cons c cs ih =>
    intro m hs
    obtain ⟨h1, h2⟩ := ih (modelAdd m c.2.Key c.2.Value) (modelAdd_sorted _ _ m hs)
    refine ⟨h1, ?_⟩
    intro k v
    simp only [List.foldl_cons, h2 k v, lastValue]
    cases hl : lastValue cs k with
    | some v' => simp
    | none =>
      simp only [modelAdd_mem _ _ m hs, Prod.mk.injEq, true_and, false_or, reduceCtorEq]
      by_cases he : c.2.Key = k
      · simp only [he, ↓reduceIte, Option.some.injEq, reduceCtorEq, false_and, or_false,
          true_and, ne_eq, not_true_eq_false]
        exact eq_comm
      · have he' : ¬ k = c.2.Key := fun e => he e.symm
        simp only [he, he', ↓reduceIte, reduceCtorEq, false_and, false_or, true_and, ne_eq,
          not_false_eq_true]

/-- The model is the key-sorted list of the distinct keys, each with the value of its last
`Add`. -/
theorem assocModel_spec (calls : List ((Nat → Nat) × Entry)) :
    SortedKeys (assocModel calls) ∧
    ∀ k v, (k, v) ∈ assocModel calls ↔ lastValue calls k = some v := by
  obtain ⟨h1, h2⟩ := foldl_modelAdd_spec calls [] List.Pairwise.nil
  refine ⟨h1, ?_⟩
  intro k v
  rw [assocModel, h2 k v]
  simp

theorem sortedKeys_map (rs : List Rec) : SortedKeys (rs.map kv) ↔ SortedRecs rs := by
  unfold SortedKeys SortedRecs
  rw [List.pairwise_map]
  rfl

theorem calcScore_take (K : List Nat) (h : K.length ≤ 65535) :
    calcScore (K.take (K.length % 2 ^ 16)) = calcScore K := by
  rw [List.take_of_length_le (by omega)]

/-- `Add` with a key that fits the key size field. -/
theorem Add_short (l : SkipList) (rs : List Rec) (h : Inv l rs) (draws : Nat → Nat) (e : Entry)
    (hk : IsBytes e.Key) (hlen : e.Key.length ≤ 65535)
    (hfit : l.arena.n + 35 + e.Key.length + (e.Value.length + 1) < 2 ^ 32) :
    ∃ l', Add l draws e = some l' ∧ l.arena.cur ≤ l'.arena.cur ∧
      l'.arena.n ≤ l.arena.n + 35 + e.Key.length + (e.Value.length + 1) ∧
      ((l'.arena.cur = l.arena.cur ∧
          ∃ rs', Inv l' rs' ∧ rs'.map kv = modelAdd (rs.map kv) e.Key e.Value) ∨
        (l'.arena.cur ≠ l.arena.cur ∧ Inv l' rs)) := by
  obtain ⟨l', h1, h2, _, h4, _, _, h7, _⟩ :=
    Add_spec l rs h draws e hk (calcScore_take e.Key hlen) hfit
  refine ⟨l', h1, h2, h4, ?_⟩
  rcases h7 with ⟨hc, rs', hi, hkv, hs⟩ | h7
  · left
    refine ⟨hc, rs', ⟨hi, hs hlen⟩, ?_⟩
    rw [hkv, List.take_of_length_le (by omega), modelPut_self]
  · exact Or.inr h7

theorem modelAdd_keys (k v : List Nat) : ∀ m (x : List Nat × List Nat),
    x ∈ modelAdd m k v → x.1 = k ∨ ∃ y ∈ m, y.1 = x.1 := by
  intro m
  induction m with
  | nil =>
    intro x hx
    simp only [modelAdd, List.mem_singleton] at hx
    left; rw [hx]
  | cons a m ih =>
    intro x hx
    simp only [modelAdd] at hx
    split at hx
    · split at hx
      · rcases List.mem_cons.mp hx with e | hx
        · left; rw [e]
        · exact Or.inr ⟨x, List.mem_cons_of_mem _ hx, rfl⟩
      · rcases List.mem_cons.mp hx with e | hx
        · left; rw [e]
        · exact Or.inr ⟨x, hx, rfl⟩
    · rcases List.mem_cons.mp hx with e | hx
      · exact Or.inr ⟨a, List.mem_cons_self _ _, by rw [e]⟩
      · rcases ih x hx with e | ⟨y, hy, hye⟩
        · exact Or.inl e
        · exact Or.inr ⟨y, List.mem_cons_of_mem _ hy, hye⟩

/-- A sequence of `Add` calls whose total demand does not wrap the cursor. -/
theorem addAll_spec : ∀ (calls : List ((Nat → Nat) × Entry)) (l : SkipList) (rs : List Rec),
    Inv l rs → WellKeyed calls → l.arena.n + demand calls < 2 ^ 32 →
    ∃ l' rs', addAll l calls = some l' ∧ Inv l' rs' ∧ l.arena.cur ≤ l'.arena.cur ∧
      l'.arena.n ≤ l.arena.n + demand calls ∧
      (l'.arena.cur = l.arena.cur →
        rs'.map kv = calls.foldl (fun m c => modelAdd m c.2.Key c.2.Value) (rs.map kv)) ∧
      (∀ r ∈ rs', (∃ r0 ∈ rs, r0.key = r.key) ∨ ∃ c ∈ calls, c.2.Key = r.key) := by
  intro calls
  induction calls with
  | nil =>
    intro l rs h _ _
    exact ⟨l, rs, rfl, h, le_refl _, le_refl _, fun _ => rfl, fun r hr => Or.inl ⟨r, hr, rfl⟩⟩
  | cons c cs ih =>
    intro l rs h hw hfit
    simp only [demand] at hfit
    obtain ⟨hck, hcl⟩ := hw c (List.mem_cons_self _ _)
    obtain ⟨l1, ha, hc1, hn1, hd⟩ := Add_short l rs h c.1 c.2 hck hcl (by omega)
    have hw' : WellKeyed cs := fun x hx => hw x (List.mem_cons_of_mem _ hx)
    have hstep : ∃ rs1, Inv l1 rs1 ∧
        (l1.arena.cur = l.arena.cur → rs1.map kv = modelAdd (rs.map kv) c.2.Key c.2.Value) ∧
        (∀ r ∈ rs1, (∃ r0 ∈ rs, r0.key = r.key) ∨ c.2.Key = r.key) := by
      rcases hd with ⟨_, rs1, hi, hkv⟩ | ⟨hne, hi⟩
      · refine ⟨rs1, hi, fun _ => hkv, ?_⟩
        intro r hr
        have hm : kv r ∈ modelAdd (rs.map kv) c.2.Key c.2.Value := by
          rw [← hkv]; exact List.mem_map_of_mem kv hr
        rcases modelAdd_keys _ _ _ _ hm with e | ⟨y, hy, hye⟩
        · exact Or.inr e.symm
        · obtain ⟨r0, hr0, rfl⟩ := List.mem_map.mp hy
          exact Or.inl ⟨r0, hr0, hye⟩
      · exact ⟨rs, hi, fun e => absurd e hne, fun r hr => Or.inl ⟨r, hr, rfl⟩⟩
    obtain ⟨rs1, hi1, hkv1, hkeys1⟩ := hstep
    obtain ⟨l', rs', hall, hi', hc', hn', hkv', hkeys'⟩ := ih l1 rs1 hi1 hw' (by omega)
    refine ⟨l', rs', ?_, hi', by omega, by simp only [demand]; omega, ?_, ?_⟩
    · simp only [addAll, ha, hall]
    · intro e
      have e1 : l1.arena.cur = l.arena.cur := by omega
      rw [hkv' (by omega), hkv1 e1]
      rfl
    · intro r hr
      rcases hkeys' r hr with ⟨r1, hr1, hk1⟩ | ⟨x, hx, hxk⟩
      · rcases hkeys1 r1 hr1 with ⟨r0, hr0, hk0⟩ | hk0
        · exact Or.inl ⟨r0, hr0, hk0.trans hk1⟩
        · exact Or.inr ⟨c, List.mem_cons_self _ _, hk0.trans hk1⟩
      · exact Or.inr ⟨x, List.mem_cons_of_mem _ hx, hxk⟩

/-- A new list and a sequence of `Add` calls on it. -/
theorem build_spec (cap : Nat) (calls : List ((Nat → Nat) × Entry)) (hw : WellKeyed calls)
    (hfit : 113 + demand calls < 2 ^ 32) :
    ∃ l0 l rs, NewSkipList cap = some l0 ∧ addAll l0 calls = some l ∧
      build cap calls = some l ∧ Inv l rs ∧ l0.arena.cur ≤ l.arena.cur ∧
      l.arena.n ≤ 113 + demand calls ∧
      (l.arena.cur = l0.arena.cur → rs.map kv = assocModel calls) ∧
      (∀ r ∈ rs, ∃ c ∈ calls, c.2.Key = r.key) := by
  obtain ⟨l0, hnew, hi0, hn0, _, _⟩ := NewSkipList_spec cap
  obtain ⟨l, rs, hall, hi, hc, hn, hkv, hkeys⟩ := addAll_spec calls l0 [] hi0 hw (by omega)
  refine ⟨l0, l, rs, hnew, hall, ?_, hi, hc, by omega, hkv, ?_⟩
  · simp only [build, hnew, Option.some_bind, hall]
  · intro r hr
    rcases hkeys r hr with ⟨r0, hr0, _⟩ | hx
    · simp at hr0
    · exact hx

/-- The order of `bytes.Compare` is the lexicographic order of the bytes. -/
theorem bytesCompare_neg_iff_lex (a : List Nat) : ∀ b,
    bytesCompare a b < 0 ↔ List.Lex (fun x y => x < y) a b := by
  induction a with
  | nil =>
    intro b
    cases b with
    | nil => simp [bytesCompare]
    | cons y ys => simp [bytesCompare, List.Lex.nil]
  | cons x xs ih =>
    intro b
    cases b with
    | nil => simp [bytesCompare]
    | cons y ys =>
      simp only [bytesCompare]
      by_cases h1 : x < y
      · simp only [h1, ↓reduceIte]
        exact ⟨fun _ => List.Lex.rel h1, fun _ => by decide⟩
      · by_cases h2 : y < x
        · simp only [h1, h2, ↓reduceIte]
          constructor
          · intro h; exact absurd h (by decide)
          · intro h
            cases h with
            | cons h => exact absurd h2 (lt_irrefl _)
            | rel h => exact absurd h h1
        · have e : x = y := by omega
          subst e
          simp only [lt_irrefl, ↓reduceIte, ih ys]
          constructor
          · intro h; exact List.Lex.cons h
          · intro h
            cases h with
            | cons h => exact h
            | rel h => exact absurd h (lt_irrefl _)

theorem map_toEntry (rs : List Rec) :
    rs.map toEntry = (rs.map kv).map fun p => { Key := p.1, Value := p.2, ExpiresAt := 0 } := by
  rw [List.map_map]
  rfl

theorem map_toEntry_key (rs : List Rec) : (rs.map toEntry).map Entry.Key = rs.map Rec.key := by
  rw [List.map_map]
  rfl

theorem locate_of_mem : ∀ (rs : List Rec) (p : Nat) (r : Rec), SortedRecs rs → r ∈ rs →
    (locate r.key p rs).2 = some r := by
  intro rs
  induction rs with
  | nil => intro p r _ hr; simp at hr
  | cons a rs ih =>
    intro p r hs hr
    unfold SortedRecs at hs
    rw [List.pairwise_cons] at hs
    simp only [locate]
    rcases List.mem_cons.mp hr with e | hr
    · subst e
      have h0 : bytesCompare r.key r.key ≤ 0 := by rw [bytesCompare_self]
      simp only [h0, ↓reduceIte]
    · have hlt := hs.1 r hr
      have hgt : ¬ (bytesCompare r.key a.key ≤ 0) := by
        rw [bytesCompare_swap a.key r.key]
        omega
      simp only [hgt, ↓reduceIte]
      exact ih a.off r hs.2 hr

theorem sortedRecs_nodup (rs : List Rec) (h : SortedRecs rs) : (rs.map Rec.key).Nodup := by
  unfold SortedRecs at h
  rw [List.Nodup, List.pairwise_map]
  exact h.imp fun hab => bytesCompare_lt_ne _ _ hab

theorem scoreLoop_zeros : ∀ (n i hash : Nat), scoreLoop (List.replicate n 0) i hash = hash := by
  intro n
  induction n with
  | zero => intro i hash; rfl
  | succ n ih =>
    intro i hash
    simp only [List.replicate_succ, scoreLoop]
    split
    · rw [ih]
      simp
    · rfl

theorem calcScore_zeros (n : Nat) : calcScore (List.replicate n 0) = 0 := by
  unfold calcScore
  rw [scoreLoop_zeros]
  decide

theorem isBytes_zeros (n : Nat) : IsBytes (List.replicate n 0) := by
  intro b hb
  rw [List.eq_of_mem_replicate hb]
  decide

theorem sorted_of_kv_singleton (rs : List Rec) (x : List Nat × List Nat)
    (h : rs.map kv = [x]) : SortedRecs rs := by
  cases rs with
  | nil => exact List.Pairwise.nil
  | cons r rs =>
    cases rs with
    | nil => exact List.pairwise_singleton _ _
    | cons r' rs => simp at h

/-- A key of 65536 zero bytes added to a new list of capacity 2^20: the node reads back
with the empty key. -/
theorem long_key_once (K : List Nat) (hK : K.length = 65536) (hb : IsBytes K)
    (hs : calcScore K = 0) (d : Nat → Nat) (V : List Nat) (E : Nat) (hV : V.length ≤ 1000) :
    ∃ l0 l1 rs1, NewSkipList 1048576 = some l0 ∧
      Add l0 d { Key := K, Value := V, ExpiresAt := E } = some l1 ∧
      Inv l1 rs1 ∧ rs1.map kv = [([], V)] ∧ l1.arena.n ≤ 66685 ∧ l1.arena.len = 1048576 := by
  obtain ⟨l0, hnew, hi0, hn0, _, hng0⟩ := NewSkipList_spec 1048576
  obtain ⟨hc0, hl0⟩ := hng0 (by decide)
  have hmod : K.length % 2 ^ 16 = 0 := by rw [hK]; decide
  have hsc : calcScore (K.take (K.length % 2 ^ 16)) = calcScore K := by
    rw [hmod, List.take_zero, hs]
    decide
  obtain ⟨l1, ha, _, _, hn1, _, hng, hd, _⟩ :=
    Add_spec l0 [] hi0 d { Key := K, Value := V, ExpiresAt := E } hb hsc
      (by show l0.arena.n + 35 + K.length + (V.length + 1) < 2 ^ 32; rw [hn0, hK]; omega)
  have hfit : l0.arena.n + 35 + K.length + (V.length + 1) + 104 ≤ l0.arena.len := by
    rw [hn0, hK, hl0]; omega
  obtain ⟨hc1, hl1⟩ := hng hfit
  have hn1' : l1.arena.n ≤ l0.arena.n + 35 + K.length + (V.length + 1) := hn1
  rcases hd with ⟨_, rs1, hi1, hkv, _⟩ | ⟨hne, _⟩
  · have hkv' : rs1.map kv = [([], V)] := by
      rw [hkv]
      show modelPut [] K (K.take (K.length % 2 ^ 16)) V = _
      rw [hmod, List.take_zero]
      rfl
    exact ⟨l0, l1, rs1, hnew, ha, ⟨hi1, sorted_of_kv_singleton rs1 _ hkv'⟩, hkv',
      by rw [hn0, hK] at hn1'; omega, by rw [hl1, hl0]⟩
  · exact absurd hc1 hne

/-- The same key added a second time: a second node with the empty key is linked behind
the first. -/
theorem long_key_twice (K : List Nat) (hK : K.length = 65536) (hb : IsBytes K)
    (hs : calcScore K = 0) (d1 d2 : Nat → Nat) (V1 V2 : List Nat) (E1 E2 : Nat)
    (hV1 : V1.length ≤ 1000) (hV2 : V2.length ≤ 1000) :
    ∃ l2 rs2, build 1048576 [(d1, { Key := K, Value := V1, ExpiresAt := E1 }),
        (d2, { Key := K, Value := V2, ExpiresAt := E2 })] = some l2 ∧
      Inv0 l2 rs2 ∧ rs2.map kv = [([], V1), ([], V2)] := by
  obtain ⟨l0, l1, rs1, hnew, ha1, hi1, hkv1, hn1, hl1⟩ := long_key_once K hK hb hs d1 V1 E1 hV1
  have hmod : K.length % 2 ^ 16 = 0 := by rw [hK]; decide
  have hsc : calcScore (K.take (K.length % 2 ^ 16)) = calcScore K := by
    rw [hmod, List.take_zero, hs]
    decide
  obtain ⟨l2, ha2, _, _, _, _, hng, hd, _⟩ :=
    Add_spec l1 rs1 hi1 d2 { Key := K, Value := V2, ExpiresAt := E2 } hb hsc
      (by show l1.arena.n + 35 + K.length + (V2.length + 1) < 2 ^ 32; rw [hK]; omega)
  have hfit : l1.arena.n + 35 + K.length + (V2.length + 1) + 104 ≤ l1.arena.len := by
    rw [hK, hl1]; omega
  obtain ⟨hc2, _⟩ := hng hfit
  have hgt : ¬ (bytesCompare K [] ≤ 0) := by
    cases K with
    | nil => simp at hK
    | cons a t => simp [bytesCompare]
  rcases hd with ⟨_, rs2, hi2, hkv, _⟩ | ⟨hne, _⟩
  · refine ⟨l2, rs2, ?_, hi2, ?_⟩
    · simp only [build, hnew, Option.some_bind, addAll, ha1, ha2]
    · rw [hkv, hkv1]
      show modelPut [([], V1)] K (K.take (K.length % 2 ^ 16)) V2 = _
      rw [hmod, List.take_zero]
      simp only [modelPut, hgt, ↓reduceIte]
  · exact absurd hc2 hne

/-- The iteration of a list with one node at `m`, whose key is one byte and whose value
locator has size 0. -/
theorem iterate_single (l : SkipList) (m ko vo k0 : Nat) (h8 : l.headOffset = 8)
    (hlen : 8 < l.arena.len) (hm0 : m ≠ 0) (hml : m < l.arena.len) (hn : 2 ≤ l.arena.n)
    (b32 : l.arena.buf (8 + 24) = m) (b24 : l.arena.buf (m + 24) = 0)
    (bko : l.arena.buf (m + keyOffsetField) = ko) (bks : l.arena.buf (m + keySizeField) = 1)
    (bk : l.arena.buf (ko + 0) = k0) (hko : ko + 1 ≤ l.arena.len) (hko32 : ko + 1 < 2 ^ 32)
    (bv : l.arena.buf (m + valueField) = encodeValue vo 0) (hvo : vo < 2 ^ 32)
    (hvol : vo ≤ l.arena.len) :
    iterate l = some [{ Key := [k0], Value := [], ExpiresAt := 0 }] := by
  have hg : getNode l.arena l.headOffset = some (some ⟨l.arena.cur, 8⟩) := by
    rw [h8]
    exact getNode_some _ _ (by decide) hlen
  have hnext : getNext l.arena (some ⟨l.arena.cur, 8⟩) 0 = some (some ⟨l.arena.cur, m⟩) := by
    rw [getNext_eq, b32]
    exact getNode_some _ _ hm0 hml
  have hnext2 : getNext l.arena (some ⟨l.arena.cur, m⟩) 0 = some none := by
    rw [getNext_eq, b24]
    rfl
  obtain ⟨f, hf⟩ : ∃ f, l.arena.n = f + 2 := ⟨l.arena.n - 2, by omega⟩
  have hkey : getKey l.arena (l.arena.load ⟨l.arena.cur, m⟩ keyOffsetField)
      (l.arena.load ⟨l.arena.cur, m⟩ keySizeField) = some [k0] := by
    have e1 : l.arena.load ⟨l.arena.cur, m⟩ keyOffsetField = ko := bko
    have e2 : l.arena.load ⟨l.arena.cur, m⟩ keySizeField = 1 := bks
    rw [e1, e2]
    unfold getKey
    have hm : (ko + 1) % 2 ^ 32 = ko + 1 := Nat.mod_eq_of_lt hko32
    have hc : ko ≤ ko + 1 ∧ ko + 1 ≤ l.arena.len := ⟨by omega, hko⟩
    simp only [hm, hc, and_self, ↓reduceIte, Nat.add_sub_cancel_left]
    have hr1 : List.range 1 = [0] := rfl
    simp only [Arena.readBytes, hr1, List.map_cons, List.map_nil, bk]
  have hval : getValue l.arena (decodeValue (l.arena.load ⟨l.arena.cur, m⟩ valueField)).1
      (decodeValue (l.arena.load ⟨l.arena.cur, m⟩ valueField)).2 =
      some { Value := [], ExpiresAt := 0 } := by
    have e1 : l.arena.load ⟨l.arena.cur, m⟩ valueField = encodeValue vo 0 := bv
    rw [e1, decodeValue_encodeValue vo 0 hvo (by decide)]
    unfold getValue
    have hm : (vo + 0) % 2 ^ 32 = vo := Nat.mod_eq_of_lt hvo
    have hc : vo ≤ vo ∧ vo ≤ l.arena.len := ⟨le_refl _, hvol⟩
    simp only [hm, hc, and_self, ↓reduceIte, Nat.sub_self]
    simp only [Arena.readBytes, List.range_zero, List.map_nil]
    decide
  unfold iterate NewSkipListIterator SkipListIter.Rewind
  simp only [hg, hnext, Option.map_some', hf]
  simp only [collect, SkipListIter.Valid, Option.isSome_some, ↓reduceIte, SkipListIter.Item,
    hkey, hval, SkipListIter.Next, hnext2, Option.map_some', Option.isSome_none,
    Bool.false_eq_true]

theorem putValue_wrapped (s : Arena) (V : List Nat) (hV : V.length = 4294967295)
    (hn : s.n < 2 ^ 32) (hroom : s.n + 4294967296 + 104 ≤ s.len) :
    (ValueStruct.mk V 0).EncodedSize = 0 ∧
    putValue s (ValueStruct.mk V 0) = some ((bump s 0).storeBytes s.n ([0] ++ V), s.n) := by
  have hp0 : putUvarint 0 = [0] := by decide
  have hes : (ValueStruct.mk V 0).EncodedSize = 0 := by
    simp only [ValueStruct.EncodedSize, hV]
    decide
  refine ⟨hes, ?_⟩
  obtain ⟨_, hl⟩ := bump_nogrow s 0 (by omega) (by omega)
  have hb : (allocate s 0).1 = bump s 0 := rfl
  have henc := encodeBytes_fit V 0 ((bump s 0).len - s.n) (by rw [hp0, hl, hV]; simp; omega)
  have hc : s.n ≤ (bump s 0).len := by omega
  simp only [putValue, hes, allocate_snd s 0 (by omega), hb, hc, ↓reduceIte, henc, hp0]

/-- `newNode` from the results of its three allocations. -/
theorem newNode_of (s : Arena) (key : List Nat) (v : ValueStruct) (height : Int)
    (s1 : Arena) (m : Nat) (s2 : Arena) (ko : Nat) (s3 : Arena) (vo : Nat) (elem : NodePtr)
    (hpn : putNode s height = (s1, m)) (hpk : putKey s1 key = some (s2, ko))
    (hpv : putValue s2 v = some (s3, vo)) (hgn : getNode s3 m = some (some elem)) :
    newNode s key v height =
      some (((((s3.store elem scoreField (calcScore key)).store elem keyOffsetField ko).store
        elem keySizeField (key.length % 2 ^ 16)).store elem heightField
        ((height % 2 ^ 16).toNat)).store elem valueField (encodeValue vo v.EncodedSize),
        elem) := by
  unfold newNode
  simp only [hpn, hpk, hpv, hgn]

/-- `Add` of a key that is not in the list, from the results of its steps. -/
theorem Add_absent_of (list : SkipList) (draws : Nat → Nat) (data : Entry) (prevElem : NodePtr)
    (hdrs : Nat → Option NodePtr) (arena : Arena) (elem : NodePtr) (off : Nat)
    (arena2 : Arena)
    (hg : getNode list.arena list.headOffset = some (some prevElem))
    (hal : addLevels list.arena (calcScore data.Key) data.Key list.currHeight.toNat
      (list.currHeight - 1) prevElem (fun _ => none) = some (Located.absent hdrs))
    (hnew : newNode list.arena data.Key { Value := data.Value, ExpiresAt := 0 }
      (randLevel list.maxLevel draws) = some (arena, elem))
    (hoff : getNodeOffset arena (some elem) = some off)
    (hlink : linkLevels elem off hdrs (randLevel list.maxLevel draws).toNat 0 arena =
      some arena2) :
    Add list draws data = some { list with arena := arena2 } := by
  unfold Add
  simp only [hg, hal, hnew, hoff, hlink, Option.map_some']

/-- `newNode` for a one-byte key and a value of 2^32 - 1 bytes, in an arena of 2^33 bytes
with the cursor at 113: `EncodedSize()` wraps to 0 and the node is given a value locator of
size 0. -/
theorem newNode_wrapped (s : Arena) (k0 : Nat) (V : List Nat) (hV : V.length = 4294967295)
    (hn : s.n = 113) (hlen : s.len = 8589934592) :
    ∃ s', newNode s [k0] (ValueStruct.mk V 0) ((1 : Nat) : Int) = some (s', ⟨s'.cur, 120⟩) ∧
      s'.cur = s.cur ∧ s'.n = 149 ∧ s'.len = 8589934592 ∧
      s'.buf (8 + 24) = s.buf (8 + 24) ∧
      s'.buf (120 + keyOffsetField) = 148 ∧ s'.buf (120 + keySizeField) = 1 ∧
      s'.buf (148 + 0) = k0 ∧ s'.buf (120 + valueField) = encodeValue 149 0 := by
  have hpn := putNode_eq s 1 (le_refl 1) (by decide) (by omega)
  have hm : (s.n + 7) / 8 * 8 = 120 := by rw [hn]
  rw [hm] at hpn
  have n1 : (bump s (31 + 4 * 1)).n = 148 := by rw [bump_n s _ (by omega), hn]
  obtain ⟨c1, l1⟩ := bump_nogrow s (31 + 4 * 1) (by omega) (by omega)
  have b1 : ∀ a, a < s.len → (bump s (31 + 4 * 1)).buf a = s.buf a :=
    fun a ha => bump_buf s _ a ha
  generalize bump s (31 + 4 * 1) = s1 at hpn n1 c1 l1 b1
  have h1k : s1.n + [k0].length < 2 ^ 32 := by rw [n1, List.length_singleton]; norm_num
  have hpk := putKey_eq s1 [k0] h1k (by omega)
  have n2 : (bump s1 [k0].length).n = 149 := by rw [bump_n s1 _ h1k, n1]; rfl
  obtain ⟨c2, l2⟩ := bump_nogrow s1 [k0].length h1k
    (by rw [n1, l1, hlen, List.length_singleton]; norm_num)
  have b2 : ∀ a, a < s1.len → (bump s1 [k0].length).buf a = s1.buf a :=
    fun a ha => bump_buf s1 _ a ha
  generalize bump s1 [k0].length = s2 at hpk n2 c2 l2 b2
  obtain ⟨hes, hpv⟩ := putValue_wrapped (s2.storeBytes s1.n [k0]) V hV
    (by show s2.n < 2 ^ 32; omega) (by show s2.n + 4294967296 + 104 ≤ s2.len; omega)
  have n3 : (bump (s2.storeBytes s1.n [k0]) 0).n = 149 := by
    rw [bump_n _ _ (by show s2.n + 0 < 2 ^ 32; omega)]
    show s2.n + 0 = 149
    omega
  obtain ⟨c3, l3⟩ := bump_nogrow (s2.storeBytes s1.n [k0]) 0 (by show s2.n + 0 < 2 ^ 32; omega)
    (by show s2.n + 0 + 104 ≤ s2.len; omega)
  have b3 : ∀ a, a < s2.len → (bump (s2.storeBytes s1.n [k0]) 0).buf a =
      (s2.storeBytes s1.n [k0]).buf a := fun a ha => bump_buf _ _ a ha
  have c3' : (bump (s2.storeBytes s1.n [k0]) 0).cur = s2.cur := c3
  have l3' : (bump (s2.storeBytes s1.n [k0]) 0).len = s2.len := l3
  generalize bump (s2.storeBytes s1.n [k0]) 0 = s3 at hpv n3 c3' l3' b3
  have hgn := getNode_some (s3.storeBytes s2.n ([0] ++ V)) 120
    (by decide) (by show 120 < s3.len; omega)
  have hhz : (((1 : Nat) : Int) % 2 ^ 16).toNat = 1 := by decide
  have hlow : ∀ a, a < 149 →
      (s3.storeBytes s2.n ([0] ++ V)).buf a =
      if s1.n ≤ a ∧ a < s1.n + [k0].length then [k0].getD (a - s1.n) 0 else s.buf a := by
    intro a ha
    rw [storeBytes_buf, if_neg (by show ¬ (s2.n ≤ a ∧ _); omega), b3 a (by omega),
      storeBytes_buf]
    split
    · rfl
    · rw [b2 a (by omega), b1 a (by omega)]
  refine ⟨((((((s3.storeBytes s2.n ([0] ++ V)).store
      ⟨s3.cur, 120⟩ scoreField (calcScore [k0])).store
      ⟨s3.cur, 120⟩ keyOffsetField s1.n).store
      ⟨s3.cur, 120⟩ keySizeField ([k0].length % 2 ^ 16)).store
      ⟨s3.cur, 120⟩ heightField 1).store
      ⟨s3.cur, 120⟩ valueField (encodeValue s2.n 0)),
    ?_, ?_, ?_, ?_, ?_, ?_, ?_, ?_, ?_⟩
  · rw [newNode_of s [k0] (ValueStruct.mk V 0) ((1 : Nat) : Int) s1 120 _ _ _ _ _ hpn hpk hpv
      hgn, hes, hhz]
    rfl
  · simp only [store_cur, storeBytes_cur]; omega
  · simp only [store_n, storeBytes_n]; omega
  · simp only [store_len, storeBytes_len]; omega
  · simp only [store_buf, store_cur, storeBytes_cur, true_and, scoreField, valueField,
      keyOffsetField, keySizeField, heightField]
    rw [if_neg (by decide), if_neg (by decide), if_neg (by decide), if_neg (by decide),
      if_neg (by decide), hlow _ (by decide), if_neg (by omega)]
  · simp [store_buf, scoreField, valueField, keyOffsetField, keySizeField, heightField, n1]
  · simp [store_buf, scoreField, valueField, keyOffsetField, keySizeField, heightField]
  · simp only [store_buf, store_cur, storeBytes_cur, true_and, scoreField, valueField,
      keyOffsetField, keySizeField, heightField]
    rw [if_neg (by decide), if_neg (by decide), if_neg (by decide), if_neg (by decide),
      if_neg (by decide), hlow _ (by decide), if_pos (by rw [n1, List.length_singleton]; omega), n1]
    rfl
  · simp [store_buf, scoreField, valueField, keyOffsetField, keySizeField, heightField, n2]

/-- `Add` of a one-byte key with a value of 2^32 - 1 bytes to a new list of capacity 2^33:
the arena does not grow, and the iterator shows the entry with the empty value. -/
theorem Add_wrapped_value (l : SkipList) (hi : Inv l []) (hn : l.arena.n = 113)
    (hlen : l.arena.len = 8589934592) (d : Nat → Nat) (k0 : Nat) (hk0 : k0 < 256)
    (V : List Nat) (hV : V.length = 4294967295) (E : Nat) :
    ∃ l', Add l d { Key := [k0], Value := V, ExpiresAt := E } = some l' ∧
      l'.arena.cur = l.arena.cur ∧
      iterate l' = some [{ Key := [k0], Value := [], ExpiresAt := 0 }] := by
  have hg : getNode l.arena l.headOffset = some (some ⟨l.arena.cur, 8⟩) := by
    rw [hi.headOffset]
    exact getNode_some _ _ (by decide) (by rw [hlen]; decide)
  have hkb : IsBytes [k0] := by
    intro b hb
    rw [List.mem_singleton.mp hb]
    exact hk0
  have hal := addLevels_spec l [] hi [k0] hkb
  simp only [locate] at hal
  obtain ⟨hdrs, hal, hh0⟩ := hal
  obtain ⟨s', hnew, hc, hn', hlen', b32, bko, bks, bk, bv⟩ :=
    newNode_wrapped l.arena k0 V hV hn hlen
  simp only [Nat.cast_one] at hnew
  have hoff : getNodeOffset s' (some ⟨s'.cur, 120⟩) = some 120 := by
    simp only [getNodeOffset, true_and]
    have : 0 < s'.len := by rw [hlen']; decide
    simp [this]
  have hd : ¬ (defaultMaxLevel ≤ 0) := by decide
  have hlf : levelField 0 = 24 := rfl
  have e1 : (1 : Int).toNat = 1 := rfl
  have hlink : linkLevels ⟨s'.cur, 120⟩ 120 hdrs (1 : Int).toNat 0 s' =
      some ((s'.store ⟨s'.cur, 120⟩ 24 (s'.load ⟨l.arena.cur, 8⟩ 24)).store
        ⟨l.arena.cur, 8⟩ 24 120) := by
    simp only [e1, linkLevels, hd, hh0, ↓reduceIte, hlf]
  have hadd := Add_absent_of l d { Key := [k0], Value := V, ExpiresAt := E } ⟨l.arena.cur, 8⟩
    hdrs s' ⟨s'.cur, 120⟩ 120 _ hg (by rw [hi.currHeight]; exact hal)
    (by rw [hi.maxLevel, randLevel_zero]; exact hnew) hoff
    (by rw [hi.maxLevel, randLevel_zero]; exact hlink)
  have hB : ∀ a, ((s'.store ⟨s'.cur, 120⟩ 24 (s'.load ⟨l.arena.cur, 8⟩ 24)).store
      ⟨l.arena.cur, 8⟩ 24 120).buf a =
      if a = 8 + 24 then 120 else if a = 120 + 24 then 0 else s'.buf a := by
    intro a
    rw [store_buf, store_buf]
    have hld : s'.load ⟨l.arena.cur, 8⟩ 24 = 0 := by
      have h0 : l.arena.buf (8 + 24) = 0 := hi.linked
      rw [← h0, ← b32, ← hc]
      rfl
    simp only [store_cur, hc, true_and, hld]
  refine ⟨_, hadd, hc, ?_⟩
  refine iterate_single _ 120 148 149 k0 ?_ ?_ ?_ ?_ ?_ ?_ ?_ ?_ ?_ ?_ ?_ ?_ ?_ ?_ ?_
  · exact hi.headOffset
  · show 8 < s'.len
    rw [hlen']; decide
  · decide
  · show 120 < s'.len
    rw [hlen']; decide
  · show 2 ≤ s'.n
    rw [hn']; decide
  · show _ = 120
    rw [hB, if_pos rfl]
  · show _ = 0
    rw [hB, if_neg (by decide), if_pos rfl]
  · show _ = 148
    rw [hB, if_neg (by decide), if_neg (by decide)]
    exact bko
  · show _ = 1
    rw [hB, if_neg (by decide), if_neg (by decide)]
    exact bks
  · show _ = k0
    rw [hB, if_neg (by decide), if_neg (by decide)]
    exact bk
  · show 148 + 1 ≤ s'.len
    rw [hlen']; decide
  · decide
  · show _ = encodeValue 149 0
    rw [hB, if_neg (by decide), if_neg (by decide)]
    exact bv
  · decide
  · show 149 ≤ s'.len
    rw [hlen']; decide

/-- C8 (as amended): when `len(V) + sizeVarint(E)` fits a `uint32` and the destination has
at least `EncodedSize()` bytes, `EncodeValue` returns `EncodedSize()`, writes exactly that
many bytes (the uvarint of `E`, then `V`; the rest of the destination is kept),
`EncodedSize() = sizeVarint(E) + len(V)`, and `sizeVarint(E)` is the length of the uvarint
encoding of `E`, between 1 and 10. -/
theorem EncodeValue_writes_EncodedSize (V : List Nat) (E : Nat) (buf : List Nat)
    (hE : E < 2 ^ 64) (hfit : V.length + sizeVarint E < 2 ^ 32)
    (hbuf : (ValueStruct.mk V E).EncodedSize ≤ buf.length) :
    ∃ out cnt, (ValueStruct.mk V E).EncodeValue buf = some (out, cnt) ∧
      cnt = (ValueStruct.mk V E).EncodedSize ∧
      out.take cnt = putUvarint E ++ V ∧ out.drop cnt = buf.drop cnt ∧
      out.length = buf.length ∧
      (ValueStruct.mk V E).EncodedSize = sizeVarint E + V.length ∧
      sizeVarint E = (putUvarint E).length ∧ 1 ≤ sizeVarint E ∧ sizeVarint E ≤ 10 := by
  have hsz : (ValueStruct.mk V E).EncodedSize = sizeVarint E + V.length := by
    simp only [ValueStruct.EncodedSize]
    rw [Nat.mod_eq_of_lt hfit, Nat.add_comm]
  have hlen := sizeVarint_eq_length E hE
  have hb := sizeVarint_bounds E hE
  rw [hsz] at hbuf
  have henc := encodeBytes_fit V E buf.length (by omega)
  have hwl : (putUvarint E ++ V).length = sizeVarint E + V.length := by
    rw [List.length_append, hlen]
  have hmod : (sizeVarint E + V.length) % 2 ^ 32 = sizeVarint E + V.length :=
    Nat.mod_eq_of_lt (by omega)
  refine ⟨putUvarint E ++ V ++ buf.drop (sizeVarint E + V.length), sizeVarint E + V.length,
    ?_, hsz.symm, ?_, ?_, ?_, hsz, hlen, hb.1, hb.2⟩
  · simp only [ValueStruct.EncodeValue, henc, Option.map_some', hwl, hmod]
  · rw [List.take_append_of_le_length (by omega), List.take_of_length_le (by omega)]
  · rw [List.drop_append_of_le_length (by omega), List.drop_of_length_le (by omega),
      List.nil_append]
  · simp only [List.length_append, List.length_drop]; omega

/-- Witness of `EncodeValue_writes_EncodedSize`: expiry 300, value `[1, 2, 3]`, a
destination of 7 bytes. -/
theorem EncodeValue_writes_EncodedSize_witness :
    ∃ out cnt, (ValueStruct.mk [1, 2, 3] 300).EncodeValue [9, 9, 9, 9, 9, 9, 9] = some (out, cnt) ∧
      cnt = (ValueStruct.mk [1, 2, 3] 300).EncodedSize ∧
      out.take cnt = putUvarint 300 ++ [1, 2, 3] ∧
      out.drop cnt = List.drop cnt [9, 9, 9, 9, 9, 9, 9] ∧
      out.length = [9, 9, 9, 9, 9, 9, 9].length ∧
      (ValueStruct.mk [1, 2, 3] 300).EncodedSize = sizeVarint 300 + [1, 2, 3].length ∧
      sizeVarint 300 = (putUvarint 300).length ∧ 1 ≤ sizeVarint 300 ∧ sizeVarint 300 ≤ 10 :=
  EncodeValue_writes_EncodedSize [1, 2, 3] 300 [9, 9, 9, 9, 9, 9, 9] (by decide) (by decide)
    (by decide)

theorem EncodedSize_of_length (V : List Nat) (h : V.length = 4294967295) :
    (ValueStruct.mk V 0).EncodedSize = 0 := by
  simp only [ValueStruct.EncodedSize, h]
  decide

theorem length_of_length (V : List Nat) (h : V.length = 4294967295) :
    sizeVarint 0 + V.length = 4294967296 := by
  rw [h]; decide

theorem decode_wraps (V buf : List Nat) (h : V.length = 4294967295)
    (hb : buf.length = 4294967296) :
    ((ValueStruct.mk V 0).EncodeValue buf).bind
      (fun r => DecodeValue (r.1.take (ValueStruct.mk V 0).EncodedSize)) =
      some { Value := [], ExpiresAt := 0 } ∧
    (ValueStruct.mk [] 0) ≠ ValueStruct.mk V 0 := by
  constructor
  · have h0 : putUvarint 0 = [0] := by decide
    have henc := encodeBytes_fit V 0 4294967296 (by rw [h0, h]; decide)
    simp only [ValueStruct.EncodeValue, hb, henc, Option.map_some',
      Option.some_bind, EncodedSize_of_length V h, List.take_zero]
    decide
  · intro h2
    have h1 := congrArg (fun v => v.Value.length) h2
    simp only [List.length_nil, h] at h1
    exact absurd h1 (by decide)

/-- C8 as stated fails for a value of `2^32 - 1` bytes with expiry 0: `EncodedSize()` is
0, not `sizeVarint(0) + len(V) = 2^32`. -/
theorem EncodedSize_wraps :
    (ValueStruct.mk (List.replicate 4294967295 7) 0).EncodedSize = 0 ∧
    sizeVarint 0 + (List.replicate 4294967295 7).length = 4294967296 :=
  ⟨EncodedSize_of_length _ (List.length_replicate _ _),
    length_of_length _ (List.length_replicate _ _)⟩

/-- C7 (as amended): when `len(V) + sizeVarint(E)` fits a `uint32`, decoding the first
`EncodedSize()` bytes of what `EncodeValue` wrote gives back `(E, V)`. -/
theorem DecodeValue_EncodeValue (V : List Nat) (E : Nat) (buf : List Nat)
    (hE : E < 2 ^ 64) (hfit : V.length + sizeVarint E < 2 ^ 32)
    (hbuf : (ValueStruct.mk V E).EncodedSize ≤ buf.length) :
    ∃ out cnt, (ValueStruct.mk V E).EncodeValue buf = some (out, cnt) ∧
      DecodeValue (out.take (ValueStruct.mk V E).EncodedSize) =
        some { Value := V, ExpiresAt := E } := by
  have hsz : (ValueStruct.mk V E).EncodedSize = sizeVarint E + V.length := by
    simp only [ValueStruct.EncodedSize]
    rw [Nat.mod_eq_of_lt hfit, Nat.add_comm]
  have hlen := sizeVarint_eq_length E hE
  rw [hsz] at hbuf
  have henc := encodeBytes_fit V E buf.length (by omega)
  refine ⟨putUvarint E ++ V ++ buf.drop (putUvarint E ++ V).length,
    (putUvarint E ++ V).length % 2 ^ 32, ?_, ?_⟩
  · simp only [ValueStruct.EncodeValue, henc, Option.map_some']
  · rw [hsz, List.take_append_of_le_length (by rw [List.length_append]; omega),
      List.take_of_length_le (by rw [List.length_append]; omega)]
    exact DecodeValue_put V E hE

/-- Witness of `DecodeValue_EncodeValue`: expiry 300, value `[1, 2, 3]`, a destination of
7 bytes. -/
theorem DecodeValue_EncodeValue_witness :
    ∃ out cnt, (ValueStruct.mk [1, 2, 3] 300).EncodeValue [9, 9, 9, 9, 9, 9, 9] = some (out, cnt) ∧
      DecodeValue (out.take (ValueStruct.mk [1, 2, 3] 300).EncodedSize) =
        some { Value := [1, 2, 3], ExpiresAt := 300 } :=
  DecodeValue_EncodeValue [1, 2, 3] 300 [9, 9, 9, 9, 9, 9, 9] (by decide) (by decide) (by decide)

/-- C7 as stated fails for a value of `2^32 - 1` bytes with expiry 0 written into a
destination of `2^32` bytes: `EncodeValue` succeeds, `EncodedSize()` is 0, and decoding
the first 0 bytes yields the empty value. -/
theorem DecodeValue_EncodeValue_wraps :
    ((ValueStruct.mk (List.replicate 4294967295 7) 0).EncodeValue
        (List.replicate 4294967296 0)).bind
      (fun r => DecodeValue
        (r.1.take (ValueStruct.mk (List.replicate 4294967295 7) 0).EncodedSize)) =
      some { Value := [], ExpiresAt := 0 } ∧
    (ValueStruct.mk [] 0) ≠ ValueStruct.mk (List.replicate 4294967295 7) 0 :=
  decode_wraps _ _ (List.length_replicate _ _) (List.length_replicate _ _)

theorem filterBits32_eq (n : Nat) (b : Int) (h : 0 ≤ filterBytes n b) :
    filterBits32 n b = (8 * (filterBytes n b).toNat) % 2 ^ 32 := by
  have hr := filterBytes_ge n b h
  unfold filterBits32
  rw [wrapInt64_id _ (by omega) (by omega)]
  omega

theorem getLast?_set_last (l : List Nat) (v : Nat) (h : 0 < l.length) :
    (l.set (l.length - 1) v).getLast? = some v := by
  rw [List.getLast?_eq_getElem?, List.length_set, List.getElem?_set_self (by omega)]

/-- The shape of the array `appendFilter` returns. -/
theorem appendFilter_some (plat : Nat → Nat) (keys : List Nat) (b : Int) (f : List Nat)
    (hf : appendFilter plat keys b = some f) :
    0 ≤ filterBytes keys.length b ∧
    ∃ f1, setAll (filterBits32 keys.length b) (probeCount plat b) keys
        (List.replicate (filterBytes keys.length b + 1).toNat 0) = some f1 ∧
      f1.length = (filterBytes keys.length b).toNat + 1 ∧
      f = f1.set (filterBytes keys.length b).toNat (probeCount plat b % 256) := by
  unfold appendFilter at hf
  dsimp only at hf
  split at hf
  · exact absurd hf (by simp)
  · rename_i hneg
    split at hf
    · exact absurd hf (by simp)
    · rename_i f1 e1
      have hl := setAll_length _ _ _ _ _ e1
      rw [List.length_replicate] at hl
      split at hf
      · rename_i hlt
        rw [hl] at hlt
        have h0 : 0 ≤ filterBytes keys.length b := by omega
        refine ⟨h0, f1, e1, by omega, (Option.some.inj hf).symm⟩
      · exact absurd hf (by simp)

set_option maxRecDepth 100000 in
theorem truncMul069_small : ∀ n : Fin 100, truncMul069 n.val = 69 * n.val / 100 := by decide

theorem probeCount_eq (plat : Nat → Nat) (b : Int) (hb : b ≤ 6224590284) :
    probeCount plat b = max 1 (min 30 (69 * b.toNat / 100)) := by
  have hn : (if b < 0 then 0 else b).toNat = b.toNat := by
    split
    · omega
    · rfl
  simp only [probeCount, hn]
  have hle : b.toNat ≤ 6224590284 := by omega
  have hup : truncMul069 b.toNat < 2 ^ 32 :=
    lt_of_le_of_lt (truncMul069_mono _ _ hle) (by decide)
  simp only [float64ToUint32, hup, ↓reduceIte]
  by_cases hs : b.toNat < 100
  · have ht : truncMul069 b.toNat = 69 * b.toNat / 100 := truncMul069_small ⟨b.toNat, hs⟩
    rw [ht]
    split_ifs <;> omega
  · have h69 : 69 ≤ truncMul069 b.toNat :=
      le_trans (by decide) (truncMul069_mono 100 _ (by omega))
    have h1 : ¬ (truncMul069 b.toNat < 1) := by omega
    have h2 : 30 < truncMul069 b.toNat := by omega
    simp only [h1, h2, ↓reduceIte]
    omega

/-- C10 (as amended): `NewFilter` stores in the last byte the probe count
`k = floor(bits_per_key * 0.69)` clamped to `[1, 30]` (a negative `bits_per_key` counts
as 0), for every `bits_per_key` up to 6224590284, the largest one whose product with
0.69 still converts to a `uint32`. -/
theorem NewFilter_probeCount (plat : Nat → Nat) (keys : List Nat) (b : Int) (f : List Nat)
    (hb : b ≤ 6224590284) (hf : NewFilter plat keys b = some f) :
    probeCount plat b = max 1 (min 30 (69 * b.toNat / 100)) ∧
    f.getLast? = some (max 1 (min 30 (69 * b.toNat / 100))) := by
  have hk := probeCount_eq plat b hb
  refine ⟨hk, ?_⟩
  obtain ⟨_, f1, _, hl, rfl⟩ := appendFilter_some plat keys b f hf
  have hr := probeCount_range plat b
  have : (filterBytes keys.length b).toNat = f1.length - 1 := by omega
  rw [this, getLast?_set_last _ _ (by omega), Nat.mod_eq_of_lt (by omega), hk]

/-- Witness of `NewFilter_probeCount`: three hashes, `bits_per_key = 10`. -/
theorem NewFilter_probeCount_witness :
    probeCount (fun t => t) 10 = max 1 (min 30 (69 * (10 : Int).toNat / 100)) ∧
    [143, 64, 32, 16, 8, 0, 0, 0, 6].getLast? =
      some (max 1 (min 30 (69 * (10 : Int).toNat / 100))) :=
  NewFilter_probeCount (fun t => t) [1, 2, 3, 1000000] 10 [143, 64, 32, 16, 8, 0, 0, 0, 6]
    (by decide) (by decide)

/-- C10 as stated fails at `bits_per_key = 10`: the code uses and stores `k = 6`, while
`round(10 * ln 2) = 7`. -/
theorem probeCount_ten_is_six :
    probeCount (fun t => t) 10 = 6 ∧
    (NewFilter (fun t => t) [1, 2, 3, 1000000] 10).bind List.getLast? = some 6 ∧
    round ((10 : ℝ) * Real.log 2) = 7 := by
  refine ⟨by decide, by decide, ?_⟩
  rw [round_eq, Int.floor_eq_iff]
  have h1 := Real.log_two_gt_d9
  have h2 := Real.log_two_lt_d9
  constructor <;> norm_num <;> linarith

/-- C9 (as amended): whenever the byte count of the filter did not overflow and the
32-bit divisor `uint32(nBits)` is not zero, `NewFilter` returns a filter and `MayContain`
is true for every hash the filter was built from. -/
theorem NewFilter_no_false_negative (plat : Nat → Nat) (keys : List Nat) (b : Int)
    (hb : 0 ≤ filterBytes keys.length b) (hz : filterBits32 keys.length b ≠ 0) :
    ∃ f, NewFilter plat keys b = some f ∧ ∀ h ∈ keys, MayContain f h = some true := by
  have hr := filterBytes_ge keys.length b hb
  have hk := probeCount_range plat b
  have h32 := filterBits32_eq keys.length b hb
  have hlen0 : (List.replicate (filterBytes keys.length b + 1).toNat 0).length =
      (filterBytes keys.length b).toNat + 1 := by
    rw [List.length_replicate]; omega
  have hle : filterBits32 keys.length b ≤ 8 * (filterBytes keys.length b).toNat := by
    rw [h32]; exact Nat.mod_le _ _
  obtain ⟨f1, e1⟩ := setAll_isSome (filterBits32 keys.length b) (probeCount plat b) hz keys
    (List.replicate (filterBytes keys.length b + 1).toNat 0) (by rw [hlen0]; omega)
  have hl1 : f1.length = (filterBytes keys.length b).toNat + 1 := by
    rw [setAll_length _ _ _ _ _ e1, hlen0]
  refine ⟨f1.set (filterBytes keys.length b).toNat (probeCount plat b % 256), ?_, ?_⟩
  · unfold NewFilter appendFilter
    have : ¬ (filterBytes keys.length b + 1 < 0) := by omega
    simp only [this, ↓reduceIte, e1, hl1]
    simp
  · intro h hh
    have hlen : (f1.set (filterBytes keys.length b).toNat (probeCount plat b % 256)).length =
        (filterBytes keys.length b).toNat + 1 := by rw [List.length_set, hl1]
    unfold MayContain
    have h2 : ¬ ((filterBytes keys.length b).toNat + 1 < 2) := by omega
    have hget : (f1.set (filterBytes keys.length b).toNat (probeCount plat b % 256)).get?
        (filterBytes keys.length b).toNat = some (probeCount plat b) := by
      rw [List.get?_eq_getElem?, List.getElem?_set_self (by omega),
        Nat.mod_eq_of_lt (by omega)]
    have h30 : ¬ (30 < probeCount plat b) := by omega
    simp only [hlen, h2, ↓reduceIte, hget, h30, Nat.add_sub_cancel, ← h32]
    apply checkProbes_of_setAll _ _ keys _ f1 _ e1 _ h hh
    rintro p hp ⟨c, hc, hne⟩
    refine ⟨c, ?_, hne⟩
    rw [List.get?_eq_getElem?, List.getElem?_set_ne (by omega), ← List.get?_eq_getElem?]
    exact hc

/-- Witness of `NewFilter_no_false_negative`: four hashes, `bits_per_key = 10`. -/
theorem NewFilter_no_false_negative_witness :
    ∃ f, NewFilter (fun t => t) [1, 2, 3, 1000000] 10 = some f ∧
      ∀ h ∈ [1, 2, 3, 1000000], MayContain f h = some true :=
  NewFilter_no_false_negative (fun t => t) [1, 2, 3, 1000000] 10 (by decide) (by decide)

/-- C9 as stated fails for one hash and `bits_per_key = 2^32`: the bit count is `2^32`,
`uint32(nBits)` is 0 and the first probe `h % uint32(nBits)` divides by zero, so
`NewFilter` returns no filter. -/
theorem NewFilter_divides_by_zero :
    filterBytes [0].length 4294967296 = 536870912 ∧
    filterBits32 [0].length 4294967296 = 0 ∧
    NewFilter (fun t => t) [0] 4294967296 = none := by
  refine ⟨by decide, by decide, by decide⟩

theorem mask_and_mask (p q : Nat) (h : ((1 <<< (q % 8)) % 256) &&& ((1 <<< (p % 8)) % 256) ≠ 0) :
    p % 8 = q % 8 := by
  have hp : p % 8 < 8 := Nat.mod_lt _ (by decide)
  have hq : q % 8 < 8 := Nat.mod_lt _ (by decide)
  revert h
  generalize p % 8 = a at hp
  generalize q % 8 = b at hq
  interval_cases a <;> interval_cases b <;> decide

theorem or_and_ne_zero (b m m' : Nat) (h : (b ||| m') &&& m ≠ 0) :
    b &&& m ≠ 0 ∨ m' &&& m ≠ 0 := by
  by_contra hc
  push_neg at hc
  apply h
  apply Nat.eq_of_testBit_eq
  intro i
  have h1 := congrArg (fun x => x.testBit i) hc.1
  have h2 := congrArg (fun x => x.testBit i) hc.2
  simp only [Nat.testBit_and, Nat.testBit_or, Nat.zero_testBit] at h1 h2 ⊢
  cases hb : b.testBit i <;> cases hm : m.testBit i <;> cases hm' : m'.testBit i <;> simp_all

/-- A bit that is set after bit `q` was set was set before, or is bit `q`. -/
theorem bitSet_of_set (f : List Nat) (q b p : Nat)
    (h : bitSet (f.set (q / 8) (b ||| ((1 <<< (q % 8)) % 256))) p)
    (hb : f.get? (q / 8) = some b) : bitSet f p ∨ p = q := by
  obtain ⟨c, hc, hne⟩ := h
  by_cases e : p / 8 = q / 8
  · have hlt : q / 8 < f.length := by
      simp only [List.get?_eq_getElem?] at hb
      by_contra hge
      rw [List.getElem?_eq_none (by omega)] at hb
      exact absurd hb (by simp)
    rw [e, List.get?_eq_getElem?, List.getElem?_set_self hlt] at hc
    have hc' := Option.some.inj hc
    rw [← hc'] at hne
    rcases or_and_ne_zero _ _ _ hne with h1 | h1
    · left
      exact ⟨b, by rw [e]; exact hb, h1⟩
    · right
      have := mask_and_mask p q h1
      omega
  · left
    refine ⟨c, ?_, hne⟩
    rw [List.get?_eq_getElem?, List.getElem?_set_ne (fun h => e h.symm),
      ← List.get?_eq_getElem?] at hc
    exact hc

theorem setProbes_only (nBits delta : Nat) : ∀ (j h : Nat) (f f' : List Nat),
    setProbes nBits delta j h f = some f' →
    ∀ p, bitSet f' p → bitSet f p ∨ ∃ i, i < j ∧ p = probeHash delta i h % nBits := by
  intro j
  induction j with
  | zero =>
    intro h f f' e p hp
    simp [setProbes] at e
    rw [← e] at hp
    exact Or.inl hp
  | succ j ih =>
    intro h f f' e p hp
    rw [setProbes] at e
    split at e
    · exact absurd e (by simp)
    · dsimp only at e
      split at e
      · exact absurd e (by simp)
      · rename_i b hb
        rcases ih _ _ _ e p hp with h1 | ⟨i, hi, hpi⟩
        · rcases bitSet_of_set f _ b p h1 hb with h2 | h2
          · exact Or.inl h2
          · exact Or.inr ⟨0, by omega, h2⟩
        · exact Or.inr ⟨i + 1, by omega, hpi⟩

theorem setAll_only (nBits k : Nat) : ∀ (keys f f' : List Nat),
    setAll nBits k keys f = some f' →
    ∀ p, bitSet f' p →
      bitSet f p ∨ ∃ h ∈ keys, ∃ i, i < k ∧ p = probeHash (probeDelta h) i h % nBits := by
  intro keys
  induction keys with
  | nil =>
    intro f f' e p hp
    simp [setAll] at e
    rw [← e] at hp
    exact Or.inl hp
  | cons h hs ih =>
    intro f f' e p hp
    rw [setAll] at e
    split at e
    · exact absurd e (by simp)
    · rename_i f1 e1
      rcases ih _ _ e p hp with h1 | ⟨x, hx, i, hi, hpi⟩
      · rcases setProbes_only _ _ _ _ _ _ e1 p h1 with h2 | ⟨i, hi, hpi⟩
        · exact Or.inl h2
        · exact Or.inr ⟨h, List.mem_cons_self _ _, i, hi, hpi⟩
      · exact Or.inr ⟨x, List.mem_cons_of_mem _ hx, i, hi, hpi⟩

theorem not_bitSet_zeros (n p : Nat) : ¬ bitSet (List.replicate n 0) p := by
  rintro ⟨b, hb, hne⟩
  rw [List.get?_eq_getElem?] at hb
  have hb0 : b = 0 := by
    by_cases hlt : p / 8 < n
    · rw [List.getElem?_replicate_of_lt hlt] at hb
      exact (Option.some.inj hb).symm
    · rw [List.getElem?_eq_none (by rw [List.length_replicate]; omega)] at hb
      exact absurd hb (by simp)
  rw [hb0] at hne
  exact hne (Nat.zero_and _)

/-- The byte count of `appendFilter` when `len(keys) * bitsPerKey` does not overflow. -/
theorem filterBytes_eq (n : Nat) (b : Int)
    (hov : (n : Int) * (if b < 0 then 0 else b) < 2 ^ 63 - 7) :
    filterBytes n b = ((max 64 (n * b.toNat) + 7) / 8 : Nat) := by
  have hb0 : (0 : Int) ≤ (if b < 0 then 0 else b) := by split <;> omega
  have hbn : (if b < 0 then 0 else b) = (b.toNat : Int) := by split <;> omega
  rw [hbn] at hov
  simp only [filterBytes, hbn]
  have hnn : (0 : Int) ≤ (n : Int) * (b.toNat : Int) := by positivity
  have hw : wrapInt64 ((n : Int) * (b.toNat : Int)) = (n : Int) * (b.toNat : Int) :=
    wrapInt64_id _ (by omega) (by omega)
  rw [hw]
  have hmax : (if (n : Int) * (b.toNat : Int) < 64 then (64 : Int)
      else (n : Int) * (b.toNat : Int)) = ((max 64 (n * b.toNat) : Nat) : Int) := by
    push_cast
    split <;> omega
  rw [hmax]
  have hlt : ((max 64 (n * b.toNat) : Nat) : Int) + 7 < 2 ^ 63 := by
    rw [← hmax]
    split <;> omega
  have hw2 : wrapInt64 (((max 64 (n * b.toNat) : Nat) : Int) + 7) =
      ((max 64 (n * b.toNat) : Nat) : Int) + 7 := wrapInt64_id _ (by omega) hlt
  rw [hw2, Int.tdiv_eq_ediv (by omega) (by decide)]
  push_cast
  rfl

/-- The probe loop of `MayContain` returns, and returns true exactly when every probed
bit is set. -/
theorem checkProbes_iff (f : List Nat) (nBits delta : Nat) (hn : nBits ≠ 0)
    (hl : nBits ≤ 8 * f.length) : ∀ (j h : Nat),
    ∃ r, checkProbes f nBits delta j h = some r ∧
      (r = true ↔ ∀ i, i < j → bitSet f (probeHash delta i h % nBits)) := by
  intro j
  induction j with
  | zero => intro h; exact ⟨true, rfl, by simp⟩
  | succ j ih =>
    intro h
    have hlt : h % nBits / 8 < f.length := by
      have := Nat.mod_lt h (Nat.pos_of_ne_zero hn)
      omega
    rw [checkProbes]
    simp only [hn, ↓reduceIte, List.get?_eq_getElem?, List.getElem?_eq_getElem hlt]
    by_cases hz : f[h % nBits / 8] &&& ((1 <<< (h % nBits % 8)) % 256) = 0
    · refine ⟨false, by simp only [hz, ↓reduceIte], ?_⟩
      constructor
      · intro hc; exact absurd hc (by decide)
      · intro hall
        have h0 : bitSet f (h % nBits) := hall 0 (by omega)
        obtain ⟨b, hb, hne⟩ := h0
        rw [List.get?_eq_getElem?, List.getElem?_eq_getElem hlt] at hb
        have hb' := Option.some.inj hb
        exact absurd (by rw [← hb']; exact hz) hne
    · obtain ⟨r, hr, hiff⟩ := ih ((h + delta) % 2 ^ 32)
      refine ⟨r, by simp only [hz, ↓reduceIte, hr], ?_⟩
      rw [hiff]
      constructor
      · intro hall i hi
        cases i with
        | zero =>
          show bitSet f (h % nBits)
          exact ⟨f[h % nBits / 8], by
            rw [List.get?_eq_getElem?, List.getElem?_eq_getElem hlt], hz⟩
        | succ i => exact hall i (by omega)
      · intro hall i hi
        exact hall (i + 1) (by omega)

/-- In a sorted list the search of a key yields the value paired with the key. -/
theorem locate_val_iff (rs : List Rec) (hs : SortedRecs rs) (k : List Nat) (p : Nat)
    (v : List Nat) :
    (locate k p rs).2.map Rec.val = some v ↔ (k, v) ∈ rs.map kv := by
  constructor
  · intro h
    cases hl : (locate k p rs).2 with
    | none => rw [hl] at h; exact absurd h (by simp)
    | some r =>
      rw [hl] at h
      obtain ⟨hr, hk⟩ := locate_mem k rs p r hl
      have hv : r.val = v := Option.some.inj h
      rw [← hk, ← hv]
      exact List.mem_map_of_mem kv hr
  · intro h
    obtain ⟨r, hr, hkv⟩ := List.mem_map.mp h
    have hk : r.key = k := congrArg Prod.fst hkv
    have hv : r.val = v := congrArg Prod.snd hkv
    have := locate_of_mem rs p r hs hr
    rw [hk] at this
    rw [this, Option.map_some', hv]

/-- `Search` on a list whose head has no successor on the levels 0 and 1. -/
theorem Search_empty (l : SkipList) (key : List Nat) (h8 : l.headOffset = 8)
    (hc : l.currHeight = 1) (hn : l.arena.n ≠ 0) (hlen : 8 < l.arena.len)
    (b32 : l.arena.buf 32 = 0) (b36 : l.arena.buf 36 = 0) :
    Search l key = some none := by
  have hn0 : ¬ (l.arena.Size = 0) := hn
  have hg : getNode l.arena l.headOffset = some (some ⟨l.arena.cur, 8⟩) := by
    rw [h8]
    exact getNode_some _ _ (by decide) hlen
  have htop : l.arena.load ⟨l.arena.cur, 8⟩ (levelField 1) = 0 := b36
  have hgn1 : getNext l.arena (some ⟨l.arena.cur, 8⟩) 1 = some none := by
    simp only [getNext, getNextOffset, defaultMaxLevel]
    have : (0:Int) ≤ 1 ∧ (1:Int) < ((20:Nat):Int) := by decide
    simp only [this, and_self, ↓reduceIte]
    have e1 : (1:Int).toNat = 1 := rfl
    rw [e1, htop]
    rfl
  obtain ⟨f, hf⟩ : ∃ f, l.arena.n = f + 1 := ⟨l.arena.n - 1, by omega⟩
  have hscan1 : scanLevel l.arena (calcScore key) key 1 l.arena.n ⟨l.arena.cur, 8⟩
      (fun _ => none) = some (Scan.stop ⟨l.arena.cur, 8⟩ (fun _ => none)) := by
    rw [hf, scanLevel, hgn1]
  unfold Search
  simp only [hn0, ↓reduceIte, hg, hc]
  have e2 : (1:Int).toNat + 1 = 2 := rfl
  have e1 : (1:Int).toNat = 1 := rfl
  rw [e2, searchLevels]
  have hlt : ¬ ((1:Int) < 0) := by decide
  have h20 : ¬ (((defaultMaxLevel : Nat) : Int) ≤ 1) := by decide
  simp only [hlt, ↓reduceIte, hscan1, h20, e1, htop]
  have hl32 : levelField ((1:Int) - 1).toNat = 24 := rfl
  have hh : l.arena.load ⟨l.arena.cur, 8⟩ 24 = 0 := b32
  have hs : skipLevelsSearch l.arena ⟨l.arena.cur, 8⟩ 0 1 (1 - 1) = -1 := by
    simp only [skipLevelsSearch, hl32, hh]
    decide
  rw [hs, searchLevels]
  simp

/-- `allocate` when the arena does not grow, the cursor computed on 32 bits. -/
theorem allocate_at (s : Arena) (sz : Nat)
    (hfit : ¬ (s.len < (s.n + sz) % 2 ^ 32 + MaxNodeSize)) :
    allocate s sz = ({ s with n := (s.n + sz) % 2 ^ 32 },
      ((s.n + sz) % 2 ^ 32 + 2 ^ 32 - sz) % 2 ^ 32) := by
  unfold allocate
  dsimp only
  rw [if_neg hfit]

theorem wrapA1 : (4294967288 + 35) % 2 ^ 32 = 27 := by decide

theorem wrapA2 : (27 + 2 ^ 32 - 35) % 2 ^ 32 = 4294967288 := by decide

theorem wrapA3 :
    ((4294967288 + nodeAlign) % 2 ^ 32) &&& (2 ^ 32 - 1 - nodeAlign) = 4294967288 := by decide

/-- `putNode(1)` with the cursor at 2^32 - 8 in a buffer of 2^33 bytes: the 32-bit cursor
wraps to 27 and the node is put at 2^32 - 8. -/
theorem putNode_at_wrap (s : Arena) (hn : s.n = 4294967288) (hlen : s.len = 8589934592) :
    putNode s 1 = ({ s with n := 27 }, 4294967288) := by
  have hl : (((MaxNodeSize : Int) - ((defaultMaxLevel : Int) - 1) * offsetSize + nodeAlign) %
      2 ^ 32).toNat = 35 := by decide
  unfold putNode
  dsimp only
  rw [hl, allocate_at s 35 (by rw [hn, hlen]; decide), hn]
  dsimp only
  rw [wrapA1, wrapA2, wrapA3]

/-- `putKey` of a one-byte key with the cursor at 27. -/
theorem putKey_at_27 (s : Arena) (hn : s.n = 27) (hlen : s.len = 8589934592) (k : Nat) :
    putKey s [k] = some (({ s with n := 28 } : Arena).storeBytes 27 [k], 27) := by
  have a1 : (27 + 1 % 2 ^ 32) % 2 ^ 32 = 28 := by decide
  have a2 : (28 + 2 ^ 32 - 1 % 2 ^ 32) % 2 ^ 32 = 27 := by decide
  have hfit : ¬ (s.len < (s.n + [k].length % 2 ^ 32) % 2 ^ 32 + MaxNodeSize) := by
    rw [hn, hlen, List.length_singleton]; decide
  unfold putKey
  dsimp only
  rw [allocate_at s _ hfit, hn, List.length_singleton]
  dsimp only
  rw [a1, a2, a1, hlen, if_pos (by decide), if_pos (by decide)]
  rfl

/-- `putValue` of a four-byte value with the cursor at 28. -/
theorem putValue_at_28 (s : Arena) (hn : s.n = 28) (hlen : s.len = 8589934592)
    (v0 v1 v2 v3 : Nat) :
    (ValueStruct.mk [v0, v1, v2, v3] 0).EncodedSize = 5 ∧
    putValue s (ValueStruct.mk [v0, v1, v2, v3] 0) =
      some (({ s with n := 33 } : Arena).storeBytes 28 [0, v0, v1, v2, v3], 28) := by
  have hes : (ValueStruct.mk [v0, v1, v2, v3] 0).EncodedSize = 5 := by
    simp only [ValueStruct.EncodedSize, List.length_cons, List.length_nil]
    decide
  refine ⟨hes, ?_⟩
  have a1 : (28 + 5) % 2 ^ 32 = 33 := by decide
  have a2 : (33 + 2 ^ 32 - 5) % 2 ^ 32 = 28 := by decide
  have hfit : ¬ (s.len < (s.n + 5) % 2 ^ 32 + MaxNodeSize) := by
    rw [hn, hlen]; decide
  have hp0 : putUvarint 0 = [0] := by decide
  have henc : encodeBytes (ValueStruct.mk [v0, v1, v2, v3] 0) (8589934592 - 28) =
      some [0, v0, v1, v2, v3] := by
    unfold encodeBytes
    dsimp only
    rw [hp0, if_pos (by decide)]
    rfl
  unfold putValue
  dsimp only
  rw [hes, allocate_at s _ hfit, hn]
  dsimp only
  rw [a1, a2, hlen, if_pos (by decide), henc]

/-- `newNode` of a one-byte key and a four-byte value ending in 0, with the cursor at
2^32 - 8 in a buffer of 2^33 bytes: the key and the encoded value are written over the
bytes 27 to 32 of the buffer, so byte 32 becomes 0. -/
theorem newNode_at_wrap (s : Arena) (hn : s.n = 4294967288) (hlen : s.len = 8589934592)
    (k v0 v1 v2 : Nat) :
    ∃ s', newNode s [k] (ValueStruct.mk [v0, v1, v2, 0] 0) 1 =
        some (s', ⟨s'.cur, 4294967288⟩) ∧
      s'.cur = s.cur ∧ s'.n = 33 ∧ s'.len = 8589934592 ∧ s'.buf 32 = 0 ∧
      s'.buf 36 = s.buf 36 ∧ s'.buf 30 = v1 := by
  have hpn := putNode_at_wrap s hn hlen
  have hpk := putKey_at_27 { s with n := 27 } rfl hlen k
  obtain ⟨hes, hpv⟩ := putValue_at_28 (({ s with n := 28 } : Arena).storeBytes 27 [k]) rfl hlen
    v0 v1 v2 0
  have hgn := getNode_some
    (({ (({ s with n := 28 } : Arena).storeBytes 27 [k]) with n := 33 } : Arena).storeBytes 28
      [0, v0, v1, v2, 0]) 4294967288 (by decide)
    (by show 4294967288 < s.len; rw [hlen]; decide)
  have hnew := newNode_of s [k] (ValueStruct.mk [v0, v1, v2, 0] 0) 1 _ _ _ _ _ _ _ hpn hpk hpv hgn
  refine ⟨_, hnew, rfl, rfl, hlen, ?_, ?_, ?_⟩
  · simp only [store_buf, store_cur, storeBytes_cur, true_and, scoreField, valueField,
      keyOffsetField, keySizeField, heightField]
    rw [if_neg (by decide), if_neg (by decide), if_neg (by decide), if_neg (by decide),
      if_neg (by decide), storeBytes_buf, if_pos (by simp only [List.length_cons, List.length_nil]; decide)]
    rfl
  · simp only [store_buf, store_cur, storeBytes_cur, true_and, scoreField, valueField,
      keyOffsetField, keySizeField, heightField]
    rw [if_neg (by decide), if_neg (by decide), if_neg (by decide), if_neg (by decide),
      if_neg (by decide), storeBytes_buf,
      if_neg (by simp only [List.length_cons, List.length_nil]; decide)]
    show (({ s with n := 28 } : Arena).storeBytes 27 [k]).buf 36 = _
    rw [storeBytes_buf, if_neg (by simp only [List.length_cons, List.length_nil]; decide)]
    rfl
  · simp only [store_buf, store_cur, storeBytes_cur, true_and, scoreField, valueField,
      keyOffsetField, keySizeField, heightField]
    rw [if_neg (by decide), if_neg (by decide), if_neg (by decide), if_neg (by decide),
      if_neg (by decide), storeBytes_buf,
      if_pos (by simp only [List.length_cons, List.length_nil]; decide)]
    rfl

/-- `Add` of a new one-byte key and a four-byte value ending in 0 to a list whose cursor is
at 2^32 - 8 in a buffer of 2^33 bytes, behind a node of the list: the arena does not grow,
and the new key and value are written over the head node, its height (offset 30) and its
first forward pointer (offset 32). -/
theorem Add_at_wrap_state (l : SkipList) (rs : List Rec) (hi : Inv l rs)
    (hn : l.arena.n = 4294967288) (hlen : l.arena.len = 8589934592) (d : Nat → Nat)
    (k v0 v1 v2 E : Nat) (hk : k < 256) (habs : (locate [k] 8 rs).2 = none)
    (hp : (locate [k] 8 rs).1 ≠ 8) :
    ∃ l', Add l d { Key := [k], Value := [v0, v1, v2, 0], ExpiresAt := E } = some l' ∧
      l'.arena.cur = l.arena.cur ∧ l'.headOffset = 8 ∧ l'.currHeight = 1 ∧
      l'.arena.n = 33 ∧ l'.arena.len = 8589934592 ∧ l'.arena.buf 30 = v1 ∧
      l'.arena.buf 32 = 0 ∧ l'.arena.buf 36 = 0 := by
  have hg : getNode l.arena l.headOffset = some (some ⟨l.arena.cur, 8⟩) := by
    rw [hi.headOffset]
    exact getNode_some _ _ (by decide) (by rw [hlen]; decide)
  have hkb : IsBytes [k] := by
    intro b hb
    rw [List.mem_singleton.mp hb]
    exact hk
  have hal := addLevels_spec l rs hi [k] hkb
  rw [habs] at hal
  obtain ⟨hdrs, hal, hh0⟩ := hal
  have hq : 113 ≤ (locate [k] 8 rs).1 := by
    rcases locate_fst [k] rs 8 with e | ⟨r, hr, e⟩
    · exact absurd e hp
    · rw [← e]
      exact (hi.recs r hr).2.2.1
  generalize (locate [k] 8 rs).1 = q at hh0 hq
  obtain ⟨s', hnew, hc, hn', hlen', b32, b36, b30⟩ :=
    newNode_at_wrap l.arena hn hlen k v0 v1 v2
  have hoff : getNodeOffset s' (some ⟨s'.cur, 4294967288⟩) = some 4294967288 := by
    simp only [getNodeOffset, true_and]
    have : 0 < s'.len := by rw [hlen']; decide
    simp [this]
  have hd : ¬ (defaultMaxLevel ≤ 0) := by decide
  have hlf : levelField 0 = 24 := rfl
  have e1 : (1 : Int).toNat = 1 := rfl
  have hlink : linkLevels ⟨s'.cur, 4294967288⟩ 4294967288 hdrs (1 : Int).toNat 0 s' =
      some ((s'.store ⟨s'.cur, 4294967288⟩ 24 (s'.load ⟨l.arena.cur, q⟩ 24)).store
        ⟨l.arena.cur, q⟩ 24 4294967288) := by
    simp only [e1, linkLevels, hd, hh0, ↓reduceIte, hlf]
  have hadd := Add_absent_of l d { Key := [k], Value := [v0, v1, v2, 0], ExpiresAt := E }
    ⟨l.arena.cur, 8⟩ hdrs s' ⟨s'.cur, 4294967288⟩ 4294967288 _ hg
    (by rw [hi.currHeight]; exact hal)
    (by rw [hi.maxLevel, randLevel_zero]; exact hnew) hoff
    (by rw [hi.maxLevel, randLevel_zero]; exact hlink)
  have hB : ∀ a, a < 113 → ((s'.store ⟨s'.cur, 4294967288⟩ 24 (s'.load ⟨l.arena.cur, q⟩ 24)).store
      ⟨l.arena.cur, q⟩ 24 4294967288).buf a = s'.buf a := by
    intro a ha
    rw [store_buf, store_buf, if_neg (by show ¬ (_ ∧ a = q + 24); omega),
      if_neg (by show ¬ (_ ∧ a = 4294967288 + 24); omega)]
  refine ⟨_, hadd, hc, hi.headOffset, hi.currHeight, hn', hlen', ?_, ?_, ?_⟩
  · show _ = v1
    rw [hB 30 (by decide)]
    exact b30
  · show _ = 0
    rw [hB 32 (by decide)]
    exact b32
  · show _ = 0
    rw [hB 36 (by decide), b36]
    exact hi.top

/-- After the `Add` of `Add_at_wrap_state`, `Search` finds no key. -/
theorem Add_at_wrap (l : SkipList) (rs : List Rec) (hi : Inv l rs)
    (hn : l.arena.n = 4294967288) (hlen : l.arena.len = 8589934592) (d : Nat → Nat)
    (k v0 v1 v2 E : Nat) (hk : k < 256) (habs : (locate [k] 8 rs).2 = none)
    (hp : (locate [k] 8 rs).1 ≠ 8) :
    ∃ l', Add l d { Key := [k], Value := [v0, v1, v2, 0], ExpiresAt := E } = some l' ∧
      l'.arena.cur = l.arena.cur ∧ ∀ key, Search l' key = some none := by
  obtain ⟨l', hadd, hc, h8, hch, hn', hlen', _, b32, b36⟩ :=
    Add_at_wrap_state l rs hi hn hlen d k v0 v1 v2 E hk habs hp
  exact ⟨l', hadd, hc, fun key => Search_empty l' key h8 hch (by rw [hn']; decide)
    (by rw [hlen']; decide) b32 b36⟩

/-- A one-byte key added to a new list of capacity 2^33 with a value of 4294967138 bytes:
the arena does not grow and the cursor ends at 2^32 - 8. -/
theorem big_value_once (V : List Nat) (hV : V.length = 4294967138) (d : Nat → Nat)
    (k E : Nat) (hk : k < 256) :
    ∃ l0 l1 rs1, NewSkipList 8589934592 = some l0 ∧
      Add l0 d { Key := [k], Value := V, ExpiresAt := E } = some l1 ∧
      Inv l1 rs1 ∧ rs1.map kv = [([k], V)] ∧ l1.arena.n = 4294967288 ∧
      l1.arena.len = 8589934592 := by
  obtain ⟨l0, hnew, hi0, hn0, _, hng0⟩ := NewSkipList_spec 8589934592
  obtain ⟨hc0, hl0⟩ := hng0 (by decide)
  have hkb : IsBytes [k] := by
    intro b hb
    rw [List.mem_singleton.mp hb]
    exact hk
  have h1 : ([k] : List Nat).length = 1 := rfl
  obtain ⟨l1, ha, _, _, _, _, hng, hd, hex⟩ :=
    Add_spec l0 [] hi0 d { Key := [k], Value := V, ExpiresAt := E } hkb
      (calcScore_take [k] (by rw [h1]; decide))
      (by show l0.arena.n + 35 + [k].length + (V.length + 1) < 2 ^ 32; rw [hn0, hV, h1]; decide)
  have hfit : l0.arena.n + 35 + [k].length + (V.length + 1) + 104 ≤ l0.arena.len := by
    rw [hn0, hV, hl0, h1]; decide
  obtain ⟨hc1, hl1⟩ := hng hfit
  have hn1 : l1.arena.n = l0.arena.n + 35 + [k].length + (V.length + 1) := hex rfl
  rcases hd with ⟨_, rs1, hi1, hkv, hs⟩ | ⟨hne, _⟩
  · have hkv' : rs1.map kv = [([k], V)] := by
      rw [hkv]
      rfl
    exact ⟨l0, l1, rs1, hnew, ha, ⟨hi1, sorted_of_kv_singleton rs1 _ hkv'⟩, hkv',
      by rw [hn1, hn0, hV, h1], by rw [hl1, hl0]⟩
  · exact absurd hc1 hne

/-- After the `Add` of `big_value_once`, the `Add` of the key `[2]` with the value
`[0, 0, 0, 0]` wraps the cursor and `Search([1])` no longer finds its entry. -/
theorem Add_after_big_value (V : List Nat) (hV : V.length = 4294967138) :
    ∃ l l', build 8589934592 [(fun _ => 0, { Key := [1], Value := V, ExpiresAt := 0 })] =
        some l ∧
      Add l (fun _ => 0) { Key := [2], Value := [0, 0, 0, 0], ExpiresAt := 0 } = some l' ∧
      l'.arena.cur = l.arena.cur ∧
      Search l [1] = some (some { Key := [1], Value := V, ExpiresAt := 0 }) ∧
      Search l' [1] = some none := by
  obtain ⟨l0, l1, rs1, hnew, ha, hi, hkv, hn, hlen⟩ :=
    big_value_once V hV (fun _ => 0) 1 0 (by decide)
  have hb : build 8589934592 [(fun _ => 0, { Key := [1], Value := V, ExpiresAt := 0 })] =
      some l1 := by
    simp only [build, hnew, Option.some_bind, addAll, ha]
  have h1 : IsBytes [1] := by unfold IsBytes; decide
  cases rs1 with
  | nil => simp at hkv
  | cons r rs =>
    simp only [List.map_cons, List.cons.injEq, kv, Prod.mk.injEq, List.map_eq_nil_iff] at hkv
    obtain ⟨⟨hrk, hrv⟩, hrs⟩ := hkv
    have hgt : ¬ (bytesCompare [2] [1] ≤ 0) := by decide
    have hle : bytesCompare [1] [1] ≤ 0 := by decide
    have hoff : 113 ≤ r.off := (hi.recs r (List.mem_cons_self _ _)).2.2.1
    obtain ⟨l', hadd, hc, hs⟩ := Add_at_wrap l1 (r :: rs) hi hn hlen (fun _ => 0) 2 0 0 0 0
      (by decide)
      (by rw [hrs]; simp only [locate, hrk, hgt, ↓reduceIte])
      (by rw [hrs]; simp only [locate, hrk, hgt, ↓reduceIte]; omega)
    refine ⟨l1, l', hb, hadd, hc, ?_, hs [1]⟩
    rw [Search_spec l1 (r :: rs) hi.toInv0 [1] h1]
    simp only [locate, hrk, hle, ↓reduceIte, Option.map_some', hrv]

/-- The list after the two calls of `Add_after_big_value`: the head node has the height 0
and no successor. -/
theorem wrap_run_state (V : List Nat) (hV : V.length = 4294967138) :
    ∃ l', build 8589934592 [(fun _ => 0, { Key := [1], Value := V, ExpiresAt := 0 }),
        (fun _ => 0, { Key := [2], Value := [0, 0, 0, 0], ExpiresAt := 0 })] = some l' ∧
      l'.headOffset = 8 ∧ l'.currHeight = 1 ∧ l'.arena.n = 33 ∧ l'.arena.len = 8589934592 ∧
      l'.arena.buf 30 = 0 ∧ l'.arena.buf 32 = 0 ∧ l'.arena.buf 36 = 0 := by
  obtain ⟨l0, l1, rs1, hnew, ha, hi, hkv, hn, hlen⟩ :=
    big_value_once V hV (fun _ => 0) 1 0 (by decide)
  cases rs1 with
  | nil => simp at hkv
  | cons r rs =>
    simp only [List.map_cons, List.cons.injEq, kv, Prod.mk.injEq, List.map_eq_nil_iff] at hkv
    obtain ⟨⟨hrk, hrv⟩, hrs⟩ := hkv
    have hgt : ¬ (bytesCompare [2] [1] ≤ 0) := by decide
    have hoff : 113 ≤ r.off := (hi.recs r (List.mem_cons_self _ _)).2.2.1
    obtain ⟨l', hadd, _, h8, hch, hn', hlen', b30, b32, b36⟩ :=
      Add_at_wrap_state l1 (r :: rs) hi hn hlen (fun _ => 0) 2 0 0 0 0 (by decide)
        (by rw [hrs]; simp only [locate, hrk, hgt, ↓reduceIte])
        (by rw [hrs]; simp only [locate, hrk, hgt, ↓reduceIte]; omega)
    refine ⟨l', ?_, h8, hch, hn', hlen', b30, b32, b36⟩
    simp only [build, hnew, Option.some_bind, addAll, ha, hadd]

theorem levelInRange_of (s : Arena) (p : NodePtr) (i : Nat) (h : i < s.load p heightField) :
    levelInRange s p i = true := by
  simp [levelInRange, h]

theorem getNextChecked_eq (s : Arena) (p : NodePtr) (i : Int)
    (h : levelInRange s p i.toNat = true) :
    getNextChecked s (some p) i = getNext s (some p) i := by
  have e : getNextOffsetChecked s p i = getNextOffset s p i := by
    simp only [getNextOffsetChecked, h, ↓reduceIte]
  show (match getNextOffsetChecked s p i with
    | none => none
    | some o => getNode s o) =
    (match getNextOffset s p i with
    | none => none
    | some o => getNode s o)
  rw [e]

/-- The heights of a list whose head node has the stored height 0 and no successor. -/
theorem nodeHeights_head_zero (l : SkipList) (h8 : l.headOffset = 8) (hn : l.arena.n ≠ 0)
    (hlen : 8 < l.arena.len) (b30 : l.arena.buf 30 = 0) (b32 : l.arena.buf 32 = 0) :
    nodeHeights l = some [0] := by
  have hg : getNode l.arena l.headOffset = some (some ⟨l.arena.cur, 8⟩) := by
    rw [h8]
    exact getNode_some _ _ (by decide) hlen
  have hnext : getNext l.arena (some ⟨l.arena.cur, 8⟩) 0 = some none := by
    rw [getNext_eq]
    have e : l.arena.buf (8 + 24) = 0 := b32
    rw [e]
    rfl
  obtain ⟨f, hf⟩ : ∃ f, l.arena.n = f + 1 := ⟨l.arena.n - 1, by omega⟩
  have hh : l.arena.load ⟨l.arena.cur, 8⟩ heightField = 0 := b30
  unfold nodeHeights
  simp only [hg]
  rw [hf, heightsFrom, hnext]
  simp only [hh]

/-- The tested `Search` on a list whose head node has the stored height 0: the first read,
of `levels[currHeight]` of the head, is outside the node. -/
theorem SearchChecked_head_zero (l : SkipList) (key : List Nat) (h8 : l.headOffset = 8)
    (hc : l.currHeight = 1) (hn : l.arena.n ≠ 0) (hlen : 8 < l.arena.len)
    (b30 : l.arena.buf 30 = 0) : SearchChecked l key = none := by
  have hn0 : ¬ (l.arena.Size = 0) := hn
  have hg : getNode l.arena l.headOffset = some (some ⟨l.arena.cur, 8⟩) := by
    rw [h8]
    exact getNode_some _ _ (by decide) hlen
  have hh : l.arena.load ⟨l.arena.cur, 8⟩ heightField = 0 := b30
  have e1 : (1:Int).toNat = 1 := rfl
  have hr : levelInRange l.arena ⟨l.arena.cur, 8⟩ 1 = false := by
    simp [levelInRange, hh]
  have hgn1 : getNextChecked l.arena (some ⟨l.arena.cur, 8⟩) 1 = none := by
    simp only [getNextChecked, getNextOffsetChecked, e1, hr]
    rfl
  obtain ⟨f, hf⟩ : ∃ f, l.arena.n = f + 1 := ⟨l.arena.n - 1, by omega⟩
  have hscan1 : scanLevelChecked l.arena (calcScore key) key 1 l.arena.n ⟨l.arena.cur, 8⟩
      (fun _ => none) = none := by
    rw [hf, scanLevelChecked, hgn1]
  unfold SearchChecked
  simp only [hn0, ↓reduceIte, hg, hc]
  have e2 : (1:Int).toNat + 1 = 2 := rfl
  rw [e2, searchLevelsChecked]
  have hlt : ¬ ((1:Int) < 0) := by decide
  simp only [hlt, ↓reduceIte, hscan1]

theorem getNext_linked_shape (s : Arena) (p : Nat) (rs : List Rec) (hl : Linked s.buf p rs)
    (hr : ∀ r ∈ rs, RecShape s.buf s.n r) (hroom : s.n + 104 ≤ s.len) :
    getNext s (some ⟨s.cur, p⟩) 0 = some (headPtr s.cur rs) := by
  rw [getNext_eq]
  cases rs with
  | nil => simp only [Linked] at hl; simp [hl, getNode, headPtr]
  | cons r rs =>
    simp only [Linked] at hl
    obtain ⟨_, h3, h4, _⟩ := hr r (List.mem_cons_self _ _)
    rw [hl.1, getNode_some s r.off (by omega) (by omega)]
    rfl

theorem nodeKey_shape (s : Arena) (r : Rec) (hr : RecShape s.buf s.n r)
    (hroom : s.n + 104 ≤ s.len) (hn : s.n < 2 ^ 32) :
    nodeKey s ⟨s.cur, r.off⟩ = some r.key := by
  obtain ⟨h2, _, _, _, h6, _, _, _, h11, h12, h13, _⟩ := hr
  simp only [nodeKey, Arena.load, keyOffsetField, keySizeField] at h11 h12 ⊢
  have e1 : s.heap s.cur (r.off + 16) = r.ko := h11
  have e2 : s.heap s.cur (r.off + 20) = r.key.length := h12
  rw [e1, e2]
  unfold getKey
  have hm : (r.ko + r.key.length) % 2 ^ 32 = r.ko + r.key.length := Nat.mod_eq_of_lt (by omega)
  have hc : r.ko ≤ r.ko + r.key.length ∧ r.ko + r.key.length ≤ s.len := by omega
  simp only [hm, hc, and_self, ↓reduceIte, Nat.add_sub_cancel_left]
  rw [readBytes_eq s r.ko r.key h13]

theorem compare_shape (s : Arena) (score : Nat) (key : List Nat) (r : Rec)
    (hr : RecShape s.buf s.n r) (hroom : s.n + 104 ≤ s.len) (hn : s.n < 2 ^ 32) :
    compare s score key ⟨s.cur, r.off⟩ = some (cmpStored s.buf score key r) := by
  have hk := nodeKey_shape s r hr hroom hn
  have e : s.load ⟨s.cur, r.off⟩ scoreField = s.buf (r.off + scoreField) := rfl
  unfold compare cmpStored
  rw [e, hk]
  split
  · rfl
  · split <;> rfl

theorem getValue_shape (s : Arena) (r : Rec) (hr : RecShape s.buf s.n r)
    (hroom : s.n + 104 ≤ s.len) (hn : s.n < 2 ^ 32) :
    getValue s (decodeValue (s.load ⟨s.cur, r.off⟩ valueField)).1
      (decodeValue (s.load ⟨s.cur, r.off⟩ valueField)).2 =
      some { Value := r.val, ExpiresAt := 0 } := by
  obtain ⟨_, _, _, _, _, _, h8, h10, _, _, _, h14, _⟩ := hr
  have e : s.load ⟨s.cur, r.off⟩ valueField = encodeValue r.vo (r.val.length + 1) := h10
  rw [e, decodeValue_encodeValue _ _ (by omega) (by omega)]
  unfold getValue
  have hm : (r.vo + (r.val.length + 1)) % 2 ^ 32 = r.vo + (r.val.length + 1) :=
    Nat.mod_eq_of_lt (by omega)
  have hc : r.vo ≤ r.vo + (r.val.length + 1) ∧ r.vo + (r.val.length + 1) ≤ s.len := by omega
  simp only [hm, hc, and_self, ↓reduceIte, Nat.add_sub_cancel_left]
  have hb := readBytes_eq s r.vo (0 :: r.val) (by simpa using h14)
  simp only [List.length_cons] at hb
  rw [hb]
  have h0 : putUvarint 0 = [0] := by decide
  have := DecodeValue_put r.val 0 (by decide)
  rw [h0] at this
  exact this

theorem getKey_shape (s : Arena) (r : Rec) (hr : RecShape s.buf s.n r)
    (hroom : s.n + 104 ≤ s.len) (hn : s.n < 2 ^ 32) :
    getKey s (s.load ⟨s.cur, r.off⟩ keyOffsetField) (s.load ⟨s.cur, r.off⟩ keySizeField) =
      some r.key := nodeKey_shape s r hr hroom hn

theorem locateBy_mem (f : Rec → Int) : ∀ (rs : List Rec) (p : Nat) (x : Rec),
    (locateBy f p rs).2 = some x → x ∈ rs := by
  intro rs
  induction rs with
  | nil => intro p x h; simp [locateBy] at h
  | cons r rs ih =>
    intro p x h
    simp only [locateBy] at h
    split at h
    · simp only at h
      split at h
      · have : r = x := Option.some.inj h
        subst this
        exact List.mem_cons_self _ _
      · exact absurd h (by simp)
    · exact List.mem_cons_of_mem _ (ih r.off x h)

theorem locateBy_fst (f : Rec → Int) : ∀ (rs : List Rec) (p : Nat),
    (locateBy f p rs).1 = p ∨ ∃ r ∈ rs, r.off = (locateBy f p rs).1 := by
  intro rs
  induction rs with
  | nil => intro p; left; rfl
  | cons r rs ih =>
    intro p
    simp only [locateBy]
    split
    · left; rfl
    · right
      rcases ih r.off with h | ⟨x, hx, hxe⟩
      · exact ⟨r, List.mem_cons_self _ _, h.symm⟩
      · exact ⟨x, List.mem_cons_of_mem _ hx, hxe⟩

/-- The scan of level 0 ends where `locateBy` says. -/
theorem scanLevel_shape (s : Arena) (score : Nat) (key : List Nat)
    (hroom : s.n + 104 ≤ s.len) (hn : s.n < 2 ^ 32) :
    ∀ (rs : List Rec) (fuel p : Nat) (hdrs : Nat → Option NodePtr),
      rs.length < fuel → Linked s.buf p rs → (∀ r ∈ rs, RecShape s.buf s.n r) →
      match (locateBy (cmpStored s.buf score key) p rs).2 with
      | some r => scanLevel s score key 0 fuel ⟨s.cur, p⟩ hdrs =
          some (Scan.found ⟨s.cur, r.off⟩)
      | none => ∃ hdrs', scanLevel s score key 0 fuel ⟨s.cur, p⟩ hdrs =
          some (Scan.stop ⟨s.cur, (locateBy (cmpStored s.buf score key) p rs).1⟩ hdrs') ∧
          (hdrs 0 = some ⟨s.cur, p⟩ →
            hdrs' 0 = some ⟨s.cur, (locateBy (cmpStored s.buf score key) p rs).1⟩) := by
  intro rs
  induction rs with
  | nil =>
    intro fuel p hdrs hf hl _
    cases fuel with
    | zero => simp at hf
    | succ fuel =>
      simp only [locateBy]
      refine ⟨hdrs, ?_, fun h => h⟩
      rw [scanLevel, getNext_linked_shape s p [] hl (by simp) hroom]
      rfl
  | cons r rs ih =>
    intro fuel p hdrs hf hl hr
    cases fuel with
    | zero => simp at hf
    | succ fuel =>
      have hr0 := hr r (List.mem_cons_self _ _)
      have hcmp := compare_shape s score key r hr0 hroom hn
      have hgn := getNext_linked_shape s p (r :: rs) hl hr hroom
      simp only [headPtr] at hgn
      simp only [locateBy]
      by_cases hle : cmpStored s.buf score key r ≤ 0
      · simp only [hle, ↓reduceIte]
        by_cases he : cmpStored s.buf score key r = 0
        · simp only [if_pos he]
          rw [scanLevel, hgn]
          simp only [hcmp, he, le_refl, ↓reduceIte]
        · simp only [if_neg he]
          refine ⟨hdrs, ?_, fun h => h⟩
          rw [scanLevel, hgn]
          simp only [hcmp, hle, he, ↓reduceIte]
      · simp only [hle, ↓reduceIte]
        simp only [Linked] at hl
        have := ih fuel r.off (fun j => if j = (0 : Int).toNat then some ⟨s.cur, r.off⟩ else hdrs j)
          (by simpa using hf) hl.2 (fun x hx => hr x (List.mem_cons_of_mem _ hx))
        rw [scanLevel, hgn]
        simp only [hcmp, hle, ↓reduceIte]
        cases hloc : (locateBy (cmpStored s.buf score key) r.off rs).2 with
        | some x => rw [hloc] at this; exact this
        | none =>
          rw [hloc] at this
          obtain ⟨hdrs', h1, h2⟩ := this
          exact ⟨hdrs', h1, fun _ => h2 (by simp)⟩

theorem levelInRange_head_shape (l : SkipList) (rs : List Rec) (h : Shape l rs) (i : Nat)
    (hi : i < 20) : levelInRange l.arena ⟨l.arena.cur, 8⟩ i = true := by
  apply levelInRange_of
  have e : l.arena.load ⟨l.arena.cur, 8⟩ heightField = defaultMaxLevel := h.headHeight
  rw [e]
  exact hi

theorem levelInRange_rec_shape (s : Arena) (n : Nat) (r : Rec) (h : RecShape s.buf n r) :
    levelInRange s ⟨s.cur, r.off⟩ 0 = true := by
  apply levelInRange_of
  have e : s.load ⟨s.cur, r.off⟩ heightField = 1 := h.2.2.2.2.2.2.2.2.2.2.2.2
  rw [e]
  exact Nat.one_pos

/-- The tested scan of level 0 is the scan. -/
theorem scanLevelChecked_eq_shape (s : Arena) (score : Nat) (key : List Nat)
    (hroom : s.n + 104 ≤ s.len) (hn : s.n < 2 ^ 32) :
    ∀ (rs : List Rec) (fuel p : Nat) (hdrs : Nat → Option NodePtr),
      Linked s.buf p rs → (∀ r ∈ rs, RecShape s.buf s.n r) →
      levelInRange s ⟨s.cur, p⟩ 0 = true →
      scanLevelChecked s score key 0 fuel ⟨s.cur, p⟩ hdrs =
        scanLevel s score key 0 fuel ⟨s.cur, p⟩ hdrs := by
  intro rs
  induction rs with
  | nil =>
    intro fuel p hdrs hl _ hp
    cases fuel with
    | zero => rfl
    | succ fuel =>
      have e0 : (0 : Int).toNat = 0 := rfl
      rw [scanLevelChecked, scanLevel, getNextChecked_eq s _ 0 (by rw [e0]; exact hp),
        getNext_linked_shape s p [] hl (by simp) hroom]
      rfl
  | cons r rs ih =>
    intro fuel p hdrs hl hr hp
    cases fuel with
    | zero => rfl
    | succ fuel =>
      have e0 : (0 : Int).toNat = 0 := rfl
      have hr0 := hr r (List.mem_cons_self _ _)
      have hcmp := compare_shape s score key r hr0 hroom hn
      have hgn := getNext_linked_shape s p (r :: rs) hl hr hroom
      simp only [headPtr] at hgn
      simp only [Linked] at hl
      have hrec := ih fuel r.off
        (fun j => if j = (0 : Int).toNat then some ⟨s.cur, r.off⟩ else hdrs j) hl.2
        (fun x hx => hr x (List.mem_cons_of_mem _ hx)) (levelInRange_rec_shape s s.n r hr0)
      rw [scanLevelChecked, scanLevel, getNextChecked_eq s _ 0 (by rw [e0]; exact hp), hgn]
      simp only [hcmp, hrec]

theorem addLevels_shape (l : SkipList) (rs : List Rec) (h : Shape l rs) (key : List Nat) :
    match (locateBy (cmpStored l.arena.buf (calcScore key) key) 8 rs).2 with
    | some r => addLevels l.arena (calcScore key) key 1 0 ⟨l.arena.cur, 8⟩ (fun _ => none) =
        some (Located.found ⟨l.arena.cur, r.off⟩)
    | none => ∃ hdrs, addLevels l.arena (calcScore key) key 1 0 ⟨l.arena.cur, 8⟩
        (fun _ => none) = some (Located.absent hdrs) ∧
        hdrs 0 = some ⟨l.arena.cur, (locateBy (cmpStored l.arena.buf (calcScore key) key) 8 rs).1⟩ := by
  have hscan := scanLevel_shape l.arena (calcScore key) key h.room h.n_hi rs l.arena.n 8
    (fun j => if j = (0 : Int).toNat then some ⟨l.arena.cur, 8⟩ else none)
    (by have := h.n_lo; omega) h.linked h.recs
  have hlt : ¬ ((0:Int) < 0) := by decide
  have h20 : ¬ (((defaultMaxLevel : Nat) : Int) ≤ 0) := by decide
  cases hloc : (locateBy (cmpStored l.arena.buf (calcScore key) key) 8 rs).2 with
  | some x =>
    rw [hloc] at hscan
    simp only at hscan ⊢
    rw [addLevels]
    simp only [hlt, h20, ↓reduceIte, hscan]
  | none =>
    rw [hloc] at hscan
    obtain ⟨hdrs', h1, h2⟩ := hscan
    refine ⟨hdrs', ?_, h2 (by simp)⟩
    rw [addLevels]
    simp only [hlt, h20, ↓reduceIte, h1]
    have e0 : (0:Int).toNat = 0 := rfl
    rw [e0]
    simp only [skipLevels, addLevels]
    have : ((0:Int) - 1 - 1 < 0) := by decide
    simp only [this, ↓reduceIte]

/-- The tested search loop of `Add` is the search loop. -/
theorem addLevelsChecked_eq_shape (l : SkipList) (rs : List Rec) (h : Shape l rs) (key : List Nat) :
    addLevelsChecked l.arena (calcScore key) key 1 0 ⟨l.arena.cur, 8⟩ (fun _ => none) =
      addLevels l.arena (calcScore key) key 1 0 ⟨l.arena.cur, 8⟩ (fun _ => none) := by
  have hscan := scanLevel_shape l.arena (calcScore key) key h.room h.n_hi rs l.arena.n 8
    (fun j => if j = (0 : Int).toNat then some ⟨l.arena.cur, 8⟩ else none)
    (by have := h.n_lo; omega) h.linked h.recs
  have hce := scanLevelChecked_eq_shape l.arena (calcScore key) key h.room h.n_hi rs l.arena.n 8
    (fun j => if j = (0 : Int).toNat then some ⟨l.arena.cur, 8⟩ else none)
    h.linked h.recs (levelInRange_head_shape l rs h 0 (by decide))
  have hlt : ¬ ((0:Int) < 0) := by decide
  have h20 : ¬ (((defaultMaxLevel : Nat) : Int) ≤ 0) := by decide
  rw [addLevelsChecked, addLevels]
  simp only [hlt, h20, ↓reduceIte, hce]
  cases hloc : (locateBy (cmpStored l.arena.buf (calcScore key) key) 8 rs).2 with
  | some x =>
    rw [hloc] at hscan
    simp only at hscan
    simp only [hscan]
  | none =>
    rw [hloc] at hscan
    obtain ⟨hdrs', h1, _⟩ := hscan
    have hq : levelInRange l.arena ⟨l.arena.cur, (locateBy (cmpStored l.arena.buf (calcScore key) key) 8 rs).1⟩ (0 : Int).toNat = true := by
      rcases locateBy_fst (cmpStored l.arena.buf (calcScore key) key) rs 8 with e | ⟨r, hr, e⟩
      · rw [e]
        exact levelInRange_head_shape l rs h 0 (by decide)
      · rw [← e]
        exact levelInRange_rec_shape l.arena l.arena.n r (h.recs r hr)
    simp only [h1, hq, ↓reduceIte]
    have e0 : (0:Int).toNat = 0 := rfl
    rw [e0]
    simp only [skipLevels, skipLevelsChecked, addLevels, addLevelsChecked]

/-- The loop over the iterator visits the linked nodes in order. -/
theorem collect_shape (l : SkipList) (hroom : l.arena.n + 104 ≤ l.arena.len)
    (hn : l.arena.n < 2 ^ 32) :
    ∀ (rs : List Rec) (fuel p : Nat), rs.length < fuel → Linked l.arena.buf p rs →
      (∀ r ∈ rs, RecShape l.arena.buf l.arena.n r) →
      collect fuel { list := l, nd := headPtr l.arena.cur rs } = some (rs.map toEntry) := by
  intro rs
  induction rs with
  | nil =>
    intro fuel p hf _ _
    cases fuel with
    | zero => simp at hf
    | succ fuel => simp [collect, headPtr, SkipListIter.Valid]
  | cons r rs ih =>
    intro fuel p hf hl hr
    cases fuel with
    | zero => simp at hf
    | succ fuel =>
      have hr0 := hr r (List.mem_cons_self _ _)
      simp only [Linked] at hl
      have hnext := getNext_linked_shape l.arena r.off rs hl.2
        (fun x hx => hr x (List.mem_cons_of_mem _ hx)) hroom
      have hrec := ih fuel r.off (by simpa using hf) hl.2
        (fun x hx => hr x (List.mem_cons_of_mem _ hx))
      have hv := getValue_shape l.arena r hr0 hroom hn
      have hkk := getKey_shape l.arena r hr0 hroom hn
      show collect (fuel + 1) { list := l, nd := some ⟨l.arena.cur, r.off⟩ } = _
      simp only [collect, SkipListIter.Valid, Option.isSome_some, ↓reduceIte,
        SkipListIter.Item, hkk, hv, SkipListIter.Next, hnext, Option.map_some', hrec,
        List.map_cons, toEntry]

theorem iterate_shape (l : SkipList) (rs : List Rec) (h : Shape l rs) :
    iterate l = some (rs.map toEntry) := by
  unfold iterate NewSkipListIterator SkipListIter.Rewind
  have hg : getNode l.arena l.headOffset = some (some ⟨l.arena.cur, 8⟩) := by
    rw [h.headOffset]
    exact getNode_some _ _ (by decide) (by have := h.room; have := h.n_lo; omega)
  have hnext := getNext_linked_shape l.arena 8 rs h.linked h.recs h.room
  simp only [hg, hnext, Option.map_some']
  exact collect_shape l h.room h.n_hi rs l.arena.n 8 (by have := h.n_lo; omega) h.linked h.recs

theorem getNextChecked_linked_shape (s : Arena) (p : Nat) (rs : List Rec) (hl : Linked s.buf p rs)
    (hr : ∀ r ∈ rs, RecShape s.buf s.n r) (hroom : s.n + 104 ≤ s.len)
    (hp : levelInRange s ⟨s.cur, p⟩ 0 = true) :
    getNextChecked s (some ⟨s.cur, p⟩) 0 = some (headPtr s.cur rs) := by
  have e0 : (0 : Int).toNat = 0 := rfl
  rw [getNextChecked_eq s _ 0 (by rw [e0]; exact hp)]
  exact getNext_linked_shape s p rs hl hr hroom

/-- The tested loop over the iterator visits the linked nodes in order. -/
theorem collectChecked_shape (l : SkipList) (hroom : l.arena.n + 104 ≤ l.arena.len)
    (hn : l.arena.n < 2 ^ 32) :
    ∀ (rs : List Rec) (fuel p : Nat), rs.length < fuel → Linked l.arena.buf p rs →
      (∀ r ∈ rs, RecShape l.arena.buf l.arena.n r) →
      collectChecked fuel { list := l, nd := headPtr l.arena.cur rs } =
        some (rs.map toEntry) := by
  intro rs
  induction rs with
  | nil =>
    intro fuel p hf _ _
    cases fuel with
    | zero => simp at hf
    | succ fuel => simp [collectChecked, headPtr, SkipListIter.Valid]
  | cons r rs ih =>
    intro fuel p hf hl hr
    cases fuel with
    | zero => simp at hf
    | succ fuel =>
      have hr0 := hr r (List.mem_cons_self _ _)
      simp only [Linked] at hl
      have hnext := getNextChecked_linked_shape l.arena r.off rs hl.2
        (fun x hx => hr x (List.mem_cons_of_mem _ hx)) hroom
        (levelInRange_rec_shape l.arena l.arena.n r hr0)
      have hrec := ih fuel r.off (by simpa using hf) hl.2
        (fun x hx => hr x (List.mem_cons_of_mem _ hx))
      have hv := getValue_shape l.arena r hr0 hroom hn
      have hkk := getKey_shape l.arena r hr0 hroom hn
      show collectChecked (fuel + 1) { list := l, nd := some ⟨l.arena.cur, r.off⟩ } = _
      simp only [collectChecked, SkipListIter.Valid, Option.isSome_some, ↓reduceIte,
        SkipListIter.Item, hkk, hv, SkipListIter.NextChecked, hnext, Option.map_some', hrec,
        List.map_cons, toEntry]

theorem iterateChecked_shape (l : SkipList) (rs : List Rec) (h : Shape l rs) :
    iterateChecked l = some (rs.map toEntry) := by
  unfold iterateChecked NewSkipListIterator SkipListIter.RewindChecked
  have hg : getNode l.arena l.headOffset = some (some ⟨l.arena.cur, 8⟩) := by
    rw [h.headOffset]
    exact getNode_some _ _ (by decide) (by have := h.room; have := h.n_lo; omega)
  have hnext := getNextChecked_linked_shape l.arena 8 rs h.linked h.recs h.room
    (levelInRange_head_shape l rs h 0 (by decide))
  simp only [hg, hnext, Option.map_some']
  exact collectChecked_shape l h.room h.n_hi rs l.arena.n 8 (by have := h.n_lo; omega)
    h.linked h.recs

theorem heightsFrom_shape (s : Arena) (hroom : s.n + 104 ≤ s.len) :
    ∀ (rs : List Rec) (fuel p : Nat), rs.length < fuel → Linked s.buf p rs →
      (∀ r ∈ rs, RecShape s.buf s.n r) →
      heightsFrom s fuel ⟨s.cur, p⟩ = some (s.buf (p + heightField) :: rs.map fun _ => 1) := by
  intro rs
  induction rs with
  | nil =>
    intro fuel p hf hl _
    cases fuel with
    | zero => simp at hf
    | succ fuel =>
      rw [heightsFrom, getNext_linked_shape s p [] hl (by simp) hroom]
      rfl
  | cons r rs ih =>
    intro fuel p hf hl hr
    cases fuel with
    | zero => simp at hf
    | succ fuel =>
      have hr0 := hr r (List.mem_cons_self _ _)
      have hgn := getNext_linked_shape s p (r :: rs) hl hr hroom
      simp only [headPtr] at hgn
      simp only [Linked] at hl
      have hrec := ih fuel r.off (by simpa using hf) hl.2
        (fun x hx => hr x (List.mem_cons_of_mem _ hx))
      rw [heightsFrom, hgn]
      simp only [hrec, Option.map_some', hr0.2.2.2.2.2.2.2.2.2.2.2.2, List.map_cons]
      rfl

theorem nodeHeights_shape (l : SkipList) (rs : List Rec) (h : Shape l rs) :
    nodeHeights l = some (defaultMaxLevel :: rs.map fun _ => 1) := by
  have hg : getNode l.arena l.headOffset = some (some ⟨l.arena.cur, 8⟩) := by
    rw [h.headOffset]
    exact getNode_some _ _ (by decide) (by have := h.room; have := h.n_lo; omega)
  unfold nodeHeights
  simp only [hg]
  rw [heightsFrom_shape l.arena h.room rs l.arena.n 8 (by have := h.n_lo; omega) h.linked
    h.recs, h.headHeight]

theorem Search_shape (l : SkipList) (rs : List Rec) (h : Shape l rs) (key : List Nat) :
    Search l key = some ((locateBy (cmpStored l.arena.buf (calcScore key) key) 8 rs).2.map fun r =>
      { Key := key, Value := r.val, ExpiresAt := 0 }) := by
  have hn0 : ¬ (l.arena.Size = 0) := by
    have := h.n_lo
    simp only [Arena.Size]; omega
  have hg : getNode l.arena l.headOffset = some (some ⟨l.arena.cur, 8⟩) := by
    rw [h.headOffset]
    exact getNode_some _ _ (by decide) (by have := h.room; have := h.n_lo; omega)
  have htop : l.arena.load ⟨l.arena.cur, 8⟩ (levelField 1) = 0 := h.top
  have hgn1 : getNext l.arena (some ⟨l.arena.cur, 8⟩) 1 = some none := by
    simp only [getNext, getNextOffset, defaultMaxLevel]
    have : (0:Int) ≤ 1 ∧ (1:Int) < ((20:Nat):Int) := by decide
    simp only [this, and_self, ↓reduceIte]
    have e1 : (1:Int).toNat = 1 := rfl
    rw [e1, htop]
    rfl
  have hfuel : ∃ f, l.arena.n = f + 1 := ⟨l.arena.n - 1, by have := h.n_lo; omega⟩
  obtain ⟨f, hf⟩ := hfuel
  have hscan1 : scanLevel l.arena (calcScore key) key 1 l.arena.n ⟨l.arena.cur, 8⟩ (fun _ => none) =
      some (Scan.stop ⟨l.arena.cur, 8⟩ (fun _ => none)) := by
    rw [hf, scanLevel, hgn1]
  have hscan0 := scanLevel_shape l.arena (calcScore key) key h.room h.n_hi rs l.arena.n 8 (fun _ => none)
    (by have := h.n_lo; omega) h.linked h.recs
  unfold Search
  simp only [hn0, ↓reduceIte, hg, h.currHeight]
  have e2 : (1:Int).toNat + 1 = 2 := rfl
  have e1 : (1:Int).toNat = 1 := rfl
  rw [e2, searchLevels]
  have hlt : ¬ ((1:Int) < 0) := by decide
  have h20 : ¬ (((defaultMaxLevel : Nat) : Int) ≤ 1) := by decide
  simp only [hlt, ↓reduceIte, hscan1, h20, e1, htop]
  have hl32 : levelField ((1:Int) - 1).toNat = 24 := rfl
  cases rs with
  | nil =>
    have hh : l.arena.load ⟨l.arena.cur, 8⟩ 24 = 0 := h.linked
    have hs : skipLevelsSearch l.arena ⟨l.arena.cur, 8⟩ 0 1 (1 - 1) = -1 := by
      simp only [skipLevelsSearch, hl32, hh]
      decide
    rw [hs, searchLevels]
    simp [locateBy]
  | cons r rs =>
    have hlk := h.linked
    simp only [Linked] at hlk
    have hr0 := h.recs r (List.mem_cons_self _ _)
    have hh : l.arena.load ⟨l.arena.cur, 8⟩ 24 = r.off := hlk.1
    have hne : ¬ (r.off = 0) := by have := hr0.2.1; omega
    have hs : skipLevelsSearch l.arena ⟨l.arena.cur, 8⟩ 0 1 (1 - 1) = 0 := by
      simp only [skipLevelsSearch, hl32, hh, hne, and_false, ↓reduceIte]
      decide
    rw [hs, searchLevels]
    have hlt0 : ¬ ((0:Int) < 0) := by decide
    simp only [hlt0, ↓reduceIte]
    cases hloc : (locateBy (cmpStored l.arena.buf (calcScore key) key) 8 (r :: rs)).2 with
    | some x =>
      rw [hloc] at hscan0
      simp only at hscan0
      have hx : x ∈ r :: rs := locateBy_mem _ _ _ x hloc
      have hv := getValue_shape l.arena x (h.recs x hx) h.room h.n_hi
      simp only [hscan0, hv, Option.map_some']
    | none =>
      rw [hloc] at hscan0
      obtain ⟨hdrs', h1, _⟩ := hscan0
      have h20' : ¬ (((defaultMaxLevel : Nat) : Int) ≤ 0) := by decide
      simp only [h1, h20', ↓reduceIte, Option.map_none']
      simp [searchLevels, skipLevelsSearch]

/-- The tested `Search` returns what `Search` returns. -/
theorem SearchChecked_shape (l : SkipList) (rs : List Rec) (h : Shape l rs) (key : List Nat) :
    SearchChecked l key = some ((locateBy (cmpStored l.arena.buf (calcScore key) key) 8 rs).2.map fun r =>
      { Key := key, Value := r.val, ExpiresAt := 0 }) := by
  have hn0 : ¬ (l.arena.Size = 0) := by
    have := h.n_lo
    simp only [Arena.Size]; omega
  have hg : getNode l.arena l.headOffset = some (some ⟨l.arena.cur, 8⟩) := by
    rw [h.headOffset]
    exact getNode_some _ _ (by decide) (by have := h.room; have := h.n_lo; omega)
  have htop : l.arena.load ⟨l.arena.cur, 8⟩ (levelField 1) = 0 := h.top
  have e1 : (1:Int).toNat = 1 := rfl
  have e0 : (0:Int).toNat = 0 := rfl
  have hh1 : levelInRange l.arena ⟨l.arena.cur, 8⟩ 1 = true :=
    levelInRange_head_shape l rs h 1 (by decide)
  have hh0 : levelInRange l.arena ⟨l.arena.cur, 8⟩ 0 = true :=
    levelInRange_head_shape l rs h 0 (by decide)
  have hgn1 : getNextChecked l.arena (some ⟨l.arena.cur, 8⟩) 1 = some none := by
    rw [getNextChecked_eq _ _ 1 (by rw [e1]; exact hh1)]
    simp only [getNext, getNextOffset, defaultMaxLevel]
    have : (0:Int) ≤ 1 ∧ (1:Int) < ((20:Nat):Int) := by decide
    simp only [this, and_self, ↓reduceIte]
    rw [e1, htop]
    rfl
  have hfuel : ∃ f, l.arena.n = f + 1 := ⟨l.arena.n - 1, by have := h.n_lo; omega⟩
  obtain ⟨f, hf⟩ := hfuel
  have hscan1 : scanLevelChecked l.arena (calcScore key) key 1 l.arena.n ⟨l.arena.cur, 8⟩
      (fun _ => none) = some (Scan.stop ⟨l.arena.cur, 8⟩ (fun _ => none)) := by
    rw [hf, scanLevelChecked, hgn1]
  have hscan0 := scanLevel_shape l.arena (calcScore key) key h.room h.n_hi rs l.arena.n 8 (fun _ => none)
    (by have := h.n_lo; omega) h.linked h.recs
  have hce := scanLevelChecked_eq_shape l.arena (calcScore key) key h.room h.n_hi rs l.arena.n 8 (fun _ => none)
    h.linked h.recs hh0
  unfold SearchChecked
  simp only [hn0, ↓reduceIte, hg, h.currHeight]
  have e2 : (1:Int).toNat + 1 = 2 := rfl
  rw [e2, searchLevelsChecked]
  have hlt : ¬ ((1:Int) < 0) := by decide
  have h20 : ¬ (((defaultMaxLevel : Nat) : Int) ≤ 1) := by decide
  simp only [hlt, ↓reduceIte, hscan1, h20, e1, htop, hh1]
  have hl32 : levelField 0 = 24 := rfl
  have e10 : ((1:Int) - 1).toNat = 0 := rfl
  have hge : (0:Int) ≤ 1 - 1 := by decide
  cases rs with
  | nil =>
    have hh : l.arena.load ⟨l.arena.cur, 8⟩ 24 = 0 := h.linked
    have hs : skipLevelsSearchChecked l.arena ⟨l.arena.cur, 8⟩ 0 1 (1 - 1) = some (-1) := by
      simp only [skipLevelsSearchChecked, hge, e10, hh0, hl32, hh, ↓reduceIte]
      decide
    rw [hs]
    simp only
    rw [searchLevelsChecked]
    simp [locateBy]
  | cons r rs =>
    have hlk := h.linked
    simp only [Linked] at hlk
    have hr0 := h.recs r (List.mem_cons_self _ _)
    have hh : l.arena.load ⟨l.arena.cur, 8⟩ 24 = r.off := hlk.1
    have hne : ¬ (r.off = 0) := by have := hr0.2.1; omega
    have hs : skipLevelsSearchChecked l.arena ⟨l.arena.cur, 8⟩ 0 1 (1 - 1) = some 0 := by
      simp only [skipLevelsSearchChecked, hge, e10, hh0, hl32, hh, hne, ↓reduceIte]
      decide
    rw [hs]
    simp only
    rw [searchLevelsChecked]
    have hlt0 : ¬ ((0:Int) < 0) := by decide
    simp only [hlt0, ↓reduceIte, hce]
    cases hloc : (locateBy (cmpStored l.arena.buf (calcScore key) key) 8 (r :: rs)).2 with
    | some x =>
      rw [hloc] at hscan0
      simp only at hscan0
      have hx : x ∈ r :: rs := locateBy_mem _ _ _ x hloc
      have hv := getValue_shape l.arena x (h.recs x hx) h.room h.n_hi
      simp only [hscan0, hv, Option.map_some']
    | none =>
      rw [hloc] at hscan0
      obtain ⟨hdrs', h1, _⟩ := hscan0
      have h20' : ¬ (((defaultMaxLevel : Nat) : Int) ≤ 0) := by decide
      have hq : levelInRange l.arena ⟨l.arena.cur, (locateBy (cmpStored l.arena.buf (calcScore key) key) 8 (r :: rs)).1⟩ 0 = true := by
        rcases locateBy_fst (cmpStored l.arena.buf (calcScore key) key) (r :: rs) 8 with e | ⟨x, hx, e⟩
        · rw [e]
          exact hh0
        · rw [← e]
          exact levelInRange_rec_shape l.arena l.arena.n x (h.recs x hx)
      simp only [h1, h20', ↓reduceIte, Option.map_none', e0, hq]
      simp [searchLevelsChecked, skipLevelsSearchChecked]

theorem Foot_lt_shape (B : Nat → Nat) (n : Nat) (r : Rec) (h : RecShape B n r) (a : Nat)
    (ha : Foot r a) : a < n := by
  obtain ⟨_, _, h4, _, h6, _, h8, _⟩ := h
  simp only [Foot, scoreField, valueField, keyOffsetField, keySizeField, heightField] at ha
  omega

theorem RecShape_frame (B B' : Nat → Nat) (n n' : Nat) (r : Rec) (h : RecShape B n r)
    (hn : n ≤ n') (hB : ∀ a, Foot r a → B' a = B a) : RecShape B' n' r := by
  obtain ⟨h2, h3, h4, h5, h6, h7, h8, h10, h11, h12, h13, h14, h15⟩ := h
  refine ⟨h2, h3, by omega, h5, by omega, h7, by omega, ?_, ?_, ?_, ?_, ?_, ?_⟩
  · rw [hB _ (Or.inr (Or.inl rfl))]; exact h10
  · rw [hB _ (Or.inr (Or.inr (Or.inl rfl)))]; exact h11
  · rw [hB _ (Or.inr (Or.inr (Or.inr (Or.inl rfl))))]; exact h12
  · intro j hj
    rw [hB _ (Or.inr (Or.inr (Or.inr (Or.inr (Or.inl ⟨by omega, by omega⟩)))))]
    exact h13 j hj
  · intro j hj
    rw [hB _ (Or.inr (Or.inr (Or.inr (Or.inr (Or.inr (Or.inl ⟨by omega, by omega⟩))))))]
    exact h14 j hj
  · rw [hB _ (Or.inr (Or.inr (Or.inr (Or.inr (Or.inr (Or.inr rfl))))))]; exact h15

/-- A link cell of the head or of a linked node is outside every footprint. -/
theorem link_not_Foot_shape (B : Nat → Nat) (n : Nat) (rs : List Rec) (hs : Sep rs)
    (hr : ∀ r ∈ rs, RecShape B n r) (q : Nat) (hq : q = 8 ∨ ∃ rq ∈ rs, rq.off = q)
    (r : Rec) (hmem : r ∈ rs) (a : Nat) (ha : Foot r a) : a ≠ q + 24 := by
  obtain ⟨_, h3, h4, h5, h6, h7, h8, _⟩ := hr r hmem
  simp only [Foot, scoreField, valueField, keyOffsetField, keySizeField, heightField] at ha
  rcases hq with rfl | ⟨rq, hrq, rfl⟩
  · omega
  · obtain ⟨s1, s2, s3⟩ := hs rq hrq r hmem
    omega

theorem mem_insertBy (f : Rec → Int) (new : Rec) : ∀ (rs : List Rec) (x : Rec),
    x ∈ insertBy f new rs ↔ x = new ∨ x ∈ rs := by
  intro rs
  induction rs with
  | nil => intro x; simp [insertBy]
  | cons r rs ih =>
    intro x
    simp only [insertBy]
    split
    · simp
    · simp only [List.mem_cons, ih]
      tauto

theorem length_insertBy (f : Rec → Int) (new : Rec) : ∀ (rs : List Rec),
    (insertBy f new rs).length = rs.length + 1 := by
  intro rs
  induction rs with
  | nil => simp [insertBy]
  | cons r rs ih =>
    simp only [insertBy]
    split
    · simp
    · simp [ih]

theorem distinct_insertBy (f : Rec → Int) (new : Rec) : ∀ (rs : List Rec),
    (rs.Pairwise fun r r' => r.off ≠ r'.off) → (∀ r ∈ rs, r.off ≠ new.off) →
    (insertBy f new rs).Pairwise fun r r' => r.off ≠ r'.off := by
  intro rs
  induction rs with
  | nil => intro _ _; simp [insertBy]
  | cons r rs ih =>
    intro hd hnew
    simp only [insertBy]
    split
    · rw [List.pairwise_cons]
      exact ⟨fun x hx => (hnew x hx).symm, hd⟩
    · rw [List.pairwise_cons] at hd ⊢
      refine ⟨?_, ih hd.2 (fun x hx => hnew x (List.mem_cons_of_mem _ hx))⟩
      intro x hx
      rcases (mem_insertBy f new rs x).mp hx with rfl | hx
      · exact hnew r (List.mem_cons_self _ _)
      · exact hd.1 x hx

/-- The level-0 chain after the stores that link `new` behind the node at which the scan
stopped. -/
theorem Linked_insertBy (B B' : Nat → Nat) (f : Rec → Int) (new : Rec) :
    ∀ (rs : List Rec) (p : Nat),
    Linked B p rs → (∀ r ∈ rs, r.off ≠ p) → (rs.Pairwise fun r r' => r.off ≠ r'.off) →
    B' ((locateBy f p rs).1 + 24) = new.off →
    B' (new.off + 24) = B ((locateBy f p rs).1 + 24) →
    (∀ x, (x = p ∨ ∃ r ∈ rs, r.off = x) → x ≠ (locateBy f p rs).1 →
      B' (x + 24) = B (x + 24)) →
    Linked B' p (insertBy f new rs) := by
  intro rs
  induction rs with
  | nil =>
    intro p hl _ _ h1 h2 _
    simp only [locateBy] at h1 h2
    simp only [Linked] at hl
    simp only [insertBy, Linked]
    exact ⟨h1, by rw [h2, hl]⟩
  | cons r rs ih =>
    intro p hl hp hnd h1 h2 hfr
    simp only [Linked] at hl
    rw [List.pairwise_cons] at hnd
    simp only [locateBy] at h1 h2 hfr
    simp only [insertBy]
    by_cases hle : f r ≤ 0
    · simp only [hle, ↓reduceIte] at h1 h2 hfr ⊢
      simp only [Linked]
      refine ⟨h1, by rw [h2]; exact hl.1, ?_⟩
      apply Linked_frame B B' rs r.off hl.2
      · exact hfr r.off (Or.inr ⟨r, List.mem_cons_self _ _, rfl⟩)
          (hp r (List.mem_cons_self _ _))
      · intro x hx
        exact hfr x.off (Or.inr ⟨x, List.mem_cons_of_mem _ hx, rfl⟩)
          (hp x (List.mem_cons_of_mem _ hx))
    · simp only [hle, ↓reduceIte] at h1 h2 hfr ⊢
      simp only [Linked]
      have hqne : p ≠ (locateBy f r.off rs).1 := by
        rcases locateBy_fst f rs r.off with h | ⟨x, hx, hxe⟩
        · rw [h]; exact (hp r (List.mem_cons_self _ _)).symm
        · rw [← hxe]; exact (hp x (List.mem_cons_of_mem _ hx)).symm
      refine ⟨by rw [hfr p (Or.inl rfl) hqne]; exact hl.1, ?_⟩
      apply ih r.off hl.2 (fun x hx => (hnd.1 x hx).symm) hnd.2 h1 h2
      intro x hx hne
      apply hfr x _ hne
      rcases hx with rfl | ⟨y, hy, rfl⟩
      · exact Or.inr ⟨r, List.mem_cons_self _ _, rfl⟩
      · exact Or.inr ⟨y, List.mem_cons_of_mem _ hy, rfl⟩

theorem setVal_off (o : Nat) (val : List Nat) (vo : Nat) (rs : List Rec) :
    (setVal o val vo rs).map Rec.off = rs.map Rec.off := by
  unfold setVal
  rw [List.map_map]
  apply List.map_congr_left
  intro r _
  simp only [Function.comp]
  split <;> rfl

theorem setVal_length (o : Nat) (val : List Nat) (vo : Nat) (rs : List Rec) :
    (setVal o val vo rs).length = rs.length := by
  simp [setVal]

theorem mem_setVal (o : Nat) (val : List Nat) (vo : Nat) (rs : List Rec) (x : Rec)
    (hx : x ∈ setVal o val vo rs) :
    (x ∈ rs ∧ x.off ≠ o) ∨ ∃ y ∈ rs, y.off = o ∧ x = { y with val := val, vo := vo } := by
  unfold setVal at hx
  obtain ⟨y, hy, rfl⟩ := List.mem_map.mp hx
  by_cases h : y.off = o
  · right
    exact ⟨y, hy, h, by simp only [h, ↓reduceIte]⟩
  · left
    simp only [h, ↓reduceIte]
    exact ⟨hy, h⟩

/-- The shape survives every change of the arena that keeps the cells below the old
cursor. -/
theorem Shape_frame (l l' : SkipList) (rs : List Rec) (h : Shape l rs)
    (h1 : l'.maxLevel = l.maxLevel) (h2 : l'.currHeight = l.currHeight)
    (h3 : l'.headOffset = l.headOffset) (hn : l.arena.n ≤ l'.arena.n)
    (hn32 : l'.arena.n < 2 ^ 32) (hroom : l'.arena.n + 104 ≤ l'.arena.len)
    (hB : ∀ a, a < l.arena.n → l'.arena.buf a = l.arena.buf a) : Shape l' rs := by
  have hlo := h.n_lo
  refine ⟨by rw [h1]; exact h.maxLevel, by rw [h2]; exact h.currHeight,
    by rw [h3]; exact h.headOffset, by omega, hn32, hroom, ?_, ?_, ?_, ?_, h.sep, h.distinct⟩
  · rw [hB 36 (by omega)]; exact h.top
  · exact (hB 30 (by omega)).trans h.headHeight
  · apply Linked_frame _ _ rs 8 h.linked (hB _ (by omega))
    intro r hr
    have := (h.recs r hr).2.2.1
    exact hB _ (by omega)
  · intro r hr
    exact RecShape_frame _ _ _ _ r (h.recs r hr) hn
      (fun a ha => hB a (Foot_lt_shape _ _ r (h.recs r hr) a ha))

/-- The shape after a new node was written above the old cursor and linked behind the
node at which the scan stopped. -/
theorem Shape_insert (l l' : SkipList) (rs : List Rec) (f : Rec → Int) (new : Rec)
    (h : Shape l rs)
    (h1 : l'.maxLevel = l.maxLevel) (h2 : l'.currHeight = l.currHeight)
    (h3 : l'.headOffset = l.headOffset) (hn : l.arena.n + 35 ≤ l'.arena.n)
    (hn32 : l'.arena.n < 2 ^ 32) (hroom : l'.arena.n + 104 ≤ l'.arena.len)
    (hnew : RecShape l'.arena.buf l'.arena.n new)
    (hoff : l.arena.n ≤ new.off) (hko : new.off + 28 ≤ new.ko) (hvo : new.off + 28 ≤ new.vo)
    (hB : ∀ a, a < l.arena.n → a ≠ (locateBy f 8 rs).1 + 24 →
      l'.arena.buf a = l.arena.buf a)
    (hq : l'.arena.buf ((locateBy f 8 rs).1 + 24) = new.off)
    (hm : l'.arena.buf (new.off + 24) = l.arena.buf ((locateBy f 8 rs).1 + 24)) :
    Shape l' (insertBy f new rs) := by
  have hlo := h.n_lo
  have hqmem : (locateBy f 8 rs).1 = 8 ∨ ∃ rq ∈ rs, rq.off = (locateBy f 8 rs).1 :=
    locateBy_fst f rs 8
  have hqlt : (locateBy f 8 rs).1 = 8 ∨ 113 ≤ (locateBy f 8 rs).1 := by
    rcases hqmem with e | ⟨rq, hrq, e⟩
    · exact Or.inl e
    · right; rw [← e]; exact (h.recs rq hrq).2.1
  refine ⟨by rw [h1]; exact h.maxLevel, by rw [h2]; exact h.currHeight,
    by rw [h3]; exact h.headOffset, by rw [length_insertBy]; omega, hn32, hroom,
    ?_, ?_, ?_, ?_, ?_, ?_⟩
  · rw [hB 36 (by omega) (by omega)]; exact h.top
  · exact (hB 30 (by omega) (by omega)).trans h.headHeight
  · apply Linked_insertBy _ _ f new rs 8 h.linked
      (fun r hr => by have := (h.recs r hr).2.1; omega)
      h.distinct hq hm
    intro x hx hne
    apply hB
    · rcases hx with rfl | ⟨r, hr, rfl⟩
      · omega
      · have := (h.recs r hr).2.2.1; omega
    · omega
  · intro r hr
    rcases (mem_insertBy f new rs r).mp hr with e | hr
    · rw [e]; exact hnew
    · exact RecShape_frame _ _ _ _ r (h.recs r hr) (by omega)
        (fun a ha => hB a (Foot_lt_shape _ _ r (h.recs r hr) a ha)
          (link_not_Foot_shape _ _ rs h.sep h.recs _ hqmem r hr a ha))
  · intro r hr r' hr'
    obtain ⟨_, n3, n4, n5, n6, n7, n8, _⟩ := hnew
    rcases (mem_insertBy f new rs r).mp hr with e | hr
    · rcases (mem_insertBy f new rs r').mp hr' with e' | hr'
      · rw [e, e']; exact ⟨Or.inl rfl, by omega, by omega⟩
      · obtain ⟨_, o3, o4, o5, o6, o7, o8, _⟩ := h.recs r' hr'
        rw [e]; exact ⟨by omega, by omega, by omega⟩
    · obtain ⟨_, o3, o4, o5, o6, o7, o8, _⟩ := h.recs r hr
      rcases (mem_insertBy f new rs r').mp hr' with e' | hr'
      · rw [e']; exact ⟨by omega, by omega, by omega⟩
      · exact h.sep r hr r' hr'
  · apply distinct_insertBy f new rs h.distinct
    intro r hr
    have := (h.recs r hr).2.2.1
    omega

/-- The shape after the value of the node `r0` was replaced by a value written above the
old cursor. -/
theorem Shape_setVal (l l' : SkipList) (rs : List Rec) (r0 : Rec) (val : List Nat) (vo : Nat)
    (h : Shape l rs) (h1 : l'.maxLevel = l.maxLevel) (h2 : l'.currHeight = l.currHeight)
    (h3 : l'.headOffset = l.headOffset) (hn : l.arena.n ≤ l'.arena.n)
    (hn32 : l'.arena.n < 2 ^ 32) (hroom : l'.arena.n + 104 ≤ l'.arena.len)
    (hmem : r0 ∈ rs) (hvo : l.arena.n ≤ vo) (hvo' : vo + (val.length + 1) ≤ l'.arena.n)
    (hB : ∀ a, a < l.arena.n → a ≠ r0.off + valueField → l'.arena.buf a = l.arena.buf a)
    (hcell : l'.arena.buf (r0.off + valueField) = encodeValue vo (val.length + 1))
    (hbytes : ∀ j, j < val.length + 1 → l'.arena.buf (vo + j) = (0 :: val).getD j 0) :
    Shape l' (setVal r0.off val vo rs) := by
  have hlo := h.n_lo
  have hr0 := h.recs r0 hmem
  have hs0 := h.sep r0 hmem
  have h113 := hr0.2.1
  simp only [valueField] at hB hcell
  refine ⟨by rw [h1]; exact h.maxLevel, by rw [h2]; exact h.currHeight,
    by rw [h3]; exact h.headOffset, by rw [setVal_length]; omega, hn32, hroom,
    ?_, ?_, ?_, ?_, ?_, ?_⟩
  · rw [hB 36 (by omega) (by omega)]; exact h.top
  · exact (hB 30 (by omega) (by omega)).trans h.headHeight
  · apply Linked_congr _ rs _ 8 (setVal_off _ _ _ rs).symm
    apply Linked_frame _ _ rs 8 h.linked (hB _ (by omega) (by omega))
    intro r hr
    have hb := (h.recs r hr).2.2.1
    have := (hs0 r hr).1
    exact hB _ (by omega) (by omega)
  · intro x hx
    rcases mem_setVal _ _ _ rs x hx with ⟨hxm, hxo⟩ | ⟨y, hy, hyo, rfl⟩
    · apply RecShape_frame _ _ _ _ x (h.recs x hxm) hn
      intro a ha
      apply hB a (Foot_lt_shape _ _ x (h.recs x hxm) a ha)
      obtain ⟨s1, s2, s3⟩ := hs0 x hxm
      obtain ⟨_, o3, o4, o5, o6, o7, o8, _⟩ := h.recs x hxm
      simp only [Foot, scoreField, valueField, keyOffsetField, keySizeField, heightField] at ha ⊢
      omega
    · obtain ⟨o2, o3, o4, o5, o6, o7, o8, o10, o11, o12, o13, o14, o15⟩ := h.recs y hy
      obtain ⟨_, s2, _⟩ := hs0 y hy
      unfold RecShape
      dsimp only
      simp only [valueField, keyOffsetField, keySizeField, heightField] at o11 o12 o15 ⊢
      refine ⟨o2, o3, by omega, o5, by omega, by omega, hvo', ?_, ?_, ?_, ?_, hbytes, ?_⟩
      · rw [hyo]; exact hcell
      · rw [hB _ (by omega) (by omega)]; exact o11
      · rw [hB _ (by omega) (by omega)]; exact o12
      · intro j hj
        rw [hB _ (by omega) (by omega)]; exact o13 j hj
      · rw [hB _ (by omega) (by omega)]; exact o15
  · intro x hx x' hx'
    have hx1 : ∃ y ∈ rs, x.off = y.off := by
      rcases mem_setVal _ _ _ rs x hx with ⟨hxm, _⟩ | ⟨y, hy, _, rfl⟩
      · exact ⟨x, hxm, rfl⟩
      · exact ⟨y, hy, rfl⟩
    obtain ⟨y, hy, hyo⟩ := hx1
    have hyb := (h.recs y hy).2.2.1
    rw [hyo]
    rcases mem_setVal _ _ _ rs x' hx' with ⟨hxm', _⟩ | ⟨y', hy', _, rfl⟩
    · exact h.sep y hy x' hxm'
    · obtain ⟨s1, s2, _⟩ := h.sep y hy y' hy'
      exact ⟨s1, s2, by simp only; omega⟩
  · have hd := h.distinct
    rw [← List.pairwise_map (f := Rec.off) (R := fun a b : Nat => a ≠ b)] at hd ⊢
    rw [setVal_off]
    exact hd

theorem NewSkipList_shape (cap : Nat) :
    ∃ l, NewSkipList cap = some l ∧ Shape l [] ∧ l.arena.n = 113 := by
  obtain ⟨l, hnew, hi, hn, _⟩ := NewSkipList_spec cap
  exact ⟨l, hnew, ⟨hi.maxLevel, hi.currHeight, hi.headOffset, hi.n_lo, hi.n_hi, hi.room,
    hi.top, hi.headHeight, hi.linked, fun r hr => by simp at hr,
    fun r hr => by simp at hr, List.Pairwise.nil⟩, hn⟩

theorem locateBy_fst_lt (l : SkipList) (rs : List Rec) (h : Shape l rs) (f : Rec → Int) :
    (locateBy f 8 rs).1 + 28 ≤ l.arena.n := by
  have hlo := h.n_lo
  rcases locateBy_fst f rs 8 with e | ⟨r, hr, e⟩
  · rw [e]; omega
  · rw [← e]
    exact (h.recs r hr).2.2.1

/-- `Add` on a list that has the shape, whatever the key, when the cursor does not wrap:
the call returns and the list has the shape again. -/
theorem Add_shape (l : SkipList) (rs : List Rec) (h : Shape l rs) (draws : Nat → Nat)
    (e : Entry)
    (hfit : l.arena.n + 35 + e.Key.length + (e.Value.length + 1) < 2 ^ 32) :
    ∃ l' rs', Add l draws e = some l' ∧ Shape l' rs' ∧
      l'.arena.n ≤ l.arena.n + 35 + e.Key.length + (e.Value.length + 1) := by
  have hlo := h.n_lo
  have hhi := h.n_hi
  have hroom := h.room
  have hg : getNode l.arena l.headOffset = some (some ⟨l.arena.cur, 8⟩) := by
    rw [h.headOffset]
    exact getNode_some _ _ (by decide) (by omega)
  have hal := addLevels_shape l rs h e.Key
  have h0 : sizeVarint 0 = 1 := by decide
  have hp0 : putUvarint 0 = [0] := by decide
  have e1 : (1 : Int).toNat = 1 := rfl
  have e2 : (1 : Int) - 1 = 0 := rfl
  have hq28 := locateBy_fst_lt l rs h (cmpStored l.arena.buf (calcScore e.Key) e.Key)
  unfold Add
  simp only [hg, h.currHeight, h.maxLevel, e1, e2, randLevel_zero]
  cases hloc : (locateBy (cmpStored l.arena.buf (calcScore e.Key) e.Key) 8 rs).2 with
  | some r0 =>
    rw [hloc] at hal
    simp only at hal
    have hmem := locateBy_mem _ rs 8 r0 hloc
    obtain ⟨hes, hpv⟩ := putValue_eq l.arena (ValueStruct.mk e.Value 0) (Nat.two_pow_pos 64)
      (by show l.arena.n + (e.Value.length + sizeVarint 0) < 2 ^ 32; rw [h0]; omega) hroom
    simp only [h0, hp0] at hes hpv
    simp only [hal, hpv, hes]
    have hn1 : (bump l.arena (e.Value.length + 1)).n = l.arena.n + (e.Value.length + 1) :=
      bump_n _ _ (by omega)
    have hr1 : (bump l.arena (e.Value.length + 1)).n + 104 ≤
        (bump l.arena (e.Value.length + 1)).len := bump_room _ _ (by omega) (Or.inl hroom)
    have hb1 : ∀ a, a < l.arena.len → (bump l.arena (e.Value.length + 1)).buf a = l.arena.buf a :=
      fun a ha => bump_buf _ _ a ha
    have hc1 := bump_cur l.arena (e.Value.length + 1)
    generalize bump l.arena (e.Value.length + 1) = s1 at hn1 hr1 hb1 hc1
    have hr0 := h.recs r0 hmem
    have hr0off : r0.off + 28 ≤ l.arena.n := hr0.2.2.1
    rcases hc1 with hc | hc
    · refine ⟨_, setVal r0.off e.Value l.arena.n rs, rfl, ?_, ?_⟩
      · refine Shape_setVal l _ rs r0 e.Value l.arena.n h h.maxLevel.symm h.currHeight.symm rfl
          ?_ ?_ ?_ ?_ ?_ ?_ ?_ ?_ ?_
        · show l.arena.n ≤ s1.n
          omega
        · show s1.n < 2 ^ 32
          omega
        · exact hr1
        · exact hmem
        · exact le_refl _
        · show _ ≤ s1.n
          omega
        · intro a ha hne
          show ((s1.storeBytes l.arena.n ([0] ++ e.Value)).store _ _ _).buf a = _
          rw [store_buf, storeBytes_buf]
          have c1 : ¬ (l.arena.n ≤ a ∧ a < l.arena.n + ([0] ++ e.Value).length) := by omega
          have c2 : ¬ ((s1.storeBytes l.arena.n ([0] ++ e.Value)).cur = l.arena.cur ∧
              a = r0.off + valueField) := fun c => hne c.2
          simp only [c1, c2, ↓reduceIte]
          exact hb1 a (by omega)
        · show ((s1.storeBytes l.arena.n ([0] ++ e.Value)).store _ _ _).buf _ = _
          rw [store_buf]
          have c2 : (s1.storeBytes l.arena.n ([0] ++ e.Value)).cur = l.arena.cur ∧
              r0.off + valueField = r0.off + valueField := ⟨hc, rfl⟩
          simp only [c2, and_self, ↓reduceIte]
        · intro j hj
          show ((s1.storeBytes l.arena.n ([0] ++ e.Value)).store _ _ _).buf _ = _
          rw [store_buf, storeBytes_buf]
          have c2 : ¬ ((s1.storeBytes l.arena.n ([0] ++ e.Value)).cur = l.arena.cur ∧
              l.arena.n + j = r0.off + valueField) := by
            intro c
            have := c.2
            simp only [valueField] at this
            omega
          have c1 : l.arena.n ≤ l.arena.n + j ∧
              l.arena.n + j < l.arena.n + ([0] ++ e.Value).length := by
            simp only [List.length_append, List.length_singleton]
            omega
          simp only [c1, c2, and_self, ↓reduceIte, Nat.add_sub_cancel_left]
          rfl
      · show s1.n ≤ _
        omega
    · refine ⟨_, rs, rfl, ?_, ?_⟩
      · refine Shape_frame l _ rs h h.maxLevel.symm h.currHeight.symm rfl ?_ ?_ ?_ ?_
        · show l.arena.n ≤ s1.n
          omega
        · show s1.n < 2 ^ 32
          omega
        · exact hr1
        · intro a ha
          show ((s1.storeBytes l.arena.n ([0] ++ e.Value)).store _ _ _).buf a = _
          rw [store_buf, storeBytes_buf]
          have c1 : ¬ (l.arena.n ≤ a ∧ a < l.arena.n + ([0] ++ e.Value).length) := by omega
          have c2 : ¬ ((s1.storeBytes l.arena.n ([0] ++ e.Value)).cur = l.arena.cur ∧
              a = r0.off + valueField) := by
            intro c
            have : s1.cur = l.arena.cur := c.1
            omega
          simp only [c1, c2, ↓reduceIte]
          exact hb1 a (by omega)
      · show s1.n ≤ _
        omega
  | none =>
    rw [hloc] at hal
    obtain ⟨hdrs, hal, hh0⟩ := hal
    obtain ⟨s', hnew, hn, hroom', hlen', hcur', hbuf', hheap', _, f2, f3, f4, f5, fk, fv, _,
        _⟩ :=
      newNode_spec l.arena e.Key (ValueStruct.mk e.Value 0) 1 (le_refl 1) (by decide)
        (Nat.two_pow_pos 64) (by omega)
        (by show l.arena.n + (31 + 4 * 1) + e.Key.length + (e.Value.length + sizeVarint 0) < 2 ^ 32
            rw [h0]; omega)
        (Or.inl hroom)
    simp only [h0, hp0, Nat.cast_one] at hnew hn f2 fv
    have hoff : getNodeOffset s' (some ⟨s'.cur, (l.arena.n + 7) / 8 * 8⟩) =
        some ((l.arena.n + 7) / 8 * 8) := by
      simp only [getNodeOffset, true_and]
      have : 0 < s'.len := by omega
      simp [this]
    have hd : ¬ (defaultMaxLevel ≤ 0) := by decide
    have hlf : levelField 0 = 24 := rfl
    simp only [hal, hnew, hoff, linkLevels, hd, hh0, ↓reduceIte, Option.map_some', hlf]
    generalize hm : (l.arena.n + 7) / 8 * 8 = m at *
    have hm1 : l.arena.n ≤ m := by omega
    have hm2 : m ≤ l.arena.n + 7 := by omega
    have hskl : (e.Key.take (e.Key.length % 2 ^ 16)).length = e.Key.length % 2 ^ 16 := by
      rw [List.length_take]; omega
    by_cases hc : s'.cur = l.arena.cur
    · refine ⟨_, insertBy (cmpStored l.arena.buf (calcScore e.Key) e.Key)
        ⟨m, e.Key.take (e.Key.length % 2 ^ 16), e.Value, l.arena.n + 35,
          l.arena.n + 35 + e.Key.length⟩ rs, rfl, ?_, ?_⟩
      swap
      · show s'.n ≤ _
        omega
      generalize hqq : (locateBy (cmpStored l.arena.buf (calcScore e.Key) e.Key) 8 rs).1 = q
        at hh0 hq28
      have hB : ∀ a, ((s'.store ⟨s'.cur, m⟩ 24 (s'.load ⟨l.arena.cur, q⟩ 24)).store
          ⟨l.arena.cur, q⟩ 24 m).buf a =
          if a = q + 24 then m else if a = m + 24 then l.arena.buf (q + 24) else s'.buf a := by
        intro a
        rw [store_buf, store_buf]
        have hld : s'.load ⟨l.arena.cur, q⟩ 24 = l.arena.buf (q + 24) :=
          hheap' (q + 24) (by omega)
        simp only [store_cur, hc, true_and, hld]
      refine Shape_insert l _ rs _ _ h h.maxLevel.symm h.currHeight.symm rfl
        ?_ ?_ ?_ ?_ ?_ ?_ ?_ ?_ ?_ ?_
      · show l.arena.n + 35 ≤ s'.n
        omega
      · show s'.n < 2 ^ 32
        omega
      · exact hroom'
      · have hBo : ∀ a, a ≠ q + 24 → a ≠ m + 24 →
            ((s'.store ⟨s'.cur, m⟩ 24 (s'.load ⟨l.arena.cur, q⟩ 24)).store
              ⟨l.arena.cur, q⟩ 24 m).buf a = s'.buf a := by
          intro a h1 h2
          rw [hB, if_neg h1, if_neg h2]
        refine ⟨by show (e.Key.take (e.Key.length % 2 ^ 16)).length ≤ 65535; omega,
          by show 113 ≤ m; omega, by show m + 28 ≤ s'.n; omega,
          by show 112 ≤ l.arena.n + 35; omega,
          by show l.arena.n + 35 + (e.Key.take (e.Key.length % 2 ^ 16)).length ≤ s'.n; omega,
          by show 112 ≤ l.arena.n + 35 + e.Key.length; omega,
          by show l.arena.n + 35 + e.Key.length + (e.Value.length + 1) ≤ s'.n; omega,
          ?_, ?_, ?_, ?_, ?_, ?_⟩
        · show _ = encodeValue (l.arena.n + 35 + e.Key.length) (e.Value.length + 1)
          rw [hBo _ (by simp only [valueField]; omega) (by simp only [valueField]; omega)]
          exact f2
        · show _ = l.arena.n + 35
          rw [hBo _ (by simp only [keyOffsetField]; omega)
            (by simp only [keyOffsetField]; omega)]
          exact f3
        · show _ = (e.Key.take (e.Key.length % 2 ^ 16)).length
          rw [hBo _ (by simp only [keySizeField]; omega) (by simp only [keySizeField]; omega)]
          rw [f4, hskl]
        · intro j hj
          dsimp only at hj ⊢
          rw [hBo _ (by omega) (by omega), take_getD _ _ _ (by omega)]
          exact fk j (by omega)
        · intro j hj
          dsimp only at hj ⊢
          rw [hBo _ (by omega) (by omega)]
          exact fv j (by simpa using (by omega : j < e.Value.length + 1))
        · show _ = 1
          rw [hBo _ (by simp only [heightField]; omega) (by simp only [heightField]; omega)]
          exact f5
      · exact hm1
      · show m + 28 ≤ l.arena.n + 35
        omega
      · show m + 28 ≤ l.arena.n + 35 + e.Key.length
        omega
      · intro a ha hne
        dsimp only at hne ⊢
        rw [hqq] at hne
        rw [hB, if_neg hne, if_neg (by omega)]
        exact hbuf' a ha (by omega)
      · dsimp only
        rw [hqq, hB, if_pos rfl]
      · dsimp only
        rw [hqq, hB, if_neg (by omega), if_pos rfl]
    · refine ⟨_, rs, rfl, ?_, ?_⟩
      · refine Shape_frame l _ rs h h.maxLevel.symm h.currHeight.symm rfl ?_ ?_ ?_ ?_
        · show l.arena.n ≤ s'.n
          omega
        · show s'.n < 2 ^ 32
          omega
        · exact hroom'
        · intro a ha
          show ((s'.store ⟨s'.cur, m⟩ 24 (s'.load ⟨l.arena.cur, _⟩ 24)).store
            ⟨l.arena.cur, _⟩ 24 m).buf a = _
          rw [store_buf, store_buf]
          have c1 : ¬ ((s'.store ⟨s'.cur, m⟩ 24 (s'.load ⟨l.arena.cur,
              (locateBy (cmpStored l.arena.buf (calcScore e.Key) e.Key) 8 rs).1⟩ 24)).cur =
              l.arena.cur ∧
              a = (locateBy (cmpStored l.arena.buf (calcScore e.Key) e.Key) 8 rs).1 + 24) :=
            fun c => hc c.1
          have c2 : ¬ (s'.cur = s'.cur ∧ a = m + 24) := by omega
          rw [if_neg c1, if_neg c2]
          exact hbuf' a ha (by omega)
      · show s'.n ≤ _
        omega

theorem addAll_shape : ∀ (calls : List ((Nat → Nat) × Entry)) (l : SkipList) (rs : List Rec),
    Shape l rs → l.arena.n + demand calls < 2 ^ 32 →
    ∃ l' rs', addAll l calls = some l' ∧ Shape l' rs' ∧
      l'.arena.n ≤ l.arena.n + demand calls := by
  intro calls
  induction calls with
  | nil =>
    intro l rs h _
    exact ⟨l, rs, rfl, h, by simp only [demand]; omega⟩
  | cons c cs ih =>
    intro l rs h hfit
    simp only [demand] at hfit
    obtain ⟨l1, rs1, hadd, h1, hn1⟩ := Add_shape l rs h c.1 c.2 (by omega)
    obtain ⟨l2, rs2, hall, h2, hn2⟩ := ih l1 rs1 h1 (by omega)
    refine ⟨l2, rs2, ?_, h2, by simp only [demand]; omega⟩
    simp only [addAll, hadd, hall]

/-- Every list built by `Add` calls whose total arena demand stays below 2^32 has the
shape, whatever the keys. -/
theorem build_shape (cap : Nat) (calls : List ((Nat → Nat) × Entry))
    (hfit : 113 + demand calls < 2 ^ 32) :
    ∃ l rs, build cap calls = some l ∧ Shape l rs ∧ l.arena.n ≤ 113 + demand calls := by
  obtain ⟨l0, hnew, h0, hn0⟩ := NewSkipList_shape cap
  obtain ⟨l, rs, hall, h, hn⟩ := addAll_shape calls l0 [] h0 (by omega)
  refine ⟨l, rs, ?_, h, by omega⟩
  simp only [build, hnew, Option.some_bind, hall]

/-- The tested `Add` is `Add`, on a list that has the shape when the cursor does not
wrap. -/
theorem AddChecked_eq_shape (l : SkipList) (rs : List Rec) (h : Shape l rs)
    (draws : Nat → Nat) (e : Entry)
    (hfit : l.arena.n + 35 + e.Key.length + (e.Value.length + 1) < 2 ^ 32) :
    AddChecked l draws e = Add l draws e := by
  have hlo := h.n_lo
  have hhi := h.n_hi
  have hroom := h.room
  have hg : getNode l.arena l.headOffset = some (some ⟨l.arena.cur, 8⟩) := by
    rw [h.headOffset]
    exact getNode_some _ _ (by decide) (by omega)
  have hal := addLevels_shape l rs h e.Key
  have hce := addLevelsChecked_eq_shape l rs h e.Key
  have h0 : sizeVarint 0 = 1 := by decide
  have e1 : (1 : Int).toNat = 1 := rfl
  have e2 : (1 : Int) - 1 = 0 := rfl
  have hq28 := locateBy_fst_lt l rs h (cmpStored l.arena.buf (calcScore e.Key) e.Key)
  unfold AddChecked Add
  simp only [hg, h.currHeight, h.maxLevel, e1, e2, randLevel_zero, hce]
  cases hloc : (locateBy (cmpStored l.arena.buf (calcScore e.Key) e.Key) 8 rs).2 with
  | some r0 =>
    rw [hloc] at hal
    simp only at hal
    cases hpv : putValue l.arena { Value := e.Value, ExpiresAt := 0 } <;>
      simp only [hal, hpv]
  | none =>
    rw [hloc] at hal
    obtain ⟨hdrs, hal, hh0⟩ := hal
    obtain ⟨s', hnew, _, hroom', _, _, _, hheap', _, _, _, _, f5, _⟩ :=
      newNode_spec l.arena e.Key (ValueStruct.mk e.Value 0) 1 (le_refl 1) (by decide)
        (Nat.two_pow_pos 64) (by omega)
        (by show l.arena.n + (31 + 4 * 1) + e.Key.length + (e.Value.length + sizeVarint 0) < 2 ^ 32
            rw [h0]; omega)
        (Or.inl hroom)
    simp only [Nat.cast_one] at hnew
    have hoff : getNodeOffset s' (some ⟨s'.cur, (l.arena.n + 7) / 8 * 8⟩) =
        some ((l.arena.n + 7) / 8 * 8) := by
      simp only [getNodeOffset, true_and]
      have : 0 < s'.len := by omega
      simp [this]
    have hd : ¬ (defaultMaxLevel ≤ 0) := by decide
    have hlf : levelField 0 = 24 := rfl
    have hqh : 0 < l.arena.buf ((locateBy (cmpStored l.arena.buf (calcScore e.Key) e.Key) 8 rs).1 + heightField) := by
      rcases locateBy_fst (cmpStored l.arena.buf (calcScore e.Key) e.Key) rs 8 with e | ⟨r, hr, e⟩
      · rw [e, h.headHeight]
        decide
      · rw [← e, (h.recs r hr).2.2.2.2.2.2.2.2.2.2.2.2]
        exact Nat.one_pos
    generalize hm : (l.arena.n + 7) / 8 * 8 = m at *
    generalize hqq : (locateBy (cmpStored l.arena.buf (calcScore e.Key) e.Key) 8 rs).1 = q at *
    have hm1 : l.arena.n ≤ m := by omega
    have c1 : levelInRange s' ⟨l.arena.cur, q⟩ 0 = true := by
      apply levelInRange_of
      have e3 : s'.load ⟨l.arena.cur, q⟩ heightField = l.arena.buf (q + heightField) :=
        hheap' (q + heightField) (by simp only [heightField]; omega)
      rw [e3]
      exact hqh
    have c2 : levelInRange s' ⟨s'.cur, m⟩ 0 = true := by
      apply levelInRange_of
      have e3 : s'.load ⟨s'.cur, m⟩ heightField = 1 := f5
      rw [e3]
      exact Nat.one_pos
    have c3 : levelInRange (s'.store ⟨s'.cur, m⟩ 24 (s'.load ⟨l.arena.cur, q⟩ 24))
        ⟨l.arena.cur, q⟩ 0 = true := by
      apply levelInRange_of
      have e3 : (s'.store ⟨s'.cur, m⟩ 24 (s'.load ⟨l.arena.cur, q⟩ 24)).load
          ⟨l.arena.cur, q⟩ heightField = l.arena.buf (q + heightField) := by
        show (s'.store ⟨s'.cur, m⟩ 24 (s'.load ⟨l.arena.cur, q⟩ 24)).heap l.arena.cur
          (q + heightField) = _
        rw [store_heap, if_neg (by simp only [heightField]; omega)]
        exact hheap' (q + heightField) (by simp only [heightField]; omega)
      rw [e3]
      exact hqh
    simp only [hal, hnew, hoff, linkLevels, linkLevelsChecked, hd, hh0, ↓reduceIte,
      Option.map_some', hlf, c1, c2, c3, Bool.and_self]

/-- C1 (as amended): for every initial capacity and every sequence of `Add` calls on a
list made by `NewSkipList`, with any values, whose keys are byte strings of at most 65535
bytes and whose total arena demand stays below 2^32, the calls and the iteration return,
and the keys visited after `Rewind()` by `Next()` until `Valid()` is false increase
strictly in lexicographic byte order; no key is visited twice. -/
theorem iterate_strictly_increasing (cap : Nat) (calls : List ((Nat → Nat) × Entry))
    (hw : WellKeyed calls) (hfit : 113 + demand calls < 2 ^ 32) :
    ∃ l es, build cap calls = some l ∧ iterate l = some es ∧
      (es.map Entry.Key).Pairwise (fun a b => List.Lex (fun x y => x < y) a b) ∧
      (es.map Entry.Key).Nodup := by
  obtain ⟨_, l, rs, _, _, hb, hi, _, _, _, _⟩ := build_spec cap calls hw hfit
  refine ⟨l, rs.map toEntry, hb, iterate_spec l rs hi.toInv0, ?_, ?_⟩
  · rw [map_toEntry_key, List.pairwise_map]
    exact hi.sorted.imp fun hab => (bytesCompare_neg_iff_lex _ _).mp hab
  · rw [map_toEntry_key]
    exact sortedRecs_nodup rs hi.sorted

/-- Witness of `iterate_strictly_increasing`: keys `b`, `a`, `b` added to a list of
capacity 64. -/
theorem iterate_strictly_increasing_witness :
    ∃ l es, build 64 [(fun _ => 0, { Key := [98], Value := [1], ExpiresAt := 0 }),
        (fun _ => 0, { Key := [97], Value := [2], ExpiresAt := 0 }),
        (fun _ => 0, { Key := [98], Value := [3], ExpiresAt := 0 })] = some l ∧
      iterate l = some es ∧
      (es.map Entry.Key).Pairwise (fun a b => List.Lex (fun x y => x < y) a b) ∧
      (es.map Entry.Key).Nodup :=
  iterate_strictly_increasing 64 _
    (by unfold WellKeyed IsBytes; decide) (by decide)

/-- C1 as stated fails for a key of 65536 bytes: the node stores the key size in 16 bits,
so the key reads back as the empty key; added twice (capacity 2^20, no growth), the key is
not found the second time and the iterator visits the empty key twice. -/
theorem iterate_visits_key_twice :
    ((build 1048576
        [(fun _ => 0, { Key := List.replicate 65536 0, Value := [1], ExpiresAt := 0 }),
         (fun _ => 0, { Key := List.replicate 65536 0, Value := [2], ExpiresAt := 0 })]).bind
      iterate) =
      some [{ Key := [], Value := [1], ExpiresAt := 0 },
        { Key := [], Value := [2], ExpiresAt := 0 }] := by
  obtain ⟨l2, rs2, hb, hi, hkv⟩ := long_key_twice (List.replicate 65536 0)
    (List.length_replicate _ _) (isBytes_zeros _) (calcScore_zeros _) (fun _ => 0) (fun _ => 0)
    [1] [2] 0 0 (by decide) (by decide)
  rw [hb, Option.some_bind, iterate_spec l2 rs2 hi, map_toEntry, hkv]
  rfl

theorem locate_none_of_empty_keys (K : List Nat) (hK : ¬ (bytesCompare K [] ≤ 0)) :
    ∀ (rs : List Rec) (p : Nat), (∀ r ∈ rs, r.key = []) → (locate K p rs).2 = none := by
  intro rs
  induction rs with
  | nil => intro p _; rfl
  | cons r rs ih =>
    intro p h
    simp only [locate, h r (List.mem_cons_self _ _), hK, ↓reduceIte]
    exact ih r.off fun x hx => h x (List.mem_cons_of_mem _ hx)

theorem filter_key_one (K : List Nat) : ∀ (es : List Entry), (es.map Entry.Key).Nodup →
    K ∈ es.map Entry.Key → (es.filter fun e => decide (e.Key = K)).length = 1 := by
  intro es
  induction es with
  | nil => intro _ h; simp at h
  | cons a es ih =>
    intro hn hm
    rw [List.map_cons, List.nodup_cons] at hn
    by_cases he : a.Key = K
    · have hnil : es.filter (fun e => decide (e.Key = K)) = [] := by
        rw [List.filter_eq_nil_iff]
        intro x hx
        simp only [decide_eq_true_eq]
        intro hxk
        exact hn.1 (by rw [he, ← hxk]; exact List.mem_map_of_mem _ hx)
      rw [List.filter_cons_of_pos (by simpa using he), hnil]
      rfl
    · rw [List.filter_cons_of_neg (by simpa using he)]
      apply ih hn.2
      rcases List.mem_cons.mp hm with e | h
      · exact absurd e.symm he
      · exact h

/-- C2 (as amended): for every list reached from `NewSkipList` by `Add` calls, every key
`K` of at most 65535 bytes and all values `V1`, `V2`, with the total arena demand below
2^32: `Add(K, V1)` and `Add(K, V2)` return, and if the second call does not make the arena
grow, the iteration from `Rewind()` visits exactly one entry whose key is `K` and
`Search(K)` returns an entry whose value is `V2`. -/
theorem Add_twice_keeps_last (cap : Nat) (calls : List ((Nat → Nat) × Entry))
    (d1 d2 : Nat → Nat) (K V1 V2 : List Nat) (E1 E2 : Nat)
    (hw : WellKeyed calls) (hk : IsBytes K) (hlen : K.length ≤ 65535)
    (hfit : 113 + demand calls + (35 + K.length + (V1.length + 1)) +
      (35 + K.length + (V2.length + 1)) < 2 ^ 32) :
    ∃ l l1 l2, build cap calls = some l ∧
      Add l d1 { Key := K, Value := V1, ExpiresAt := E1 } = some l1 ∧
      Add l1 d2 { Key := K, Value := V2, ExpiresAt := E2 } = some l2 ∧
      (l2.arena.cur = l1.arena.cur →
        ∃ es, iterate l2 = some es ∧ (es.filter fun e => decide (e.Key = K)).length = 1 ∧
          Search l2 K = some (some { Key := K, Value := V2, ExpiresAt := 0 })) := by
  obtain ⟨_, l, rs, _, _, hb, hi, _, hn, _, _⟩ := build_spec cap calls hw (by omega)
  obtain ⟨l1, ha1, _, hn1, hd1⟩ :=
    Add_short l rs hi d1 { Key := K, Value := V1, ExpiresAt := E1 } hk hlen
      (by show l.arena.n + 35 + K.length + (V1.length + 1) < 2 ^ 32; omega)
  have hn1' : l1.arena.n ≤ l.arena.n + 35 + K.length + (V1.length + 1) := hn1
  have hi1 : ∃ rs1, Inv l1 rs1 := by
    rcases hd1 with ⟨_, rs1, h1, _⟩ | ⟨_, h1⟩
    · exact ⟨rs1, h1⟩
    · exact ⟨rs, h1⟩
  obtain ⟨rs1, hi1⟩ := hi1
  obtain ⟨l2, ha2, _, _, hd2⟩ :=
    Add_short l1 rs1 hi1 d2 { Key := K, Value := V2, ExpiresAt := E2 } hk hlen
      (by show l1.arena.n + 35 + K.length + (V2.length + 1) < 2 ^ 32; omega)
  refine ⟨l, l1, l2, hb, ha1, ha2, ?_⟩
  intro hc
  rcases hd2 with ⟨_, rs2, hi2, hkv⟩ | ⟨hne, _⟩
  · have hkv' : rs2.map kv = modelAdd (rs1.map kv) K V2 := hkv
    have hmem : (K, V2) ∈ rs2.map kv := by
      rw [hkv', modelAdd_mem K V2 _ ((sortedKeys_map rs1).mpr hi1.sorted)]
      exact Or.inl rfl
    obtain ⟨r, hr, hrkv⟩ := List.mem_map.mp hmem
    have hrk : r.key = K := congrArg Prod.fst hrkv
    have hrv : r.val = V2 := congrArg Prod.snd hrkv
    refine ⟨rs2.map toEntry, iterate_spec l2 rs2 hi2.toInv0, ?_, ?_⟩
    · apply filter_key_one
      · rw [map_toEntry_key]
        exact sortedRecs_nodup rs2 hi2.sorted
      · rw [map_toEntry_key, ← hrk]
        exact List.mem_map_of_mem _ hr
    · have hloc := locate_of_mem rs2 8 r hi2.sorted hr
      rw [hrk] at hloc
      rw [Search_spec l2 rs2 hi2.toInv0 K hk, hloc, Option.map_some', hrv]
  · exact absurd hc hne

/-- Witness of `Add_twice_keeps_last`: key `a` added twice to a list that holds `b`. -/
theorem Add_twice_keeps_last_witness :
    ∃ l l1 l2,
      build 1000 [(fun _ => 0, { Key := [98], Value := [1], ExpiresAt := 0 })] = some l ∧
      Add l (fun _ => 0) { Key := [97], Value := [2], ExpiresAt := 0 } = some l1 ∧
      Add l1 (fun _ => 0) { Key := [97], Value := [3], ExpiresAt := 0 } = some l2 ∧
      (l2.arena.cur = l1.arena.cur →
        ∃ es, iterate l2 = some es ∧ (es.filter fun e => decide (e.Key = [97])).length = 1 ∧
          Search l2 [97] = some (some { Key := [97], Value := [3], ExpiresAt := 0 })) :=
  Add_twice_keeps_last 1000 _ (fun _ => 0) (fun _ => 0) [97] [2] [3] 0 0
    (by unfold WellKeyed IsBytes; decide) (by unfold IsBytes; decide) (by decide) (by decide)

/-- C2 as stated fails for a key `K` of 65536 bytes: the key size is stored in 16 bits, the
nodes read back with the empty key, and after `Add(K, V1)`, `Add(K, V2)` (capacity 2^20, no
growth) `Search(K)` returns nil. -/
theorem Search_misses_long_key :
    ((build 1048576
        [(fun _ => 0, { Key := List.replicate 65536 0, Value := [1], ExpiresAt := 0 }),
         (fun _ => 0, { Key := List.replicate 65536 0, Value := [2], ExpiresAt := 0 })]).bind
      fun l => Search l (List.replicate 65536 0)) = some none := by
  obtain ⟨l2, rs2, hb, hi, hkv⟩ := long_key_twice (List.replicate 65536 0)
    (List.length_replicate _ _) (isBytes_zeros _) (calcScore_zeros _) (fun _ => 0) (fun _ => 0)
    [1] [2] 0 0 (by decide) (by decide)
  have hgt : ¬ (bytesCompare (List.replicate 65536 0) [] ≤ 0) := by
    rw [List.replicate_succ]
    simp [bytesCompare]
  have hkeys : ∀ r ∈ rs2, r.key = [] := by
    intro r hr
    have hm : kv r ∈ rs2.map kv := List.mem_map_of_mem kv hr
    rw [hkv] at hm
    simp only [List.mem_cons, List.mem_singleton, List.not_mem_nil, or_false] at hm
    rcases hm with e | e
    · exact congrArg Prod.fst e
    · exact congrArg Prod.fst e
  rw [hb, Option.some_bind, Search_spec l2 rs2 hi _ (isBytes_zeros _),
    locate_none_of_empty_keys _ hgt rs2 8 hkeys]
  rfl

theorem assocModel_single (d : Nat → Nat) (k v : List Nat) (e : Nat) :
    assocModel [(d, { Key := k, Value := v, ExpiresAt := e })] = [(k, v)] := rfl

/-- C3 (as amended): for every sequence of `Add` calls on a new list in which every key
has at most 65535 bytes and whose total arena demand stays below 2^32, the calls return,
and if no call made the arena grow (the arena still has the buffer `NewSkipList` left),
the pairs `(key, value)` produced by `Rewind()`/`Item()`/`Next()` are those of the sorted
association-list model of the same calls: the list, sorted by key, of the distinct
inserted keys, each with the value of its last `Add`. -/
theorem iterate_refines_assocModel (cap : Nat) (calls : List ((Nat → Nat) × Entry))
    (hw : WellKeyed calls) (hfit : 113 + demand calls < 2 ^ 32) :
    ∃ l0 l, NewSkipList cap = some l0 ∧ addAll l0 calls = some l ∧
      (l.arena.cur = l0.arena.cur →
        (iterate l).map (List.map fun e => (e.Key, e.Value)) = some (assocModel calls)) ∧
      SortedKeys (assocModel calls) ∧
      ∀ k v, (k, v) ∈ assocModel calls ↔ lastValue calls k = some v := by
  obtain ⟨l0, l, rs, hnew, hall, _, hi, _, _, hkv, _⟩ := build_spec cap calls hw hfit
  obtain ⟨hs, hm⟩ := assocModel_spec calls
  refine ⟨l0, l, hnew, hall, ?_, hs, hm⟩
  intro hc
  rw [iterate_spec l rs hi.toInv0, Option.map_some', ← hkv hc, List.map_map]
  rfl

/-- Witness of `iterate_refines_assocModel`, the example of the specification: after
`(apple, red)`, `(banana, yellow)`, `(apple, green)` on a list of capacity 1000 the arena
has not grown, the iteration yields `[(apple, green), (banana, yellow)]`, which is the
model, and `Search(apple)` returns `green`. -/
theorem iterate_refines_assocModel_witness :
    (∃ l0 l, NewSkipList 1000 = some l0 ∧ addAll l0 fruitCalls = some l ∧
      (l.arena.cur = l0.arena.cur →
        (iterate l).map (List.map fun e => (e.Key, e.Value)) = some (assocModel fruitCalls)) ∧
      SortedKeys (assocModel fruitCalls) ∧
      ∀ k v, (k, v) ∈ assocModel fruitCalls ↔ lastValue fruitCalls k = some v) ∧
    (NewSkipList 1000).map (fun l => l.arena.cur) = some 0 ∧
    (build 1000 fruitCalls).map (fun l => l.arena.cur) = some 0 ∧
    (build 1000 fruitCalls).bind iterate =
      some [
        { Key := [97, 112, 112, 108, 101], Value := [103, 114, 101, 101, 110], ExpiresAt := 0 },
        { Key := [98, 97, 110, 97, 110, 97], Value := [121, 101, 108, 108, 111, 119],
          ExpiresAt := 0 }] ∧
    assocModel fruitCalls =
      [([97, 112, 112, 108, 101], [103, 114, 101, 101, 110]),
       ([98, 97, 110, 97, 110, 97], [121, 101, 108, 108, 111, 119])] ∧
    ((build 1000 fruitCalls).bind fun l => Search l [97, 112, 112, 108, 101]) =
      some (some
        { Key := [97, 112, 112, 108, 101], Value := [103, 114, 101, 101, 110], ExpiresAt := 0 }) :=
  ⟨iterate_refines_assocModel 1000 fruitCalls (by unfold WellKeyed IsBytes fruitCalls; decide)
      (by decide),
    by decide, by decide, by decide, by decide, by decide⟩

/-- C3 as stated fails for a value of 2^32 - 1 bytes added with a one-byte key to a new
list of capacity 2^33: `EncodedSize()` is a `uint32` and wraps to 0, the arena does not
grow, and the iterator yields the key with the empty value, not the value of the model. -/
theorem iterate_drops_wrapped_value :
    ∃ l0 l, NewSkipList 8589934592 = some l0 ∧
      addAll l0 [(fun _ => 0,
        { Key := [1], Value := List.replicate 4294967295 0, ExpiresAt := 0 })] = some l ∧
      l.arena.cur = l0.arena.cur ∧
      (iterate l).map (List.map fun e => (e.Key, e.Value)) = some [([1], [])] ∧
      (iterate l).map (List.map fun e => (e.Key, e.Value)) ≠
        some (assocModel [(fun _ => 0,
          { Key := [1], Value := List.replicate 4294967295 0, ExpiresAt := 0 })]) := by
  obtain ⟨l0, hnew, hi0, hn0, _, hng0⟩ := NewSkipList_spec 8589934592
  obtain ⟨_, hl0⟩ := hng0 (by decide)
  obtain ⟨l, hadd, hc, hit⟩ := Add_wrapped_value l0 hi0 hn0 hl0 (fun _ => 0) 1 (by decide)
    (List.replicate 4294967295 0) (List.length_replicate _ _) 0
  have hpairs : (iterate l).map (List.map fun e => (e.Key, e.Value)) = some [([1], [])] := by
    rw [hit]
    rfl
  refine ⟨l0, l, hnew, ?_, hc, hpairs, ?_⟩
  · simp only [addAll, hadd]
  · rw [hpairs, assocModel_single]
    intro h
    have h2 : ([] : List Nat) = List.replicate 4294967295 0 := by
      have h1 := Option.some.inj h
      have h3 := List.head_eq_of_cons_eq h1
      exact congrArg Prod.snd h3
    have h4 := congrArg List.length h2
    rw [List.length_replicate, List.length_nil] at h4
    exact absurd h4 (by decide)

/-- C4, the code at two failing inputs.  `NewSkipList(217)` does not grow the arena; the
first `Add(k, v)` grows it, links the new node through the head pointer it took before the
growth, and `Search(k)` returns nil.  With capacity 255 the first `Add(k, a)` does not
grow, the second `Add(k, b)` grows and writes the value locator through the node pointer
it took before the growth, and `Search(k)` returns the old value `a`. -/
theorem Search_after_growth :
    (NewSkipList 217).map (fun l => l.arena.cur) = some 0 ∧
    (build 217 [(fun _ => 0, { Key := [107], Value := [118], ExpiresAt := 0 })]).map
      (fun l => l.arena.cur) = some 1 ∧
    ((build 217 [(fun _ => 0, { Key := [107], Value := [118], ExpiresAt := 0 })]).bind
      fun l => Search l [107]) = some none ∧
    (build 255 [(fun _ => 0, { Key := [107], Value := [97], ExpiresAt := 0 })]).map
      (fun l => l.arena.cur) = some 0 ∧
    (build 255 [(fun _ => 0, { Key := [107], Value := [97], ExpiresAt := 0 }),
        (fun _ => 0, { Key := [107], Value := [98], ExpiresAt := 0 })]).map
      (fun l => l.arena.cur) = some 1 ∧
    ((build 255 [(fun _ => 0, { Key := [107], Value := [97], ExpiresAt := 0 }),
        (fun _ => 0, { Key := [107], Value := [98], ExpiresAt := 0 })]).bind
      fun l => Search l [107]) = some (some { Key := [107], Value := [97], ExpiresAt := 0 }) := by
  decide

/-- C5, the code at a failing input: `Add` of key `a`, value `c` and `ExpiresAt = 5`;
`Rewind()` puts the iterator on `a` and `Item()` returns `ExpiresAt = 0`, because `Add`
builds the stored `ValueStruct` from `data.Value` alone. -/
theorem Item_after_Add_ExpiresAt :
    ((build 1000 [(fun _ => 0, { Key := [97], Value := [99], ExpiresAt := 5 })]).bind
      fun l => (NewSkipListIterator l).Rewind.bind SkipListIter.Item) =
      some { Key := [97], Value := [99], ExpiresAt := 0 } := by
  decide

/-- C6 (as amended): for every list reached from `NewSkipList` by `Add` calls whose keys
have at most 65535 bytes and whose total arena demand stays below 2^32, and every key `K`
that was never passed to `Add`, `Search(K)` returns nil without failing; with no calls,
this is every key on a new list. -/
theorem Search_absent_key (cap : Nat) (calls : List ((Nat → Nat) × Entry)) (K : List Nat)
    (hw : WellKeyed calls) (hfit : 113 + demand calls < 2 ^ 32) (hk : IsBytes K)
    (hK : ∀ c ∈ calls, c.2.Key ≠ K) :
    ∃ l, build cap calls = some l ∧ Search l K = some none := by
  obtain ⟨_, l, rs, _, _, hb, hi, _, _, _, hkeys⟩ := build_spec cap calls hw hfit
  refine ⟨l, hb, ?_⟩
  rw [Search_spec l rs hi.toInv0 K hk]
  cases hloc : (locate K 8 rs).2 with
  | none => rfl
  | some r =>
    obtain ⟨hr, hrk⟩ := locate_mem K rs 8 r hloc
    obtain ⟨c, hc, hck⟩ := hkeys r hr
    exact absurd (hck.trans hrk) (hK c hc)

/-- Witness of `Search_absent_key`: the key `b` on a list that holds `a` and `c`. -/
theorem Search_absent_key_witness :
    ∃ l, build 1000 [(fun _ => 0, { Key := [97], Value := [1], ExpiresAt := 0 }),
        (fun _ => 0, { Key := [99], Value := [2], ExpiresAt := 0 })] = some l ∧
      Search l [98] = some none :=
  Search_absent_key 1000 _ [98] (by unfold WellKeyed IsBytes; decide) (by decide)
    (by unfold IsBytes; decide) (by decide)

/-- C6 as stated fails after the `Add` of a key of 65536 zero bytes (capacity 2^20): the
key size is stored in 16 bits, the node reads back with the empty key, and `Search` of the
empty key, which was never passed to `Add`, returns that node. -/
theorem Search_finds_key_never_added :
    ((build 1048576
        [(fun _ => 0, { Key := List.replicate 65536 0, Value := [1], ExpiresAt := 0 })]).bind
      fun l => Search l []) = some (some { Key := [], Value := [1], ExpiresAt := 0 }) := by
  obtain ⟨l0, l1, rs1, hnew, ha, hi, hkv, _, _⟩ := long_key_once (List.replicate 65536 0)
    (List.length_replicate _ _) (isBytes_zeros _) (calcScore_zeros _) (fun _ => 0) [1] 0
    (by decide)
  have hb : build 1048576
      [(fun _ => 0, { Key := List.replicate 65536 0, Value := [1], ExpiresAt := 0 })] =
      some l1 := by
    simp only [build, hnew, Option.some_bind, addAll, ha]
  have hnil : IsBytes [] := fun b hb => by simp at hb
  rw [hb, Option.some_bind, Search_spec l1 rs1 hi.toInv0 [] hnil]
  cases rs1 with
  | nil => simp at hkv
  | cons r rs =>
    simp only [List.map_cons, List.cons.injEq, kv, Prod.mk.injEq] at hkv
    have h0 : bytesCompare ([] : List Nat) [] ≤ 0 := by decide
    simp only [locate, hkv.1.1, h0, ↓reduceIte, Option.map_some', hkv.1.2]

/-- C11 (as amended): for every hash list of length `n` and every `bits_per_key` `b`
(a negative `b` counts as 0) for which `n * b` does not overflow the 64-bit `int` and the
32-bit divisor `uint32(nBits)` of the probes is not 0, `NewFilter` returns a byte array of
length `ceil(max(64, n * b) / 8) + 1` whose last byte is the probe count `k`,
`1 ≤ k ≤ 30`, and every bit set in the bytes before it is at a position probed for one of
the hashes. -/
theorem NewFilter_shape (plat : Nat → Nat) (keys : List Nat) (b : Int)
    (hov : (keys.length : Int) * (if b < 0 then 0 else b) < 2 ^ 63 - 7)
    (hz : filterBits32 keys.length b ≠ 0) :
    ∃ f, NewFilter plat keys b = some f ∧
      f.length = (max 64 (keys.length * b.toNat) + 7) / 8 + 1 ∧
      f.getLast? = some (probeCount plat b) ∧
      1 ≤ probeCount plat b ∧ probeCount plat b ≤ 30 ∧
      ∀ p, p < 8 * (f.length - 1) → bitSet f p →
        ∃ h ∈ keys, ∃ j, j < probeCount plat b ∧
          p = probeHash (probeDelta h) j h % filterBits32 keys.length b := by
  have hfb := filterBytes_eq keys.length b hov
  have hb : 0 ≤ filterBytes keys.length b := by rw [hfb]; exact Int.natCast_nonneg _
  have hN : (filterBytes keys.length b).toNat = (max 64 (keys.length * b.toNat) + 7) / 8 := by
    rw [hfb]; rfl
  have hr := filterBytes_ge keys.length b hb
  have hk := probeCount_range plat b
  have h32 := filterBits32_eq keys.length b hb
  have hlen0 : (List.replicate (filterBytes keys.length b + 1).toNat 0).length =
      (filterBytes keys.length b).toNat + 1 := by
    rw [List.length_replicate]; omega
  have hle : filterBits32 keys.length b ≤ 8 * (filterBytes keys.length b).toNat := by
    rw [h32]; exact Nat.mod_le _ _
  obtain ⟨f1, e1⟩ := setAll_isSome (filterBits32 keys.length b) (probeCount plat b) hz keys
    (List.replicate (filterBytes keys.length b + 1).toNat 0) (by rw [hlen0]; omega)
  have hl1 : f1.length = (filterBytes keys.length b).toNat + 1 := by
    rw [setAll_length _ _ _ _ _ e1, hlen0]
  have hlen : (f1.set (filterBytes keys.length b).toNat (probeCount plat b % 256)).length =
      (filterBytes keys.length b).toNat + 1 := by rw [List.length_set, hl1]
  refine ⟨f1.set (filterBytes keys.length b).toNat (probeCount plat b % 256), ?_, ?_, ?_,
    hk.1, hk.2, ?_⟩
  · unfold NewFilter appendFilter
    have : ¬ (filterBytes keys.length b + 1 < 0) := by omega
    simp only [this, ↓reduceIte, e1, hl1]
    simp
  · rw [hlen, hN]
  · have e : (filterBytes keys.length b).toNat = f1.length - 1 := by omega
    rw [e, getLast?_set_last _ _ (by omega), Nat.mod_eq_of_lt (by omega)]
  · intro p hp hbit
    rw [hlen, Nat.add_sub_cancel] at hp
    have hbit1 : bitSet f1 p := by
      obtain ⟨c, hc, hne⟩ := hbit
      refine ⟨c, ?_, hne⟩
      rw [List.get?_eq_getElem?, List.getElem?_set_ne (by omega),
        ← List.get?_eq_getElem?] at hc
      exact hc
    rcases setAll_only _ _ _ _ _ e1 p hbit1 with h0 | h1
    · exact absurd h0 (not_bitSet_zeros _ _)
    · exact h1

/-- Witness of `NewFilter_shape`: four hashes, `bits_per_key = 10`. -/
theorem NewFilter_shape_witness :
    ∃ f, NewFilter (fun t => t) [1, 2, 3, 1000000] 10 = some f ∧
      f.length = (max 64 ([1, 2, 3, 1000000].length * (10 : Int).toNat) + 7) / 8 + 1 ∧
      f.getLast? = some (probeCount (fun t => t) 10) ∧
      1 ≤ probeCount (fun t => t) 10 ∧ probeCount (fun t => t) 10 ≤ 30 ∧
      ∀ p, p < 8 * (f.length - 1) → bitSet f p →
        ∃ h ∈ [1, 2, 3, 1000000], ∃ j, j < probeCount (fun t => t) 10 ∧
          p = probeHash (probeDelta h) j h % filterBits32 [1, 2, 3, 1000000].length 10 :=
  NewFilter_shape (fun t => t) [1, 2, 3, 1000000] 10 (by decide) (by decide)

/-- C11 as stated fails in two ways.  For two hashes and `bits_per_key = 2^31` the bit
count is `2^32`, `uint32(nBits)` is 0 and the first probe divides by zero: no array is
returned.  For two hashes and `bits_per_key = 2^62` the product `n * b` overflows the
`int`, the bit count falls back to 64 and the array has 9 bytes, not
`ceil(2^63 / 8) + 1`. -/
theorem NewFilter_shape_fails :
    NewFilter (fun t => t) [0, 0] 2147483648 = none ∧
    (NewFilter (fun t => t) [1, 2] 4611686018427387904).map List.length = some 9 ∧
    (max 64 ([1, 2].length * (4611686018427387904 : Int).toNat) + 7) / 8 + 1 =
      1152921504606846977 := by
  refine ⟨by decide, by decide, by decide⟩

/-- The probes of `MayContain` divide by zero when the array has `2^29 + 1` bytes. -/
theorem MayContain_zero_divisor (l : List Nat) (hl : l.length = 536870912) (h : Nat) :
    MayContain (l ++ [1]) h = none := by
  have hlen : (l ++ [1]).length = 536870913 := by
    rw [List.length_append, hl]
    rfl
  have hget : (l ++ [1]).get? 536870912 = some 1 := by
    rw [List.get?_eq_getElem?, ← hl, List.getElem?_concat_length]
  have h2 : ¬ (536870913 < 2) := by decide
  have e1 : 536870913 - 1 = 536870912 := by decide
  have h30 : ¬ (30 < 1) := by decide
  have hm : 8 * 536870912 % 2 ^ 32 = 0 := by decide
  unfold MayContain
  simp only [hlen, h2, ↓reduceIte, e1, hget, h30, hm]
  rw [checkProbes]
  simp only [↓reduceIte]

/-- C12 (as amended): for every byte array `f` whose bit count `8 * (len(f) - 1)` is not a
multiple of 2^32, and every hash `h`, `MayContain` does not fail; it returns false if `f`
has fewer than 2 bytes, true if the last byte `k` is greater than 30, and otherwise true
exactly when all `k` probed bits are set. -/
theorem MayContain_spec (f : List Nat) (h : Nat)
    (hz : f.length < 2 ∨ (8 * (f.length - 1)) % 2 ^ 32 ≠ 0) :
    ∃ r, MayContain f h = some r ∧
      (f.length < 2 → r = false) ∧
      ∀ k, 2 ≤ f.length → f.getLast? = some k →
        (30 < k → r = true) ∧
        (k ≤ 30 → (r = true ↔ ∀ j, j < k →
          bitSet f (probeHash (probeDelta h) j h % ((8 * (f.length - 1)) % 2 ^ 32)))) := by
  by_cases h2 : f.length < 2
  · refine ⟨false, by simp only [MayContain, h2, ↓reduceIte], fun _ => rfl, ?_⟩
    intro k hk
    omega
  · have hz' : (8 * (f.length - 1)) % 2 ^ 32 ≠ 0 := by
      rcases hz with hz | hz
      · exact absurd hz h2
      · exact hz
    have hlt : f.length - 1 < f.length := by omega
    have hget : f.get? (f.length - 1) = some f[f.length - 1] := by
      rw [List.get?_eq_getElem?, List.getElem?_eq_getElem hlt]
    have hlast : f.getLast? = some f[f.length - 1] := by
      rw [List.getLast?_eq_getElem?, List.getElem?_eq_getElem hlt]
    by_cases h30 : 30 < f[f.length - 1]
    · refine ⟨true, by simp only [MayContain, h2, ↓reduceIte, hget, h30], fun h => absurd h h2,
        ?_⟩
      intro k _ hk
      rw [hlast] at hk
      have hk' := Option.some.inj hk
      refine ⟨fun _ => rfl, fun hle => ?_⟩
      omega
    · obtain ⟨r, hr, hiff⟩ := checkProbes_iff f ((8 * (f.length - 1)) % 2 ^ 32) (probeDelta h)
        hz' (le_trans (Nat.mod_le _ _) (by omega)) f[f.length - 1] h
      refine ⟨r, by simp only [MayContain, h2, ↓reduceIte, hget, h30, hr],
        fun h => absurd h h2, ?_⟩
      intro k _ hk
      rw [hlast] at hk
      have hk' := Option.some.inj hk
      refine ⟨fun hgt => ?_, fun _ => ?_⟩
      · omega
      · rw [← hk']
        exact hiff

/-- Witness of `MayContain_spec`: the array `[5, 1]` (8 bits, one probe) and the hash 0. -/
theorem MayContain_spec_witness :
    ∃ r, MayContain [5, 1] 0 = some r ∧
      (([5, 1] : List Nat).length < 2 → r = false) ∧
      ∀ k, 2 ≤ ([5, 1] : List Nat).length → ([5, 1] : List Nat).getLast? = some k →
        (30 < k → r = true) ∧
        (k ≤ 30 → (r = true ↔ ∀ j, j < k →
          bitSet [5, 1] (probeHash (probeDelta 0) j 0 %
            ((8 * (([5, 1] : List Nat).length - 1)) % 2 ^ 32)))) :=
  MayContain_spec [5, 1] 0 (Or.inr (by decide))

/-- C12 as stated fails for an array of `2^29 + 1` bytes whose last byte is 1:
`nBits = uint32(8 * 2^29)` is 0 and the probe `h % nBits` divides by zero. -/
theorem MayContain_fails :
    MayContain (List.replicate 536870912 0 ++ [1]) 0 = none :=
  MayContain_zero_divisor (List.replicate 536870912 0) (List.length_replicate _ _) 0

/-- The sign of `cmpKey` is the sign of `bytes.Compare`. -/
theorem cmpKey_sign (a b : List Nat) (ha : IsBytes a) (hb : IsBytes b) :
    (cmpKey a b < 0 ↔ bytesCompare a b < 0) ∧ (cmpKey a b = 0 ↔ a = b) ∧
    (0 < cmpKey a b ↔ 0 < bytesCompare a b) := by
  obtain ⟨h1, h2⟩ := cmpKey_le_zero a b ha hb
  have h3 := bytesCompare_eq_zero a b
  refine ⟨?_, h2, ?_⟩
  · constructor
    · intro h
      have := h1.mp (by omega)
      have hne : ¬ (a = b) := fun e => by have := h2.mpr e; omega
      have := h3.not.mpr hne
      omega
    · intro h
      have := h1.mpr (by omega)
      have hne : ¬ (a = b) := fun e => by have := h3.mpr e; omega
      have := h2.not.mpr hne
      omega
  · constructor
    · intro h
      have : ¬ (bytesCompare a b ≤ 0) := fun hc => by have := h1.mpr hc; omega
      omega
    · intro h
      have : ¬ (cmpKey a b ≤ 0) := fun hc => by have := h1.mp hc; omega
      omega

/-- `compare` on a node whose score, key offset and key size fields describe the key `k`
lying in the buffer. -/
theorem compare_fields (s : Arena) (m ko : Nat) (key k : List Nat)
    (hsc : s.buf (m + scoreField) = calcScore k) (hko : s.buf (m + keyOffsetField) = ko)
    (hks : s.buf (m + keySizeField) = k.length)
    (hbytes : ∀ j, j < k.length → s.buf (ko + j) = k.getD j 0)
    (hfit : ko + k.length ≤ s.len) (h32 : ko + k.length < 2 ^ 32) :
    compare s (calcScore key) key ⟨s.cur, m⟩ = some (cmpKey key k) := by
  have hk : nodeKey s ⟨s.cur, m⟩ = some k := by
    have e1 : s.load ⟨s.cur, m⟩ keyOffsetField = ko := hko
    have e2 : s.load ⟨s.cur, m⟩ keySizeField = k.length := hks
    unfold nodeKey
    rw [e1, e2]
    unfold getKey
    have hm : (ko + k.length) % 2 ^ 32 = ko + k.length := Nat.mod_eq_of_lt h32
    have hc : ko ≤ ko + k.length ∧ ko + k.length ≤ s.len := ⟨by omega, hfit⟩
    simp only [hm, hc, and_self, ↓reduceIte, Nat.add_sub_cancel_left]
    rw [readBytes_eq s ko k hbytes]
  have e : s.load ⟨s.cur, m⟩ scoreField = calcScore k := hsc
  unfold compare cmpKey
  rw [e, hk]
  split
  · rfl
  · split <;> rfl

/-- C13: for a node made by `newNode` for the key `b` (at most 65535 bytes), whose score
is `calcScore(b)`, and every key `a`, `compare(calcScore(a), a, node)` returns a number
that is negative, zero or positive exactly as `bytes.Compare(a, b)`, the full
lexicographic comparison of the bytes, is; it is 0 if and only if `a = b`, whatever the
first 8 bytes and the rounded scores of the keys are. -/
theorem compare_sign (s0 : Arena) (a b : List Nat) (v : ValueStruct) (h : Nat)
    (ha : IsBytes a) (hb : IsBytes b) (hlen : b.length ≤ 65535)
    (h1 : 1 ≤ h) (h20 : h ≤ 20) (hE : v.ExpiresAt < 2 ^ 64) (hn1 : 1 ≤ s0.n)
    (hnw : s0.n + (31 + 4 * h) + b.length + (v.Value.length + sizeVarint v.ExpiresAt) < 2 ^ 32)
    (hroom : s0.n + 104 ≤ s0.len ∨ s0.n + (31 + 4 * h) + 104 ≤ 2 ^ 30) :
    ∃ s nd c, newNode s0 b v (h : Int) = some (s, nd) ∧
      compare s (calcScore a) a nd = some c ∧
      (c < 0 ↔ bytesCompare a b < 0) ∧ (c = 0 ↔ bytesCompare a b = 0) ∧
      (0 < c ↔ 0 < bytesCompare a b) ∧ (c = 0 ↔ a = b) ∧
      (bytesCompare a b < 0 ↔ List.Lex (fun x y => x < y) a b) := by
  obtain ⟨s, hnew, hn, hroom', _, _, _, _, f1, _, f3, f4, _, fk, _, _, _⟩ :=
    newNode_spec s0 b v h h1 h20 hE hn1 hnw hroom
  have hcmp := compare_fields s ((s0.n + 7) / 8 * 8) (s0.n + (31 + 4 * h)) a b f1 f3
    (by rw [f4]; exact Nat.mod_eq_of_lt (by omega)) fk (by omega) (by omega)
  obtain ⟨c1, c2, c3⟩ := cmpKey_sign a b ha hb
  exact ⟨s, _, cmpKey a b, hnew, hcmp, c1, by rw [c2, bytesCompare_eq_zero], c3, c2,
    bytesCompare_neg_iff_lex a b⟩

/-- Witness of `compare_sign`: the keys `aaaaaaaab` and `aaaaaaaac`, which share their
first 8 bytes, in an arena of 1000 bytes. -/
theorem compare_sign_witness :
    ∃ s nd c, newNode (newArena 1000) [97, 97, 97, 97, 97, 97, 97, 97, 99]
        { Value := [1], ExpiresAt := 0 } ((1 : Nat) : Int) = some (s, nd) ∧
      compare s (calcScore [97, 97, 97, 97, 97, 97, 97, 97, 98])
        [97, 97, 97, 97, 97, 97, 97, 97, 98] nd = some c ∧
      (c < 0 ↔ bytesCompare [97, 97, 97, 97, 97, 97, 97, 97, 98]
        [97, 97, 97, 97, 97, 97, 97, 97, 99] < 0) ∧
      (c = 0 ↔ bytesCompare [97, 97, 97, 97, 97, 97, 97, 97, 98]
        [97, 97, 97, 97, 97, 97, 97, 97, 99] = 0) ∧
      (0 < c ↔ 0 < bytesCompare [97, 97, 97, 97, 97, 97, 97, 97, 98]
        [97, 97, 97, 97, 97, 97, 97, 97, 99]) ∧
      (c = 0 ↔ ([97, 97, 97, 97, 97, 97, 97, 97, 98] : List Nat) =
        [97, 97, 97, 97, 97, 97, 97, 97, 99]) ∧
      (bytesCompare [97, 97, 97, 97, 97, 97, 97, 97, 98]
        [97, 97, 97, 97, 97, 97, 97, 97, 99] < 0 ↔
        List.Lex (fun x y => x < y) ([97, 97, 97, 97, 97, 97, 97, 97, 98] : List Nat)
          [97, 97, 97, 97, 97, 97, 97, 97, 99]) :=
  compare_sign (newArena 1000) [97, 97, 97, 97, 97, 97, 97, 97, 98]
    [97, 97, 97, 97, 97, 97, 97, 97, 99] { Value := [1], ExpiresAt := 0 } 1
    (by unfold IsBytes; decide) (by unfold IsBytes; decide) (by decide) (by decide) (by decide)
    (by decide) (by decide) (by decide) (by decide)

/-- C14, the code at the failing input: `NewSkipList` leaves `maxLevel` at its zero value,
so `randLevel` returns 1 at its first test `maxLevel <= 1` for every outcome of the draws,
also when every draw says "extend" (an odd number); no height above 1 is ever chosen.
With `maxLevel = 20` the same draws would give the height 20. -/
theorem randLevel_after_NewSkipList (cap : Nat) (draws : Nat → Nat) :
    (∃ l, NewSkipList cap = some l ∧ l.maxLevel = 0 ∧ randLevel l.maxLevel draws = 1) ∧
    (NewSkipList 1000).map (fun l => randLevel l.maxLevel fun _ => 1) = some 1 ∧
    randLevel 20 (fun _ => 1) = 20 := by
  obtain ⟨l, hnew, hi, _⟩ := NewSkipList_spec cap
  refine ⟨⟨l, hnew, hi.maxLevel, by rw [hi.maxLevel, randLevel_zero]⟩, by decide, by decide⟩

theorem run_step (s : Arena) (c : ArenaCall) (r : Arena × Nat)
    (hh : ∀ h, c = ArenaCall.putNode h → 1 ≤ h ∧ h ≤ 20)
    (hn : s.n + c.size < 2 ^ 32) (hr : c.run s = some r) :
    r.1.n = s.n + c.size ∧ s.n ≤ r.2 := by
  cases c with
  | allocate sz =>
    simp only [ArenaCall.run, Option.some.injEq] at hr
    simp only [ArenaCall.size] at hn ⊢
    rw [← hr]
    exact ⟨bump_n s sz hn, by rw [allocate_snd s sz hn]⟩
  | putNode height =>
    obtain ⟨h1, h20⟩ := hh height rfl
    obtain ⟨h, rfl⟩ : ∃ h : Nat, height = h := ⟨height.toNat, by omega⟩
    have hsz : (ArenaCall.putNode (h : Int)).size = 31 + 4 * h := by
      simp only [ArenaCall.size, MaxNodeSize, defaultMaxLevel, offsetSize, nodeAlign]
      omega
    rw [hsz] at hn ⊢
    simp only [ArenaCall.run, Option.some.injEq] at hr
    rw [putNode_eq s h (by omega) (by omega) hn] at hr
    rw [← hr]
    exact ⟨bump_n s _ hn, by show s.n ≤ (s.n + 7) / 8 * 8; omega⟩
  | putKey key =>
    simp only [ArenaCall.size] at hn ⊢
    simp only [ArenaCall.run, putKey] at hr
    split at hr
    · split at hr
      · rw [← Option.some.inj hr]
        exact ⟨bump_n s _ hn, by show s.n ≤ (allocate s _).2; rw [allocate_snd s _ hn]⟩
      · exact absurd hr (by simp)
    · exact absurd hr (by simp)
  | putValue v =>
    simp only [ArenaCall.size] at hn ⊢
    simp only [ArenaCall.run, putValue] at hr
    split at hr
    · split at hr
      · exact absurd hr (by simp)
      · rw [← Option.some.inj hr]
        exact ⟨bump_n s _ hn, by show s.n ≤ (allocate s _).2; rw [allocate_snd s _ hn]⟩
    · exact absurd hr (by simp)

theorem traceCalls_spec : ∀ (calls : List ArenaCall) (s : Arena), 1 ≤ s.n →
    (∀ h, ArenaCall.putNode h ∈ calls → 1 ≤ h ∧ h ≤ 20) →
    s.n + (calls.map ArenaCall.size).sum < 2 ^ 32 →
    ∀ t ∈ traceCalls s calls, 1 ≤ t.1 ∧ t.1 ≤ t.2.2 ∧ t.2.1 ≠ 0 := by
  intro calls
  induction calls with
  | nil => intro s _ _ _ t ht; simp [traceCalls] at ht
  | cons c cs ih =>
    intro s h1 hh hfit t ht
    simp only [List.map_cons, List.sum_cons] at hfit
    simp only [traceCalls] at ht
    split at ht
    · simp at ht
    · rename_i r hr
      obtain ⟨hn', hoff⟩ := run_step s c r
        (fun h e => hh h (by rw [e]; exact List.mem_cons_self _ _)) (by omega) hr
      rcases List.mem_cons.mp ht with e | ht
      · rw [e]
        exact ⟨h1, by show s.n ≤ r.1.n; omega, by show r.2 ≠ 0; omega⟩
      · exact ih r.1 (by omega) (fun h hm => hh h (List.mem_cons_of_mem _ hm)) (by omega) t ht

/-- C15 (as amended): for every arena whose buffer is shorter than 2^32 bytes and every
`allocate(size)` that does not wrap the 32-bit cursor: the arena grows exactly when
`len(buf)` minus the advanced cursor is smaller than `MaxNodeSize`; the new buffer then
has the length `old + max(old, 2^30, size)` and starts with the bytes of the old one;
without growth the buffer is unchanged.  In both cases the call returns the cursor before
the advance, and the cursor has advanced by `size`. -/
theorem allocate_spec (s : Arena) (sz : Nat) (hn : s.n + sz < 2 ^ 32) (hl : s.len < 2 ^ 32) :
    ((allocate s sz).1.cur ≠ s.cur ↔ s.len < s.n + sz + MaxNodeSize) ∧
    (s.len < s.n + sz + MaxNodeSize →
      (allocate s sz).1.cur = s.cur + 1 ∧
      (allocate s sz).1.len = s.len + max s.len (max (2 ^ 30) sz) ∧
      ∀ a, a < s.len → (allocate s sz).1.buf a = s.buf a) ∧
    (¬ (s.len < s.n + sz + MaxNodeSize) →
      (allocate s sz).1.cur = s.cur ∧ (allocate s sz).1.len = s.len ∧
      ∀ a, (allocate s sz).1.buf a = s.buf a) ∧
    (allocate s sz).2 = s.n ∧ (allocate s sz).1.n = s.n + sz := by
  have hm : (s.n + sz) % 2 ^ 32 = s.n + sz := Nat.mod_eq_of_lt hn
  have hlm : s.len % 2 ^ 32 = s.len := Nat.mod_eq_of_lt hl
  refine ⟨?_, ?_, ?_, allocate_snd s sz hn, bump_n s sz hn⟩
  · unfold allocate
    dsimp only
    rw [hm]
    split
    · simp only [ne_eq, Nat.succ_ne_self, not_false_eq_true, true_iff]
      assumption
    · simp only [ne_eq, not_true_eq_false, false_iff]
      assumption
  · intro hg
    unfold allocate Arena.buf
    dsimp only
    rw [hm, if_pos hg, hlm]
    refine ⟨rfl, ?_, ?_⟩
    · dsimp only
      congr 1
      split <;> split <;> omega
    · intro a ha
      simp only [↓reduceIte, ha]
  · intro hg
    unfold allocate Arena.buf
    dsimp only
    rw [hm, if_neg hg]
    exact ⟨rfl, rfl, fun _ => rfl⟩

/-- Witness of `allocate_spec`: `allocate(10)` on a new arena of 50 bytes, which grows. -/
theorem allocate_spec_witness :
    ((allocate (newArena 50) 10).1.cur ≠ (newArena 50).cur ↔
      (newArena 50).len < (newArena 50).n + 10 + MaxNodeSize) ∧
    ((newArena 50).len < (newArena 50).n + 10 + MaxNodeSize →
      (allocate (newArena 50) 10).1.cur = (newArena 50).cur + 1 ∧
      (allocate (newArena 50) 10).1.len =
        (newArena 50).len + max (newArena 50).len (max (2 ^ 30) 10) ∧
      ∀ a, a < (newArena 50).len →
        (allocate (newArena 50) 10).1.buf a = (newArena 50).buf a) ∧
    (¬ ((newArena 50).len < (newArena 50).n + 10 + MaxNodeSize) →
      (allocate (newArena 50) 10).1.cur = (newArena 50).cur ∧
      (allocate (newArena 50) 10).1.len = (newArena 50).len ∧
      ∀ a, (allocate (newArena 50) 10).1.buf a = (newArena 50).buf a) ∧
    (allocate (newArena 50) 10).2 = (newArena 50).n ∧
    (allocate (newArena 50) 10).1.n = (newArena 50).n + 10 :=
  allocate_spec (newArena 50) 10 (by decide) (by decide)

/-- C15 as stated fails where 32 bits do not hold the numbers: `allocate(2^32 - 1)` on a
new arena wraps the cursor from 1 to 0, so it has not advanced by the size; and on a
buffer of 2^32 bytes `growBy := uint32(len(buf))` is 0, so `allocate(4294967200)` grows
the buffer by the size 4294967200, not by `max(old, 2^30, size) = 2^32`. -/
theorem allocate_spec_fails :
    (allocate (newArena 1000) 4294967295).1.n = 0 ∧
    (newArena 1000).n + 4294967295 = 4294967296 ∧
    (allocate (newArena 4294967296) 4294967200).1.len = 4294967296 + 4294967200 ∧
    (newArena 4294967296).len + max (newArena 4294967296).len (max (2 ^ 30) 4294967200) =
      4294967296 + 4294967296 := by
  refine ⟨by decide, by decide, by decide, by decide⟩

/-- C16 (as amended): for every sequence of `allocate`/`putNode`/`putKey`/`putValue` calls
on a new arena, with node heights in [1, 20], whose sizes do not carry the 32-bit cursor
to 2^32: before every call the cursor is at least 1, after the call it is not smaller than
before, and the call does not return the offset 0. -/
theorem cursor_never_decreases (cap : Nat) (calls : List ArenaCall)
    (hh : ∀ h, ArenaCall.putNode h ∈ calls → 1 ≤ h ∧ h ≤ 20)
    (hfit : 1 + (calls.map ArenaCall.size).sum < 2 ^ 32) :
    ∀ t ∈ traceCalls (newArena cap) calls, 1 ≤ t.1 ∧ t.1 ≤ t.2.2 ∧ t.2.1 ≠ 0 :=
  traceCalls_spec calls (newArena cap) (le_refl 1) hh hfit

/-- Witness of `cursor_never_decreases`: `putNode(1)`, `putKey(ab)`, `putValue` and
`allocate(5)` on a new arena of 64 bytes; all four calls return. -/
theorem cursor_never_decreases_witness :
    (∀ t ∈ traceCalls (newArena 64)
        [ArenaCall.putNode 1, ArenaCall.putKey [97, 98],
          ArenaCall.putValue { Value := [1, 2], ExpiresAt := 0 }, ArenaCall.allocate 5],
      1 ≤ t.1 ∧ t.1 ≤ t.2.2 ∧ t.2.1 ≠ 0) ∧
    traceCalls (newArena 64)
        [ArenaCall.putNode 1, ArenaCall.putKey [97, 98],
          ArenaCall.putValue { Value := [1, 2], ExpiresAt := 0 }, ArenaCall.allocate 5] =
      [(1, 8, 36), (36, 36, 38), (38, 38, 41), (41, 41, 46)] :=
  ⟨cursor_never_decreases 64 _ (by
      intro h hm
      simp only [List.mem_cons, ArenaCall.putNode.injEq, reduceCtorEq, List.mem_singleton,
        List.not_mem_nil, or_false] at hm
      omega) (by decide), by decide⟩

/-- C16 as stated fails when the cursor wraps: `allocate(2^32 - 1)` on a new arena leaves
the cursor at 0, below its value 1 before the call, and the next `allocate(5)` returns the
offset 0. -/
theorem cursor_wraps_to_zero :
    traceCalls (newArena 1000) [ArenaCall.allocate 4294967295, ArenaCall.allocate 5] =
      [(1, 1, 0), (0, 0, 5)] := by
  decide

/-- C17 (as amended): for every height `h` in [1, 20] and every arena in which the
`MaxNodeSize - 4*(20 - h) + 7` bytes that `putNode(h)` takes with `allocate` do not wrap
the 32-bit cursor, the offset `m` it returns is a multiple of 8 and the bytes
`[m, m + MaxNodeSize - 4*(20 - h))` of the node lie inside the region
`[n, n + MaxNodeSize - 4*(20 - h) + 7)` the call reserved, `n` being the cursor before. -/
theorem putNode_spec (s : Arena) (h : Nat) (h1 : 1 ≤ h) (h20 : h ≤ 20)
    (hn : s.n + (MaxNodeSize - 4 * (20 - h) + 7) < 2 ^ 32) :
    (putNode s (h : Int)).2 % 8 = 0 ∧
    s.n ≤ (putNode s (h : Int)).2 ∧
    (putNode s (h : Int)).2 + (MaxNodeSize - 4 * (20 - h)) ≤
      s.n + (MaxNodeSize - 4 * (20 - h) + 7) ∧
    (putNode s (h : Int)).1 = (allocate s (MaxNodeSize - 4 * (20 - h) + 7)).1 ∧
    (allocate s (MaxNodeSize - 4 * (20 - h) + 7)).2 = s.n ∧
    (putNode s (h : Int)).1.n = s.n + (MaxNodeSize - 4 * (20 - h) + 7) := by
  have e : MaxNodeSize - 4 * (20 - h) + 7 = 31 + 4 * h := by
    simp only [MaxNodeSize]; omega
  have e2 : MaxNodeSize - 4 * (20 - h) = 24 + 4 * h := by
    simp only [MaxNodeSize]; omega
  rw [e] at hn ⊢
  rw [e2, putNode_eq s h h1 h20 hn]
  refine ⟨by show (s.n + 7) / 8 * 8 % 8 = 0; omega, by show s.n ≤ (s.n + 7) / 8 * 8; omega,
    by show (s.n + 7) / 8 * 8 + (24 + 4 * h) ≤ _; omega, rfl, allocate_snd s _ hn,
    bump_n s _ hn⟩

/-- Witness of `putNode_spec`: `putNode(3)` on a new arena of 64 bytes. -/
theorem putNode_spec_witness :
    (putNode (newArena 64) ((3 : Nat) : Int)).2 % 8 = 0 ∧
    (newArena 64).n ≤ (putNode (newArena 64) ((3 : Nat) : Int)).2 ∧
    (putNode (newArena 64) ((3 : Nat) : Int)).2 + (MaxNodeSize - 4 * (20 - 3)) ≤
      (newArena 64).n + (MaxNodeSize - 4 * (20 - 3) + 7) ∧
    (putNode (newArena 64) ((3 : Nat) : Int)).1 =
      (allocate (newArena 64) (MaxNodeSize - 4 * (20 - 3) + 7)).1 ∧
    (allocate (newArena 64) (MaxNodeSize - 4 * (20 - 3) + 7)).2 = (newArena 64).n ∧
    (putNode (newArena 64) ((3 : Nat) : Int)).1.n =
      (newArena 64).n + (MaxNodeSize - 4 * (20 - 3) + 7) :=
  putNode_spec (newArena 64) 3 (by decide) (by decide) (by decide)

/-- C17 as stated fails when the cursor is within 35 bytes of 2^32: from the cursor
`2^32 - 4`, `putNode(1)` reserves the 35 bytes from `2^32 - 4` on, the cursor wraps to 31,
and the aligned offset `(n + 7) & ^7` wraps to 0, so the node bytes `[0, 28)` are not in
the reserved region. -/
theorem putNode_wraps :
    (putNode { n := 4294967292, len := 8589934592, cur := 0, heap := fun _ _ => 0 } 1).2 = 0 ∧
    (allocate { n := 4294967292, len := 8589934592, cur := 0, heap := fun _ _ => 0 }
      (MaxNodeSize - 4 * (20 - 1) + 7)).2 = 4294967292 ∧
    (putNode { n := 4294967292, len := 8589934592, cur := 0, heap := fun _ _ => 0 } 1).1.n =
      31 := by
  refine ⟨by decide, by decide, by decide⟩

theorem putKey_past_end (key : List Nat) (hk : key.length = 1073741825) :
    putKey (newArena 0) key = none := by
  have h1 : (allocate (newArena 0) (key.length % 2 ^ 32)).2 = 1 := by rw [hk]; decide
  have h2 : (allocate (newArena 0) (key.length % 2 ^ 32)).1.len = 1073741825 := by
    rw [hk]; decide
  unfold putKey
  dsimp only
  rw [h1, h2, hk, if_neg (by decide)]

/-- C18 as stated fails for `newArena(0)` followed by `allocate(2^30 + 1)`: the arena
grows by `max(0, 2^30, size) = size` bytes, the amount the growth policy names, so the
buffer has `2^30 + 1` bytes while the cursor is `2^30 + 2`; the reserved region
`[1, 2^30 + 2)` does not lie inside the buffer, no byte is left after the cursor, and
`putKey` of a key of that size panics at its slice expression. -/
theorem allocate_grows_too_little :
    (allocate (newArena 0) 1073741825).2 = 1 ∧
    (allocate (newArena 0) 1073741825).1.n = 1073741826 ∧
    (allocate (newArena 0) 1073741825).1.len = 1073741825 ∧
    putKey (newArena 0) (List.replicate 1073741825 0) = none :=
  ⟨by decide, by decide, by decide,
    putKey_past_end (List.replicate 1073741825 0) (List.length_replicate _ _)⟩

theorem allocate_room (s : Arena) (sz : Nat) (h : s.n + sz < 2 ^ 32)
    (hroom : s.n + 104 ≤ s.len ∨ s.n + sz + 104 ≤ s.len + 2 ^ 30) :
    (allocate s sz).1.n + 104 ≤ (allocate s sz).1.len := by
  simp only [allocate, MaxNodeSize]
  have hm : (s.n + sz) % 2 ^ 32 = s.n + sz := Nat.mod_eq_of_lt h
  split
  · simp only [hm]
    split <;> split <;> omega
  · simp only [hm]; omega

theorem allocateAll_room : ∀ (sizes : List Nat) (s : Arena), s.n + sizes.sum < 2 ^ 32 →
    s.n + 104 ≤ s.len →
    ∀ x ∈ allocateAll s sizes,
      x.1 + x.2.1 ≤ x.2.2.len ∧ x.2.2.n = x.1 + x.2.1 ∧ x.2.2.n + MaxNodeSize ≤ x.2.2.len := by
  intro sizes
  induction sizes with
  | nil => intro s _ _ x hx; simp [allocateAll] at hx
  | cons sz szs ih =>
    intro s hfit hroom x hx
    simp only [List.sum_cons] at hfit
    have hn : (allocate s sz).1.n = s.n + sz := bump_n s sz (by omega)
    have ho : (allocate s sz).2 = s.n := allocate_snd s sz (by omega)
    have hr := allocate_room s sz (by omega) (Or.inl hroom)
    simp only [allocateAll, List.mem_cons] at hx
    rcases hx with rfl | hx
    · simp only [MaxNodeSize]
      omega
    · exact ih (allocate s sz).1 (by omega) hr x hx

/-- C18 (as amended): for every initial capacity `n >= 0` and every sequence of `allocate`
calls starting from `newArena(n)` with the cursor below 2^32, in which `n >= 105` or the
first call asks for at most `2^30 + n - 105` bytes (as `allocate(111)`, the first call of
`NewSkipList`, does), after each call the reserved region `[offset, offset + size)` lies
inside the current buffer, it ends at the cursor, and at least `MaxNodeSize` bytes remain
between the cursor and the end of the buffer. -/
theorem allocate_leaves_room (cap : Nat) (sizes : List Nat)
    (hfit : 1 + sizes.sum < 2 ^ 32)
    (hfirst : 105 ≤ cap ∨ ∀ sz ∈ sizes.head?, sz + 105 ≤ cap + 2 ^ 30) :
    ∀ x ∈ allocateAll (newArena cap) sizes,
      x.1 + x.2.1 ≤ x.2.2.len ∧ x.2.2.n = x.1 + x.2.1 ∧ x.2.2.n + MaxNodeSize ≤ x.2.2.len := by
  cases sizes with
  | nil => intro x hx; simp [allocateAll] at hx
  | cons sz szs =>
    intro x hx
    simp only [List.sum_cons] at hfit
    have h1 : (newArena cap).n = 1 := rfl
    have hl : (newArena cap).len = cap := rfl
    have hn : (allocate (newArena cap) sz).1.n = (newArena cap).n + sz :=
      bump_n _ sz (by rw [h1]; omega)
    have ho : (allocate (newArena cap) sz).2 = (newArena cap).n :=
      allocate_snd _ sz (by rw [h1]; omega)
    have hr := allocate_room (newArena cap) sz (by rw [h1]; omega) (by
      rw [h1, hl]
      rcases hfirst with h | h
      · left; omega
      · right
        have := h sz (by simp)
        omega)
    simp only [allocateAll, List.mem_cons] at hx
    rcases hx with rfl | hx
    · simp only [MaxNodeSize]
      omega
    · exact allocateAll_room szs _ (by rw [hn, h1]; omega) hr x hx

/-- Witness of `allocate_leaves_room`: the calls `allocate(111)`, `allocate(5)`,
`allocate(2^30 + 1)` on a new arena of capacity 0; the first call makes the arena grow to
2^30 bytes, the third to 2^31 + 1 bytes. -/
theorem allocate_leaves_room_witness :
    (∀ x ∈ allocateAll (newArena 0) [111, 5, 1073741825],
      x.1 + x.2.1 ≤ x.2.2.len ∧ x.2.2.n = x.1 + x.2.1 ∧ x.2.2.n + MaxNodeSize ≤ x.2.2.len) ∧
    (allocateAll (newArena 0) [111, 5, 1073741825]).map
        (fun x => (x.1, x.2.1, x.2.2.n, x.2.2.len)) =
      [(1, 111, 112, 1073741824), (112, 5, 117, 1073741824),
        (117, 1073741825, 1073741942, 2147483649)] :=
  ⟨allocate_leaves_room 0 [111, 5, 1073741825] (by decide) (Or.inr (by decide)), by decide⟩

/-- C19 (as amended): in every list reached from `NewSkipList` by `Add` calls, with keys
of any length, as long as the total arena demand of the calls, one more `Add` included,
stays below 2^32 (the 32-bit arena cursor does not wrap), every node's height is in
[1, 20] (`nodeHeights`: the head and the nodes behind it), and a further `Add`, a `Search`
and a pass of the iterator return and only read or write a slot `levels[i]` of a node with
`i` below that node's height, the first slot `Search` reads on the head, index
`currHeight`, included: run with every such access tested (`AddChecked`, `SearchChecked`,
`iterateChecked`), they return the same results. -/
theorem levels_within_height (cap : Nat) (calls : List ((Nat → Nat) × Entry)) (d : Nat → Nat)
    (e : Entry) (key : List Nat)
    (hfit : 113 + demand calls + (35 + e.Key.length + (e.Value.length + 1)) < 2 ^ 32) :
    ∃ l hs l' res es, build cap calls = some l ∧
      nodeHeights l = some hs ∧ (∀ h ∈ hs, 1 ≤ h ∧ h ≤ defaultMaxLevel) ∧
      Add l d e = some l' ∧ AddChecked l d e = some l' ∧
      Search l key = some res ∧ SearchChecked l key = some res ∧
      iterate l = some es ∧ iterateChecked l = some es := by
  obtain ⟨l, rs, hb, hs, hn⟩ := build_shape cap calls (by omega)
  have hfit' : l.arena.n + 35 + e.Key.length + (e.Value.length + 1) < 2 ^ 32 := by omega
  obtain ⟨l', _, hadd, _⟩ := Add_shape l rs hs d e hfit'
  refine ⟨l, _, l', _, _, hb, nodeHeights_shape l rs hs, ?_, hadd, ?_,
    Search_shape l rs hs key, SearchChecked_shape l rs hs key,
    iterate_shape l rs hs, iterateChecked_shape l rs hs⟩
  · intro h hh
    rcases List.mem_cons.mp hh with e | hh
    · rw [e]
      decide
    · obtain ⟨_, _, e⟩ := List.mem_map.mp hh
      rw [← e]
      decide
  · rw [AddChecked_eq_shape l rs hs d e hfit']
    exact hadd

theorem demand_long_keys (K1 K2 : List Nat) (h1 : K1.length = 65537)
    (h2 : K2.length = 65536) :
    113 + demand [(fun _ => 0, { Key := [97], Value := [1], ExpiresAt := 0 }),
        (fun _ => 0, { Key := K1, Value := [2], ExpiresAt := 0 })] +
      (35 + (Entry.mk K2 [3] 0).Key.length + ((Entry.mk K2 [3] 0).Value.length + 1)) <
      2 ^ 32 := by
  simp only [demand, h1, h2, List.length_cons, List.length_nil]
  decide

/-- Witness of `levels_within_height`, with keys longer than 65535 bytes: the list of
capacity 2^20 that holds `(a, 1)` and a key of 65537 bytes, the further `Add` of a key of
65536 bytes, and `Search(c)`.  On the list of capacity 1000 that holds `(a, 1)` and
`(c, 2)` the heights are 20 for the head and 1 for the two nodes, and the tested runs
return what the plain runs return. -/
theorem levels_within_height_witness :
    (∃ l hs l' res es,
      build 1048576 [(fun _ => 0, { Key := [97], Value := [1], ExpiresAt := 0 }),
        (fun _ => 0, { Key := List.replicate 65537 7, Value := [2], ExpiresAt := 0 })] =
        some l ∧
      nodeHeights l = some hs ∧ (∀ h ∈ hs, 1 ≤ h ∧ h ≤ defaultMaxLevel) ∧
      Add l (fun _ => 0) { Key := List.replicate 65536 0, Value := [3], ExpiresAt := 0 } =
        some l' ∧
      AddChecked l (fun _ => 0)
        { Key := List.replicate 65536 0, Value := [3], ExpiresAt := 0 } = some l' ∧
      Search l [99] = some res ∧ SearchChecked l [99] = some res ∧
      iterate l = some es ∧ iterateChecked l = some es) ∧
    ((build 1000 [(fun _ => 0, { Key := [97], Value := [1], ExpiresAt := 0 }),
        (fun _ => 0, { Key := [99], Value := [2], ExpiresAt := 0 })]).bind nodeHeights) =
      some [20, 1, 1] ∧
    ((build 1000 [(fun _ => 0, { Key := [97], Value := [1], ExpiresAt := 0 }),
        (fun _ => 0, { Key := [99], Value := [2], ExpiresAt := 0 })]).bind fun l =>
      SearchChecked l [99]) = some (some { Key := [99], Value := [2], ExpiresAt := 0 }) ∧
    ((build 1000 [(fun _ => 0, { Key := [97], Value := [1], ExpiresAt := 0 }),
        (fun _ => 0, { Key := [99], Value := [2], ExpiresAt := 0 })]).bind fun l =>
      (AddChecked l (fun _ => 0) { Key := [98], Value := [3], ExpiresAt := 0 }).bind
        iterateChecked) =
      some [{ Key := [97], Value := [1], ExpiresAt := 0 },
        { Key := [98], Value := [3], ExpiresAt := 0 },
        { Key := [99], Value := [2], ExpiresAt := 0 }] :=
  ⟨levels_within_height 1048576 _ (fun _ => 0) _ [99]
      (demand_long_keys _ _ (List.length_replicate _ _) (List.length_replicate _ _)),
    by decide, by decide, by decide⟩

/-- C19 as stated fails when the 32-bit arena cursor wraps.  On a new list of capacity
2^33, `Add` of the key `[1]` with a value of 4294967138 bytes leaves the cursor at
2^32 - 8, and `Add` of the key `[2]` with the value `[0, 0, 0, 0]` wraps it: the encoded
value is written at the offsets 28 to 32, over the height of the head node (offset 30),
which becomes 0.  In the list reached, the head is a node of height 0, and the first read
of `Search`, `levels[1]` of the head, is not below that height: `Search` returns nil, the
tested `Search` stops at the read. -/
theorem head_height_lost_at_cursor_wrap :
    ∃ l, build 8589934592
        [(fun _ => 0, { Key := [1], Value := List.replicate 4294967138 0, ExpiresAt := 0 }),
          (fun _ => 0, { Key := [2], Value := [0, 0, 0, 0], ExpiresAt := 0 })] = some l ∧
      nodeHeights l = some [0] ∧ Search l [1] = some none ∧ SearchChecked l [1] = none := by
  obtain ⟨l, hb, h8, hc, hn, hlen, b30, b32, b36⟩ :=
    wrap_run_state (List.replicate 4294967138 0) (List.length_replicate _ _)
  have hn0 : l.arena.n ≠ 0 := by rw [hn]; decide
  have hl8 : 8 < l.arena.len := by rw [hlen]; decide
  exact ⟨l, hb, nodeHeights_head_zero l h8 hn0 hl8 b30 b32,
    Search_empty l [1] h8 hc hn0 hl8 b32 b36, SearchChecked_head_zero l [1] h8 hc hn0 hl8 b30⟩

/-- C20 (as amended): for every list reached from `NewSkipList` by `Add` calls whose keys
have at most 65535 bytes, every entry `(K, V)` with a key of at most 65535 bytes such that
the total arena demand of all the calls, this one included, stays below 2^32, and every
key `K'` different from `K`: `Add(K, V)` and `Search(K')` before it return, and if the
`Add` did not make the arena grow, `Search(K')` returns the same result (same
found/not-found outcome and same value bytes) after the `Add` as before it. -/
theorem Add_frames_Search (cap : Nat) (calls : List ((Nat → Nat) × Entry)) (d : Nat → Nat)
    (K V : List Nat) (E : Nat) (K' : List Nat) (hw : WellKeyed calls) (hk : IsBytes K)
    (hlen : K.length ≤ 65535) (hk' : IsBytes K') (hne : K' ≠ K)
    (hfit : 113 + demand calls + (35 + K.length + (V.length + 1)) < 2 ^ 32) :
    ∃ l l' res, build cap calls = some l ∧
      Add l d { Key := K, Value := V, ExpiresAt := E } = some l' ∧
      Search l K' = some res ∧
      (l'.arena.cur = l.arena.cur → Search l' K' = some res) := by
  obtain ⟨_, l, rs, _, _, hb, hi, _, hn, _, _⟩ := build_spec cap calls hw (by omega)
  obtain ⟨l', hadd, _, _, hd⟩ := Add_short l rs hi d { Key := K, Value := V, ExpiresAt := E }
    hk hlen (by show l.arena.n + 35 + K.length + (V.length + 1) < 2 ^ 32; omega)
  refine ⟨l, l', _, hb, hadd, Search_spec l rs hi.toInv0 K' hk', fun hc => ?_⟩
  rcases hd with ⟨_, rs', hi', hkv⟩ | ⟨hc', _⟩
  · rw [Search_spec l' rs' hi'.toInv0 K' hk']
    have hv : (locate K' 8 rs').2.map Rec.val = (locate K' 8 rs).2.map Rec.val := by
      apply Option.ext
      intro v
      rw [Option.mem_def, Option.mem_def, locate_val_iff rs' hi'.sorted,
        locate_val_iff rs hi.sorted, hkv,
        modelAdd_mem K V _ ((sortedKeys_map rs).mpr hi.sorted)]
      constructor
      · rintro (e | ⟨_, h⟩)
        · exact absurd (congrArg Prod.fst e) hne
        · exact h
      · intro h
        exact Or.inr ⟨hne, h⟩
    have hm : ∀ o : Option Rec, (o.map fun r => ({ Key := K', Value := r.val, ExpiresAt := 0 } : Entry)) =
        (o.map Rec.val).map fun v => ({ Key := K', Value := v, ExpiresAt := 0 } : Entry) := by
      intro o
      cases o <;> rfl
    rw [hm, hm, hv]
  · exact absurd hc hc'

/-- Witness of `Add_frames_Search`: `Add(c, 2)` on a list of capacity 1000 that holds
`(a, 1)`, and `Search(a)`: the arena does not grow and `Search(a)` returns `(a, 1)` before
and after the `Add`. -/
theorem Add_frames_Search_witness :
    (∃ l l' res, build 1000 [(fun _ => 0, { Key := [97], Value := [1], ExpiresAt := 0 })] =
        some l ∧
      Add l (fun _ => 0) { Key := [99], Value := [2], ExpiresAt := 0 } = some l' ∧
      Search l [97] = some res ∧
      (l'.arena.cur = l.arena.cur → Search l' [97] = some res)) ∧
    (build 1000 [(fun _ => 0, { Key := [97], Value := [1], ExpiresAt := 0 })]).map
      (fun l => l.arena.cur) = some 0 ∧
    ((build 1000 [(fun _ => 0, { Key := [97], Value := [1], ExpiresAt := 0 })]).bind fun l =>
      Add l (fun _ => 0) { Key := [99], Value := [2], ExpiresAt := 0 }).map
      (fun l => l.arena.cur) = some 0 ∧
    ((build 1000 [(fun _ => 0, { Key := [97], Value := [1], ExpiresAt := 0 })]).bind fun l =>
      Search l [97]) = some (some { Key := [97], Value := [1], ExpiresAt := 0 }) ∧
    ((build 1000 [(fun _ => 0, { Key := [97], Value := [1], ExpiresAt := 0 })]).bind fun l =>
      (Add l (fun _ => 0) { Key := [99], Value := [2], ExpiresAt := 0 }).bind fun l' =>
        Search l' [97]) = some (some { Key := [97], Value := [1], ExpiresAt := 0 }) :=
  ⟨Add_frames_Search 1000 _ (fun _ => 0) [99] [2] 0 [97] (by unfold WellKeyed IsBytes; decide)
      (by unfold IsBytes; decide) (by decide) (by unfold IsBytes; decide) (by decide)
      (by decide),
    by decide, by decide, by decide, by decide⟩

/-- C20 as stated fails when the 32-bit arena cursor wraps.  On a new list of capacity
2^33, `Add` of the key `[1]` with a value of 4294967138 bytes leaves the cursor at
2^32 - 8.  `Add` of the key `[2]` with the value `[0, 0, 0, 0]` then wraps the cursor: the
arena does not grow, the key and the encoded value are written at the offsets 27 to 32,
over the head node, whose first forward pointer (offset 32) becomes 0.  `Search([1])`
returned the entry before this `Add` and returns nil after it. -/
theorem Add_at_cursor_wrap_changes_Search :
    ∃ l l', build 8589934592
        [(fun _ => 0, { Key := [1], Value := List.replicate 4294967138 0, ExpiresAt := 0 })] =
        some l ∧
      Add l (fun _ => 0) { Key := [2], Value := [0, 0, 0, 0], ExpiresAt := 0 } = some l' ∧
      l'.arena.cur = l.arena.cur ∧
      Search l [1] =
        some (some { Key := [1], Value := List.replicate 4294967138 0, ExpiresAt := 0 }) ∧
      Search l' [1] = some none :=
  Add_after_big_value (List.replicate 4294967138 0) (List.length_replicate _ _)

end MiniKV
